import Mathlib

/-!
Multi-splitter layout engine (`src/private/multisplitter/Item.cpp`).

A shallow embedding of the layout tree of KDDockWidgets: `Item` (leaf) and
`ItemContainer` (container) together with the operations that insert, remove,
resize and re-distribute items.

Conventions of the embedding

* The C++ object graph is a tree owned from the root, so the embedding is an
  inductive tree. An item is addressed by its *path* from the root (the list of
  child indices); `m_parent` is the path without its last element. Every node
  also carries a `name`, which stands for the pointer identity of the object.
* Qt signals are direct calls: `minSizeChanged` is connected to the parent's
  `onChildMinSizeChanged`, `visibleChanged` to `onChildVisibleChanged` (which
  only re-emits and has no effect on the stored state).
* `Q_ASSERT` is a no-op, as in a release build; logging is not modelled.
* `int` is `Int` (no overflow is modelled), `double` percentages are exact
  fractions `num / den`.
* Guest widgets are represented by an optional handle only; their geometry is
  not part of the state.
-/

namespace Layouting

/-! ## Qt value types -/

/-- Qt type `Qt::Orientation`. -/
inductive Orientation where
  | Horizontal
  | Vertical
deriving DecidableEq, Repr, Inhabited

/-- Qt type `QSize`. -/
structure QSize where
  width : Int
  height : Int
deriving DecidableEq, Repr, Inhabited

/-- Qt type `QPoint`. -/
structure QPoint where
  x : Int
  y : Int
deriving DecidableEq, Repr, Inhabited

/-- Qt type `QRect`, kept as top-left corner plus size (Qt keeps two corners, with
`width = x2 - x1 + 1`). The default-constructed `QRect()` is `(0, 0, 0, 0)`. -/
structure QRect where
  x : Int
  y : Int
  width : Int
  height : Int
deriving DecidableEq, Repr, Inhabited

def qMax (a b : Int) : Int := if a < b then b else a

def qMin (a b : Int) : Int := if b < a then b else a

/-- Qt helper `qBound(min, val, max) = qMax(min, qMin(max, val))`. -/
def qBound (lo val hi : Int) : Int := qMax lo (qMin hi val)

namespace QSize

def isNull (s : QSize) : Bool := s.width == 0 && s.height == 0

def expandedTo (s o : QSize) : QSize := ⟨qMax s.width o.width, qMax s.height o.height⟩

def add (a b : QSize) : QSize := ⟨a.width + b.width, a.height + b.height⟩

def sub (a b : QSize) : QSize := ⟨a.width - b.width, a.height - b.height⟩

end QSize

namespace QPoint

def add (a b : QPoint) : QPoint := ⟨a.x + b.x, a.y + b.y⟩

def sub (a b : QPoint) : QPoint := ⟨a.x - b.x, a.y - b.y⟩

end QPoint

namespace QRect

/-- The default-constructed `QRect()`. -/
def null : QRect := ⟨0, 0, 0, 0⟩

def size (r : QRect) : QSize := ⟨r.width, r.height⟩

def topLeft (r : QRect) : QPoint := ⟨r.x, r.y⟩

def right (r : QRect) : Int := r.x + r.width - 1

def bottom (r : QRect) : Int := r.y + r.height - 1

def isEmpty (r : QRect) : Bool := decide (r.width ≤ 0) || decide (r.height ≤ 0)

def isNull (r : QRect) : Bool := r.width == 0 && r.height == 0

def setSize (r : QRect) (s : QSize) : QRect := { r with width := s.width, height := s.height }

def setWidth (r : QRect) (w : Int) : QRect := { r with width := w }

def setHeight (r : QRect) (h : Int) : QRect := { r with height := h }

def moveTopLeft (r : QRect) (p : QPoint) : QRect := { r with x := p.x, y := p.y }

def moveTo (r : QRect) (p : QPoint) : QRect := { r with x := p.x, y := p.y }

def moveLeft (r : QRect) (p : Int) : QRect := { r with x := p }

def moveTop (r : QRect) (p : Int) : QRect := { r with y := p }

/-- Qt `setLeft` moves the left edge and keeps the right edge. -/
def setLeft (r : QRect) (p : Int) : QRect := { r with x := p, width := r.x + r.width - p }

/-- Qt `setTop` moves the top edge and keeps the bottom edge. -/
def setTop (r : QRect) (p : Int) : QRect := { r with y := p, height := r.y + r.height - p }

/-- Qt `setRight` moves the right edge and keeps the left edge. -/
def setRight (r : QRect) (p : Int) : QRect := { r with width := p - r.x + 1 }

/-- Qt `setBottom` moves the bottom edge and keeps the top edge. -/
def setBottom (r : QRect) (p : Int) : QRect := { r with height := p - r.y + 1 }

/-- Qt `adjust(dx1, dy1, dx2, dy2)` adds the offsets to the two corners. -/
def adjust (r : QRect) (dx1 dy1 dx2 dy2 : Int) : QRect :=
  ⟨r.x + dx1, r.y + dy1, r.width + dx2 - dx1, r.height + dy2 - dy1⟩

/-- Qt `QRect::contains(const QRect &, proper = false)` of Qt 5. -/
def contains (a r : QRect) : Bool :=
  if a.isNull || r.isNull then false
  else
    let l1 := if a.width < 0 then a.right else a.x
    let r1 := if a.width < 0 then a.x else a.right
    let l2 := if r.width < 0 then r.right else r.x
    let r2 := if r.width < 0 then r.x else r.right
    if l2 < l1 || r2 > r1 then false
    else
      let t1 := if a.height < 0 then a.bottom else a.y
      let b1 := if a.height < 0 then a.y else a.bottom
      let t2 := if r.height < 0 then r.bottom else r.y
      let b2 := if r.height < 0 then r.y else r.bottom
      if t2 < t1 || b2 > b1 then false else true

end QRect

/-! ## Helpers of `Item_p.h` -/

/-- Enum `Layouting::Side`. -/
inductive Side where
  | Side1
  | Side2
deriving DecidableEq, Repr, Inhabited

/-- Enum `Layouting::Location`. -/
inductive Location where
  | None
  | OnLeft
  | OnTop
  | OnRight
  | OnBottom
deriving DecidableEq, Repr, Inhabited

/-- Modelled from the spec: `oppositeOrientation` of `Item_p.h`
(`opposite(H)=V`, `opposite(V)=H`). -/
def oppositeOrientation : Orientation → Orientation
  | .Horizontal => .Vertical
  | .Vertical => .Horizontal

/-- Modelled from the spec: `Layouting::length(QSize, Qt::Orientation)` of
`Item_p.h` (`w` if `O=Horizontal` else `h`). -/
def length (s : QSize) (o : Orientation) : Int :=
  match o with
  | .Horizontal => s.width
  | .Vertical => s.height

/-- Modelled from the spec: `Layouting::pos(QPoint, Qt::Orientation)` of
`Item_p.h` (`x` if `O=Horizontal` else `y`). -/
def pos (p : QPoint) (o : Orientation) : Int :=
  match o with
  | .Horizontal => p.x
  | .Vertical => p.y

/-- Modelled from the spec: `orientationForLocation` of `Item_p.h`
(`OnLeft/OnRight → Horizontal`, `OnTop/OnBottom → Vertical`); the spec gives
`None` no orientation, it is mapped to `Vertical` here. -/
def orientationForLocation : Location → Orientation
  | .OnLeft => .Horizontal
  | .OnRight => .Horizontal
  | _ => .Vertical

/-- Modelled from the spec: `locationIsSide1` of `Item_p.h`
(`OnLeft/OnTop → Side1`). -/
def locationIsSide1 : Location → Bool
  | .OnLeft => true
  | .OnTop => true
  | _ => false

/-- Modelled from the spec: `sideForLocation` of `Item_p.h`
(`OnLeft/OnTop → Side1`, `OnRight/OnBottom → Side2`). -/
def sideForLocation (loc : Location) : Side :=
  if locationIsSide1 loc then .Side1 else .Side2

/-- Modelled from the spec: `adjustedRect(r, O, dStart, dEnd)` of `Item_p.h`,
which moves the low edge of `r` along `O` by `dStart` and the high edge by
`dEnd` (`QRect::adjust` along one axis). -/
def adjustedRect (r : QRect) (o : Orientation) (p1 p2 : Int) : QRect :=
  match o with
  | .Vertical => r.adjust 0 p1 0 p2
  | .Horizontal => r.adjust p1 0 p2 0

/-- Constant `Item::separatorThickness()`. -/
def separatorThickness : Int := 5

/-! ## `double` arithmetic

`percentageWithinParent` is a `double`. The values met here are finite and far
from the limits of the exponent, so a `double` is kept as the exact fraction
`num / den` that it is, and every operation rounds its exact result to the
nearest number with 53 significant bits, ties to even (IEEE 754 binary64,
round-to-nearest; overflow, underflow and NaN are not modelled). -/

/-- A finite `double`, as the exact fraction `num / den` (`den` a power of two). -/
structure Double where
  num : Int
  den : Nat
deriving Repr, Inhabited

namespace Double

/-- The number of binary digits of a natural number; the first argument bounds
the number of halvings. -/
def bitLengthFuel : Nat → Nat → Nat
  | 0, _ => 0
  | fuel + 1, n => if n = 0 then 0 else bitLengthFuel fuel (n / 2) + 1

def bitLength (n : Nat) : Nat := bitLengthFuel n n

/-- The non-negative fraction `n / d` rounded to 53 significant bits, ties to
even. With `e = bitLength n - bitLength d - 53` the quotient `n / (d * 2^e)` has
53 or 54 bits; in the second case one more bit is dropped. -/
def roundPos (n d : Nat) : Nat × Nat :=
  if n = 0 ∨ d = 0 then (0, 1)
  else
    let e0 : Int := (bitLength n : Int) - (bitLength d : Int) - 53
    let q0 := (n * 2 ^ (-e0).toNat) / (d * 2 ^ e0.toNat)
    let e : Int := if q0 < 2 ^ 53 then e0 else e0 + 1
    let scaledN := n * 2 ^ (-e).toNat
    let scaledD := d * 2 ^ e.toNat
    let q := scaledN / scaledD
    let r := scaledN % scaledD
    let m := if 2 * r > scaledD ∨ (2 * r = scaledD ∧ q % 2 = 1) then q + 1 else q
    (m * 2 ^ e.toNat, 2 ^ (-e).toNat)

/-- The fraction `n / d` rounded to the nearest `double`; division by zero, which
gives an infinity or a NaN in the code, is not modelled and yields 0. -/
def round (n d : Int) : Double :=
  let r := roundPos n.natAbs d.natAbs
  if (n < 0) = (d < 0) then ⟨r.1, r.2⟩ else ⟨-(r.1 : Int), r.2⟩

/-- Conversion `double(i)` of an `int`. -/
def ofInt (i : Int) : Double := round i 1

def add (a b : Double) : Double := round (a.num * b.den + b.num * a.den) (a.den * b.den)

def sub (a b : Double) : Double := round (a.num * b.den - b.num * a.den) (a.den * b.den)

def mul (a b : Double) : Double := round (a.num * b.num) (a.den * b.den)

def div (a b : Double) : Double := round (a.num * b.den) (a.den * b.num)

/-- Comparison `a <= b`. -/
def le (a b : Double) : Bool := decide (a.num * b.den ≤ b.num * a.den)

/-- Qt helper `qAbs`. -/
def abs (a : Double) : Double := ⟨a.num.natAbs, a.den⟩

/-- Qt helper `qMin` on doubles. -/
def min (a b : Double) : Double := if le b a then b else a

/-- Cast `int(a)`: truncation towards zero. -/
def toInt (a : Double) : Int := Int.tdiv a.num a.den

/-- Qt helper `qFuzzyCompare(p1, p2)`:
`qAbs(p1 - p2) * 1000000000000. <= qMin(qAbs(p1), qAbs(p2))`. -/
def qFuzzyCompare (p1 p2 : Double) : Bool :=
  le (mul (abs (sub p1 p2)) (ofInt 1000000000000)) (min (abs p1) (abs p2))

end Double

/-- The `double` field `percentageWithinParent`, kept as the two integers of the
division `(1.0 * num) / den` that `updateChildPercentages` stores; the stored
value is `toDouble`. -/
structure Percentage where
  num : Int
  den : Int
deriving DecidableEq, Repr, Inhabited

/-- The literal `0.0`. -/
def Percentage.zero : Percentage := ⟨0, 1⟩

/-- The stored `double`: the quotient `(1.0 * num) / den`, rounded. -/
def Percentage.toDouble (p : Percentage) : Double :=
  Double.div (Double.ofInt p.num) (Double.ofInt p.den)

/-- Cast `int(p * total)`: the rounded product of the stored `double` and
`double(total)`, truncated towards zero. -/
def Percentage.scale (p : Percentage) (total : Int) : Int :=
  (Double.mul p.toDouble (Double.ofInt total)).toInt

/-- Modelled from the spec: `SizingInfo` of `Item_p.h` (geometry in parent
coordinates, `minSize`, `maxSize`, `isBeingInserted`,
`percentageWithinParent`). -/
structure SizingInfo where
  geometry : QRect
  minSize : QSize
  maxSize : QSize
  percentageWithinParent : Percentage
  isBeingInserted : Bool
deriving DecidableEq, Repr, Inhabited

namespace SizingInfo

def size (s : SizingInfo) : QSize := s.geometry.size

/-- Modelled from the spec: `SizingInfo::length(o)`, the length of the
geometry along `o`. -/
def length (s : SizingInfo) (o : Orientation) : Int := Layouting.length s.size o

/-- Modelled from the spec: `SizingInfo::minLength(o)`. -/
def minLength (s : SizingInfo) (o : Orientation) : Int := Layouting.length s.minSize o

/-- Modelled from the spec: `SizingInfo::availableLength(o)`, per element
`available = length − minLength` (§4.4.2, `calculateSqueezes`). -/
def availableLength (s : SizingInfo) (o : Orientation) : Int := s.length o - s.minLength o

/-- Modelled from the spec: `SizingInfo::missingLength(o)`, the amount by which
the length is below the minimum (`max(min - length, 0)`, as `missingSize`). -/
def missingLength (s : SizingInfo) (o : Orientation) : Int := qMax (s.minLength o - s.length o) 0

/-- Modelled from the spec: `SizingInfo::setLength(l, o)`. -/
def setLength (s : SizingInfo) (l : Int) (o : Orientation) : SizingInfo :=
  match o with
  | .Vertical => { s with geometry := s.geometry.setHeight l }
  | .Horizontal => { s with geometry := s.geometry.setWidth l }

/-- Modelled from the spec: `SizingInfo::setPos(p, o)`. -/
def setPos (s : SizingInfo) (p : Int) (o : Orientation) : SizingInfo :=
  match o with
  | .Vertical => { s with geometry := s.geometry.moveTop p }
  | .Horizontal => { s with geometry := s.geometry.moveLeft p }

/-- Modelled from the spec: `SizingInfo::setGeometry`. -/
def setGeometry (s : SizingInfo) (r : QRect) : SizingInfo := { s with geometry := r }

end SizingInfo

/-- Modelled from the spec: `LengthOnSide` of `Item_p.h`
(`{ length, minLength }`, `available = length - minLength` clamped at 0). -/
structure LengthOnSide where
  length : Int
  minLength : Int
deriving DecidableEq, Repr, Inhabited

def LengthOnSide.available (l : LengthOnSide) : Int := qMax 0 (l.length - l.minLength)

/-- Modelled from the spec: the guest of a leaf (a `QWidget` in the source),
reduced to what `Item::setFrame` reads: its identity, `widgetMinSize(w)` of
`Item_p.h` (the minimum size the guest reports) and `w->geometry()`. -/
structure Guest where
  handle : Nat
  minSize : QSize
  geometry : QRect
deriving DecidableEq, Repr, Inhabited

/-! ## The item tree -/

/-- Both `Item` (leaf) and `ItemContainer` (container) of `Item_p.h`. The
members are those the layout code reads or writes: `m_sizingInfo`,
`m_isVisible`, `m_widget` (guest handle), `m_refCount` for a leaf;
`m_sizingInfo`, `m_orientation`, `m_children`, `m_isResizing`,
`m_blockUpdatePercentages` for a container. The last field of a container,
`connected`, records whether `setParentContainer` has connected its
`minSizeChanged` signal to the parent: a container that was constructed with
its parent (`new ItemContainer(hostWidget(), this)`) has `m_parent` set already,
so `setParentContainer(this)` finds nothing to do and connects nothing. -/
inductive Item where
  | leaf (name : Nat) (sizingInfo : SizingInfo) (isVisible : Bool)
      (widget : Option Nat) (refCount : Nat)
  | container (name : Nat) (sizingInfo : SizingInfo) (orientation : Orientation)
      (children : List Item) (isResizing : Bool) (blockUpdatePercentages : Bool)
      (connected : Bool)
deriving Repr, Inhabited

namespace Item

def name : Item → Nat
  | .leaf n _ _ _ _ => n
  | .container n _ _ _ _ _ _ => n

def m_sizingInfo : Item → SizingInfo
  | .leaf _ s _ _ _ => s
  | .container _ s _ _ _ _ _ => s

def setSizingInfo (i : Item) (s : SizingInfo) : Item :=
  match i with
  | .leaf n _ v w r => .leaf n s v w r
  | .container n _ o cs rs b k => .container n s o cs rs b k

def isContainer : Item → Bool
  | .leaf .. => false
  | .container .. => true

def m_children : Item → List Item
  | .leaf .. => []
  | .container _ _ _ cs _ _ _ => cs

def setChildren (i : Item) (cs : List Item) : Item :=
  match i with
  | .leaf n s v w r => .leaf n s v w r
  | .container n s o _ rs b k => .container n s o cs rs b k

/-- Member `m_orientation`; only containers use it (a leaf reports the default
`Qt::Vertical`). -/
def m_orientation : Item → Orientation
  | .leaf .. => .Vertical
  | .container _ _ o _ _ _ _ => o

def setOrientation (i : Item) (o : Orientation) : Item :=
  match i with
  | .leaf n s v w r => .leaf n s v w r
  | .container n s _ cs rs b k => .container n s o cs rs b k

def m_isResizing : Item → Bool
  | .leaf .. => false
  | .container _ _ _ _ rs _ _ => rs

def setIsResizing (i : Item) (rs : Bool) : Item :=
  match i with
  | .leaf n s v w r => .leaf n s v w r
  | .container n s o cs _ b k => .container n s o cs rs b k

def m_blockUpdatePercentages : Item → Bool
  | .leaf .. => false
  | .container _ _ _ _ _ b _ => b

def setBlockUpdatePercentages (i : Item) (b : Bool) : Item :=
  match i with
  | .leaf n s v w r => .leaf n s v w r
  | .container n s o cs rs _ k => .container n s o cs rs b k

def m_connected : Item → Bool
  | .leaf .. => true
  | .container _ _ _ _ _ _ k => k

def setConnected (i : Item) (k : Bool) : Item :=
  match i with
  | .leaf n s v w r => .leaf n s v w r
  | .container n s o cs rs b _ => .container n s o cs rs b k

def m_widget : Item → Option Nat
  | .leaf _ _ _ w _ => w
  | .container .. => none

mutual
/-- Virtual `isVisible()`: `m_isVisible` for a leaf, `hasVisibleChildren()` for a
container. -/
def isVisible : Item → Bool
  | .leaf _ _ v _ _ => v
  | .container _ _ _ cs _ _ _ => anyVisible cs
/-- The loop of `ItemContainer::hasVisibleChildren`. -/
def anyVisible : List Item → Bool
  | [] => false
  | c :: cs => if c.isVisible then true else anyVisible cs
end

def isPlaceholder (i : Item) : Bool := !i.isVisible

def isBeingInserted (i : Item) : Bool := i.m_sizingInfo.isBeingInserted

def setBeingInserted (i : Item) (b : Bool) : Item :=
  i.setSizingInfo { i.m_sizingInfo with isBeingInserted := b }

def x (i : Item) : Int := i.m_sizingInfo.geometry.x

def y (i : Item) : Int := i.m_sizingInfo.geometry.y

def width (i : Item) : Int := i.m_sizingInfo.geometry.width

def height (i : Item) : Int := i.m_sizingInfo.geometry.height

def size (i : Item) : QSize := i.m_sizingInfo.geometry.size

def pos (i : Item) : QPoint := i.m_sizingInfo.geometry.topLeft

/-- Getter `Item::geometry()`: `QRect()` while the item is being inserted. -/
def geometry (i : Item) : QRect :=
  if i.isBeingInserted then QRect.null else i.m_sizingInfo.geometry

/-- Setter `Item::setGeometry(rect)`, the write alone: the rectangle is stored
whenever it differs from the current one. The two checks that follow the write
in the source (`root()->dumpLayout()` for an empty rectangle and for one below
`minSize()`) need the tree around the item and are in `setGeometryAt`. -/
def setGeometry (i : Item) (rect : QRect) : Item :=
  if rect ≠ i.m_sizingInfo.geometry then
    i.setSizingInfo { i.m_sizingInfo with geometry := rect }
  else i

def setSize (i : Item) (sz : QSize) : Item :=
  i.setGeometry (i.m_sizingInfo.geometry.setSize sz)

def setPos (i : Item) (p : QPoint) : Item :=
  i.setGeometry (i.m_sizingInfo.geometry.moveTopLeft p)

/-- Overload `Item::setPos(int pos, Qt::Orientation o)`. -/
def setPosAlong (i : Item) (p : Int) (o : Orientation) : Item :=
  match o with
  | .Vertical => i.setPos ⟨i.x, p⟩
  | .Horizontal => i.setPos ⟨p, i.y⟩

def setLength (i : Item) (l : Int) (o : Orientation) : Item :=
  match o with
  | .Vertical => i.setSize ⟨i.width, l⟩
  | .Horizontal => i.setSize ⟨l, i.height⟩

def length (i : Item) (o : Orientation) : Int := Layouting.length i.size o

def position (i : Item) (o : Orientation) : Int :=
  match o with
  | .Vertical => i.y
  | .Horizontal => i.x

def isVertical (i : Item) : Bool := i.m_orientation == .Vertical

def isHorizontal (i : Item) : Bool := i.m_orientation == .Horizontal

def visibleChildren (c : Item) : List Item := c.m_children.filter isVisible

def numChildren (c : Item) : Int := c.m_children.length

def numVisibleChildren (c : Item) : Int := c.visibleChildren.length

def hasVisibleChildren (c : Item) : Bool := anyVisible c.m_children

def isEmpty (c : Item) : Bool := c.m_children.isEmpty

mutual
/-- Virtual `minSize()`: `m_sizingInfo.minSize` for a leaf; for a container the
aggregation of `ItemContainer::minSize` over the visible children. -/
def minSize : Item → QSize
  | .leaf _ s _ _ _ => s.minSize
  | .container _ _ o cs _ _ _ =>
    match cs with
    | [] => ⟨0, 0⟩
    | _ :: _ =>
      let acc := minSizeLoop o cs 0 0 0
      let separatorWaste := (acc.2.2 - 1) * separatorThickness
      if o = .Vertical then ⟨acc.1, acc.2.1 + separatorWaste⟩
      else ⟨acc.1 + separatorWaste, acc.2.1⟩
/-- The loop of `ItemContainer::minSize` over the children, carrying
`(minW, minH, number of visible children)`. -/
def minSizeLoop (o : Orientation) : List Item → Int → Int → Int → Int × Int × Int
  | [], minW, minH, n => (minW, minH, n)
  | c :: cs, minW, minH, n =>
    if c.isVisible then
      if o = .Vertical then
        minSizeLoop o cs (qMax minW c.minSize.width) (minH + c.minSize.height) (n + 1)
      else
        minSizeLoop o cs (minW + c.minSize.width) (qMax minH c.minSize.height) (n + 1)
    else minSizeLoop o cs minW minH n
end

def minLength (i : Item) (o : Orientation) : Int := Layouting.length i.minSize o

/-- Method `Item::missingSize()`. -/
def missingSize (i : Item) : QSize :=
  let missing := i.minSize.sub i.size
  ⟨qMax missing.width 0, qMax missing.height 0⟩

def missingLength (i : Item) (o : Orientation) : Int := Layouting.length i.missingSize o

/-- Method `Item::availableLength(o)`. -/
def availableLengthAlong (i : Item) (o : Orientation) : Int := i.length o - i.minLength o

/-- Method `ItemContainer::rect()`. -/
def rect (c : Item) : QRect := c.m_sizingInfo.geometry.moveTo ⟨0, 0⟩

/-- Method `ItemContainer::length()`. -/
def containerLength (c : Item) : Int := if c.isVertical then c.height else c.width

def usableLength (c : Item) : Int :=
  let numVisibleChildren := c.numVisibleChildren
  if numVisibleChildren ≤ 1 then Layouting.length c.size c.m_orientation
  else
    let separatorWaste := separatorThickness * (numVisibleChildren - 1)
    c.containerLength - separatorWaste

def availableSize (c : Item) : QSize := c.size.sub c.minSize

/-- Method `ItemContainer::availableLength()`. -/
def availableLength (c : Item) : Int :=
  if c.isVertical then c.availableSize.height else c.availableSize.width

def hasOrientationFor (c : Item) (loc : Location) : Bool :=
  if c.m_children.length ≤ 1 then true
  else c.m_orientation == orientationForLocation loc

def childPercentages (c : Item) : List Percentage :=
  c.visibleChildren.map fun i => i.m_sizingInfo.percentageWithinParent

/-- The list returned by `ItemContainer::sizes()`: the sizing info of every
visible child, a container child reporting its aggregated `minSize()`. -/
def sizes (c : Item) : List SizingInfo :=
  c.visibleChildren.map fun i =>
    if i.isContainer then { i.m_sizingInfo with minSize := i.minSize } else i.m_sizingInfo

/-- The side effect of `ItemContainer::sizes()`: every visible container child
gets `m_sizingInfo.minSize = minSize()`. -/
def refreshMinSizes (c : Item) : Item :=
  c.setChildren (c.m_children.map fun i =>
    if i.isVisible && i.isContainer then
      i.setSizingInfo { i.m_sizingInfo with minSize := i.minSize }
    else i)

/-! ## Redistribution over a list of `SizingInfo` copies -/

/-- The summation loop of `ItemContainer::lengthOnSide`. -/
def lengthOnSideLoop (o : Orientation) : List SizingInfo → LengthOnSide → LengthOnSide
  | [], result => result
  | s :: rest, result =>
    lengthOnSideLoop o rest ⟨result.length + s.length o, result.minLength + s.minLength o⟩

/-- Method `ItemContainer::lengthOnSide(sizes, fromIndex, side, o)`: for `Side1`
the entries `0 .. fromIndex`, for `Side2` the entries `fromIndex .. count - 1`. -/
def lengthOnSide (sizes : List SizingInfo) (fromIndex : Int) (side : Side)
    (o : Orientation) : LengthOnSide :=
  if fromIndex < 0 then ⟨0, 0⟩
  else if fromIndex ≥ sizes.length then ⟨0, 0⟩
  else
    match side with
    | .Side1 => lengthOnSideLoop o (sizes.take (fromIndex.toNat + 1)) ⟨0, 0⟩
    | .Side2 => lengthOnSideLoop o (sizes.drop fromIndex.toNat) ⟨0, 0⟩

/-- One pass of the `for` loop of `ItemContainer::calculateSqueezes` over the
donors: returns the updated availabilities, squeezes and `missing`. -/
def squeezeRound (toTake : Int) :
    List Int → List Int → Int → List Int × List Int × Int
  | a :: as, q :: qs, missing =>
    if a == 0 then
      let r := squeezeRound toTake as qs missing
      (a :: r.1, q :: r.2.1, r.2.2)
    else
      let took := qMin toTake a
      if missing - took == 0 then ((a - took) :: as, (q + took) :: qs, missing - took)
      else
        let r := squeezeRound toTake as qs (missing - took)
        ((a - took) :: r.1, (q + took) :: r.2.1, r.2.2)
  | as, qs, missing => (as, qs, missing)

/-- The `while (missing > 0)` loop of `ItemContainer::calculateSqueezes`; the
first argument bounds the number of rounds. -/
def calculateSqueezesLoop : Nat → List Int → List Int → Int → List Int
  | 0, _, squeezes, _ => squeezes
  | fuel + 1, availabilities, squeezes, missing =>
    if missing > 0 then
      let numDonors : Int := (availabilities.filter fun num => decide (num > 0)).length
      if numDonors == 0 then []
      else
        let toTake0 := Int.tdiv missing numDonors
        let toTake := if toTake0 == 0 then missing else toTake0
        let r := squeezeRound toTake availabilities squeezes missing
        calculateSqueezesLoop fuel r.1 r.2.1 r.2.2
    else squeezes

/-- Method `ItemContainer::calculateSqueezes(begin, end, needed)` on the range
given as a list. Every round lowers `missing` by at least one once the
availabilities are non-negative, which they are after the first round, so the
bound on the rounds is never reached. -/
def calculateSqueezes (o : Orientation) (range : List SizingInfo) (needed : Int) : List Int :=
  let availabilities := range.map fun s => s.availableLength o
  let negative := (availabilities.map fun a => qMax 0 (-a)).foldl (· + ·) 0
  calculateSqueezesLoop (needed.toNat + negative.toNat + 2) availabilities
    (List.replicate availabilities.length 0) needed

/-- The loops `for (i < squeezes.size()) sizes[i].setGeometry(...)` of
`growItem`: entries beyond the squeeze vector are left alone. -/
def applySqueezes (f : SizingInfo → Int → SizingInfo) :
    List SizingInfo → List Int → List SizingInfo
  | s :: ss, q :: qs => f s q :: applySqueezes f ss qs
  | ss, _ => ss

/-- Overload `ItemContainer::growItem(index, sizes, side1Growth, side2Growth)`. -/
def growItemBySides (o : Orientation) (index : Nat) (sizes : List SizingInfo)
    (side1Growth side2Growth : Int) : List SizingInfo :=
  let sizes1 :=
    if side1Growth > 0 then
      let squeezes := calculateSqueezes o (sizes.take index) side1Growth
      applySqueezes (fun s q => s.setGeometry (adjustedRect s.geometry o 0 (-q)))
        (sizes.take index) squeezes ++ sizes.drop index
    else sizes
  if side2Growth > 0 then
    let squeezes := calculateSqueezes o (sizes1.drop (index + 1)) side2Growth
    sizes1.take (index + 1) ++
      applySqueezes (fun s q => s.setGeometry (adjustedRect s.geometry o q 0))
        (sizes1.drop (index + 1)) squeezes
  else sizes1

/-- The `while (missing > 0)` loop of `growItem(index, sizes, amount, strategy)`,
returning `(side1Growth, side2Growth)`; the first argument bounds the number of
iterations (every iteration lowers `missing` by at least one). -/
def growDistribute : Nat → Int → Int → Int → Int → Int → Int × Int
  | 0, _, _, _, side1Growth, side2Growth => (side1Growth, side2Growth)
  | fuel + 1, available1, available2, missing, side1Growth, side2Growth =>
    if missing > 0 then
      if available1 == 0 then (side1Growth, side2Growth + missing)
      else if available2 == 0 then (side1Growth + missing, side2Growth)
      else
        let toTake := qMax 1 (Int.tdiv missing 2)
        let took1 := qMin toTake available1
        if missing - took1 == 0 then (side1Growth + took1, side2Growth)
        else
          let took2 := qMin toTake available2
          growDistribute fuel available1 available2 (missing - took1 - took2)
            (side1Growth + took1) (side2Growth + took2)
    else (side1Growth, side2Growth)

/-- Overload `ItemContainer::growItem(index, sizes, amount, growthStrategy)`. -/
def growItemInSizes (o : Orientation) (index : Nat) (sizes : List SizingInfo)
    (amount : Int) : List SizingInfo :=
  if amount == 0 then sizes
  else if sizes.length == 1 then
    sizes.modify (fun s => s.setLength (s.length o + amount) o) index
  else
    let side1Length := lengthOnSide sizes ((index : Int) - 1) .Side1 o
    let side2Length := lengthOnSide sizes ((index : Int) + 1) .Side2 o
    let g := growDistribute (amount.toNat + 1) side1Length.available side2Length.available
      amount 0 0
    growItemBySides o index sizes g.1 g.2

/-- Overload `ItemContainer::positionItems(SizingInfo::List &sizes)`, the loop
carrying `nextPos`. -/
def positionSizes (o : Orientation) (containerSize : QSize) :
    List SizingInfo → Int → List SizingInfo
  | [], _ => []
  | sizing :: rest, nextPos =>
    if sizing.isBeingInserted then
      sizing :: positionSizes o containerSize rest (nextPos + separatorThickness)
    else
      let oppositeLength := Layouting.length containerSize (oppositeOrientation o)
      let sizing1 := (sizing.setLength oppositeLength (oppositeOrientation o)).setPos nextPos o
      sizing1 :: positionSizes o containerSize rest
        (nextPos + sizing1.length o + separatorThickness)

/-! ## Resizing (downwards recursion)

The virtual `resize` of a container resizes its children, which may be
containers again. The functions below take the resize of the children as the
argument `rz`; `resizeFuel` ties the knot by recursion on the nesting depth. -/

/-- Apply `f k` to the `k`-th visible child (the loops over `visibleChildren()`
that write through the item pointers). -/
def mapVisible (f : Nat → Item → Item) : Nat → List Item → List Item
  | _, [] => []
  | k, c :: cs =>
    if c.isVisible then f k c :: mapVisible f (k + 1) cs
    else c :: mapVisible f k cs

/-- Virtual `setLength_recursive(length, o)`. -/
def setLength_recursiveWith (rz : Item → QSize → Item) (i : Item) (l : Int)
    (o : Orientation) : Item :=
  if i.isContainer then
    match o with
    | .Vertical => rz i ⟨i.size.width, l⟩
    | .Horizontal => rz i ⟨l, i.size.height⟩
  else i.setLength l o

/-- Method `ItemContainer::updateChildPercentages()`. -/
def updateChildPercentages (c : Item) : Item :=
  if c.m_blockUpdatePercentages then c
  else
    let usable := c.usableLength
    c.setChildren (c.m_children.map fun item =>
      if item.isVisible then
        item.setSizingInfo { item.m_sizingInfo with
          percentageWithinParent := ⟨item.length c.m_orientation, usable⟩ }
      else
        item.setSizingInfo { item.m_sizingInfo with percentageWithinParent := Percentage.zero })

/-- Method `ItemContainer::applyPositions(sizes)`. -/
def applyPositionsWith (rz : Item → QSize → Item) (c : Item) (sizes : List SizingInfo) : Item :=
  let o := c.m_orientation
  c.setChildren (mapVisible (fun k item =>
    match sizes.get? k with
    | none => item
    | some sizing =>
      if sizing.isBeingInserted then item
      else
        (setLength_recursiveWith rz item (sizing.length (oppositeOrientation o))
          (oppositeOrientation o)).setPos sizing.geometry.topLeft) 0 c.m_children)

/-- Method `ItemContainer::positionItems()`. -/
def positionItemsWith (rz : Item → QSize → Item) (c : Item) : Item :=
  let sizes := c.sizes
  let c1 := c.refreshMinSizes
  let sizes1 := positionSizes c1.m_orientation c1.size sizes 0
  updateChildPercentages (applyPositionsWith rz c1 sizes1)

/-- Method `ItemContainer::applySizes(sizes)`. -/
def applySizesWith (rz : Item → QSize → Item) (c : Item) (sizes : List SizingInfo) : Item :=
  let c1 := c.setChildren (mapVisible (fun k item =>
    match sizes.get? k with
    | none => item
    | some sizing => rz item sizing.geometry.size) 0 c.m_children)
  positionItemsWith rz c1

/-- Step #1 of `ItemContainer::resize`: the new length of every visible child
from its percentage, the last one taking what remains; `none` is the early
return on a non-positive length. -/
def resizeAssign (c : Item) (lengthChanged : Bool) (totalNewLength : Int) :
    List SizingInfo → List Percentage → Int → Option (List SizingInfo)
  | [], _, _ => some []
  | itemSize :: rest, percentages, remaining =>
    let isLast := rest.isEmpty
    let childPercentage := percentages.headD Percentage.zero
    let newItemLength :=
      if lengthChanged then
        (if isLast then remaining else childPercentage.scale totalNewLength)
      else itemSize.length c.m_orientation
    if newItemLength ≤ 0 then none
    else
      let itemSize1 : SizingInfo :=
        if c.isVertical then
          { itemSize with geometry := itemSize.geometry.setSize ⟨c.width, newItemLength⟩ }
        else
          { itemSize with geometry := itemSize.geometry.setSize ⟨newItemLength, c.height⟩ }
      (resizeAssign c lengthChanged totalNewLength rest percentages.tail
        (remaining - newItemLength)).map fun l => itemSize1 :: l

/-- Step #2 of `ItemContainer::resize`: the loop over `i` that grows every entry
that is below its minimum. -/
def resizeEnforceMin (o : Orientation) : Nat → Nat → List SizingInfo → List SizingInfo
  | 0, _, sizes => sizes
  | k + 1, i, sizes =>
    match sizes.get? i with
    | none => sizes
    | some size =>
      let missing := size.missingLength o
      if missing == 0 then resizeEnforceMin o k (i + 1) sizes
      else
        let sizes1 := growItemInSizes o i sizes missing
        let sizes2 := sizes1.modify (fun s => s.setLength (s.minLength o) o) i
        resizeEnforceMin o k (i + 1) sizes2

/-- The body of `ItemContainer::resize(newSize)`. -/
def resizeBody (rz : Item → QSize → Item) (c : Item) (newSize : QSize) : Item :=
  let block := c.m_blockUpdatePercentages
  let c0 := c.setBlockUpdatePercentages true
  let minSize := c0.minSize
  if newSize.width < minSize.width || newSize.height < minSize.height then
    c0.setBlockUpdatePercentages block
  else
    let widthChanged := c0.width != newSize.width
    let heightChanged := c0.height != newSize.height
    if !widthChanged && !heightChanged then c0.setBlockUpdatePercentages block
    else
      let lengthChanged :=
        (c0.isVertical && heightChanged) || (c0.isHorizontal && widthChanged)
      let c1 := c0.setSize newSize
      if c1.m_isResizing then c1.setBlockUpdatePercentages block
      else
        let totalNewLength := c1.usableLength
        let childPercentages := c1.childPercentages
        let childSizes := c1.sizes
        let c2 := c1.refreshMinSizes
        match resizeAssign c2 lengthChanged totalNewLength childSizes childPercentages
            totalNewLength with
        | none => c2.setBlockUpdatePercentages block
        | some childSizes1 =>
          let childSizes2 := positionSizes c2.m_orientation c2.size childSizes1 0
          let childSizes3 := resizeEnforceMin c2.m_orientation childSizes2.length 0 childSizes2
          let c3 := applySizesWith rz c2 childSizes3
          let c4 := positionItemsWith rz c3
          c4.setBlockUpdatePercentages block

mutual
/-- Nesting depth of containers below an item. -/
def depth : Item → Nat
  | .leaf .. => 0
  | .container _ _ _ cs _ _ _ => depthList cs + 1
/-- Maximum depth over a list of children. -/
def depthList : List Item → Nat
  | [] => 0
  | c :: cs => max c.depth (depthList cs)
end

/-- Virtual `resize(newSize)`: `Item::resize` for a leaf, `ItemContainer::resize`
for a container; the first argument bounds the nesting depth. -/
def resizeFuel : Nat → Item → QSize → Item
  | 0, i, newSize => if i.isContainer then i else i.setSize newSize
  | fuel + 1, i, newSize =>
    if i.isContainer then resizeBody (resizeFuel fuel) i newSize else i.setSize newSize

/-- Virtual `resize(newSize)`. -/
def resize (i : Item) (newSize : QSize) : Item := resizeFuel i.depth i newSize

def setLength_recursive (i : Item) (l : Int) (o : Orientation) : Item :=
  setLength_recursiveWith resize i l o

def applyPositions (c : Item) (sizes : List SizingInfo) : Item := applyPositionsWith resize c sizes

def positionItems (c : Item) : Item := positionItemsWith resize c

def applySizes (c : Item) (sizes : List SizingInfo) : Item := applySizesWith resize c sizes

/-- Virtual `setGeometry_recursive(rect)`. -/
def setGeometry_recursive (i : Item) (rect : QRect) : Item :=
  if i.isContainer then (i.setPos rect.topLeft).resize rect.size else i.setGeometry rect

/-! ## Addressing items by path

Operations that reach the parent (`m_parent`, emitted signals, `isRoot()`) work
on the root of the tree and the path of the item. -/

/-- The item at a path below `i`. -/
def getAt : Item → List Nat → Option Item
  | i, [] => some i
  | i, k :: ks =>
    match i.m_children.get? k with
    | none => none
    | some c => getAt c ks

/-- Replace the item at a path by its image under `f`. -/
def modifyAt (f : Item → Item) : Item → List Nat → Item
  | i, [] => f i
  | i, k :: ks => i.setChildren (i.m_children.modify (fun c => modifyAt f c ks) k)

/-- Method `ItemContainer::indexOfVisibleChild` for the child stored at
`m_children[idx]`: its index in `visibleChildren()`, or `none` (-1) when that
list does not contain it. -/
def visibleIndexOf (c : Item) (idx : Nat) : Option Nat :=
  match c.m_children.get? idx with
  | none => none
  | some child =>
    if child.isVisible then some ((c.m_children.take idx).filter isVisible).length else none

/-- The `int` returned by `indexOfVisibleChild`. -/
def indexOfVisibleChild (c : Item) (idx : Nat) : Int :=
  match c.visibleIndexOf idx with
  | none => -1
  | some k => k

/-- The position in `m_children` of the `k`-th entry of `visibleChildren()`. -/
def childIndexOfVisible : List Item → Nat → Nat → Option Nat
  | [], _, _ => none
  | c :: cs, k, base =>
    if c.isVisible then
      match k with
      | 0 => some base
      | k + 1 => childIndexOfVisible cs k (base + 1)
    else childIndexOfVisible cs k (base + 1)

/-- Overload `ItemContainer::growItem(Item *item, amount, growthStrategy)`, the
item given by its index in `visibleChildren()`. For the index -1 (`none`) the
access `sizes[index]` is out of range; the list is then left as it is. -/
def growItem (c : Item) (index : Option Nat) (amount : Int) : Item :=
  let sizes := c.sizes
  let c1 := c.refreshMinSizes
  let sizes1 :=
    match index with
    | some k => growItemInSizes c1.m_orientation k sizes amount
    | none => sizes
  applySizes c1 sizes1

/-- The index in `visibleChildren()` of the last child that is not being
inserted (the `lastChild` loop of `onChildMinSizeChanged`). -/
def lastNotBeingInserted : List Item → Nat → Option Nat → Option Nat
  | [], _, found => found
  | c :: cs, k, found =>
    lastNotBeingInserted cs (k + 1) (if c.isBeingInserted then found else some k)

/-- The root branch of `onChildMinSizeChanged`: resize the whole layout by the
missing size and let the last visible child take the difference. -/
def growRootBy (r : Item) (missingSize : QSize) : Item :=
  let r1 := r.resize (r.size.add missingSize)
  match lastNotBeingInserted r1.visibleChildren 0 none with
  | none => r1
  | some k =>
    r1.setChildren (mapVisible (fun j item =>
      if j = k then
        item.setGeometry (item.geometry.adjust 0 0 missingSize.width missingSize.height)
      else item) 0 r1.m_children)

/-- The second half of `ItemContainer::onChildMinSizeChanged(child)`, from
`if (numVisibleChildren() == 1)` on, for the child at `m_children[idx]`. -/
def adjustChild (c : Item) (idx : Nat) : Item :=
  match c.m_children.get? idx with
  | none => c
  | some child =>
    if c.numVisibleChildren == 1 then
      c.setChildren (c.m_children.modify (fun i => i.setGeometry c.rect) idx)
    else if child.isBeingInserted then c
    else
      let missingForChild := child.missingSize
      if missingForChild.isNull then c
      else growItem c (c.visibleIndexOf idx) (Layouting.length missingForChild c.m_orientation)

/-- The first half of `ItemContainer::onChildMinSizeChanged`, up to and including
`Q_EMIT minSizeChanged(this)`, for the container whose path is the reverse of
the second argument. The emitted signal runs the whole slot of the parent when
this container is connected to it. -/
def propagateMinSize (root : Item) : List Nat → Item
  | [] =>
    let missingSize := root.missingSize
    if !missingSize.isNull then
      let rs := root.m_isResizing
      (growRootBy (root.setIsResizing true) missingSize).setIsResizing rs
    else root
  | k :: up =>
    match getAt root (k :: up).reverse with
    | none => root
    | some c =>
      let missingSize := c.missingSize
      if !missingSize.isNull then
        let rs := c.m_isResizing
        let root1 := modifyAt (fun i => i.setIsResizing true) root (k :: up).reverse
        let root2 :=
          if c.m_connected then
            modifyAt (fun parent => adjustChild parent k) (propagateMinSize root1 up) up.reverse
          else root1
        modifyAt (fun i => i.setIsResizing rs) root2 (k :: up).reverse
      else root

/-- Slot `ItemContainer::onChildMinSizeChanged(child)` of the container at path
`p` for its child `idx`. -/
def onChildMinSizeChanged (root : Item) (p : List Nat) (idx : Nat) : Item :=
  modifyAt (fun c => adjustChild c idx) (propagateMinSize root p.reverse) p

/-- Method `Item::setIsVisible(is)` of the leaf at path `p`; `minSizeChanged`
reaches the parent's `onChildMinSizeChanged`. -/
def setLeafVisibleAt (root : Item) (p : List Nat) (is : Bool) : Item :=
  match getAt root p with
  | none => root
  | some item =>
    if is != item.isVisible then
      let root1 := modifyAt (fun i =>
        match i with
        | .leaf n s _ w r => .leaf n { s with isBeingInserted := is || s.isBeingInserted } is w r
        | c => c) root p
      let root2 :=
        match p.reverse with
        | [] => root1
        | k :: up => onChildMinSizeChanged root1 up.reverse k
      modifyAt (fun i => i.setBeingInserted false) root2 p
    else root

/-- Virtual `setIsVisible(is)` of the item at path `p`: `Item::setIsVisible` for
a leaf, the loop over the children of `ItemContainer::setIsVisible` for a
container; the first argument bounds the nesting depth. -/
def setIsVisibleFuel : Nat → Item → List Nat → Bool → Item
  | fuel, root, p, is =>
    match getAt root p with
    | none => root
    | some i =>
      if i.isContainer then
        match fuel with
        | 0 => root
        | fuel + 1 =>
          (List.range i.m_children.length).foldl
            (fun r k => setIsVisibleFuel fuel r (p ++ [k]) is) root
      else setLeafVisibleAt root p is

/-- Virtual `setIsVisible(is)` of the item at path `p`. -/
def setIsVisibleAt (root : Item) (p : List Nat) (is : Bool) : Item :=
  match getAt root p with
  | none => root
  | some i => setIsVisibleFuel i.depth root p is

/-- Method `ItemContainer::restorePlaceholder(item)` of the container at path
`p` for its child `idx`. -/
def restorePlaceholder (root : Item) (p : List Nat) (idx : Nat) : Item :=
  let root1 := setIsVisibleAt root (p ++ [idx]) true
  modifyAt (fun c =>
    if c.numVisibleChildren == 1 then c
    else
      match c.m_children.get? idx with
      | none => c
      | some item =>
        let available := c.availableLength
        let max := item.length c.m_orientation + available
        let min := item.minLength c.m_orientation
        let proposed := item.length c.m_orientation
        let newLength := qBound min proposed max
        let c1 := c.setChildren
          (c.m_children.modify (fun i => i.setLength_recursive newLength c.m_orientation) idx)
        growItem c1 (c1.visibleIndexOf idx) (newLength + separatorThickness)) root1 p

/-- The list with `item` inserted before position `index` (appended when the
index is not below the length). -/
def insertAt (cs : List Item) (index : Nat) (item : Item) : List Item :=
  cs.take index ++ item :: cs.drop index

/-- Overload `ItemContainer::insertItem(item, index, growItem)` of the container
at path `p`. `sameParent` says that `item->m_parent` is this container already
(an item constructed with its parent), in which case `setParentContainer`
connects nothing. -/
def insertChildAt (root : Item) (p : List Nat) (item : Item) (index : Nat)
    (growItem sameParent : Bool) : Item :=
  match getAt root p with
  | none => root
  | some c =>
    let item1 := if sameParent then item else item.setConnected true
    let root1 := modifyAt (fun c => c.setChildren (insertAt c.m_children index item1)) root p
    if growItem then restorePlaceholder root1 p (min index c.m_children.length) else root1

/-! ## Sanity check -/

/-- The loop of `ItemContainer::checkSanity` that compares the position of every
visible child with `expectedPos`. -/
def checkPositions (o : Orientation) : List Item → Int → Bool
  | [], _ => true
  | item :: rest, expectedPos =>
    if !item.isVisible then checkPositions o rest expectedPos
    else
      let pos := Layouting.pos item.pos o
      if expectedPos != pos then false
      else checkPositions o rest (pos + Layouting.length item.size o + separatorThickness)

mutual
/-- Virtual `checkSanity()`: `Item::checkSanity` for a leaf and
`ItemContainer::checkSanity` for a container (`isRoot` says whether the item has
no parent). The parent pointers are right by construction. This is the
result of the method; what it writes is `checkSanityEffect`. -/
def checkSanity (isRoot : Bool) : Item → Bool
  | .leaf _ s _ _ _ =>
    !(decide (s.minSize.width > s.geometry.width) || decide (s.minSize.height > s.geometry.height))
  | .container n s o cs rs b k =>
    let c := Item.container n s o cs rs b k
    if decide (c.minSize.width > c.width) || decide (c.minSize.height > c.height) then false
    else if cs.isEmpty && !isRoot then false
    else if !checkPositions o cs 0 then false
    else if !checkChildren c.rect o (Layouting.length c.size (oppositeOrientation o)) cs then false
    else
      let visibleChildren := cs.filter isVisible
      if !visibleChildren.isEmpty then
        let occupied := (visibleChildren.map fun i => i.length o).foldl (· + ·)
          (qMax 0 (separatorThickness * ((visibleChildren.length : Int) - 1)))
        if occupied != c.containerLength then false else true
      else true
/-- The loop of `ItemContainer::checkSanity` over all children. -/
def checkChildren (rect : QRect) (o : Orientation) (h1 : Int) : List Item → Bool
  | [] => true
  | item :: rest =>
    if h1 != Layouting.length item.size (oppositeOrientation o) then false
    else if !rect.contains item.geometry then false
    else if !checkSanity false item then false
    else checkChildren rect o h1 rest
end

/-! ## The write of `checkSanity` -/

/-- The sum `std::accumulate(percentages.begin(), percentages.end(), 0.0)`. -/
def totalPercentage (percentages : List Percentage) : Double :=
  percentages.foldl (fun total p => Double.add total p.toDouble) (Double.ofInt 0)

mutual
/-- The item after the virtual `checkSanity()`. The method is `const`, but the
last check of `ItemContainer::checkSanity`, reached when all the others have
passed and there is a visible child, calls `updateChildPercentages()` through a
`const_cast` when `qFuzzyCompare(totalPercentage, 1.0)` fails (it also prints a
warning; the result of the method stays `true`). The calls on the children run
in the loop over `m_children` and stop at the first child that fails. -/
def checkSanityEffect (isRoot : Bool) : Item → Item
  | .leaf n s v w r => .leaf n s v w r
  | .container n s o cs rs b k =>
    let c := Item.container n s o cs rs b k
    if decide (c.minSize.width > c.width) || decide (c.minSize.height > c.height) then c
    else if cs.isEmpty && !isRoot then c
    else if !checkPositions o cs 0 then c
    else
      let c1 := Item.container n s o
        (checkChildrenEffect c.rect o (Layouting.length c.size (oppositeOrientation o)) cs) rs b k
      if !checkChildren c.rect o (Layouting.length c.size (oppositeOrientation o)) cs then c1
      else
        let visibleChildren := c1.visibleChildren
        if !visibleChildren.isEmpty then
          let occupied := (visibleChildren.map fun i => i.length o).foldl (· + ·)
            (qMax 0 (separatorThickness * ((visibleChildren.length : Int) - 1)))
          if occupied != c1.containerLength then c1
          else
            let percentages := c1.childPercentages
            if !Double.qFuzzyCompare (totalPercentage percentages) (Double.ofInt 1) then
              updateChildPercentages c1
            else c1
        else c1
/-- The children after the loop of `ItemContainer::checkSanity` over them. -/
def checkChildrenEffect (rect : QRect) (o : Orientation) (h1 : Int) : List Item → List Item
  | [] => []
  | item :: rest =>
    if h1 != Layouting.length item.size (oppositeOrientation o) then item :: rest
    else if !rect.contains item.geometry then item :: rest
    else if !checkSanity false item then checkSanityEffect false item :: rest
    else checkSanityEffect false item :: checkChildrenEffect rect o h1 rest
end

/-- The call `checkSanity()` on the item at path `p`; the result is dropped, the
write stays. The item at the empty path is the root. -/
def checkSanityAt (root : Item) (p : List Nat) : Item :=
  modifyAt (checkSanityEffect p.isEmpty) root p

/-! ## Insertion -/

/-- Modelled from the spec: a default-constructed `SizingInfo` of `Item_p.h`
(empty geometry, percentage `0.0`, not being inserted). The stored `minSize` and
`maxSize` of a container are never read before `sizes()` overwrites them; they
are `(0, 0)` here. -/
def defaultSizingInfo : SizingInfo := ⟨QRect.null, ⟨0, 0⟩, ⟨0, 0⟩, Percentage.zero, false⟩

/-- The object made by `new ItemContainer(hostWidget(), this)`: no children,
the default orientation of `Item_p.h` (`Qt::Vertical`), not yet connected to its
parent. `name` stands for the new pointer. -/
def newContainer (name : Nat) : Item :=
  .container name defaultSizingInfo .Vertical [] false false false

/-- Call `item->setIsVisible(false)` for a leaf that has just been taken out of
`m_children` of the container at path `q` but still has that container as
`m_parent`: the slot `onChildMinSizeChanged(item)` of the container runs with a
child it does not list. Returns the tree and the item. -/
def hideOrphan (root : Item) (q : List Nat) (item : Item) : Item × Item :=
  match item with
  | .leaf n s true w r =>
    let item1 : Item := .leaf n s false w r
    let root1 := propagateMinSize root q.reverse
    match getAt root1 q with
    | none => (root1, item1.setBeingInserted false)
    | some c =>
      if c.numVisibleChildren == 1 then (root1, (item1.setGeometry c.rect).setBeingInserted false)
      else if item1.isBeingInserted then (root1, item1.setBeingInserted false)
      else
        let missingForChild := item1.missingSize
        if missingForChild.isNull then (root1, item1.setBeingInserted false)
        else
          (modifyAt (fun c => growItem c none
              (Layouting.length missingForChild c.m_orientation)) root1 q,
            item1.setBeingInserted false)
  | other => (root, other)

/-- Overload `ItemContainer::insertItem(Item *item, Location loc)` of the
container at path `p`. `owner` is the path of the container that is still
`item->m_parent` (see `hideOrphan`), `none` for an item without parent;
`wrapperName` names the container created when the orientation does not fit.
The first argument bounds the recursion `insertItem(item, loc)` after the
wrapper has been created (one level, as the root then has a single child). -/
def containerInsertItemFuel : Nat → Item → List Nat → Item → Location →
    Option (List Nat) → Nat → Item
  | 0, root, _, _, _, _, _ => root
  | fuel + 1, root, p, item, loc, owner, wrapperName =>
    match getAt root p with
    | none => root
    | some c =>
      match c.m_children.findIdx? (fun i => i.name == item.name) with
      | some j => setIsVisibleAt root (p ++ [j]) false
      | none =>
        let hidden : Item × Item :=
          match owner with
          | some q => hideOrphan root q item
          | none => (root, setIsVisibleAt item [] false)
        match getAt hidden.1 p with
        | none => hidden.1
        | some c1 =>
          let locOrientation := orientationForLocation loc
          if c1.hasOrientationFor loc then
            let root2 :=
              if c1.m_children.length == 1 then
                modifyAt (fun i => i.setOrientation locOrientation) hidden.1 p
              else hidden.1
            let index := if locationIsSide1 loc then 0 else c1.m_children.length
            let root3 := insertChildAt root2 p hidden.2 index true false
            checkSanityAt (modifyAt updateChildPercentages root3 p) p
          else
            let container := ((newContainer wrapperName).setChildren
              (c1.m_children.map fun i => i.setConnected true)).setOrientation c1.m_orientation
            let root2 := modifyAt (fun i =>
              (i.setChildren []).setOrientation (oppositeOrientation i.m_orientation)) hidden.1 p
            let root3 := insertChildAt root2 p container 0 false true
            let root4 := modifyAt (fun i => i.setGeometry c1.rect) root3 (p ++ [0])
            let root5 := setIsVisibleAt root4 (p ++ [0]) (decide (container.numVisibleChildren > 0))
            let root6 := containerInsertItemFuel fuel root5 p hidden.2 loc none (wrapperName + 1)
            checkSanityAt (modifyAt updateChildPercentages root6 p) p

/-- Overload `ItemContainer::insertItem(Item *item, Location loc)`. -/
def containerInsertItem (root : Item) (p : List Nat) (item : Item) (loc : Location)
    (owner : Option (List Nat)) (wrapperName : Nat) : Item :=
  containerInsertItemFuel 2 root p item loc owner wrapperName

/-- Method `ItemContainer::convertChildToContainer(leaf)` of the container at
path `p` for its child `idx`; the new container takes the place of the leaf. -/
def convertChildToContainer (root : Item) (p : List Nat) (idx : Nat) (wrapperName : Nat) : Item :=
  match getAt root (p ++ [idx]) with
  | none => root
  | some theLeaf =>
    let root1 := insertChildAt root p (newContainer wrapperName) idx false true
    let root2 := modifyAt (fun c => c.setChildren (c.m_children.eraseIdx (idx + 1))) root1 p
    let root3 := modifyAt (fun w => w.setGeometry theLeaf.geometry) root2 (p ++ [idx])
    let root4 := containerInsertItem root3 (p ++ [idx]) theLeaf .OnTop (some p) (wrapperName + 1)
    modifyAt updateChildPercentages root4 p

/-- The virtual call `checkSanity()` that ends `Item::insertItem`, on the anchor,
which is at path `p` by then: `Item::checkSanity` writes nothing, so only an
anchor that is a container is touched. -/
def checkSanityOfAnchor (anchor : Option Item) (root : Item) (p : List Nat) : Item :=
  match anchor with
  | some (.container ..) => checkSanityAt root p
  | _ => root

/-- Method `Item::insertItem(Item *item, Location loc)` called on the anchor at
path `anchor`. An anchor that is not visible has the index -1 among the visible
children, which `QVector::insert` does not accept; the model inserts at 0
then. -/
def insertItem (root : Item) (anchor : List Nat) (item : Item) (loc : Location)
    (wrapperName : Nat) : Item :=
  match anchor.reverse with
  | [] => root
  | idx :: up =>
    match getAt root up.reverse with
    | none => root
    | some parent =>
      if parent.hasOrientationFor loc then
        let locIsSide1 := locationIsSide1 loc
        let indexInParent := parent.indexOfVisibleChild idx
        let indexInParent1 := if !locIsSide1 then indexInParent + 1 else indexInParent
        let orientation := orientationForLocation loc
        let root1 :=
          if orientation != parent.m_orientation then
            modifyAt (fun i => i.setOrientation orientation) root up.reverse
          else root
        let root2 := insertChildAt root1 up.reverse item indexInParent1.toNat true false
        checkSanityOfAnchor (parent.m_children.get? idx) root2
          (up.reverse ++ [if indexInParent1.toNat ≤ idx then idx + 1 else idx])
      else
        let root1 := convertChildToContainer root up.reverse idx wrapperName
        let root2 := containerInsertItem root1 (up.reverse ++ [idx]) item loc none
          (wrapperName + 1)
        checkSanityOfAnchor (parent.m_children.get? idx) root2
          (up.reverse ++ [idx, if locationIsSide1 loc then 1 else 0])

/-! ## Removal -/

/-- Method `ItemContainer::visibleNeighbourFor(item, side)` for the child at
`m_children[idx]`; the result is the position of the neighbour in `m_children`.
For a child that is not visible `indexOf` is -1, so its `Side2` neighbour is
the first visible child. -/
def visibleNeighbourFor (c : Item) (idx : Nat) (side : Side) : Option Nat :=
  let index := c.indexOfVisibleChild idx
  let neighbourIndex := if side = .Side1 then index - 1 else index + 1
  if neighbourIndex ≥ 0 && neighbourIndex < c.visibleChildren.length then
    childIndexOfVisible c.m_children neighbourIndex.toNat 0
  else none

/-- Method `ItemContainer::growNeighbours(side1Neighbour, side2Neighbour)`, the
neighbours given by their positions in `m_children`. -/
def growNeighbours (c : Item) (side1Neighbour side2Neighbour : Option Nat) : Item :=
  match side1Neighbour.bind c.m_children.get?, side2Neighbour.bind c.m_children.get? with
  | some n1, some n2 =>
    let geo1 := n1.geometry
    let geo2 := n2.geometry
    let geos : QRect × QRect :=
      if c.isVertical then
        let available := geo2.y - geo1.bottom - separatorThickness
        let g1 := geo1.setHeight (geo1.height + Int.tdiv available 2)
        (g1, geo2.setTop (g1.bottom + separatorThickness + 1))
      else
        let available := geo2.x - geo1.right - separatorThickness
        let g1 := geo1.setWidth (geo1.width + Int.tdiv available 2)
        (g1, geo2.setLeft (g1.right + separatorThickness + 1))
    let cs1 := c.m_children.modify (fun i => i.setGeometry_recursive geos.1)
      (side1Neighbour.getD 0)
    c.setChildren (cs1.modify (fun i => i.setGeometry_recursive geos.2) (side2Neighbour.getD 0))
  | some n1, none =>
    let geo := n1.geometry
    let geo1 := if c.isVertical then geo.setBottom c.rect.bottom else geo.setRight c.rect.right
    c.setChildren (c.m_children.modify (fun i => i.setGeometry_recursive geo1)
      (side1Neighbour.getD 0))
  | none, some n2 =>
    let geo := n2.geometry
    let geo1 := if c.isVertical then geo.setTop 0 else geo.setLeft 0
    c.setChildren (c.m_children.modify (fun i => i.setGeometry_recursive geo1)
      (side2Neighbour.getD 0))
  | none, none => c

/-- The position of a sibling in `m_children` after the child at `idx` has been
taken out of the list. -/
def shiftAfterRemoval (idx : Nat) (j : Option Nat) : Option Nat :=
  j.map fun n => if n > idx then n - 1 else n

/-- The first part of `ItemContainer::removeItem(item, hardRemove)` for the child
`idx` of the container at path `p`: the item is deleted (hard) or hidden and its
guest forgotten (soft). The result is `none` on the early return for an item
that is already a placeholder, otherwise the tree together with the two
neighbours captured before the removal. -/
def removeStep (root : Item) (p : List Nat) (idx : Nat) (hardRemove : Bool) :
    Option (Item × Option Nat × Option Nat) :=
  match getAt root p with
  | none => none
  | some c =>
    match c.m_children.get? idx with
    | none => none
    | some item =>
      let side1Item := c.visibleNeighbourFor idx .Side1
      let side2Item := c.visibleNeighbourFor idx .Side2
      let wasVisible := !item.isContainer && item.isVisible
      if hardRemove then
        some (modifyAt (fun c => c.setChildren (c.m_children.eraseIdx idx)) root p,
          shiftAfterRemoval idx side1Item, shiftAfterRemoval idx side2Item)
      else if wasVisible then
        let root1 := setIsVisibleAt root (p ++ [idx]) false
        let root2 := modifyAt (fun i =>
          match i with
          | .leaf n s v _ r => .leaf n s v none r
          | other => other) root1 (p ++ [idx])
        some (root2, side1Item, side2Item)
      else none

/-- The last part of `removeItem`: the neighbours take the space of the removed
item and the percentages are updated. -/
def removeFinish (root : Item) (p : List Nat) (side1Item side2Item : Option Nat) : Item :=
  modifyAt (fun c => updateChildPercentages (growNeighbours c side1Item side2Item)) root p

/-- Method `ItemContainer::removeItem(item, hardRemove)` for the child `idx` of
the container whose path is the reverse of the third argument; a container that
is left empty (hard) or without visible children (soft) asks its parent to
remove it. -/
def removeItemUp (hardRemove : Bool) : Item → List Nat → Nat → Item
  | root, [], idx =>
    match removeStep root [] idx hardRemove with
    | none => root
    | some r => removeFinish r.1 [] r.2.1 r.2.2
  | root, k :: up, idx =>
    match removeStep root (k :: up).reverse idx hardRemove with
    | none => root
    | some r =>
      match getAt r.1 (k :: up).reverse with
      | none => r.1
      | some c =>
        let containerShouldBeRemoved :=
          (hardRemove && c.isEmpty) || (!hardRemove && !c.hasVisibleChildren)
        if containerShouldBeRemoved then removeItemUp hardRemove r.1 up k
        else removeFinish r.1 (k :: up).reverse r.2.1 r.2.2

/-- Method `ItemContainer::removeItem(item, hardRemove)`, the item given by its
path from the root (its last element is the index in the parent, which is the
container that `contains(item)`). -/
def removeItem (root : Item) (item : List Nat) (hardRemove : Bool) : Item :=
  match item.reverse with
  | [] => root
  | idx :: up => removeItemUp hardRemove root up idx

/-! ## Drop rectangle -/

/-- Overload `Item::mapToRoot(QPoint)` for the item whose path is the reverse of
the second argument: the point plus the positions of all ancestors below the
root. -/
def mapToRootUp (root : Item) : List Nat → QPoint → QPoint
  | [], p => p
  | _ :: up, p =>
    match getAt root up.reverse with
    | none => p
    | some parent => p.add (mapToRootUp root up parent.pos)

/-- Overload `Item::mapToRoot(QRect)` for the item at path `item`. -/
def mapToRoot (root : Item) (item : List Nat) (r : QRect) : QRect :=
  r.moveTopLeft (mapToRootUp root item.reverse r.topLeft)

/-- Method `ItemContainer::suggestedDropRect(minSize, relativeTo, loc)` of the
container `c`. `isRoot` says whether `c` has no parent; `relativeTo` is the
anchor, given by its position in `m_children` (`none` for a null pointer, so the
anchor has this container as parent; a position outside the list stands for an
item of another container). The empty `QRect()` is the result of every early
return. -/
def suggestedDropRect (c : Item) (isRoot : Bool) (minSize : QSize) (relativeTo : Option Nat)
    (loc : Location) : QRect :=
  let anchor : Option (Option (Nat × Item)) :=
    match relativeTo with
    | none => some none
    | some idx =>
      match c.m_children.get? idx with
      | none => none
      | some item => some (some (idx, item))
  match anchor with
  | none => QRect.null
  | some anchor0 =>
    if (match anchor0 with
        | some a => !a.2.isVisible
        | none => false) then QRect.null
    else if loc = .None then QRect.null
    else
      let itemMin := Layouting.length minSize c.m_orientation
      let available := c.availableLength - separatorThickness
      let sizes := c.sizes
      let count : Int := sizes.length
      let anchor1 := if count == 1 then none else anchor0
      match anchor1 with
      | some (idx, relativeTo) =>
        let equitativeLength := Int.tdiv c.usableLength (c.m_children.length + 1)
        let suggestedLength := qMax (qMin available equitativeLength) itemMin
        let indexOfRelativeTo := c.indexOfVisibleChild idx
        let relativeToPos := relativeTo.position c.m_orientation
        let relativeToGeo := relativeTo.geometry
        let orientation := orientationForLocation loc
        let suggestedPos : Int :=
          if orientation = c.m_orientation then
            if sideForLocation loc = .Side1 then
              if indexOfRelativeTo = 0 then 0
              else
                let side1Length := lengthOnSide sizes (indexOfRelativeTo - 1) .Side1 c.m_orientation
                let side2Length := lengthOnSide sizes indexOfRelativeTo .Side2 c.m_orientation
                let min1 := relativeToPos - side1Length.available
                let max2 := relativeToPos + side2Length.available - suggestedLength
                qBound min1 (relativeToPos - Int.tdiv suggestedLength 2) max2
            else
              if indexOfRelativeTo = count - 1 then c.containerLength - suggestedLength
              else
                let side1Length := lengthOnSide sizes indexOfRelativeTo .Side1 c.m_orientation
                let side2Length := lengthOnSide sizes (indexOfRelativeTo + 1) .Side2 c.m_orientation
                let min1 := relativeToPos + relativeTo.length c.m_orientation - side1Length.available
                let max2 := relativeToPos + relativeTo.length c.m_orientation
                  + side2Length.available - suggestedLength
                qBound min1
                  (relativeToPos + relativeTo.length c.m_orientation - Int.tdiv suggestedLength 2)
                  max2
          else
            match loc with
            | .OnLeft => relativeToGeo.x
            | .OnTop => relativeToGeo.y
            | .OnRight => relativeToGeo.right - suggestedLength + 1
            | .OnBottom => relativeToGeo.bottom - suggestedLength + 1
            | .None => 0
        if orientationForLocation loc = .Vertical then
          ⟨relativeTo.x, suggestedPos, relativeTo.width, suggestedLength⟩
        else
          ⟨suggestedPos, relativeTo.y, suggestedLength, relativeTo.height⟩
      | none =>
        if isRoot then
          let rect := c.rect
          let oneThird := Int.tdiv c.containerLength 3
          let suggestedLength := qMax (qMin available oneThird) itemMin
          match loc with
          | .OnLeft => rect.setWidth suggestedLength
          | .OnTop => rect.setHeight suggestedLength
          | .OnRight => rect.adjust (rect.width - suggestedLength) 0 0 0
          | .OnBottom => rect.adjust 0 (rect.bottom - suggestedLength) 0 0
          | .None => QRect.null
        else QRect.null

/-! ## Mapping from the root, guests, the write of `suggestedDropRect` -/

/-- Overload `Item::mapFromRoot(QPoint)` for the item whose path is the reverse of
the second argument: the loop over the ancestors, each one subtracting its
position. -/
def mapFromRootUp (root : Item) : List Nat → QPoint → QPoint
  | [], p => p
  | _ :: up, p =>
    match getAt root up.reverse with
    | none => p
    | some c => mapFromRootUp root up (p.sub c.pos)

/-- Overload `Item::mapFromRoot(QRect)` for the item at path `item`. -/
def mapFromRoot (root : Item) (item : List Nat) (r : QRect) : QRect :=
  r.moveTopLeft (mapFromRootUp root item.reverse r.topLeft)

/-- Setter `Item::setMinSize(sz)`. -/
def setMinSize (i : Item) (sz : QSize) : Item :=
  if sz ≠ i.m_sizingInfo.minSize then
    let i1 := i.setSizingInfo { i.m_sizingInfo with minSize := sz }
    i1.setSize (i1.size.expandedTo sz)
  else i

/-- Method `Item::setFrame(w)` on a leaf, as far as it writes to the item:
`m_widget = w`, then, for a guest, `setMinSize(widgetMinSize(w))` and, when the
stored geometry is empty, `setGeometry(mapFromRoot(w->geometry()))`, the mapping
being the argument `fromRoot`; `updateWidgetGeometries()` only writes to the
guest. -/
def setFrame (i : Item) (w : Option Guest) (fromRoot : QRect → QRect) : Item :=
  match i with
  | .leaf n s v _ r =>
    match w with
    | none => .leaf n s v none r
    | some g =>
      let i1 := (Item.leaf n s v (some g.handle) r).setMinSize g.minSize
      if i1.m_sizingInfo.geometry.isEmpty then i1.setGeometry (fromRoot g.geometry) else i1
  | other => other

/-- Method `Item::setFrame(w)` of the leaf at path `p` below `root`. -/
def setFrameAt (root : Item) (p : List Nat) (w : Option Guest) : Item :=
  modifyAt (fun i => i.setFrame w (mapFromRoot root p)) root p

/-- The container after `ItemContainer::suggestedDropRect(minSize, relativeTo,
loc)`. The method is `const`; what it calls reads only, except `sizes()`, which
writes `item->m_sizingInfo.minSize = item->minSize()` for every visible container
child and is reached once the checks of the anchor and of the location have
passed. The anchor is given as for `suggestedDropRect`. -/
def suggestedDropRectEffect (c : Item) (relativeTo : Option Nat) (loc : Location) : Item :=
  let anchor : Option (Option (Nat × Item)) :=
    match relativeTo with
    | none => some none
    | some idx =>
      match c.m_children.get? idx with
      | none => none
      | some item => some (some (idx, item))
  match anchor with
  | none => c
  | some anchor0 =>
    if (match anchor0 with
        | some a => !a.2.isVisible
        | none => false) then c
    else if loc = .None then c
    else c.refreshMinSizes

/-! ## Maximum size -/

mutual
/-- Virtual `maxSize()`: `m_sizingInfo.maxSize` for a leaf; for a container the
aggregation of `ItemContainer::maxSize` over the visible children. The sums are
taken in `Int`; the source adds `int`s, which overflow beyond `2^31 - 1` (that
takes more than a hundred visible children of the maximum 16777215). -/
def maxSize : Item → QSize
  | .leaf _ s _ _ _ => s.maxSize
  | .container _ _ o cs _ _ _ =>
    match cs with
    | [] => ⟨0, 0⟩
    | _ :: _ =>
      let acc := maxSizeLoop o cs 0 0 0
      let separatorWaste := (acc.2.2 - 1) * separatorThickness
      if o = .Vertical then ⟨acc.1, acc.2.1 + separatorWaste⟩
      else ⟨acc.1 + separatorWaste, acc.2.1⟩
/-- The loop of `ItemContainer::maxSize` over the children, carrying
`(maxW, maxH, number of visible children)`. -/
def maxSizeLoop (o : Orientation) : List Item → Int → Int → Int → Int × Int × Int
  | [], maxW, maxH, n => (maxW, maxH, n)
  | c :: cs, maxW, maxH, n =>
    if c.isVisible then
      if o = .Vertical then
        maxSizeLoop o cs (qMin maxW c.maxSize.width) (maxH + c.maxSize.height) (n + 1)
      else
        maxSizeLoop o cs (maxW + c.maxSize.width) (qMin maxH c.maxSize.height) (n + 1)
    else maxSizeLoop o cs maxW maxH n
end

/-! ## `setGeometry` inside a tree -/

/-- Method `Item::setGeometry(rect)` of the item at path `p` below `root`,
together with its two sanity checks. A rectangle that differs from the stored
one is stored first; if it is empty, or smaller than `minSize()`, the code then
calls `root()->dumpLayout()`. `root()` is the top of the tree if that is a
container and null otherwise (an item without parent that is not a container),
and the call through the null pointer has no defined result: `none`. The
`Q_ASSERT(false)` after the dump of an empty rectangle is compiled out. -/
def setGeometryAt (root : Item) (p : List Nat) (rect : QRect) : Option Item :=
  match getAt root p with
  | none => some root
  | some i =>
    if rect ≠ i.m_sizingInfo.geometry then
      let root1 := modifyAt (fun i => i.setGeometry rect) root p
      let minSz := i.minSize
      if (rect.isEmpty || decide (rect.width < minSz.width)
          || decide (rect.height < minSz.height)) && !root.isContainer then none
      else some root1
    else some root

end Item

/-! ## Properties used by the claims -/

open Item

/-- Visible children start at `pos`, each next one at the end of the previous
one plus the separator thickness. -/
def placedConsecutively (o : Orientation) : List Item → Int → Bool
  | [], _ => true
  | i :: rest, pos =>
    i.position o == pos && placedConsecutively o rest (pos + i.length o + separatorThickness)

/-- Sum of the lengths of the items along `o`. -/
def totalLength (o : Orientation) : List Item → Int
  | [] => 0
  | i :: rest => i.length o + totalLength o rest

/-- Axis packing of one container (invariant 3 of the data model): the visible
children are placed consecutively from 0 and their lengths plus the separators
between them make up the length of the container. -/
def axisPacked (c : Item) : Bool :=
  let visible := c.visibleChildren
  placedConsecutively c.m_orientation visible 0 &&
    (visible.isEmpty ||
      totalLength c.m_orientation visible + ((visible.length : Int) - 1) * separatorThickness
        == c.containerLength)

mutual
/-- Axis packing of every container of a tree. -/
def allAxisPacked : Item → Bool
  | .leaf .. => true
  | .container n s o cs rs b k =>
    axisPacked (.container n s o cs rs b k) && allAxisPackedList cs
/-- Axis packing of every container below a list of children. -/
def allAxisPackedList : List Item → Bool
  | [] => true
  | c :: cs => allAxisPacked c && allAxisPackedList cs
end

/-- Every item has at least its minimum length along `o`. -/
def allAtLeastMin (o : Orientation) (items : List Item) : Bool :=
  items.all fun i => decide (i.minLength o ≤ i.length o)

mutual
/-- The structure of a tree without its data: names, kinds, orientations and the
order of the children are kept, everything else is reset. -/
def shape : Item → Item
  | .leaf n _ _ _ _ => .leaf n defaultSizingInfo false none 0
  | .container n _ o cs _ _ _ =>
    .container n defaultSizingInfo o (shapeList cs) false false false
/-- The structures of a list of children. -/
def shapeList : List Item → List Item
  | [] => []
  | c :: cs => shape c :: shapeList cs
end

mutual
/-- The tree without the stored percentages: `percentageWithinParent` is reset
in the item and in everything below it, all other data is kept. -/
def erasePercentages : Item → Item
  | .leaf n s v w r => .leaf n { s with percentageWithinParent := Percentage.zero } v w r
  | .container n s o cs rs b k =>
    .container n { s with percentageWithinParent := Percentage.zero } o
      (erasePercentagesList cs) rs b k
/-- The children without the stored percentages. -/
def erasePercentagesList : List Item → List Item
  | [] => []
  | c :: cs => erasePercentages c :: erasePercentagesList cs
end

/-- The data of an item that its own children never change: its geometry, its
`isBeingInserted` flag and whether it is connected to its parent. -/
def ownData (i : Item) : QRect × Bool × Bool :=
  (i.m_sizingInfo.geometry, i.m_sizingInfo.isBeingInserted, i.m_connected)

/-- The container at path `p` has `n` children and its child `idx` has the
structure `wsh` and the own data `d`. -/
def WrapperAt (r : Item) (p : List Nat) (idx n : Nat) (wsh : Item)
    (d : QRect × Bool × Bool) : Prop :=
  ∃ P W, getAt r p = some P ∧ P.m_children.length = n ∧ P.m_children.get? idx = some W ∧
    shape W = wsh ∧ ownData W = d

/-- The child `X2` is `X` with another `SizingInfo`; a child that is not visible
keeps its geometry and its `isBeingInserted` flag. -/
def ChildKept (X X2 : Item) : Prop :=
  ∃ s, X2 = X.setSizingInfo s ∧ (X.isVisible = false →
    s.geometry = X.m_sizingInfo.geometry ∧
    s.isBeingInserted = X.m_sizingInfo.isBeingInserted)

/-- A child that is not visible, or a container that is under a resize
(`m_isResizing`). -/
def Protected (X : Item) : Prop :=
  X.isVisible = false ∨ (X.isContainer = true ∧ X.m_isResizing = true)

/-- The operation `F` on a container changes a protected child only in its
`SizingInfo`. -/
def KeepsChildren (F : Item → Item) : Prop :=
  ∀ G k X, G.m_children.get? k = some X → Protected X →
    ∃ X2, (F G).m_children.get? k = some X2 ∧ ChildKept X X2

/-- The stored `percentageWithinParent` of every child of a container, in the
order of `m_children`. -/
def childPercentagesStored (c : Item) : List Percentage :=
  c.m_children.map fun i => i.m_sizingInfo.percentageWithinParent

mutual
/-- No container at or below the item is without children. -/
def noEmptyContainer : Item → Bool
  | .leaf .. => true
  | .container _ _ _ cs _ _ _ => !cs.isEmpty && noEmptyContainerList cs
/-- No container at or below the items of the list is without children. -/
def noEmptyContainerList : List Item → Bool
  | [] => true
  | c :: cs => noEmptyContainer c && noEmptyContainerList cs
end

/-- No non-root container of the layout `root` is without children. -/
def noEmptyNonRootContainer (root : Item) : Bool := noEmptyContainerList root.m_children

/-- The entry written by step #1 of `ItemContainer::resize` for a child whose new
length along the orientation of `c` is `a`: the size of the geometry becomes
`a` along the orientation and the length of `c` across it. -/
def assignLength (c : Item) (x : SizingInfo) (a : Int) : SizingInfo :=
  if c.isVertical then { x with geometry := x.geometry.setSize ⟨c.width, a⟩ }
  else { x with geometry := x.geometry.setSize ⟨a, c.height⟩ }

mutual
/-- Every leaf at or below the item has the visibility `is`. -/
def leavesShown (is : Bool) : Item → Bool
  | .leaf _ _ v _ _ => v == is
  | .container _ _ _ cs _ _ _ => leavesShownList is cs
/-- Every leaf at or below the items of the list has the visibility `is`. -/
def leavesShownList (is : Bool) : List Item → Bool
  | [] => true
  | c :: cs => leavesShown is c && leavesShownList is cs
end

/-! ## Layouts used as concrete inputs -/

namespace Example

/-- The maximum size `QWIDGETSIZE_MAX` in both directions. -/
def maxSize : QSize := ⟨16777215, 16777215⟩

/-- A leaf with a guest. -/
def leaf (name : Nat) (geometry : QRect) (minSize : QSize) (visible : Bool)
    (percentage : Percentage) : Item :=
  .leaf name ⟨geometry, minSize, maxSize, percentage, false⟩ visible (some name) 1

/-- A root container. -/
def root (geometry : QRect) (o : Orientation) (children : List Item) : Item :=
  .container 0 ⟨geometry, ⟨0, 0⟩, maxSize, Percentage.zero, false⟩ o children false false false

/-- A nested container made by `convertChildToContainer`. -/
def nested (name : Nat) (geometry : QRect) (o : Orientation) (percentage : Percentage)
    (children : List Item) : Item :=
  .container name ⟨geometry, ⟨0, 0⟩, maxSize, percentage, false⟩ o children false false false

/-- A new leaf of size 100 x 600 with minimum size 100 x 100, not yet in a
layout (hidden, as `m_isVisible` is initially). -/
def newLeaf : Item := leaf 3 ⟨0, 0, 100, 600⟩ ⟨100, 100⟩ false Percentage.zero

/-- Horizontal root 1000 x 600 with leaf 1 (102 wide, 2 above its minimum) and
leaf 2 (893 wide). -/
def tightLeft : Item :=
  root ⟨0, 0, 1000, 600⟩ .Horizontal
    [leaf 1 ⟨0, 0, 102, 600⟩ ⟨100, 100⟩ true ⟨102, 995⟩,
     leaf 2 ⟨107, 0, 893, 600⟩ ⟨100, 100⟩ true ⟨893, 995⟩]

/-- Horizontal root 1000 x 600 with leaf 1 and a nested vertical container
holding the single leaf 2. -/
def withNested : Item :=
  root ⟨0, 0, 1000, 600⟩ .Horizontal
    [leaf 1 ⟨0, 0, 497, 600⟩ ⟨100, 100⟩ true ⟨497, 995⟩,
     nested 10 ⟨502, 0, 498, 600⟩ .Vertical ⟨498, 995⟩
       [leaf 2 ⟨0, 0, 498, 600⟩ ⟨100, 100⟩ true ⟨1, 1⟩]]

/-- Horizontal root 1010 x 600 with three leaves of lengths 250, 250, 500
(percentages 1/4, 1/4, 1/2) and minimum widths 148, 170, 100. -/
def threeLeaves : Item :=
  root ⟨0, 0, 1010, 600⟩ .Horizontal
    [leaf 1 ⟨0, 0, 250, 600⟩ ⟨148, 100⟩ true ⟨1, 4⟩,
     leaf 2 ⟨255, 0, 250, 600⟩ ⟨170, 100⟩ true ⟨1, 4⟩,
     leaf 3 ⟨510, 0, 500, 600⟩ ⟨100, 100⟩ true ⟨1, 2⟩]

/-- Horizontal root 1000 x 600 split evenly between leaf 1 and leaf 2. -/
def twoLeaves : Item :=
  root ⟨0, 0, 1000, 600⟩ .Horizontal
    [leaf 1 ⟨0, 0, 497, 600⟩ ⟨100, 100⟩ true ⟨497, 995⟩,
     leaf 2 ⟨502, 0, 498, 600⟩ ⟨100, 100⟩ true ⟨498, 995⟩]

/-- Vertical root 498 x 600 with leaf 1 on top (297 high) and leaf 2 below
(298 high). -/
def stacked : Item :=
  root ⟨0, 0, 498, 600⟩ .Vertical
    [leaf 1 ⟨0, 0, 498, 297⟩ ⟨100, 100⟩ true ⟨297, 595⟩,
     leaf 2 ⟨0, 302, 498, 298⟩ ⟨100, 100⟩ true ⟨298, 595⟩]

/-- Horizontal root 1000 x 600 whose first child is a placeholder (hidden leaf 1)
and whose second child, leaf 2, fills it. -/
def placeholderFirst : Item :=
  root ⟨0, 0, 1000, 600⟩ .Horizontal
    [leaf 1 ⟨0, 0, 1000, 600⟩ ⟨100, 100⟩ false Percentage.zero,
     leaf 2 ⟨0, 0, 1000, 600⟩ ⟨100, 100⟩ true ⟨1, 1⟩]

/-- A new leaf of size 200 x 200 with minimum size 100 x 100, not yet in a
layout. -/
def smallLeaf : Item := leaf 3 ⟨0, 0, 200, 200⟩ ⟨100, 100⟩ false Percentage.zero

/-- Horizontal root 1000 x 600 filled by the single leaf 1. -/
def singleLeaf : Item :=
  root ⟨0, 0, 1000, 600⟩ .Horizontal
    [leaf 1 ⟨0, 0, 1000, 600⟩ ⟨100, 100⟩ true ⟨1, 1⟩]

/-- An empty vertical root of size 900 x 600. -/
def emptyRoot : Item := root ⟨0, 0, 900, 600⟩ .Vertical []

/-- An empty horizontal root of size 900 x 600. -/
def emptyHorizontalRoot : Item := root ⟨0, 0, 900, 600⟩ .Horizontal []

/-- Horizontal root 1000 x 600 with leaf 1 and a nested vertical container at
`(502, 0)` that holds leaf 2 (297 high) above leaf 3 (298 high). -/
def nestedTwo : Item :=
  root ⟨0, 0, 1000, 600⟩ .Horizontal
    [leaf 1 ⟨0, 0, 497, 600⟩ ⟨100, 100⟩ true ⟨497, 995⟩,
     nested 10 ⟨502, 0, 498, 600⟩ .Vertical ⟨498, 995⟩
       [leaf 2 ⟨0, 0, 498, 297⟩ ⟨100, 100⟩ true ⟨297, 595⟩,
        leaf 3 ⟨0, 302, 498, 298⟩ ⟨100, 100⟩ true ⟨298, 595⟩]]

/-- The layout `twoLeaves` with the percentages 1/4 and 1/4, which sum to 1/2. -/
def quarterPercentages : Item :=
  root ⟨0, 0, 1000, 600⟩ .Horizontal
    [leaf 1 ⟨0, 0, 497, 600⟩ ⟨100, 100⟩ true ⟨1, 4⟩,
     leaf 2 ⟨502, 0, 498, 600⟩ ⟨100, 100⟩ true ⟨1, 4⟩]

/-- Horizontal root 1000 x 600 whose first child, leaf 1, is a placeholder without
guest that keeps the geometry (0, 0, 497, 600); leaf 2 is visible. -/
def detachedPlaceholder : Item :=
  root ⟨0, 0, 1000, 600⟩ .Horizontal
    [.leaf 1 ⟨⟨0, 0, 497, 600⟩, ⟨100, 100⟩, maxSize, Percentage.zero, false⟩ false none 1,
     leaf 2 ⟨0, 0, 1000, 600⟩ ⟨100, 100⟩ true ⟨1, 1⟩]

/-- Horizontal root 321 x 600 with three leaves of widths 101, 105 and 105 and
minimum width 100 each, so that their slacks are 1, 5 and 5. -/
def threeDonors : Item :=
  root ⟨0, 0, 321, 600⟩ .Horizontal
    [leaf 1 ⟨0, 0, 101, 600⟩ ⟨100, 100⟩ true ⟨101, 311⟩,
     leaf 2 ⟨106, 0, 105, 600⟩ ⟨100, 100⟩ true ⟨105, 311⟩,
     leaf 3 ⟨216, 0, 105, 600⟩ ⟨100, 100⟩ true ⟨105, 311⟩]

/-- Horizontal root 325 x 600 with three leaves of width 105 and minimum width
100 each, so that every slack is 5. -/
def threeEqualDonors : Item :=
  root ⟨0, 0, 325, 600⟩ .Horizontal
    [leaf 1 ⟨0, 0, 105, 600⟩ ⟨100, 100⟩ true ⟨1, 3⟩,
     leaf 2 ⟨110, 0, 105, 600⟩ ⟨100, 100⟩ true ⟨1, 3⟩,
     leaf 3 ⟨220, 0, 105, 600⟩ ⟨100, 100⟩ true ⟨1, 3⟩]

/-- Horizontal root 1000 x 600 whose two children are both placeholders. -/
def allHidden : Item :=
  root ⟨0, 0, 1000, 600⟩ .Horizontal
    [leaf 1 ⟨0, 0, 497, 600⟩ ⟨100, 100⟩ false Percentage.zero,
     leaf 2 ⟨502, 0, 498, 600⟩ ⟨100, 100⟩ false Percentage.zero]

/-- The layout `twoLeaves` while leaf 2 is being inserted (`isBeingInserted` is
set between the two halves of `setIsVisible(true)`). -/
def secondBeingInserted : Item :=
  root ⟨0, 0, 1000, 600⟩ .Horizontal
    [leaf 1 ⟨0, 0, 497, 600⟩ ⟨100, 100⟩ true ⟨497, 995⟩,
     .leaf 2 ⟨⟨502, 0, 498, 600⟩, ⟨100, 100⟩, maxSize, ⟨498, 995⟩, true⟩ true (some 2) 1]

/-- Horizontal root 1000 x 600: leaf 1 is a placeholder that remembers a
width of 600, leaf 2 fills the root and has a minimum width of 500. -/
def stalePlaceholder : Item :=
  root ⟨0, 0, 1000, 600⟩ .Horizontal
    [leaf 1 ⟨0, 0, 600, 600⟩ ⟨100, 100⟩ false Percentage.zero,
     leaf 2 ⟨0, 0, 1000, 600⟩ ⟨500, 100⟩ true ⟨1, 1⟩]

/-- Vertical root of 900 x 30000 without children. -/
def tallEmptyRoot : Item := root ⟨0, 0, 900, 30000⟩ .Vertical []

/-- Horizontal root 2999 x 300 split evenly between leaf 1 and leaf 2. -/
def wideTwo : Item :=
  root ⟨0, 0, 2999, 300⟩ .Horizontal
    [leaf 1 ⟨0, 0, 1497, 300⟩ ⟨100, 100⟩ true ⟨1497, 2994⟩,
     leaf 2 ⟨1502, 0, 1497, 300⟩ ⟨100, 100⟩ true ⟨1497, 2994⟩]

/-- Horizontal root 602 x 600 with leaf 1 (150 wide) and leaf 2 (447 wide) and
the percentages `updateChildPercentages` stores for them. -/
def roundedSplit : Item :=
  root ⟨0, 0, 602, 600⟩ .Horizontal
    [leaf 1 ⟨0, 0, 150, 600⟩ ⟨100, 100⟩ true ⟨150, 597⟩,
     leaf 2 ⟨155, 0, 447, 600⟩ ⟨100, 100⟩ true ⟨447, 597⟩]

end Example

/-! ## Basic facts about the setters -/

theorem setGeometry_eq (i : Item) (r : QRect) :
    i.setGeometry r = i.setSizingInfo { i.m_sizingInfo with geometry := r } := by
  unfold setGeometry
  split
  · rfl
  · rename_i h
    simp only [ne_eq, Decidable.not_not] at h
    subst h
    cases i <;> rfl

theorem setBlock_roundtrip (c : Item) :
    (c.setBlockUpdatePercentages true).setBlockUpdatePercentages c.m_blockUpdatePercentages
      = c := by
  cases c <;> rfl

theorem minSize_setBlock (c : Item) (b : Bool) :
    (c.setBlockUpdatePercentages b).minSize = c.minSize := by
  cases c with
  | leaf => rfl
  | container n s o cs rs bb k =>
    simp only [setBlockUpdatePercentages]
    cases cs <;> simp [minSize]

theorem qMax_zero_of_nonneg (a : Int) (h : 0 ≤ a) : qMax 0 a = a := by
  unfold qMax; split <;> omega

theorem qMax_sub_nonpos (a b : Int) (h : a ≤ b) : qMax (a - b) 0 = 0 := by
  unfold qMax; split <;> omega

/-! ## Structure is preserved by the geometric operations -/

theorem shapeList_eq_map (cs : List Item) : shapeList cs = cs.map shape := by
  induction cs with
  | nil => rfl
  | cons c cs ih => simp [shapeList, ih]

theorem shape_container (n : Nat) (s : SizingInfo) (o : Orientation) (cs : List Item)
    (rs b k : Bool) :
    shape (.container n s o cs rs b k)
      = .container n defaultSizingInfo o (cs.map shape) false false false := by
  simp [shape, shapeList_eq_map]

@[simp] theorem shape_setSizingInfo (i : Item) (s : SizingInfo) :
    shape (i.setSizingInfo s) = shape i := by
  cases i <;> simp [setSizingInfo, shape]

@[simp] theorem shape_setIsResizing (i : Item) (b : Bool) :
    shape (i.setIsResizing b) = shape i := by
  cases i <;> simp [setIsResizing, shape]

@[simp] theorem shape_setBlock (i : Item) (b : Bool) :
    shape (i.setBlockUpdatePercentages b) = shape i := by
  cases i <;> simp [setBlockUpdatePercentages, shape]

@[simp] theorem shape_setConnected (i : Item) (b : Bool) :
    shape (i.setConnected b) = shape i := by
  cases i <;> simp [setConnected, shape]

@[simp] theorem shape_setGeometry (i : Item) (r : QRect) : shape (i.setGeometry r) = shape i := by
  rw [setGeometry_eq]; simp

@[simp] theorem shape_setSize (i : Item) (sz : QSize) : shape (i.setSize sz) = shape i := by
  simp [setSize]

@[simp] theorem shape_setPos (i : Item) (p : QPoint) : shape (i.setPos p) = shape i := by
  simp [setPos]

@[simp] theorem shape_setLength (i : Item) (l : Int) (o : Orientation) :
    shape (i.setLength l o) = shape i := by
  cases o <;> simp [setLength]

@[simp] theorem shape_setBeingInserted (i : Item) (b : Bool) :
    shape (i.setBeingInserted b) = shape i := by
  simp [setBeingInserted]

theorem shape_setChildren (c : Item) (cs : List Item)
    (h : cs.map shape = c.m_children.map shape) : shape (c.setChildren cs) = shape c := by
  cases c with
  | leaf => simp [setChildren]
  | container n s o cs0 rs b k =>
    simp only [setChildren, shape_container, m_children] at *
    rw [h]

theorem map_shape_map (f : Item → Item) (hf : ∀ i, shape (f i) = shape i) (cs : List Item) :
    (cs.map f).map shape = cs.map shape := by
  induction cs with
  | nil => rfl
  | cons c cs ih => simp [hf]

theorem map_shape_mapVisible (f : Nat → Item → Item) (hf : ∀ k i, shape (f k i) = shape i)
    (cs : List Item) (k : Nat) : (mapVisible f k cs).map shape = cs.map shape := by
  induction cs generalizing k with
  | nil => rfl
  | cons c cs ih =>
    simp only [mapVisible]
    split <;> simp [hf, ih]

theorem map_shape_modify (f : Item → Item) (hf : ∀ i, shape (f i) = shape i) (cs : List Item)
    (k : Nat) : (cs.modify f k).map shape = cs.map shape := by
  induction cs generalizing k with
  | nil => cases k <;> rfl
  | cons c cs ih =>
    cases k with
    | zero => simp [hf]
    | succ k => simp [ih]

theorem shape_refreshMinSizes (c : Item) : shape c.refreshMinSizes = shape c := by
  unfold refreshMinSizes
  apply shape_setChildren
  apply map_shape_map
  intro i
  split <;> simp

theorem shape_updateChildPercentages (c : Item) : shape (updateChildPercentages c) = shape c := by
  unfold updateChildPercentages
  split
  · rfl
  · apply shape_setChildren
    apply map_shape_map
    intro i
    split <;> simp

theorem shape_setLength_recursiveWith (rz : Item → QSize → Item)
    (hrz : ∀ i sz, shape (rz i sz) = shape i) (i : Item) (l : Int) (o : Orientation) :
    shape (setLength_recursiveWith rz i l o) = shape i := by
  unfold setLength_recursiveWith
  split
  · cases o <;> simp [hrz]
  · simp

theorem shape_applyPositionsWith (rz : Item → QSize → Item)
    (hrz : ∀ i sz, shape (rz i sz) = shape i) (c : Item) (sizes : List SizingInfo) :
    shape (applyPositionsWith rz c sizes) = shape c := by
  unfold applyPositionsWith
  apply shape_setChildren
  apply map_shape_mapVisible
  intro k i
  split
  · rfl
  · split
    · rfl
    · simp [shape_setLength_recursiveWith rz hrz]

theorem shape_positionItemsWith (rz : Item → QSize → Item)
    (hrz : ∀ i sz, shape (rz i sz) = shape i) (c : Item) :
    shape (positionItemsWith rz c) = shape c := by
  unfold positionItemsWith
  simp [shape_updateChildPercentages, shape_applyPositionsWith rz hrz, shape_refreshMinSizes]

theorem shape_applySizesWith (rz : Item → QSize → Item)
    (hrz : ∀ i sz, shape (rz i sz) = shape i) (c : Item) (sizes : List SizingInfo) :
    shape (applySizesWith rz c sizes) = shape c := by
  unfold applySizesWith
  simp only [shape_positionItemsWith rz hrz]
  apply shape_setChildren
  apply map_shape_mapVisible
  intro k i
  split
  · rfl
  · exact hrz _ _

theorem shape_resizeBody (rz : Item → QSize → Item)
    (hrz : ∀ i sz, shape (rz i sz) = shape i) (c : Item) (newSize : QSize) :
    shape (resizeBody rz c newSize) = shape c := by
  unfold resizeBody
  simp only []
  split
  · simp
  · split
    · simp
    · split
      · simp
      · split
        · simp [shape_refreshMinSizes]
        · simp [shape_positionItemsWith rz hrz, shape_applySizesWith rz hrz,
            shape_refreshMinSizes]

theorem shape_resizeFuel (fuel : Nat) (i : Item) (newSize : QSize) :
    shape (resizeFuel fuel i newSize) = shape i := by
  induction fuel generalizing i newSize with
  | zero =>
    unfold resizeFuel
    split <;> simp
  | succ n ih =>
    unfold resizeFuel
    split
    · exact shape_resizeBody _ ih i newSize
    · simp

@[simp] theorem shape_resize (i : Item) (newSize : QSize) : shape (i.resize newSize) = shape i :=
  shape_resizeFuel _ _ _

@[simp] theorem shape_setLength_recursive (i : Item) (l : Int) (o : Orientation) :
    shape (i.setLength_recursive l o) = shape i :=
  shape_setLength_recursiveWith _ shape_resize _ _ _

@[simp] theorem shape_positionItems (c : Item) : shape c.positionItems = shape c :=
  shape_positionItemsWith _ shape_resize _

@[simp] theorem shape_applySizes (c : Item) (sizes : List SizingInfo) :
    shape (c.applySizes sizes) = shape c :=
  shape_applySizesWith _ shape_resize _ _

@[simp] theorem shape_setGeometry_recursive (i : Item) (r : QRect) :
    shape (i.setGeometry_recursive r) = shape i := by
  unfold setGeometry_recursive
  split <;> simp

@[simp] theorem shape_growItem (c : Item) (index : Option Nat) (amount : Int) :
    shape (c.growItem index amount) = shape c := by
  simp [growItem, shape_refreshMinSizes]

theorem shape_growRootBy (r : Item) (missingSize : QSize) :
    shape (growRootBy r missingSize) = shape r := by
  unfold growRootBy
  simp only []
  split
  · simp
  · rw [shape_setChildren]
    · simp
    · apply map_shape_mapVisible
      intro k i
      split <;> simp

theorem shape_adjustChild (c : Item) (idx : Nat) : shape (adjustChild c idx) = shape c := by
  unfold adjustChild
  split
  · rfl
  · simp only []
    split
    · apply shape_setChildren
      apply map_shape_modify
      intro i
      simp
    · split
      · rfl
      · split
        · rfl
        · simp

theorem shape_modifyAt (f : Item → Item) (hf : ∀ i, shape (f i) = shape i) (r : Item)
    (p : List Nat) : shape (modifyAt f r p) = shape r := by
  induction p generalizing r with
  | nil => simp [modifyAt, hf]
  | cons k ks ih =>
    simp only [modifyAt]
    apply shape_setChildren
    apply map_shape_modify
    intro c
    exact ih c

theorem shape_propagateMinSize (root : Item) (rpath : List Nat) :
    shape (propagateMinSize root rpath) = shape root := by
  induction rpath generalizing root with
  | nil =>
    simp only [propagateMinSize]
    split
    · simp [shape_growRootBy]
    · rfl
  | cons k up ih =>
    simp only [propagateMinSize]
    split
    · rfl
    · split
      · rw [shape_modifyAt _ (fun i => shape_setIsResizing i _)]
        split
        · rw [shape_modifyAt _ (fun i => shape_adjustChild i _), ih,
            shape_modifyAt _ (fun i => shape_setIsResizing i _)]
        · rw [shape_modifyAt _ (fun i => shape_setIsResizing i _)]
      · rfl

theorem shape_onChildMinSizeChanged (root : Item) (p : List Nat) (idx : Nat) :
    shape (onChildMinSizeChanged root p idx) = shape root := by
  unfold onChildMinSizeChanged
  rw [shape_modifyAt _ (fun i => shape_adjustChild i _), shape_propagateMinSize]

theorem shape_setLeafVisibleAt (root : Item) (p : List Nat) (is : Bool) :
    shape (setLeafVisibleAt root p is) = shape root := by
  unfold setLeafVisibleAt
  have hleaf : ∀ i : Item, shape (match i with
      | .leaf n s _ w r => Item.leaf n { s with isBeingInserted := is || s.isBeingInserted } is w r
      | c => c) = shape i := by
    intro i
    cases i <;> simp [shape]
  split
  · rfl
  · split
    · rw [shape_modifyAt _ (fun i => shape_setBeingInserted i _)]
      split
      · exact shape_modifyAt _ hleaf _ _
      · rw [shape_onChildMinSizeChanged]
        exact shape_modifyAt _ hleaf _ _
    · rfl

theorem shape_foldl {α : Type} (g : Item → α → Item) (hg : ∀ r a, shape (g r a) = shape r)
    (l : List α) (r : Item) : shape (l.foldl g r) = shape r := by
  induction l generalizing r with
  | nil => rfl
  | cons a l ih => simp [List.foldl, ih, hg]

theorem shape_setIsVisibleFuel (fuel : Nat) (root : Item) (p : List Nat) (is : Bool) :
    shape (setIsVisibleFuel fuel root p is) = shape root := by
  induction fuel generalizing root p with
  | zero =>
    unfold setIsVisibleFuel
    split
    · rfl
    · split
      · rfl
      · exact shape_setLeafVisibleAt _ _ _
  | succ n ih =>
    unfold setIsVisibleFuel
    split
    · rfl
    · split
      · exact shape_foldl _ (fun r k => ih r _) _ _
      · exact shape_setLeafVisibleAt _ _ _

@[simp] theorem shape_setIsVisibleAt (root : Item) (p : List Nat) (is : Bool) :
    shape (setIsVisibleAt root p is) = shape root := by
  unfold setIsVisibleAt
  split
  · rfl
  · exact shape_setIsVisibleFuel _ _ _ _

theorem shape_restorePlaceholder (root : Item) (p : List Nat) (idx : Nat) :
    shape (restorePlaceholder root p idx) = shape root := by
  unfold restorePlaceholder
  simp only []
  rw [shape_modifyAt, shape_setIsVisibleAt]
  intro c
  split
  · rfl
  · split
    · rfl
    · simp only [shape_growItem]
      apply shape_setChildren
      apply map_shape_modify
      intro i
      simp

theorem shape_hideOrphan (root : Item) (q : List Nat) (item : Item) :
    shape (hideOrphan root q item).1 = shape root := by
  unfold hideOrphan
  split
  · simp only []
    split
    · exact shape_propagateMinSize _ _
    · split
      · exact shape_propagateMinSize _ _
      · split
        · exact shape_propagateMinSize _ _
        · split
          · exact shape_propagateMinSize _ _
          · simp only []
            rw [shape_modifyAt _ (fun i => shape_growItem i _ _), shape_propagateMinSize]
  · rfl

@[simp] theorem name_setConnected (i : Item) (b : Bool) : (i.setConnected b).name = i.name := by
  cases i <;> rfl

@[simp] theorem name_leaf (n : Nat) (s : SizingInfo) (v : Bool) (w : Option Nat) (r : Nat) :
    (Item.leaf n s v w r).name = n := rfl

@[simp] theorem name_container (n : Nat) (s : SizingInfo) (o : Orientation) (cs : List Item)
    (rs b k : Bool) : (Item.container n s o cs rs b k).name = n := rfl

theorem shape_leaf (n : Nat) (s : SizingInfo) (v : Bool) (w : Option Nat) (r : Nat) :
    shape (.leaf n s v w r) = .leaf n defaultSizingInfo false none 0 := by
  simp [shape]

/-! ### The write of `checkSanity` changes percentages only -/

theorem erasePercentagesList_eq_map (cs : List Item) :
    erasePercentagesList cs = cs.map erasePercentages := by
  induction cs with
  | nil => rfl
  | cons c cs ih => simp [erasePercentagesList, ih]

theorem erasePercentages_container (n : Nat) (s : SizingInfo) (o : Orientation) (cs : List Item)
    (rs b k : Bool) :
    erasePercentages (.container n s o cs rs b k)
      = .container n { s with percentageWithinParent := Percentage.zero } o
          (cs.map erasePercentages) rs b k := by
  simp [erasePercentages, erasePercentagesList_eq_map]

theorem erasePercentages_setPercentage (i : Item) (s : SizingInfo) (q : Percentage) :
    erasePercentages (i.setSizingInfo { s with percentageWithinParent := q })
      = erasePercentages (i.setSizingInfo s) := by
  cases i <;> simp [setSizingInfo, erasePercentages]

theorem erasePercentages_updateChildPercentages (c : Item) :
    erasePercentages (updateChildPercentages c) = erasePercentages c := by
  unfold updateChildPercentages
  split
  · rfl
  · cases c with
    | leaf n s v w r => rfl
    | container n s o cs rs b k =>
      simp only [setChildren, m_children, erasePercentages_container, List.map_map]
      congr 1
      apply List.map_congr_left
      intro i _
      simp only [Function.comp]
      split
      · rw [erasePercentages_setPercentage]
        cases i <;> rfl
      · rw [erasePercentages_setPercentage]
        cases i <;> rfl

mutual
theorem erasePercentages_checkSanityEffect : ∀ (isRoot : Bool) (X : Item),
    erasePercentages (checkSanityEffect isRoot X) = erasePercentages X
  | _, .leaf .. => rfl
  | isRoot, .container n s o cs rs b k => by
    have hcs := map_erasePercentages_checkChildrenEffect
      (Item.container n s o cs rs b k).rect o
      (Layouting.length (Item.container n s o cs rs b k).size (oppositeOrientation o)) cs
    have h1 : erasePercentages (Item.container n s o
        (checkChildrenEffect (Item.container n s o cs rs b k).rect o
          (Layouting.length (Item.container n s o cs rs b k).size (oppositeOrientation o)) cs)
        rs b k) = erasePercentages (Item.container n s o cs rs b k) := by
      rw [erasePercentages_container, erasePercentages_container, hcs]
    unfold checkSanityEffect
    simp only []
    split
    · rfl
    · split
      · rfl
      · split
        · rfl
        · split
          · exact h1
          · split
            · split
              · exact h1
              · split
                · rw [erasePercentages_updateChildPercentages]
                  exact h1
                · exact h1
            · exact h1
theorem map_erasePercentages_checkChildrenEffect : ∀ (rect : QRect) (o : Orientation)
    (h1 : Int) (cs : List Item),
    (checkChildrenEffect rect o h1 cs).map erasePercentages = cs.map erasePercentages
  | _, _, _, [] => rfl
  | rect, o, h1, item :: rest => by
    have hi := erasePercentages_checkSanityEffect false item
    have hr := map_erasePercentages_checkChildrenEffect rect o h1 rest
    unfold checkChildrenEffect
    split
    · rfl
    · split
      · rfl
      · split
        · simp only [List.map_cons, hi]
        · simp only [List.map_cons, hi, hr]
end

mutual
theorem shape_erasePercentages : ∀ (X : Item), shape (erasePercentages X) = shape X
  | .leaf .. => rfl
  | .container n s o cs rs b k => by
    have := shapeList_erasePercentagesList cs
    simp only [erasePercentages, shape, this]
theorem shapeList_erasePercentagesList : ∀ (cs : List Item),
    shapeList (erasePercentagesList cs) = shapeList cs
  | [] => rfl
  | c :: cs => by
    have h1 := shape_erasePercentages c
    have h2 := shapeList_erasePercentagesList cs
    simp only [erasePercentagesList, shapeList, h1, h2]
end

theorem shape_eq_of_erasePercentages {X Y : Item}
    (h : erasePercentages X = erasePercentages Y) : shape X = shape Y := by
  rw [← shape_erasePercentages X, h, shape_erasePercentages]

theorem shape_checkSanityEffect (isRoot : Bool) (X : Item) :
    shape (checkSanityEffect isRoot X) = shape X :=
  shape_eq_of_erasePercentages (erasePercentages_checkSanityEffect isRoot X)

theorem shape_checkSanityAt (root : Item) (p : List Nat) :
    shape (checkSanityAt root p) = shape root :=
  shape_modifyAt _ (shape_checkSanityEffect _) root p

theorem shape_checkSanityOfAnchor (anchor : Option Item) (root : Item) (p : List Nat) :
    shape (checkSanityOfAnchor anchor root p) = shape root := by
  unfold checkSanityOfAnchor
  split
  · exact shape_checkSanityAt _ _
  · rfl

theorem checkSanityOfAnchor_leaf (n : Nat) (s : SizingInfo) (v : Bool) (w : Option Nat) (r : Nat)
    (root : Item) (p : List Nat) :
    checkSanityOfAnchor (some (.leaf n s v w r)) root p = root := rfl

/-- The overload `insertItem(item, loc)` of a root that has the orientation of
`loc` (or at most one child) and does not hold `item`. -/
theorem containerInsertItemFuel_fitting (fuel n : Nat) (s : SizingInfo) (o : Orientation)
    (cs : List Item) (rs b k : Bool) (x : Item) (loc : Location) (w : Nat)
    (hfind : cs.findIdx? (fun i => i.name == x.name) = none)
    (hor : (Item.container n s o cs rs b k).hasOrientationFor loc = true) :
    containerInsertItemFuel (fuel + 1) (.container n s o cs rs b k) [] x loc none w
      = checkSanityEffect true (updateChildPercentages
          (insertChildAt
            (if cs.length == 1 then .container n s (orientationForLocation loc) cs rs b k
             else .container n s o cs rs b k) []
            (setIsVisibleAt x [] false) (if locationIsSide1 loc then 0 else cs.length)
            true false)) := by
  rw [containerInsertItemFuel]
  simp only [getAt, m_children, hfind, hor, if_true, modifyAt, checkSanityAt, List.isEmpty_nil,
    setOrientation]

theorem shape_insert_item_into_single (fuel n : Nat) (s : SizingInfo) (o : Orientation)
    (W : Item) (rs b k : Bool) (x : Item) (loc : Location) (w : Nat)
    (hname : W.name ≠ x.name) :
    shape (containerInsertItemFuel (fuel + 1) (.container n s o [W] rs b k) [] x loc none w)
      = .container n defaultSizingInfo (orientationForLocation loc)
          (if locationIsSide1 loc then [shape x, shape W] else [shape W, shape x])
          false false false := by
  simp only [containerInsertItemFuel, getAt, m_children, List.findIdx?_cons, hname,
    beq_iff_eq, if_false, List.findIdx?_nil, hasOrientationFor, List.length_singleton,
    le_refl, if_true, modifyAt, insertChildAt]
  rw [shape_checkSanityAt, shape_updateChildPercentages, shape_restorePlaceholder]
  cases hside : locationIsSide1 loc <;>
    simp [setOrientation, setChildren, insertAt, shape_container, shape_setConnected]

theorem shape_insert_into_single (fuel n : Nat) (s : SizingInfo) (o : Orientation) (W : Item)
    (rs b k : Bool) (x : Item) (xn : Nat) (loc : Location) (w : Nat)
    (hshape : shape x = .leaf xn defaultSizingInfo false none 0) (hxn : x.name = xn)
    (hname : W.name ≠ xn) :
    shape (containerInsertItemFuel (fuel + 1) (.container n s o [W] rs b k) [] x loc none w)
      = .container n defaultSizingInfo (orientationForLocation loc)
          (if locationIsSide1 loc then [.leaf xn defaultSizingInfo false none 0, shape W]
           else [shape W, .leaf xn defaultSizingInfo false none 0]) false false false := by
  rw [shape_insert_item_into_single fuel n s o W rs b k x loc w (by rw [hxn]; exact hname),
    hshape]

theorem name_shape (i : Item) : (shape i).name = i.name := by
  cases i <;> simp [shape]

theorem exists_of_shape_container {r : Item} {n : Nat} {d : SizingInfo} {o : Orientation}
    {shs : List Item} {f1 f2 f3 : Bool} (h : shape r = .container n d o shs f1 f2 f3) :
    ∃ s cs rs b k, r = .container n s o cs rs b k ∧ cs.map shape = shs := by
  cases r with
  | leaf => simp [shape] at h
  | container n' s' o' cs' rs' b' k' =>
    rw [shape_container] at h
    injection h with h1 _ h3 h4
    exact ⟨s', cs', rs', b', k', by rw [h1, h3], h4⟩

theorem map_name_of_map_shape {as bs : List Item} (h : as.map shape = bs.map shape) :
    as.map name = bs.map name := by
  have h2 := congrArg (List.map name) h
  simpa [List.map_map, Function.comp_def, name_shape] using h2

theorem findIdx?_name_none (cs : List Item) (xn : Nat) (h : ∀ c ∈ cs, c.name ≠ xn) :
    cs.findIdx? (fun i => i.name == xn) = none := by
  rw [List.findIdx?_eq_none_iff]
  intro c hc
  simpa using h c hc

theorem shape_root_wrap_item (n : Nat) (s : SizingInfo) (o : Orientation) (cs : List Item)
    (rs b k : Bool) (x : Item) (loc : Location) (w : Nat)
    (htwo : 2 ≤ cs.length) (hmis : o ≠ orientationForLocation loc)
    (hnew : ∀ c ∈ cs, c.name ≠ x.name) (hw : w ≠ x.name) :
    shape (containerInsertItem (.container n s o cs rs b k) [] x loc none w)
      = .container n defaultSizingInfo (orientationForLocation loc)
          (if locationIsSide1 loc then
            [shape x, .container w defaultSizingInfo o (cs.map shape) false false false]
           else
            [.container w defaultSizingInfo o (cs.map shape) false false false, shape x])
          false false false := by
  have hlen : ¬ cs.length ≤ 1 := by omega
  have hor : (o == orientationForLocation loc) = false := by simpa using hmis
  have hfind := findIdx?_name_none cs x.name hnew
  show shape (containerInsertItemFuel (1 + 1) _ _ _ _ _ _) = _
  rw [containerInsertItemFuel]
  simp only [getAt, m_children, hfind, hasOrientationFor, hlen, if_false, hor,
    Bool.false_eq_true, m_orientation]
  rw [shape_checkSanityAt, shape_modifyAt _ shape_updateChildPercentages]
  generalize hr5 : setIsVisibleAt _ ([] ++ [0]) _ = root5
  have h5 : shape root5 = .container n defaultSizingInfo (oppositeOrientation o)
      [.container w defaultSizingInfo o (cs.map shape) false false false] false false false := by
    rw [← hr5, shape_setIsVisibleAt, shape_modifyAt _ (fun i => shape_setGeometry i _)]
    simp [insertChildAt, getAt, modifyAt, setChildren, setOrientation, insertAt, newContainer,
      shape_container, List.map_map, Function.comp_def, m_children]
  obtain ⟨s5, cs5, rs5, b5, k5, e5, hcs5⟩ := exists_of_shape_container h5
  obtain ⟨W5, rfl⟩ : ∃ W5, cs5 = [W5] := by
    cases cs5 with
    | nil => simp at hcs5
    | cons W5 t =>
      cases t with
      | nil => exact ⟨W5, rfl⟩
      | cons _ _ => simp at hcs5
  have hW5 : shape W5 = .container w defaultSizingInfo o (cs.map shape) false false false := by
    simpa using hcs5
  have hxn : (setIsVisibleAt x [] false).name = x.name := by
    rw [← name_shape, shape_setIsVisibleAt, name_shape]
  have hW5n : W5.name ≠ (setIsVisibleAt x [] false).name := by
    have := congrArg name hW5
    rw [name_shape] at this
    rw [this, hxn]
    exact hw
  rw [e5]
  have hA := shape_insert_item_into_single 0 n s5 (oppositeOrientation o) W5 rs5 b5 k5 _ loc
    (w + 1) hW5n
  rw [hW5, shape_setIsVisibleAt] at hA
  exact hA

theorem shape_root_wrap (n : Nat) (s : SizingInfo) (o : Orientation) (cs : List Item)
    (rs b k : Bool) (xn : Nat) (xs : SizingInfo) (xv : Bool) (xw : Option Nat) (xr : Nat)
    (loc : Location) (w : Nat)
    (htwo : 2 ≤ cs.length) (hmis : o ≠ orientationForLocation loc)
    (hnew : ∀ c ∈ cs, c.name ≠ xn) (hw : w ≠ xn) :
    shape (containerInsertItem (.container n s o cs rs b k) [] (.leaf xn xs xv xw xr) loc none w)
      = .container n defaultSizingInfo (orientationForLocation loc)
          (if locationIsSide1 loc then
            [.leaf xn defaultSizingInfo false none 0,
             .container w defaultSizingInfo o (cs.map shape) false false false]
           else
            [.container w defaultSizingInfo o (cs.map shape) false false false,
             .leaf xn defaultSizingInfo false none 0]) false false false := by
  rw [shape_root_wrap_item n s o cs rs b k (.leaf xn xs xv xw xr) loc w htwo hmis hnew hw,
    shape_leaf]

theorem exists_pair_of_map_shape {l : List Item} {a b : Item} (h : l.map shape = [a, b]) :
    ∃ A B, l = [A, B] ∧ shape A = a ∧ shape B = b := by
  cases l with
  | nil => simp at h
  | cons A t =>
    cases t with
    | nil => simp at h
    | cons B t2 =>
      cases t2 with
      | nil =>
        simp only [List.map_cons, List.map_nil, List.cons.injEq, and_true] at h
        exact ⟨A, B, rfl, h.1, h.2⟩
      | cons _ _ => simp at h

/-! ## Inserting next to a single child and removing again -/

theorem qMin_eq_left (a b : Int) (h : a ≤ b) : qMin a b = a := by
  unfold qMin; split <;> omega

theorem calculateSqueezes_single (o : Orientation) (si : SizingInfo) (needed : Int)
    (hpos : 0 < needed) (hle : needed ≤ si.availableLength o) :
    calculateSqueezes o [si] needed = [needed] := by
  have hneg : qMax 0 (-si.availableLength o) = 0 := by unfold qMax; split <;> omega
  have hne : ¬ needed = 0 := by omega
  have hav : ¬ si.availableLength o = 0 := by omega
  have havpos : 0 < si.availableLength o := by omega
  simp only [calculateSqueezes, List.map_cons, List.map_nil, List.foldl_cons, List.foldl_nil,
    hneg, zero_add, Int.toNat_zero, add_zero, List.length_singleton, List.replicate_one]
  rw [show needed.toNat + 2 = (needed.toNat + 1) + 1 from rfl]
  simp only [calculateSqueezesLoop, hpos, if_true, gt_iff_lt, List.filter_cons, havpos,
    decide_True, List.filter_nil, List.length_singleton, Nat.cast_one, Int.tdiv_one,
    beq_iff_eq, hne, if_false, squeezeRound, hav, qMin_eq_left _ _ hle, sub_self,
    lt_self_iff_false, one_ne_zero, zero_add]

theorem qMax_zero_avail (v : Int) (h : 0 ≤ v) : qMax 0 v = v := by
  unfold qMax; split <;> omega

theorem growDistribute_side2_empty (fuel : Nat) (a1 amount : Int) (hpos : 0 < amount)
    (h1 : a1 ≠ 0) : growDistribute (fuel + 1) a1 0 amount 0 0 = (amount, 0) := by
  simp [growDistribute, hpos, h1]

theorem growDistribute_side1_empty (fuel : Nat) (a2 amount : Int) (hpos : 0 < amount) :
    growDistribute (fuel + 1) 0 a2 amount 0 0 = (0, amount) := by
  simp [growDistribute, hpos]

theorem growItemInSizes_second (o : Orientation) (a x : SizingInfo) (amount : Int)
    (hpos : 0 < amount) (hle : amount ≤ a.availableLength o) :
    growItemInSizes o 1 [a, x] amount
      = [a.setGeometry (adjustedRect a.geometry o 0 (-amount)), x] := by
  have hne : ¬ amount = 0 := by omega
  have hs1 : lengthOnSide [a, x] ((1 : Nat) - 1 : Int) .Side1 o = ⟨a.length o, a.minLength o⟩ := by
    simp [lengthOnSide, lengthOnSideLoop]
  have hs2 : lengthOnSide [a, x] ((1 : Nat) + 1 : Int) .Side2 o = ⟨0, 0⟩ := by
    simp [lengthOnSide]
  have hav : qMax 0 (a.length o - a.minLength o) = a.availableLength o :=
    qMax_zero_avail _ (by unfold SizingInfo.availableLength at hle; omega)
  have h1ne : a.availableLength o ≠ 0 := by omega
  unfold growItemInSizes
  rw [hs1, hs2]
  simp only [beq_iff_eq, hne, if_false, List.length_cons, List.length_nil, zero_add,
    Nat.reduceAdd, Nat.reduceEqDiff, LengthOnSide.available, hav, sub_self,
    qMax_zero_avail 0 (le_refl 0), growDistribute_side2_empty _ _ _ hpos h1ne]
  simp [growItemBySides, hpos, calculateSqueezes_single o a amount hpos hle, applySqueezes]

theorem growItemInSizes_first (o : Orientation) (a x : SizingInfo) (amount : Int)
    (hpos : 0 < amount) (hle : amount ≤ a.availableLength o) :
    growItemInSizes o 0 [x, a] amount
      = [x, a.setGeometry (adjustedRect a.geometry o amount 0)] := by
  have hne : ¬ amount = 0 := by omega
  have hs1 : lengthOnSide [x, a] ((0 : Nat) - 1 : Int) .Side1 o = ⟨0, 0⟩ := by
    simp [lengthOnSide]
  have hs2 : lengthOnSide [x, a] ((0 : Nat) + 1 : Int) .Side2 o
      = ⟨a.length o, a.minLength o⟩ := by
    simp [lengthOnSide, lengthOnSideLoop]
  unfold growItemInSizes
  rw [hs1, hs2]
  simp only [beq_iff_eq, hne, if_false, List.length_cons, List.length_nil, zero_add,
    Nat.reduceAdd, Nat.reduceEqDiff, LengthOnSide.available, sub_self,
    qMax_zero_avail 0 (le_refl 0), growDistribute_side1_empty _ _ _ hpos]
  simp [growItemBySides, hpos, calculateSqueezes_single o a amount hpos hle, applySqueezes]


theorem qBound_of_slack (lo val slack : Int) (h : 0 ≤ slack) :
    qBound lo val (val + slack) = qMax lo val := by
  unfold qBound qMin
  split
  · rfl
  · congr 1; omega

set_option maxHeartbeats 2000000 in
theorem insertItem_single_OnRight (n : Nat) (s : SizingInfo) (o : Orientation) (an : Nat)
    (as : SizingInfo) (aw : Option Nat) (ar : Nat) (k : Bool) (xn : Nat) (xs : SizingInfo)
    (xw : Option Nat) (xr : Nat) (w : Nat)
    (hgeo : as.geometry = ⟨0, 0, s.geometry.width, s.geometry.height⟩)
    (hins : as.isBeingInserted = false)
    (hamin : as.minSize.width ≤ s.geometry.width ∧ as.minSize.height ≤ s.geometry.height)
    (hx0 : 0 ≤ xs.minSize.width ∧ 0 ≤ xs.minSize.height)
    (hcross : xs.minSize.height ≤ s.geometry.height)
    (hfit : qMax xs.minSize.width xs.geometry.width + 5 ≤ s.geometry.width - as.minSize.width) :
    insertItem (.container n s o [.leaf an as true aw ar] false false k) [0]
        (.leaf xn xs false xw xr) .OnRight w
      = .container n s .Horizontal
          [.leaf an { as with
              geometry := ⟨0, 0, s.geometry.width - (qMax xs.minSize.width xs.geometry.width + 5), s.geometry.height⟩
              percentageWithinParent := ⟨s.geometry.width - (qMax xs.minSize.width xs.geometry.width + 5), s.geometry.width - 5⟩ } true aw ar,
           .leaf xn { xs with
              geometry := ⟨s.geometry.width - (qMax xs.minSize.width xs.geometry.width + 5) + 5, xs.geometry.y, qMax xs.minSize.width xs.geometry.width, s.geometry.height⟩
              percentageWithinParent := ⟨qMax xs.minSize.width xs.geometry.width, s.geometry.width - 5⟩
              isBeingInserted := false } true xw xr] false false k := by
  obtain ⟨hw0, hh0⟩ := hx0
  obtain ⟨haw, hah⟩ := hamin
  have hxm : xs.minSize.width ≤ qMax xs.minSize.width xs.geometry.width := by
    unfold qMax; split <;> omega
  have hnl : 0 < qMax xs.minSize.width xs.geometry.width + 5 := by omega
  have e1 : qMax (as.minSize.width + xs.minSize.width + 5 - s.geometry.width) 0 = 0 := by
    unfold qMax; split <;> omega
  have e2 : qMax (qMax (qMax 0 as.minSize.height) xs.minSize.height - s.geometry.height) 0 = 0 := by
    unfold qMax; split <;> split <;> split <;> omega
  have e3 := qBound_of_slack xs.minSize.width xs.geometry.width
    (s.geometry.width - (as.minSize.width + xs.minSize.width + 5)) (by omega)
  have hle : qMax xs.minSize.width xs.geometry.width + 5 ≤ as.availableLength .Horizontal := by
    simp only [SizingInfo.availableLength, SizingInfo.length, SizingInfo.minLength,
      Layouting.length, SizingInfo.size, QRect.size, hgeo]
    exact hfit
  have hg := fun x => growItemInSizes_second .Horizontal as x _ hnl hle
  cases o <;>
  simp [hins, e1, e2, e3, hg, growItem, sizes, refreshMinSizes, applySizes, applySizesWith,
    mapVisible, resize, resizeFuel, positionItemsWith, positionSizes, applyPositionsWith,
    updateChildPercentages, m_blockUpdatePercentages, SizingInfo.setGeometry, adjustedRect,
    QRect.adjust, SizingInfo.setLength, SizingInfo.setPos, oppositeOrientation,
    QRect.setHeight, QRect.setWidth, QRect.moveLeft, QRect.moveTop, SizingInfo.length,
    SizingInfo.size, setPos, QRect.moveTopLeft, QRect.topLeft, hgeo, usableLength,
    containerLength,
    insertItem, checkSanityOfAnchor, getAt, hasOrientationFor, m_children, locationIsSide1,
    indexOfVisibleChild,
    visibleIndexOf, isVisible, orientationForLocation, m_orientation, modifyAt, setOrientation,
    insertChildAt, setConnected, setChildren, insertAt, restorePlaceholder, setIsVisibleAt,
    depth, setIsVisibleFuel, isContainer, setLeafVisibleAt, onChildMinSizeChanged,
    propagateMinSize, missingSize, minSize, minSizeLoop, QSize.sub, QSize.isNull, size,
    QRect.size, m_sizingInfo, adjustChild, numVisibleChildren, visibleChildren, isBeingInserted,
    setBeingInserted, setSizingInfo, separatorThickness, minLength, Item.length, Layouting.length,
    availableLength, availableSize, isVertical, setLength_recursive, setLength_recursiveWith,
    setLength, setSize, setGeometry_eq, QRect.setSize, width, height] <;>
  omega

theorem getAt_append (r : Item) (p q : List Nat) :
    getAt r (p ++ q) = (getAt r p).bind fun c => getAt c q := by
  induction p generalizing r with
  | nil => simp [getAt]
  | cons k ks ih =>
    simp only [List.cons_append, getAt]
    cases h : r.m_children.get? k with
    | none => simp
    | some c => simp [ih]

theorem getAt_singleton (r : Item) (k : Nat) : getAt r [k] = r.m_children.get? k := by
  simp only [getAt]
  cases r.m_children.get? k <;> rfl

theorem getAt_snoc (r : Item) (p : List Nat) (k : Nat) :
    getAt r (p ++ [k]) = (getAt r p).bind fun c => c.m_children.get? k := by
  rw [getAt_append]
  congr 1
  funext c
  exact getAt_singleton c k

theorem m_children_setChildren_of_container (c : Item) (cs : List Item)
    (h : c.isContainer = true) : (c.setChildren cs).m_children = cs := by
  cases c with
  | leaf => simp [isContainer] at h
  | container => rfl

theorem isContainer_of_get? {c x : Item} {k : Nat} (h : c.m_children.get? k = some x) :
    c.isContainer = true := by
  cases c with
  | leaf => simp [m_children] at h
  | container => rfl

theorem getAt_modifyAt (f : Item → Item) (r : Item) (p : List Nat) :
    getAt (modifyAt f r p) p = (getAt r p).map f := by
  induction p generalizing r with
  | nil => simp [getAt, modifyAt]
  | cons k ks ih =>
    simp only [getAt, modifyAt]
    cases h : r.m_children.get? k with
    | none =>
      have hc : (r.setChildren (List.modify (fun c => modifyAt f c ks) k r.m_children)).m_children.get? k
          = none := by
        cases r with
        | leaf => simp [setChildren, m_children]
        | container n s o cs rs b kk =>
          simp only [setChildren, m_children, List.get?_eq_getElem?] at h ⊢
          rw [List.getElem?_modify_eq, h]
          rfl
      rw [hc]
      rfl
    | some c =>
      have hcont := isContainer_of_get? h
      rw [m_children_setChildren_of_container _ _ hcont]
      simp only [List.get?_eq_getElem?] at h ⊢
      rw [List.getElem?_modify_eq, h]
      simp [ih]

theorem modifyAt_append (f : Item → Item) (r : Item) (p q : List Nat) :
    modifyAt f r (p ++ q) = modifyAt (fun c => modifyAt f c q) r p := by
  induction p generalizing r with
  | nil => simp [modifyAt]
  | cons k ks ih =>
    simp only [List.cons_append, modifyAt]
    congr 1
    congr 1
    funext c
    exact ih c

theorem modifyAt_snoc (f : Item → Item) (r : Item) (p : List Nat) (k : Nat) :
    modifyAt f r (p ++ [k])
      = modifyAt (fun c => c.setChildren (c.m_children.modify f k)) r p := by
  rw [modifyAt_append]
  congr 1

theorem setChildren_setChildren (c : Item) (as bs : List Item) :
    (c.setChildren as).setChildren bs = c.setChildren bs := by
  cases c <;> rfl

theorem modifyAt_modifyAt (f g : Item → Item) (r : Item) (p : List Nat) :
    modifyAt g (modifyAt f r p) p = modifyAt (fun c => g (f c)) r p := by
  induction p generalizing r with
  | nil => simp [modifyAt]
  | cons k ks ih =>
    simp only [modifyAt]
    cases r with
    | leaf => simp [setChildren, m_children]
    | container n s o cs rs b kk =>
      simp only [setChildren, m_children]
      rw [List.modify_modify_eq]
      congr 2
      funext c
      exact ih c

/-! ### Own data of a container -/

@[simp] theorem ownData_setChildren (c : Item) (cs : List Item) :
    ownData (c.setChildren cs) = ownData c := by
  cases c <;> rfl

@[simp] theorem ownData_setIsResizing (c : Item) (b : Bool) :
    ownData (c.setIsResizing b) = ownData c := by
  cases c <;> rfl

@[simp] theorem ownData_setOrientation (c : Item) (o : Orientation) :
    ownData (c.setOrientation o) = ownData c := by
  cases c <;> rfl

@[simp] theorem ownData_updateChildPercentages (c : Item) :
    ownData (updateChildPercentages c) = ownData c := by
  unfold updateChildPercentages
  split <;> simp

theorem ownData_erasePercentages (X : Item) :
    ownData (erasePercentages X) = ownData X := by
  cases X <;> rfl

theorem ownData_eq_of_erasePercentages {X Y : Item}
    (h : erasePercentages X = erasePercentages Y) : ownData X = ownData Y := by
  rw [← ownData_erasePercentages X, h, ownData_erasePercentages]

@[simp] theorem ownData_checkSanityEffect (isRoot : Bool) (X : Item) :
    ownData (checkSanityEffect isRoot X) = ownData X :=
  ownData_eq_of_erasePercentages (erasePercentages_checkSanityEffect isRoot X)

@[simp] theorem ownData_refreshMinSizes (c : Item) : ownData c.refreshMinSizes = ownData c := by
  simp [refreshMinSizes]

@[simp] theorem ownData_applySizes (c : Item) (sizes : List SizingInfo) :
    ownData (c.applySizes sizes) = ownData c := by
  simp [applySizes, applySizesWith, positionItemsWith, applyPositionsWith]

@[simp] theorem ownData_growItem (c : Item) (index : Option Nat) (amount : Int) :
    ownData (c.growItem index amount) = ownData c := by
  simp [growItem]

@[simp] theorem ownData_adjustChild (c : Item) (idx : Nat) :
    ownData (adjustChild c idx) = ownData c := by
  unfold adjustChild
  split
  · rfl
  · simp only []
    split
    · simp
    · split
      · rfl
      · split
        · rfl
        · simp

theorem WrapperAt.modify_wrapper {r : Item} {p : List Nat} {idx n : Nat} {wsh : Item}
    {d : QRect × Bool × Bool} (h : WrapperAt r p idx n wsh d) (F : Item → Item) (wsh2 : Item)
    (hF : ∀ W, shape W = wsh → ownData W = d → shape (F W) = wsh2 ∧ ownData (F W) = d) :
    WrapperAt (modifyAt F r (p ++ [idx])) p idx n wsh2 d := by
  obtain ⟨P, W, hP, hn, hW, hs, ho⟩ := h
  have hc := isContainer_of_get? hW
  refine ⟨P.setChildren (P.m_children.modify F idx), F W, ?_, ?_, ?_, (hF W hs ho).1,
    (hF W hs ho).2⟩
  · rw [modifyAt_snoc, getAt_modifyAt, hP]
    rfl
  · rw [m_children_setChildren_of_container _ _ hc, List.length_modify, hn]
  · rw [m_children_setChildren_of_container _ _ hc]
    simp only [List.get?_eq_getElem?] at hW ⊢
    rw [List.getElem?_modify_eq, hW]
    rfl

theorem WrapperAt.getAt_wrapper {r : Item} {p : List Nat} {idx n : Nat} {wsh : Item}
    {d : QRect × Bool × Bool} (h : WrapperAt r p idx n wsh d) :
    ∃ W, getAt r (p ++ [idx]) = some W ∧ shape W = wsh ∧ ownData W = d := by
  obtain ⟨P, W, hP, _, hW, hs, ho⟩ := h
  exact ⟨W, by rw [getAt_snoc, hP]; exact hW, hs, ho⟩

/-! ### Operations below an unconnected container -/

theorem isContainer_shape (i : Item) : (shape i).isContainer = i.isContainer := by
  cases i <;> simp [shape, isContainer]

theorem m_children_shape (i : Item) : (shape i).m_children = i.m_children.map shape := by
  cases i with
  | leaf => simp [shape, m_children]
  | container => simp [shape_container, m_children]

theorem m_orientation_shape (i : Item) : (shape i).m_orientation = i.m_orientation := by
  cases i <;> simp [shape, m_orientation]

theorem WrapperAt.modify_below {r : Item} {p : List Nat} {idx n : Nat} {wsh : Item}
    {d : QRect × Bool × Bool} (h : WrapperAt r p idx n wsh d) (f : Item → Item) (q : List Nat)
    (hf : ∀ i, shape (f i) = shape i) (hown : q = [] → ∀ i, ownData (f i) = ownData i) :
    WrapperAt (modifyAt f r (p ++ [idx] ++ q)) p idx n wsh d := by
  rw [modifyAt_append]
  apply h.modify_wrapper
  intro W hs ho
  constructor
  · rw [shape_modifyAt f hf, hs]
  · cases q with
    | nil => simpa [modifyAt, hown rfl] using ho
    | cons k ks => simpa [modifyAt] using ho

theorem WrapperAt.propagate_step {p : List Nat} {idx n : Nat} {wsh : Item}
    {d : QRect × Bool × Bool} (up : List Nat) (k : Nat) (qr : List Nat)
    (hup : up.reverse = p ++ [idx] ++ qr)
    (ih : ∀ r, WrapperAt r p idx n wsh d → WrapperAt (Item.propagateMinSize r up) p idx n wsh d)
    (r : Item) (h : WrapperAt r p idx n wsh d) :
    WrapperAt (Item.propagateMinSize r (k :: up)) p idx n wsh d := by
  simp only [Item.propagateMinSize, List.reverse_cons, hup,
    List.append_assoc (p ++ [idx]) qr [k]]
  split
  · exact h
  · split
    · apply WrapperAt.modify_below _ _ _ (fun i => shape_setIsResizing i _) (by simp)
      have h1 := h.modify_below (fun i => i.setIsResizing true) (qr ++ [k])
        (fun i => shape_setIsResizing i _) (by simp)
      split
      · exact (ih _ h1).modify_below _ qr (fun i => shape_adjustChild i k)
          (fun _ i => ownData_adjustChild i k)
      · exact h1
    · exact h

/-- The first half of `onChildMinSizeChanged` of a container at or below the
unconnected container `W`: the signal stops at `W`, whose own data stay. The
list `q` is the reversed path from `W` down to the container. -/
theorem WrapperAt.propagate_below {p : List Nat} {idx n : Nat} {wsh : Item}
    {g : QRect} {bi : Bool} (q : List Nat) : ∀ (r : Item),
    WrapperAt r p idx n wsh (g, bi, false) →
    WrapperAt (Item.propagateMinSize r (q ++ idx :: p.reverse)) p idx n wsh (g, bi, false) := by
  induction q with
  | nil =>
    intro r h
    obtain ⟨W, hW, hs, ho⟩ := h.getAt_wrapper
    have hconn : W.m_connected = false := by
      have := congrArg (fun t => t.2.2) ho
      simpa [ownData] using this
    simp only [List.nil_append, Item.propagateMinSize, List.reverse_cons, List.reverse_reverse,
      hW]
    split
    · simp only [hconn, Bool.false_eq_true, if_false]
      rw [modifyAt_modifyAt]
      apply h.modify_wrapper
      intro W2 hs2 ho2
      simp [hs2, ho2]
    · exact h
  | cons k q ih =>
    intro r h
    exact WrapperAt.propagate_step (q ++ idx :: p.reverse) k q.reverse (by simp) ih r h

theorem WrapperAt.setLeafVisibleAt_below {r : Item} {p : List Nat} {idx n : Nat} {wsh : Item}
    {g : QRect} {bi : Bool} (h : WrapperAt r p idx n wsh (g, bi, false)) (q : List Nat)
    (k : Nat) (is : Bool) :
    WrapperAt (Item.setLeafVisibleAt r (p ++ [idx] ++ (q ++ [k])) is) p idx n wsh
      (g, bi, false) := by
  have hleaf : ∀ i : Item, shape (match i with
      | .leaf n s _ w r => Item.leaf n { s with isBeingInserted := is || s.isBeingInserted } is w r
      | c => c) = shape i := by
    intro i
    cases i <;> simp [shape]
  have hrev : (p ++ [idx] ++ (q ++ [k])).reverse = k :: (q.reverse ++ idx :: p.reverse) := by
    simp
  have hup : (q.reverse ++ idx :: p.reverse).reverse = p ++ [idx] ++ q := by simp
  unfold Item.setLeafVisibleAt
  split
  · exact h
  · split
    · apply WrapperAt.modify_below _ _ _ (fun i => shape_setBeingInserted i _) (by simp)
      have hrev2 : (p ++ [idx] ++ q).reverse = q.reverse ++ idx :: p.reverse := by simp
      simp only [hrev, Item.onChildMinSizeChanged, hup, hrev2]
      have h1 := h.modify_below _ (q ++ [k]) hleaf (by simp)
      have h2 := WrapperAt.propagate_below q.reverse _ h1
      exact h2.modify_below _ q (fun i => shape_adjustChild i k)
        (fun _ i => ownData_adjustChild i k)
    · exact h

theorem WrapperAt.foldl_below {α : Type} {p : List Nat} {idx n : Nat} {wsh : Item}
    {d : QRect × Bool × Bool} (step : Item → α → Item)
    (hstep : ∀ r a, WrapperAt r p idx n wsh d → WrapperAt (step r a) p idx n wsh d)
    (l : List α) : ∀ r, WrapperAt r p idx n wsh d → WrapperAt (l.foldl step r) p idx n wsh d := by
  induction l with
  | nil => exact fun r h => h
  | cons a l ih => exact fun r h => ih _ (hstep r a h)

theorem WrapperAt.setIsVisibleFuel_below {p : List Nat} {idx n : Nat} {wsh : Item}
    {g : QRect} {bi : Bool} (hwsh : wsh.isContainer = true) (is : Bool) (fuel : Nat) :
    ∀ (r : Item) (q : List Nat), WrapperAt r p idx n wsh (g, bi, false) →
    WrapperAt (Item.setIsVisibleFuel fuel r (p ++ [idx] ++ q) is) p idx n wsh (g, bi, false) := by
  have hleafcase : ∀ (r : Item) (q : List Nat) (i : Item),
      WrapperAt r p idx n wsh (g, bi, false) → getAt r (p ++ [idx] ++ q) = some i →
      ¬ i.isContainer = true →
      WrapperAt (Item.setLeafVisibleAt r (p ++ [idx] ++ q) is) p idx n wsh (g, bi, false) := by
    intro r q i h hi hc
    rcases List.eq_nil_or_concat q with hq | ⟨q0, k, hq⟩
    · subst hq
      obtain ⟨W, hW, hs, _⟩ := h.getAt_wrapper
      simp only [List.append_nil, hW, Option.some.injEq] at hi
      subst hi
      rw [← isContainer_shape, hs] at hc
      exact absurd hwsh hc
    · subst hq
      rw [List.concat_eq_append]
      exact h.setLeafVisibleAt_below q0 k is
  induction fuel with
  | zero =>
    intro r q h
    unfold Item.setIsVisibleFuel
    split
    · exact h
    · rename_i i hi
      split
      · exact h
      · rename_i hc
        exact hleafcase r q i h hi hc
  | succ m ih =>
    intro r q h
    unfold Item.setIsVisibleFuel
    split
    · exact h
    · rename_i i hi
      split
      · apply WrapperAt.foldl_below _ _ _ r h
        intro r2 k h2
        have := ih r2 (q ++ [k]) h2
        simpa [List.append_assoc] using this
      · rename_i hc
        exact hleafcase r q i h hi hc

theorem WrapperAt.setIsVisibleAt_below {r : Item} {p : List Nat} {idx n : Nat} {wsh : Item}
    {g : QRect} {bi : Bool} (h : WrapperAt r p idx n wsh (g, bi, false))
    (hwsh : wsh.isContainer = true) (q : List Nat) (is : Bool) :
    WrapperAt (Item.setIsVisibleAt r (p ++ [idx] ++ q) is) p idx n wsh (g, bi, false) := by
  unfold Item.setIsVisibleAt
  split
  · exact h
  · exact WrapperAt.setIsVisibleFuel_below hwsh is _ r q h

theorem WrapperAt.restorePlaceholder {r : Item} {p : List Nat} {idx n : Nat} {wsh : Item}
    {g : QRect} {bi : Bool} (h : WrapperAt r p idx n wsh (g, bi, false))
    (hwsh : wsh.isContainer = true) (j : Nat) :
    WrapperAt (Item.restorePlaceholder r (p ++ [idx]) j) p idx n wsh (g, bi, false) := by
  unfold Item.restorePlaceholder
  simp only []
  apply (h.setIsVisibleAt_below hwsh [j] true).modify_wrapper
  intro W hs ho
  split
  · exact ⟨hs, ho⟩
  · split
    · exact ⟨hs, ho⟩
    · constructor
      · rw [shape_growItem, shape_setChildren _ _ (map_shape_modify _
          (fun i => shape_setLength_recursive i _ _) _ _), hs]
      · simp [ho]

theorem shape_setChildren_map (c : Item) (cs : List Item) :
    shape (c.setChildren cs) = (shape c).setChildren (cs.map shape) := by
  cases c with
  | leaf => simp [setChildren, shape]
  | container => simp [setChildren, shape_container]

theorem map_insertAt (f : Item → Item) (cs : List Item) (index : Nat) (x : Item) :
    (insertAt cs index x).map f = insertAt (cs.map f) index (f x) := by
  simp [insertAt, List.map_take, List.map_drop]

theorem isContainer_setChildren (c : Item) (cs : List Item) :
    (c.setChildren cs).isContainer = c.isContainer := by
  cases c <;> rfl

theorem WrapperAt.insertChildAt {r : Item} {p : List Nat} {idx n : Nat} {wsh : Item}
    {g : QRect} {bi : Bool} (h : WrapperAt r p idx n wsh (g, bi, false))
    (hwsh : wsh.isContainer = true) (item : Item) (index : Nat) :
    WrapperAt (Item.insertChildAt r (p ++ [idx]) item index true false) p idx n
      (wsh.setChildren (insertAt wsh.m_children index (shape item))) (g, bi, false) := by
  obtain ⟨W, hW, hs, ho⟩ := h.getAt_wrapper
  unfold Item.insertChildAt
  simp only [hW, Bool.false_eq_true, if_false, if_true]
  apply WrapperAt.restorePlaceholder
  · apply h.modify_wrapper
    intro W2 hs2 ho2
    constructor
    · rw [shape_setChildren_map, map_insertAt, hs2, shape_setConnected, ← hs2,
        m_children_shape]
    · simp [ho2]
  · rw [isContainer_setChildren]
    exact hwsh

theorem findIdx?_none_of_shape {W wsh : Item} (hs : shape W = wsh) (xn : Nat)
    (hnames : ∀ c ∈ wsh.m_children, c.name ≠ xn) :
    W.m_children.findIdx? (fun i => i.name == xn) = none := by
  apply findIdx?_name_none
  intro c hc
  have hmem : shape c ∈ wsh.m_children := by
    rw [← hs, m_children_shape]
    exact List.mem_map_of_mem shape hc
  rw [← name_shape]
  exact hnames _ hmem

/-- The part of `ItemContainer::insertItem(item, loc)` after the item has been
hidden, for an unconnected container with at most one child, all children being
leaves with other names. -/
theorem WrapperAt.containerInsertItemFuel {r : Item} {p : List Nat} {idx n : Nat}
    {w : Nat} {o : Orientation} {cs : List Item} {g : QRect} {bi : Bool} (fuel : Nat)
    (item : Item) (loc : Location) (owner : Option (List Nat)) (w2 : Nat) (hid : Item × Item)
    (hhid : (match owner with
        | some q => Item.hideOrphan r q item
        | none => (r, Item.setIsVisibleAt item [] false)) = hid)
    (h : WrapperAt r p idx n (.container w defaultSizingInfo o cs false false false)
      (g, bi, false))
    (hH : WrapperAt hid.1 p idx n
      (.container w defaultSizingInfo o cs false false false) (g, bi, false))
    (hlen : cs.length ≤ 1) (hcs : ∀ c ∈ cs, c.name ≠ item.name) :
    WrapperAt (Item.containerInsertItemFuel (fuel + 1) r (p ++ [idx]) item loc owner w2) p idx n
      (.container w defaultSizingInfo (if cs.length = 1 then orientationForLocation loc else o)
        (insertAt cs (if locationIsSide1 loc then 0 else cs.length)
          (shape hid.2)) false false false)
      (g, bi, false) := by
  obtain ⟨W, hW, hs, ho⟩ := h.getAt_wrapper
  obtain ⟨WH, hWH, hsH, hoH⟩ := hH.getAt_wrapper
  have hfind := findIdx?_none_of_shape hs item.name hcs
  have hlenH : WH.m_children.length = cs.length := by
    have := congrArg (fun t => t.m_children.length) hsH
    simp only [m_children_shape] at this
    simpa [m_children] using this
  have horH : WH.m_orientation = o := by
    have := congrArg m_orientation hsH
    rw [m_orientation_shape] at this
    simpa [m_orientation] using this
  have hunf : Item.containerInsertItemFuel (fuel + 1) r (p ++ [idx]) item loc owner w2 =
      Item.checkSanityAt (modifyAt updateChildPercentages
        (Item.insertChildAt (if (cs.length == 1) = true then
            modifyAt (fun i => i.setOrientation (orientationForLocation loc)) hid.1 (p ++ [idx])
          else hid.1) (p ++ [idx]) hid.2
          (if locationIsSide1 loc = true then 0 else cs.length) true false) (p ++ [idx]))
        (p ++ [idx]) := by
    rw [Item.containerInsertItemFuel.eq_def]
    cases owner with
    | none =>
      simp only at hhid
      subst hhid
      have hWW : W = WH := by simpa [hW] using hWH
      subst hWW
      simp only [hW, hfind, hasOrientationFor, hlenH, hlen, if_true, decide_True]
    | some q =>
      simp only at hhid
      subst hhid
      simp only [hW, hfind, hWH, hasOrientationFor, hlenH, hlen, if_true, decide_True]
  rw [hunf]
  unfold Item.checkSanityAt
  refine WrapperAt.modify_wrapper (?_ : WrapperAt _ p idx n (.container w defaultSizingInfo
    (if cs.length = 1 then orientationForLocation loc else o)
    (insertAt cs (if locationIsSide1 loc then 0 else cs.length) (shape hid.2))
      false false false) (g, bi, false)) _ _
    (fun W2 hs2 ho2 => ⟨by rw [shape_checkSanityEffect, hs2],
      by rw [ownData_checkSanityEffect]; exact ho2⟩)
  refine WrapperAt.modify_wrapper (?_ : WrapperAt _ p idx n (.container w defaultSizingInfo
    (if cs.length = 1 then orientationForLocation loc else o)
    (insertAt cs (if locationIsSide1 loc then 0 else cs.length) (shape hid.2))
      false false false) (g, bi, false)) _ _ ?_
  · have hbase : WrapperAt (if (cs.length == 1) = true then
          modifyAt (fun i => i.setOrientation (orientationForLocation loc)) hid.1 (p ++ [idx])
        else hid.1) p idx n
        (.container w defaultSizingInfo (if cs.length = 1 then orientationForLocation loc else o)
          cs false false false) (g, bi, false) := by
      by_cases h1 : cs.length = 1
      · simp only [h1, beq_self_eq_true, if_true]
        apply hH.modify_wrapper
        intro W2 hs2 ho2
        obtain ⟨s2, cs2, rs2, b2, k2, e2, hc2⟩ := exists_of_shape_container hs2
        subst e2
        exact ⟨by simp [setOrientation, shape_container, hc2], by simpa using ho2⟩
      · have : (cs.length == 1) = false := by simpa using h1
        simp only [this, Bool.false_eq_true, if_false, h1]
        exact hH
    have := hbase.insertChildAt rfl hid.2
      (if locationIsSide1 loc = true then 0 else cs.length)
    simpa [setChildren, m_children] using this
  · intro W2 hs2 ho2
    exact ⟨by rw [shape_updateChildPercentages, hs2], by simpa using ho2⟩

/-! ### Children that an operation on their parent leaves alone -/

@[simp] theorem setSizingInfo_self (X : Item) : X.setSizingInfo X.m_sizingInfo = X := by
  cases X <;> rfl

@[simp] theorem setSizingInfo_setSizingInfo (X : Item) (s t : SizingInfo) :
    (X.setSizingInfo s).setSizingInfo t = X.setSizingInfo t := by
  cases X <;> rfl

@[simp] theorem m_sizingInfo_setSizingInfo (X : Item) (s : SizingInfo) :
    (X.setSizingInfo s).m_sizingInfo = s := by
  cases X <;> rfl

@[simp] theorem isVisible_setSizingInfo (X : Item) (s : SizingInfo) :
    (X.setSizingInfo s).isVisible = X.isVisible := by
  cases X <;> simp [setSizingInfo, isVisible]

@[simp] theorem isContainer_setSizingInfo (X : Item) (s : SizingInfo) :
    (X.setSizingInfo s).isContainer = X.isContainer := by
  cases X <;> rfl

@[simp] theorem m_isResizing_setSizingInfo (X : Item) (s : SizingInfo) :
    (X.setSizingInfo s).m_isResizing = X.m_isResizing := by
  cases X <;> rfl

@[simp] theorem m_children_setSizingInfo (X : Item) (s : SizingInfo) :
    (X.setSizingInfo s).m_children = X.m_children := by
  cases X <;> rfl

@[simp] theorem m_children_setIsResizing (X : Item) (b : Bool) :
    (X.setIsResizing b).m_children = X.m_children := by
  cases X <;> rfl

@[simp] theorem m_connected_setSizingInfo (X : Item) (s : SizingInfo) :
    (X.setSizingInfo s).m_connected = X.m_connected := by
  cases X <;> rfl

theorem ChildKept.refl (X : Item) : ChildKept X X :=
  ⟨X.m_sizingInfo, by simp, fun _ => ⟨rfl, rfl⟩⟩

theorem ChildKept.trans {X Y Z : Item} (h1 : ChildKept X Y) (h2 : ChildKept Y Z) :
    ChildKept X Z := by
  obtain ⟨s, rfl, hs⟩ := h1
  obtain ⟨t, rfl, ht⟩ := h2
  refine ⟨t, by simp, fun hv => ?_⟩
  have h := ht (by simpa using hv)
  simp only [m_sizingInfo_setSizingInfo] at h
  exact ⟨h.1.trans (hs hv).1, h.2.trans (hs hv).2⟩

theorem ChildKept.of_visible {X : Item} (hv : X.isVisible = true) (s : SizingInfo) :
    ChildKept X (X.setSizingInfo s) :=
  ⟨s, rfl, fun h => by simp [hv] at h⟩

theorem ChildKept.protects {X Y : Item} (h : ChildKept X Y) (hp : Protected X) :
    Protected Y := by
  obtain ⟨s, rfl, _⟩ := h
  simpa [Protected] using hp

theorem ChildKept.shape_eq {X Y : Item} (h : ChildKept X Y) : shape Y = shape X := by
  obtain ⟨s, rfl, _⟩ := h
  simp

theorem ChildKept.ownData_eq {X Y : Item} (h : ChildKept X Y) (hv : X.isVisible = false) :
    ownData Y = ownData X := by
  obtain ⟨s, rfl, hs⟩ := h
  simp [ownData, (hs hv).1, (hs hv).2]

theorem ChildKept.exists_sizingInfo {X Y : Item} (h : ChildKept X Y) :
    ∃ s, Y = X.setSizingInfo s := by
  obtain ⟨s, hs, _⟩ := h
  exact ⟨s, hs⟩

theorem resize_flagged (X : Item) (sz : QSize) (hc : X.isContainer = true)
    (hr : X.m_isResizing = true) : ∃ s, X.resize sz = X.setSizingInfo s := by
  cases X with
  | leaf => simp [isContainer] at hc
  | container n s o cs rs b k =>
    simp only [m_isResizing] at hr
    subst hr
    simp only [resize, depth, resizeFuel, isContainer, if_true, resizeBody]
    split
    · exact ⟨s, rfl⟩
    · split
      · exact ⟨s, rfl⟩
      · simp only [setSize, setGeometry_eq, setBlockUpdatePercentages, setSizingInfo,
          m_sizingInfo, m_isResizing, if_true]
        exact ⟨_, rfl⟩

theorem setLength_recursive_flagged (X : Item) (l : Int) (o : Orientation)
    (hc : X.isContainer = true) (hr : X.m_isResizing = true) :
    ∃ s, X.setLength_recursive l o = X.setSizingInfo s := by
  simp only [setLength_recursive, setLength_recursiveWith, hc, if_true]
  cases o <;> exact resize_flagged X _ hc hr

theorem mapVisible_get?_kept (f : Nat → Item → Item) (cs : List Item) (k0 k : Nat) (X : Item)
    (hX : cs.get? k = some X)
    (hf : X.isVisible = true → ∀ j, ∃ s, f j X = X.setSizingInfo s) :
    ∃ X2, (mapVisible f k0 cs).get? k = some X2 ∧ ChildKept X X2 := by
  induction cs generalizing k0 k with
  | nil => simp at hX
  | cons c cs ih =>
    cases k with
    | zero =>
      simp only [List.get?_cons_zero, Option.some.injEq] at hX
      subst hX
      simp only [mapVisible]
      by_cases hv : c.isVisible = true
      · obtain ⟨s, hs⟩ := hf hv k0
        simp only [hv, if_true, List.get?_cons_zero, hs]
        exact ⟨_, rfl, ChildKept.of_visible hv s⟩
      · simp only [hv, if_false, List.get?_cons_zero, Bool.false_eq_true]
        exact ⟨_, rfl, ChildKept.refl c⟩
    | succ k =>
      simp only [List.get?_cons_succ] at hX
      simp only [mapVisible]
      split
      · simpa using ih (k0 + 1) k hX
      · simpa using ih k0 k hX

theorem keeps_map (f : Item → Item) (hf : ∀ X, ChildKept X (f X)) (G : Item) (k : Nat)
    (X : Item) (hX : G.m_children.get? k = some X) :
    ∃ X2, (G.setChildren (G.m_children.map f)).m_children.get? k = some X2 ∧
      ChildKept X X2 := by
  rw [m_children_setChildren_of_container _ _ (isContainer_of_get? hX)]
  exact ⟨f X, by simp [List.get?_eq_getElem?] at hX ⊢; exact ⟨X, hX, rfl⟩, hf X⟩

theorem keeps_mapVisible (f : Nat → Item → Item) (G : Item) (k : Nat)
    (X : Item) (hX : G.m_children.get? k = some X)
    (hf : X.isVisible = true → ∀ j, ∃ s, f j X = X.setSizingInfo s) :
    ∃ X2, (G.setChildren (mapVisible f 0 G.m_children)).m_children.get? k = some X2 ∧
      ChildKept X X2 := by
  rw [m_children_setChildren_of_container _ _ (isContainer_of_get? hX)]
  exact mapVisible_get?_kept f _ 0 k X hX hf

theorem Protected.flagged {X : Item} (hp : Protected X) (hv : X.isVisible = true) :
    X.isContainer = true ∧ X.m_isResizing = true := by
  rcases hp with h | h
  · simp [hv] at h
  · exact h

theorem keeps_refreshMinSizes : KeepsChildren refreshMinSizes := by
  intro G k X hX _
  apply keeps_map _ _ G k X hX
  intro Y
  split
  · exact ⟨_, rfl, fun _ => ⟨rfl, rfl⟩⟩
  · exact ChildKept.refl Y

theorem keeps_updateChildPercentages : KeepsChildren updateChildPercentages := by
  intro G k X hX _
  unfold updateChildPercentages
  split
  · exact ⟨X, hX, ChildKept.refl X⟩
  · apply keeps_map _ _ G k X hX
    intro Y
    split
    · exact ⟨_, rfl, fun _ => ⟨rfl, rfl⟩⟩
    · exact ⟨_, rfl, fun _ => ⟨rfl, rfl⟩⟩

theorem keeps_applyPositions (sizes : List SizingInfo) :
    KeepsChildren (fun c => applyPositions c sizes) := by
  intro G k X hX hp
  apply keeps_mapVisible _ G k X hX
  intro hv j
  obtain ⟨hc, hr⟩ := hp.flagged hv
  split
  · exact ⟨_, (setSizingInfo_self X).symm⟩
  · split
    · exact ⟨_, (setSizingInfo_self X).symm⟩
    · obtain ⟨s, hs⟩ := setLength_recursive_flagged X _ _ hc hr
      simp only [setLength_recursive] at hs
      rw [hs, setPos, setGeometry_eq, setSizingInfo_setSizingInfo]
      exact ⟨_, rfl⟩

theorem keeps_positionItems : KeepsChildren positionItems := by
  intro G k X hX hp
  obtain ⟨X1, h1, k1⟩ := keeps_refreshMinSizes G k X hX hp
  obtain ⟨X2, h2, k2⟩ := keeps_applyPositions
    (positionSizes G.refreshMinSizes.m_orientation G.refreshMinSizes.size G.sizes 0)
    _ k X1 h1 (k1.protects hp)
  obtain ⟨X3, h3, k3⟩ := keeps_updateChildPercentages _ k X2 h2 (k2.protects (k1.protects hp))
  exact ⟨X3, h3, k1.trans (k2.trans k3)⟩

theorem keeps_applySizes (sizes : List SizingInfo) :
    KeepsChildren (fun c => applySizes c sizes) := by
  intro G k X hX hp
  have h1 := keeps_mapVisible (fun k item =>
    match sizes.get? k with
    | none => item
    | some sizing => resize item sizing.geometry.size) G k X hX (by
      intro hv j
      obtain ⟨hc, hr⟩ := hp.flagged hv
      simp only []
      split
      · exact ⟨_, (setSizingInfo_self X).symm⟩
      · exact resize_flagged X _ hc hr)
  obtain ⟨X1, h1, k1⟩ := h1
  obtain ⟨X2, h2, k2⟩ := keeps_positionItems _ k X1 h1 (k1.protects hp)
  exact ⟨X2, h2, k1.trans k2⟩

theorem keeps_growItem (index : Option Nat) (amount : Int) :
    KeepsChildren (fun c => growItem c index amount) := by
  intro G k X hX hp
  obtain ⟨X1, h1, k1⟩ := keeps_refreshMinSizes G k X hX hp
  obtain ⟨X2, h2, k2⟩ := keeps_applySizes
    (match index with
      | some j => growItemInSizes G.refreshMinSizes.m_orientation j G.sizes amount
      | none => G.sizes) _ k X1 h1 (k1.protects hp)
  exact ⟨X2, h2, k1.trans k2⟩

theorem adjustChild_flagged (G : Item) (j k : Nat) (X : Item)
    (hX : G.m_children.get? k = some X) (hc : X.isContainer = true)
    (hr : X.m_isResizing = true) :
    ∃ s, (adjustChild G j).m_children.get? k = some (X.setSizingInfo s) := by
  have hself : ∃ s, G.m_children.get? k = some (X.setSizingInfo s) :=
    ⟨X.m_sizingInfo, by simpa using hX⟩
  unfold adjustChild
  split
  · exact hself
  · simp only []
    split
    · rw [m_children_setChildren_of_container _ _ (isContainer_of_get? hX)]
      simp only [List.get?_eq_getElem?] at hX ⊢
      rw [List.getElem?_modify, hX]
      by_cases hjk : j = k
      · simp only [hjk, if_true, Option.map_eq_map, Option.map_some', setGeometry_eq]
        exact ⟨_, rfl⟩
      · simp only [hjk, if_false, Option.map_eq_map, Option.map_some']
        exact ⟨X.m_sizingInfo, by simp⟩
    · split
      · exact hself
      · split
        · exact hself
        · obtain ⟨X2, h2, k2⟩ := keeps_growItem _ _ G k X hX (Or.inr ⟨hc, hr⟩)
          obtain ⟨s, hs⟩ := k2.exists_sizingInfo
          exact ⟨s, by rw [h2, hs]⟩

theorem growRootBy_kept (G : Item) (m : QSize) (k : Nat) (X : Item)
    (hr : G.m_isResizing = true) (hX : G.m_children.get? k = some X) :
    ∃ X2, (growRootBy G m).m_children.get? k = some X2 ∧ ChildKept X X2 := by
  obtain ⟨s, hs⟩ := resize_flagged G (G.size.add m) (isContainer_of_get? hX) hr
  unfold growRootBy
  simp only [hs]
  have hX1 : (G.setSizingInfo s).m_children.get? k = some X := by simpa using hX
  split
  · exact ⟨X, hX1, ChildKept.refl X⟩
  · apply keeps_mapVisible _ _ k X hX1
    intro _ j
    split
    · rw [setGeometry_eq]
      exact ⟨_, rfl⟩
    · exact ⟨_, (setSizingInfo_self X).symm⟩

theorem getAt_shape (r : Item) (p : List Nat) : getAt (shape r) p = (getAt r p).map shape := by
  induction p generalizing r with
  | nil => simp [getAt]
  | cons k ks ih =>
    simp only [getAt, m_children_shape, List.get?_eq_getElem?, List.getElem?_map]
    cases h : r.m_children[k]? with
    | none => simp
    | some c => simpa using ih c

theorem length_children_of_shape {a b : Item} (h : shape a = shape b) :
    a.m_children.length = b.m_children.length := by
  have := congrArg (fun t => t.m_children.length) h
  simpa [m_children_shape] using this

theorem getAt_length_of_shape {r r2 : Item} (hs : shape r2 = shape r) {p : List Nat}
    {P P2 : Item} (hP : getAt r p = some P) (hP2 : getAt r2 p = some P2) :
    P2.m_children.length = P.m_children.length := by
  apply length_children_of_shape
  have h1 := getAt_shape r p
  have h2 := getAt_shape r2 p
  rw [hs, h1, hP, hP2] at h2
  simpa using h2.symm

/-- The first half of `onChildMinSizeChanged` of the container at the reversed
path `up` changes a child of that container only in its `SizingInfo`, and not at
all when the child is not visible. -/
theorem propagateMinSize_child (up : List Nat) : ∀ (root : Item) (k : Nat) (X : Item),
    getAt root (up.reverse ++ [k]) = some X →
    ∃ X2, getAt (propagateMinSize root up) (up.reverse ++ [k]) = some X2 ∧ ChildKept X X2 := by
  induction up with
  | nil =>
    intro root k X hX
    simp only [List.reverse_nil, List.nil_append, getAt_singleton] at hX ⊢
    simp only [propagateMinSize]
    split
    · have hc := isContainer_of_get? hX
      have hflag : (root.setIsResizing true).m_isResizing = true := by
        cases root with
        | leaf => simp [isContainer] at hc
        | container => rfl
      obtain ⟨X2, h2, k2⟩ := growRootBy_kept (root.setIsResizing true) root.missingSize k X
        hflag (by simpa using hX)
      exact ⟨X2, by simpa using h2, k2⟩
    · exact ⟨X, hX, ChildKept.refl X⟩
  | cons k1 up ih =>
    intro root k X hX
    simp only [List.reverse_cons] at hX ⊢
    rw [getAt_snoc] at hX
    cases hQ : getAt root (up.reverse ++ [k1]) with
    | none => simp [hQ] at hX
    | some Q =>
      simp only [hQ, Option.some_bind] at hX
      have hQc := isContainer_of_get? hX
      simp only [propagateMinSize, List.reverse_cons, hQ]
      split
      · refine ⟨X, ?_, ChildKept.refl X⟩
        rw [getAt_snoc]
        have hQ1 : getAt (modifyAt (fun i => i.setIsResizing true) root (up.reverse ++ [k1]))
            (up.reverse ++ [k1]) = some (Q.setIsResizing true) := by
          rw [getAt_modifyAt, hQ]
          rfl
        by_cases hconn : Q.m_connected = true
        · simp only [hconn, if_true]
          obtain ⟨Q2, hQ2, kQ⟩ := ih _ k1 _ hQ1
          obtain ⟨s, hs⟩ := kQ.exists_sizingInfo
          rw [getAt_snoc] at hQ2
          cases hG : getAt (propagateMinSize
              (modifyAt (fun i => i.setIsResizing true) root (up.reverse ++ [k1])) up)
              up.reverse with
          | none => simp [hG] at hQ2
          | some G =>
            simp only [hG, Option.some_bind] at hQ2
            have hflag : Q2.isContainer = true ∧ Q2.m_isResizing = true := by
              rw [hs]
              cases Q with
              | leaf => simp [isContainer] at hQc
              | container => exact ⟨rfl, rfl⟩
            obtain ⟨s2, hs2⟩ := adjustChild_flagged G k1 k1 Q2 hQ2 hflag.1 hflag.2
            rw [getAt_modifyAt, getAt_snoc, getAt_modifyAt, hG]
            simp only [Option.map_some', Option.some_bind, hs2, hs]
            simpa using hX
        · simp only [hconn, if_false, Bool.false_eq_true]
          rw [getAt_modifyAt, hQ1]
          simpa using hX
      · exact ⟨X, by rw [getAt_snoc, hQ]; exact hX, ChildKept.refl X⟩

theorem WrapperAt.of_getAt {r r0 : Item} {p : List Nat} {idx n : Nat} {wsh : Item}
    {d : QRect × Bool × Bool} (h : WrapperAt r0 p idx n wsh d) (hsh : shape r = shape r0)
    (W : Item) (hW : getAt r (p ++ [idx]) = some W) (hs : shape W = wsh) (ho : ownData W = d) :
    WrapperAt r p idx n wsh d := by
  obtain ⟨P0, W0, hP0, hn0, _, _, _⟩ := h
  rw [getAt_snoc] at hW
  cases hP : getAt r p with
  | none => simp [hP] at hW
  | some P =>
    simp only [hP, Option.some_bind] at hW
    exact ⟨P, W, hP, by rw [getAt_length_of_shape hsh hP0 hP, hn0], hW, hs, ho⟩

theorem WrapperAt.propagate_parent {r : Item} {p : List Nat} {idx n : Nat} {wsh : Item}
    {d : QRect × Bool × Bool} (h : WrapperAt r p idx n wsh d)
    (hinv : ∀ W, shape W = wsh → W.isVisible = false) :
    WrapperAt (Item.propagateMinSize r p.reverse) p idx n wsh d := by
  obtain ⟨W, hW, hs, ho⟩ := h.getAt_wrapper
  have := propagateMinSize_child p.reverse r idx W (by simpa using hW)
  obtain ⟨W2, hW2, kW⟩ := this
  simp only [List.reverse_reverse] at hW2
  exact h.of_getAt (shape_propagateMinSize r p.reverse) W2 hW2
    (by rw [kW.shape_eq, hs]) (by rw [kW.ownData_eq (hinv W hs), ho])

theorem WrapperAt.modify_parent {r : Item} {p : List Nat} {idx n : Nat} {wsh : Item}
    {d : QRect × Bool × Bool} (h : WrapperAt r p idx n wsh d) (F : Item → Item)
    (hF : KeepsChildren F) (hsh : ∀ G, shape (F G) = shape G)
    (hinv : ∀ W, shape W = wsh → W.isVisible = false) :
    WrapperAt (modifyAt F r p) p idx n wsh d := by
  obtain ⟨P, W, hP, hn, hW, hs, ho⟩ := h
  obtain ⟨W2, hW2, kW⟩ := hF P idx W hW (Or.inl (hinv W hs))
  refine ⟨F P, W2, by rw [getAt_modifyAt, hP]; rfl, ?_, hW2, by rw [kW.shape_eq, hs],
    by rw [kW.ownData_eq (hinv W hs), ho]⟩
  rw [length_children_of_shape (hsh P), hn]

theorem hideOrphan_fst (r : Item) (p : List Nat) (item : Item) :
    (hideOrphan r p item).1 = r ∨ (hideOrphan r p item).1 = propagateMinSize r p.reverse ∨
    ∃ amount : Item → Int, (hideOrphan r p item).1 =
      modifyAt (fun c => growItem c none (amount c)) (propagateMinSize r p.reverse) p := by
  unfold hideOrphan
  split
  · simp only []
    split
    · exact Or.inr (Or.inl rfl)
    · split
      · exact Or.inr (Or.inl rfl)
      · split
        · exact Or.inr (Or.inl rfl)
        · split
          · exact Or.inr (Or.inl rfl)
          · exact Or.inr (Or.inr ⟨_, rfl⟩)
  · exact Or.inl rfl

theorem WrapperAt.hideOrphan {r : Item} {p : List Nat} {idx n : Nat} {wsh : Item}
    {d : QRect × Bool × Bool} (h : WrapperAt r p idx n wsh d)
    (hinv : ∀ W, shape W = wsh → W.isVisible = false) (item : Item) :
    WrapperAt (Item.hideOrphan r p item).1 p idx n wsh d := by
  have h1 := h.propagate_parent hinv
  rcases hideOrphan_fst r p item with e | e | ⟨amount, e⟩
  · rw [e]
    exact h
  · rw [e]
    exact h1
  · rw [e]
    exact WrapperAt.modify_parent h1 (fun c => growItem c none (amount c))
      (fun G k X hX hp => keeps_growItem none (amount G) G k X hX hp)
      (fun G => shape_growItem G _ _) hinv

theorem updateChildPercentages_child (G : Item) (k : Nat) (X : Item)
    (hX : G.m_children.get? k = some X) :
    ∃ s, (updateChildPercentages G).m_children.get? k = some (X.setSizingInfo s) ∧
      s.geometry = X.m_sizingInfo.geometry ∧
      s.isBeingInserted = X.m_sizingInfo.isBeingInserted := by
  unfold updateChildPercentages
  split
  · exact ⟨X.m_sizingInfo, by simpa using hX, rfl, rfl⟩
  · rw [m_children_setChildren_of_container _ _ (isContainer_of_get? hX)]
    simp only [List.get?_eq_getElem?, List.getElem?_map] at hX ⊢
    rw [hX]
    simp only [Option.map_some']
    split
    · exact ⟨_, rfl, rfl, rfl⟩
    · exact ⟨_, rfl, rfl, rfl⟩

theorem WrapperAt.updateChildPercentages_parent {r : Item} {p : List Nat} {idx n : Nat}
    {wsh : Item} {d : QRect × Bool × Bool} (h : WrapperAt r p idx n wsh d) :
    WrapperAt (modifyAt updateChildPercentages r p) p idx n wsh d := by
  obtain ⟨P, W, hP, hn, hW, hs, ho⟩ := h
  obtain ⟨s, h1, hg, hb⟩ := updateChildPercentages_child P idx W hW
  refine ⟨updateChildPercentages P, _, by rw [getAt_modifyAt, hP]; rfl, ?_, h1,
    by simpa using hs, ?_⟩
  · rw [length_children_of_shape (shape_updateChildPercentages P), hn]
  · rw [← ho]
    simp [ownData, hg, hb]

theorem WrapperAt.modify_wrapper_data {r : Item} {p : List Nat} {idx n : Nat} {wsh : Item}
    {d : QRect × Bool × Bool} (h : WrapperAt r p idx n wsh d) (F : Item → Item) (wsh2 : Item)
    (d2 : QRect × Bool × Bool)
    (hF : ∀ W, shape W = wsh → ownData W = d → shape (F W) = wsh2 ∧ ownData (F W) = d2) :
    WrapperAt (modifyAt F r (p ++ [idx])) p idx n wsh2 d2 := by
  obtain ⟨P, W, hP, hn, hW, hs, ho⟩ := h
  have hc := isContainer_of_get? hW
  refine ⟨P.setChildren (P.m_children.modify F idx), F W, ?_, ?_, ?_, (hF W hs ho).1,
    (hF W hs ho).2⟩
  · rw [modifyAt_snoc, getAt_modifyAt, hP]
    rfl
  · rw [m_children_setChildren_of_container _ _ hc, List.length_modify, hn]
  · rw [m_children_setChildren_of_container _ _ hc]
    simp only [List.get?_eq_getElem?] at hW ⊢
    rw [List.getElem?_modify_eq, hW]
    rfl

theorem shape_hideOrphan_snd (r : Item) (p : List Nat) (item : Item) :
    shape (hideOrphan r p item).2 = shape item := by
  unfold hideOrphan
  split
  · simp only []
    split
    · simp [shape_leaf]
    · split
      · simp [shape_leaf]
      · split
        · simp [shape_leaf]
        · split <;> simp [shape_leaf]
  · rfl

theorem length_insertAt (cs : List Item) (i : Nat) (x : Item) :
    (insertAt cs i x).length = cs.length + 1 := by
  simp only [insertAt, List.length_append, List.length_cons, List.length_take, List.length_drop]
  omega

theorem getElem?_insertAt_self (cs : List Item) (i : Nat) (x : Item) (h : i ≤ cs.length) :
    (insertAt cs i x)[i]? = some x := by
  simp only [insertAt]
  rw [List.getElem?_append_right (by simp [List.length_take])]
  simp [List.length_take, Nat.min_eq_left h]

/-- The structural part of `convertChildToContainer`: the new container takes
the slot of the leaf and gets its geometry. -/
theorem WrapperAt.convert {root : Item} {p : List Nat} {idx : Nat} {P A : Item} (w : Nat)
    (g : QRect) (hP : getAt root p = some P) (hA : P.m_children.get? idx = some A) :
    WrapperAt (modifyAt (fun w0 => w0.setGeometry g)
      (modifyAt (fun c => c.setChildren (c.m_children.eraseIdx (idx + 1)))
        (modifyAt (fun c => c.setChildren (insertAt c.m_children idx (newContainer w))) root p)
        p) (p ++ [idx])) p idx P.m_children.length
      (.container w defaultSizingInfo .Vertical [] false false false) (g, false, false) := by
  have hc := isContainer_of_get? hA
  have hlt : idx < P.m_children.length := by
    simp only [List.get?_eq_getElem?] at hA
    exact (List.getElem?_eq_some_iff.mp hA).1
  have h2 : WrapperAt (modifyAt (fun c => c.setChildren (c.m_children.eraseIdx (idx + 1)))
        (modifyAt (fun c => c.setChildren (insertAt c.m_children idx (newContainer w))) root p)
        p) p idx P.m_children.length
      (.container w defaultSizingInfo .Vertical [] false false false)
      (QRect.null, false, false) := by
    rw [modifyAt_modifyAt]
    refine ⟨_, newContainer w, by rw [getAt_modifyAt, hP]; rfl, ?_, ?_, ?_, ?_⟩
    · simp only [m_children_setChildren_of_container _ _ hc, setChildren_setChildren]
      rw [List.length_eraseIdx, length_insertAt]
      simp [length_insertAt, hlt]
    · simp only [m_children_setChildren_of_container _ _ hc, setChildren_setChildren]
      simp only [List.get?_eq_getElem?]
      rw [List.getElem?_eraseIdx]
      simp only [Nat.lt_succ_self, if_true]
      exact getElem?_insertAt_self _ _ _ (Nat.le_of_lt hlt)
    · simp [newContainer, shape_container]
    · rfl
  apply h2.modify_wrapper_data
  intro W hs ho
  constructor
  · simpa using hs
  · rw [setGeometry_eq]
    simp only [ownData, Prod.mk.injEq] at ho ⊢
    simp [ho.2.1, ho.2.2]

theorem isVisible_of_shape_empty {W : Item} {w : Nat} {o : Orientation}
    (h : shape W = .container w defaultSizingInfo o [] false false false) :
    W.isVisible = false := by
  obtain ⟨s, cs, rs, b, k, rfl, hcs⟩ := exists_of_shape_container h
  simp only [List.map_eq_nil_iff] at hcs
  subst hcs
  simp [isVisible, anyVisible]

/-- Method `convertChildToContainer` for a leaf child `A` of the container at
path `p`: the slot of the leaf holds an unconnected vertical container with the
geometry of the leaf and the leaf as only child. -/
theorem WrapperAt.convertChildToContainer {root : Item} {p : List Nat} {idx : Nat}
    {P A : Item} (w : Nat) (hP : getAt root p = some P)
    (hA : P.m_children.get? idx = some A) :
    WrapperAt (Item.convertChildToContainer root p idx w) p idx P.m_children.length
      (.container w defaultSizingInfo .Vertical [shape A] false false false)
      (A.geometry, false, false) := by
  have hgA : getAt root (p ++ [idx]) = some A := by
    rw [getAt_snoc, hP]
    exact hA
  have h3 := WrapperAt.convert w A.geometry hP hA
  have hinv : ∀ W, shape W = .container w defaultSizingInfo .Vertical [] false false false →
      W.isVisible = false := fun W hW => isVisible_of_shape_empty hW
  unfold Item.convertChildToContainer
  simp only [hgA, Item.insertChildAt, hP, if_true, Bool.false_eq_true, if_false,
    Item.containerInsertItem]
  apply WrapperAt.updateChildPercentages_parent
  have h4 := WrapperAt.containerInsertItemFuel 1 A .OnTop (some p) (w + 1) _ rfl h3
    (h3.hideOrphan hinv A) (by simp) (by simp)
  simpa [insertAt, shape_hideOrphan_snd] using h4

theorem name_setIsVisibleAt (x : Item) (p : List Nat) (is : Bool) :
    (setIsVisibleAt x p is).name = x.name := by
  rw [← name_shape, shape_setIsVisibleAt, name_shape]

/-! ## Resizing does not write the percentages -/

theorem map_mapVisible_of_eq {α : Type} (g : Item → α) (f : Nat → Item → Item)
    (hf : ∀ k i, g (f k i) = g i) (cs : List Item) (k : Nat) :
    (mapVisible f k cs).map g = cs.map g := by
  induction cs generalizing k with
  | nil => rfl
  | cons c cs ih =>
    simp only [mapVisible]
    split <;> simp [hf, ih]

@[simp] theorem m_sizingInfo_setChildren (c : Item) (cs : List Item) :
    (c.setChildren cs).m_sizingInfo = c.m_sizingInfo := by
  cases c <;> rfl

@[simp] theorem m_sizingInfo_setBlock (c : Item) (b : Bool) :
    (c.setBlockUpdatePercentages b).m_sizingInfo = c.m_sizingInfo := by
  cases c <;> rfl

@[simp] theorem m_children_setBlock (c : Item) (b : Bool) :
    (c.setBlockUpdatePercentages b).m_children = c.m_children := by
  cases c <;> rfl

@[simp] theorem m_block_setChildren (c : Item) (cs : List Item) :
    (c.setChildren cs).m_blockUpdatePercentages = c.m_blockUpdatePercentages := by
  cases c <;> rfl

@[simp] theorem m_block_setSizingInfo (c : Item) (s : SizingInfo) :
    (c.setSizingInfo s).m_blockUpdatePercentages = c.m_blockUpdatePercentages := by
  cases c <;> rfl

theorem m_block_setBlock_of_container (c : Item) (b : Bool) (hc : c.isContainer = true) :
    (c.setBlockUpdatePercentages b).m_blockUpdatePercentages = b := by
  cases c with
  | leaf => simp [isContainer] at hc
  | container => rfl

/-- The stored percentage of an item. -/
theorem percentage_setGeometry (i : Item) (r : QRect) :
    (i.setGeometry r).m_sizingInfo.percentageWithinParent
      = i.m_sizingInfo.percentageWithinParent := by
  rw [setGeometry_eq]
  simp

theorem percentage_resizeBody (rz : Item → QSize → Item) (c : Item) (sz : QSize) :
    (resizeBody rz c sz).m_sizingInfo.percentageWithinParent
      = c.m_sizingInfo.percentageWithinParent := by
  have hu : ∀ x : Item, (updateChildPercentages x).m_sizingInfo = x.m_sizingInfo := by
    intro x
    unfold updateChildPercentages
    split <;> simp
  unfold resizeBody
  simp only []
  split
  · simp
  · split
    · simp
    · split
      · simp [setSize, percentage_setGeometry]
      · split <;>
          simp [setSize, percentage_setGeometry, refreshMinSizes, applySizesWith,
            positionItemsWith, applyPositionsWith, hu]

theorem percentage_resizeFuel (fuel : Nat) (i : Item) (sz : QSize) :
    (resizeFuel fuel i sz).m_sizingInfo.percentageWithinParent
      = i.m_sizingInfo.percentageWithinParent := by
  cases fuel with
  | zero =>
    unfold resizeFuel
    split
    · rfl
    · simp [setSize, percentage_setGeometry]
  | succ f =>
    unfold resizeFuel
    split
    · exact percentage_resizeBody _ _ _
    · simp [setSize, percentage_setGeometry]

theorem stored_setChildren (c : Item) (cs : List Item)
    (h : (cs.map fun i => i.m_sizingInfo.percentageWithinParent) = childPercentagesStored c) :
    childPercentagesStored (c.setChildren cs) = childPercentagesStored c := by
  cases c with
  | leaf => rfl
  | container => simpa [childPercentagesStored, setChildren, m_children] using h

theorem stored_refreshMinSizes (c : Item) :
    childPercentagesStored c.refreshMinSizes = childPercentagesStored c := by
  unfold refreshMinSizes
  apply stored_setChildren
  simp only [childPercentagesStored, List.map_map]
  apply List.map_congr_left
  intro i _
  simp only [Function.comp]
  split <;> simp

theorem stored_updateChildPercentages_blocked (c : Item)
    (h : c.m_blockUpdatePercentages = true) : updateChildPercentages c = c := by
  simp [updateChildPercentages, h]

theorem stored_applyPositionsWith (rz : Item → QSize → Item)
    (hrz : ∀ i sz, (rz i sz).m_sizingInfo.percentageWithinParent
      = i.m_sizingInfo.percentageWithinParent) (c : Item) (sizes : List SizingInfo) :
    childPercentagesStored (applyPositionsWith rz c sizes) = childPercentagesStored c := by
  unfold applyPositionsWith
  apply stored_setChildren
  apply map_mapVisible_of_eq
  intro k i
  split
  · rfl
  · split
    · rfl
    · simp only [setPos, percentage_setGeometry, setLength_recursiveWith]
      split
      · split <;> exact hrz _ _
      · cases oppositeOrientation c.m_orientation <;>
          simp [setLength, setSize, percentage_setGeometry]

theorem stored_positionItemsWith (rz : Item → QSize → Item)
    (hrz : ∀ i sz, (rz i sz).m_sizingInfo.percentageWithinParent
      = i.m_sizingInfo.percentageWithinParent) (c : Item)
    (h : c.m_blockUpdatePercentages = true) :
    childPercentagesStored (positionItemsWith rz c) = childPercentagesStored c ∧
      (positionItemsWith rz c).m_blockUpdatePercentages = true := by
  unfold positionItemsWith
  simp only []
  have hb : (applyPositionsWith rz c.refreshMinSizes
      (positionSizes c.refreshMinSizes.m_orientation c.refreshMinSizes.size c.sizes
        0)).m_blockUpdatePercentages = true := by
    simp [applyPositionsWith, refreshMinSizes, h]
  rw [stored_updateChildPercentages_blocked _ hb, stored_applyPositionsWith rz hrz,
    stored_refreshMinSizes]
  exact ⟨rfl, hb⟩

theorem stored_applySizesWith (rz : Item → QSize → Item)
    (hrz : ∀ i sz, (rz i sz).m_sizingInfo.percentageWithinParent
      = i.m_sizingInfo.percentageWithinParent) (c : Item) (sizes : List SizingInfo)
    (h : c.m_blockUpdatePercentages = true) :
    childPercentagesStored (applySizesWith rz c sizes) = childPercentagesStored c ∧
      (applySizesWith rz c sizes).m_blockUpdatePercentages = true := by
  have key : ∀ x : Item, x.m_blockUpdatePercentages = true →
      childPercentagesStored x = childPercentagesStored c →
      childPercentagesStored (positionItemsWith rz x) = childPercentagesStored c ∧
        (positionItemsWith rz x).m_blockUpdatePercentages = true :=
    fun x hx hxe => ⟨(stored_positionItemsWith rz hrz x hx).1.trans hxe,
      (stored_positionItemsWith rz hrz x hx).2⟩
  unfold applySizesWith
  simp only []
  apply key
  · simpa using h
  · apply stored_setChildren
    apply map_mapVisible_of_eq
    intro k i
    split
    · rfl
    · exact hrz _ _

theorem stored_resizeBody (rz : Item → QSize → Item)
    (hrz : ∀ i sz, (rz i sz).m_sizingInfo.percentageWithinParent
      = i.m_sizingInfo.percentageWithinParent) (c : Item) (sz : QSize)
    (hc : c.isContainer = true) :
    childPercentagesStored (resizeBody rz c sz) = childPercentagesStored c := by
  have hset : ∀ (x : Item) (b : Bool),
      childPercentagesStored (x.setBlockUpdatePercentages b) = childPercentagesStored x := by
    intro x b
    simp [childPercentagesStored]
  have hsz : ∀ (x : Item) (s : QSize),
      childPercentagesStored (x.setSize s) = childPercentagesStored x := by
    intro x s
    simp [childPercentagesStored, setSize, setGeometry_eq]
  have hblock : ((c.setBlockUpdatePercentages true).setSize sz).refreshMinSizes.m_blockUpdatePercentages
      = true := by
    simp [refreshMinSizes, setSize, setGeometry_eq, m_block_setBlock_of_container c true hc]
  have hbase : childPercentagesStored
      ((c.setBlockUpdatePercentages true).setSize sz).refreshMinSizes
        = childPercentagesStored c := by
    rw [stored_refreshMinSizes, hsz, hset]
  have key : ∀ (l : List SizingInfo) (b : Bool), childPercentagesStored
      ((positionItemsWith rz (applySizesWith rz
        ((c.setBlockUpdatePercentages true).setSize sz).refreshMinSizes l)).setBlockUpdatePercentages
          b) = childPercentagesStored c := by
    intro l b
    have h3 := stored_applySizesWith rz hrz _ l hblock
    have h4 := stored_positionItemsWith rz hrz _ h3.2
    rw [hset, h4.1, h3.1, hbase]
  unfold resizeBody
  simp only []
  split
  · rw [hset, hset]
  · split
    · rw [hset, hset]
    · split
      · rw [hset, hsz, hset]
      · split
        · rw [hset, hbase]
        · exact key _ _

/-- Virtual `resize(newSize)` leaves the stored percentage of every child as it
is: `m_blockUpdatePercentages` is set for the whole call. -/
theorem stored_resize (c : Item) (sz : QSize) :
    childPercentagesStored (c.resize sz) = childPercentagesStored c := by
  cases c with
  | leaf n s v w r =>
    simp [childPercentagesStored, resize, depth, resizeFuel, isContainer, setSize,
      setGeometry_eq]
  | container n s o cs rs b k =>
    simp only [resize, depth, resizeFuel, isContainer, if_true]
    exact stored_resizeBody _ (fun i sz => percentage_resizeFuel _ i sz) _ sz rfl

/-! ## Soft removal of a visible leaf -/

theorem adjustChild_protected (G : Item) (j k : Nat) (X : Item)
    (hX : G.m_children.get? k = some X) (hp : Protected X) :
    ∃ s, (adjustChild G j).m_children.get? k = some (X.setSizingInfo s) := by
  have hself : ∃ s, G.m_children.get? k = some (X.setSizingInfo s) :=
    ⟨X.m_sizingInfo, by simpa using hX⟩
  unfold adjustChild
  split
  · exact hself
  · simp only []
    split
    · rw [m_children_setChildren_of_container _ _ (isContainer_of_get? hX)]
      simp only [List.get?_eq_getElem?] at hX ⊢
      rw [List.getElem?_modify, hX]
      by_cases hjk : j = k
      · simp only [hjk, if_true, Option.map_eq_map, Option.map_some', setGeometry_eq]
        exact ⟨_, rfl⟩
      · simp only [hjk, if_false, Option.map_eq_map, Option.map_some']
        exact ⟨X.m_sizingInfo, by simp⟩
    · split
      · exact hself
      · split
        · exact hself
        · obtain ⟨X2, h2, k2⟩ := keeps_growItem _ _ G k X hX hp
          obtain ⟨s, hs⟩ := k2.exists_sizingInfo
          exact ⟨s, by rw [h2, hs]⟩

theorem get?_modify_leaf (cs : List Item) (j k : Nat) (X : Item) (geo : QRect)
    (hX : cs.get? k = some X) (hleaf : X.isContainer = false) :
    ∃ s, (cs.modify (fun i => i.setGeometry_recursive geo) j).get? k
      = some (X.setSizingInfo s) := by
  simp only [List.get?_eq_getElem?] at hX ⊢
  rw [List.getElem?_modify, hX]
  by_cases hjk : j = k
  · simp only [hjk, if_true, Option.map_eq_map, Option.map_some', setGeometry_recursive, hleaf,
      Bool.false_eq_true, if_false, setGeometry_eq]
    exact ⟨_, rfl⟩
  · simp only [hjk, if_false, Option.map_eq_map, Option.map_some']
    exact ⟨X.m_sizingInfo, by simp⟩

theorem growNeighbours_leaf (G : Item) (a b : Option Nat) (k : Nat) (X : Item)
    (hX : G.m_children.get? k = some X) (hleaf : X.isContainer = false) :
    ∃ s, (growNeighbours G a b).m_children.get? k = some (X.setSizingInfo s) := by
  have hc := isContainer_of_get? hX
  unfold growNeighbours
  split
  · simp only []
    rw [m_children_setChildren_of_container _ _ hc]
    obtain ⟨s1, h1⟩ := get?_modify_leaf G.m_children (a.getD 0) k X _ hX hleaf
    obtain ⟨s2, h2⟩ := get?_modify_leaf _ (b.getD 0) k _ _ h1 (by simpa using hleaf)
    exact ⟨s2, by rw [h2]; simp⟩
  · simp only []
    rw [m_children_setChildren_of_container _ _ hc]
    exact get?_modify_leaf G.m_children _ k X _ hX hleaf
  · simp only []
    rw [m_children_setChildren_of_container _ _ hc]
    exact get?_modify_leaf G.m_children _ k X _ hX hleaf
  · exact ⟨X.m_sizingInfo, by simpa using hX⟩

theorem shape_growNeighbours (G : Item) (a b : Option Nat) :
    shape (growNeighbours G a b) = shape G := by
  unfold growNeighbours
  split
  · simp only []
    apply shape_setChildren
    rw [map_shape_modify _ (fun i => shape_setGeometry_recursive i _),
      map_shape_modify _ (fun i => shape_setGeometry_recursive i _)]
  · simp only []
    apply shape_setChildren
    rw [map_shape_modify _ (fun i => shape_setGeometry_recursive i _)]
  · simp only []
    apply shape_setChildren
    rw [map_shape_modify _ (fun i => shape_setGeometry_recursive i _)]
  · rfl

theorem getAt_child_modifyAt (F : Item → Item) (r : Item) (p : List Nat) (idx : Nat) :
    getAt (modifyAt F r p) (p ++ [idx])
      = (getAt r p).bind fun G => (F G).m_children.get? idx := by
  rw [getAt_snoc, getAt_modifyAt]
  cases getAt r p <;> rfl

theorem hide_tail (root1 : Item) (p : List Nat) (idx : Nat) (X1 : Item)
    (hinv : X1.isVisible = false) (h1 : getAt root1 (p ++ [idx]) = some X1) :
    ∃ s, getAt (modifyAt (fun i => i.setBeingInserted false)
        (modifyAt (fun c => adjustChild c idx) (propagateMinSize root1 p.reverse) p)
        (p ++ [idx])) (p ++ [idx]) = some (X1.setSizingInfo s) := by
  obtain ⟨X2, h2, k2⟩ := propagateMinSize_child p.reverse root1 idx X1
    (by rw [List.reverse_reverse]; exact h1)
  rw [List.reverse_reverse] at h2
  obtain ⟨s2, hs2⟩ := k2.exists_sizingInfo
  rw [getAt_snoc] at h2
  rw [getAt_modifyAt, getAt_child_modifyAt]
  cases hG : getAt (propagateMinSize root1 p.reverse) p with
  | none => simp [hG] at h2
  | some G =>
    simp only [hG, Option.some_bind] at h2 ⊢
    obtain ⟨s3, hs3⟩ := adjustChild_protected G idx idx X2 h2
      (Or.inl (by rw [hs2]; simpa using hinv))
    rw [hs3, hs2]
    refine ⟨{ s3 with isBeingInserted := false }, ?_⟩
    simp [setBeingInserted]

/-- The leaf that `setIsVisible(false)` has hidden: it is still the child `idx`
of the container at path `p`, hidden, with its name, guest and reference
count. -/
theorem setIsVisibleAt_false_leaf (root : Item) (p : List Nat) (idx : Nat) (n : Nat)
    (s : SizingInfo) (w : Option Nat) (r : Nat)
    (hX : getAt root (p ++ [idx]) = some (.leaf n s true w r)) :
    ∃ s2, getAt (setIsVisibleAt root (p ++ [idx]) false) (p ++ [idx])
      = some (.leaf n s2 false w r) := by
  have hrev : (p ++ [idx]).reverse = idx :: p.reverse := by simp
  have h1 : getAt (modifyAt (fun i =>
      match i with
      | .leaf n s _ w r => Item.leaf n { s with isBeingInserted := false || s.isBeingInserted }
          false w r
      | c => c) root (p ++ [idx])) (p ++ [idx])
      = some (.leaf n { s with isBeingInserted := false || s.isBeingInserted } false w r) := by
    rw [getAt_modifyAt, hX]
    rfl
  obtain ⟨s3, h3⟩ := hide_tail _ p idx _ (by rfl) h1
  unfold setIsVisibleAt
  simp only [hX, depth, setIsVisibleFuel, isContainer, Bool.false_eq_true, if_false,
    setLeafVisibleAt, isVisible, bne_iff_ne, ne_eq, not_false_eq_true, if_true, hrev,
    List.reverse_reverse, onChildMinSizeChanged]
  exact ⟨s3, h3⟩

theorem removeStep_soft_visible_leaf (root : Item) (p : List Nat) (idx : Nat) (P : Item)
    (n : Nat) (s : SizingInfo) (w : Option Nat) (r : Nat)
    (hP : getAt root p = some P) (hleaf : P.m_children.get? idx = some (.leaf n s true w r)) :
    ∃ root2 a b s2, removeStep root p idx false = some (root2, a, b) ∧
      getAt root2 (p ++ [idx]) = some (.leaf n s2 false none r) ∧ shape root2 = shape root := by
  have hX : getAt root (p ++ [idx]) = some (.leaf n s true w r) := by
    rw [getAt_snoc, hP]
    exact hleaf
  obtain ⟨s2, h2⟩ := setIsVisibleAt_false_leaf root p idx n s w r hX
  have hstep : removeStep root p idx false = some (modifyAt (fun i =>
      match i with
      | .leaf n s v _ r => Item.leaf n s v none r
      | other => other) (setIsVisibleAt root (p ++ [idx]) false) (p ++ [idx]),
      P.visibleNeighbourFor idx .Side1, P.visibleNeighbourFor idx .Side2) := by
    simp only [removeStep, hP, hleaf, Bool.false_eq_true, if_false, isContainer, isVisible,
      Bool.not_false, Bool.and_self, if_true]
  refine ⟨_, _, _, s2, hstep, ?_, ?_⟩
  · rw [getAt_modifyAt, h2]
    rfl
  · rw [shape_modifyAt, shape_setIsVisibleAt]
    intro i
    cases i <;> simp [shape]

theorem removeStep_soft_container (root : Item) (p : List Nat) (idx : Nat) (P W : Item)
    (hP : getAt root p = some P) (hW : P.m_children.get? idx = some W)
    (hc : W.isContainer = true) : removeStep root p idx false = none := by
  simp only [removeStep, hP, hW, hc, Bool.false_eq_true, if_false, Bool.not_true,
    Bool.false_and]

theorem removeItemUp_of_removeStep_none (hard : Bool) (root : Item) (up : List Nat) (k : Nat)
    (h : removeStep root up.reverse k hard = none) : removeItemUp hard root up k = root := by
  cases up with
  | nil =>
    simp only [List.reverse_nil] at h
    simp only [removeItemUp, h]
  | cons j up2 => simp only [removeItemUp, h]

theorem removeItemUp_soft_container (root : Item) (up : List Nat) (k : Nat) (W : Item)
    (hW : getAt root (up.reverse ++ [k]) = some W) (hc : W.isContainer = true) :
    removeItemUp false root up k = root := by
  rw [getAt_snoc] at hW
  cases hP : getAt root up.reverse with
  | none => simp [hP] at hW
  | some P =>
    simp only [hP, Option.some_bind] at hW
    exact removeItemUp_of_removeStep_none false root up k
      (removeStep_soft_container root _ k P W hP hW hc)

theorem removeFinish_leaf (root : Item) (p : List Nat) (idx : Nat) (a b : Option Nat) (X : Item)
    (hX : getAt root (p ++ [idx]) = some X) (hleaf : X.isContainer = false) :
    ∃ s, getAt (removeFinish root p a b) (p ++ [idx]) = some (X.setSizingInfo s) := by
  unfold removeFinish
  rw [getAt_child_modifyAt]
  rw [getAt_snoc] at hX
  cases hG : getAt root p with
  | none => simp [hG] at hX
  | some G =>
    simp only [hG, Option.some_bind] at hX ⊢
    obtain ⟨s1, h1⟩ := growNeighbours_leaf G a b idx X hX hleaf
    obtain ⟨s2, h2, _⟩ := updateChildPercentages_child _ idx _ h1
    exact ⟨s2, by rw [h2]; simp⟩

theorem shape_removeFinish (root : Item) (p : List Nat) (a b : Option Nat) :
    shape (removeFinish root p a b) = shape root := by
  unfold removeFinish
  apply shape_modifyAt
  intro i
  rw [shape_updateChildPercentages, shape_growNeighbours]

/-- Soft removal of the visible leaf `idx` of the container at path `p`, as a
fact about the tree: the structure stays and the leaf is hidden without
guest. -/
theorem removeItem_soft_visible_leaf (root : Item) (p : List Nat) (idx : Nat) (P : Item)
    (n : Nat) (s : SizingInfo) (w : Option Nat) (r : Nat)
    (hP : getAt root p = some P) (hleaf : P.m_children.get? idx = some (.leaf n s true w r)) :
    ∃ s2, getAt (removeItem root (p ++ [idx]) false) (p ++ [idx])
        = some (.leaf n s2 false none r) ∧
      shape (removeItem root (p ++ [idx]) false) = shape root := by
  obtain ⟨root2, a, b, s2, hstep, hX2, hsh2⟩ :=
    removeStep_soft_visible_leaf root p idx P n s w r hP hleaf
  have hfin : ∃ s3, getAt (removeFinish root2 p a b) (p ++ [idx])
        = some (.leaf n s3 false none r) ∧
      shape (removeFinish root2 p a b) = shape root := by
    obtain ⟨s3, h3⟩ := removeFinish_leaf root2 p idx a b _ hX2 rfl
    exact ⟨s3, h3, by rw [shape_removeFinish, hsh2]⟩
  have hrev : (p ++ [idx]).reverse = idx :: p.reverse := by simp
  simp only [removeItem, hrev]
  cases hpr : p.reverse with
  | nil =>
    have hp : p = [] := by simpa using hpr
    subst hp
    simp only [removeItemUp, hstep]
    exact hfin
  | cons k up =>
    have hp : p = up.reverse ++ [k] := by
      have := congrArg List.reverse hpr
      simpa using this
    have hpath : (k :: up).reverse = p := by rw [hp]; simp
    simp only [removeItemUp, hpath, hstep]
    rw [getAt_snoc] at hX2
    cases hc : getAt root2 p with
    | none => simp [hc] at hX2
    | some c =>
      simp only [hc, Option.some_bind] at hX2
      simp only [Bool.false_eq_true, false_and, Bool.false_and, Bool.not_false, Bool.true_and,
        Bool.false_or]
      split
      · rw [removeItemUp_soft_container root2 up k c (by rw [← hp]; exact hc)
          (isContainer_of_get? hX2)]
        exact ⟨s2, by rw [getAt_snoc, hc]; exact hX2, hsh2⟩
      · exact hfin

/-! ## Hard removal and empty containers -/

mutual
theorem noEmptyContainer_shape : ∀ i : Item, noEmptyContainer (shape i) = noEmptyContainer i
  | .leaf .. => by simp [shape, noEmptyContainer]
  | .container n s o cs rs b k => by
    simp only [shape, noEmptyContainer, noEmptyContainerList_shape cs]
    cases cs <;> simp [shapeList]
theorem noEmptyContainerList_shape :
    ∀ cs : List Item, noEmptyContainerList (shapeList cs) = noEmptyContainerList cs
  | [] => by simp [shapeList, noEmptyContainerList]
  | c :: cs => by
    simp only [shapeList, noEmptyContainerList, noEmptyContainer_shape c,
      noEmptyContainerList_shape cs]
end

theorem noEmptyNonRootContainer_of_shape {a b : Item} (h : shape a = shape b) :
    noEmptyNonRootContainer a = noEmptyNonRootContainer b := by
  unfold noEmptyNonRootContainer
  rw [← noEmptyContainerList_shape a.m_children, ← noEmptyContainerList_shape b.m_children,
    shapeList_eq_map, shapeList_eq_map, ← m_children_shape, ← m_children_shape, h]

theorem noEmptyContainerList_iff (cs : List Item) :
    noEmptyContainerList cs = true ↔ ∀ c ∈ cs, noEmptyContainer c = true := by
  induction cs with
  | nil => simp [noEmptyContainerList]
  | cons c cs ih => simp [noEmptyContainerList, ih]

theorem noEmptyContainerList_modify (F G : Item → Item) (cs : List Item) (k : Nat)
    (hFG : ∀ c, cs.get? k = some c → noEmptyContainer (F c) = true →
      noEmptyContainer (G c) = true)
    (h : noEmptyContainerList (cs.modify F k) = true) :
    noEmptyContainerList (cs.modify G k) = true := by
  induction cs generalizing k with
  | nil => cases k <;> simpa using h
  | cons c cs ih =>
    cases k with
    | zero =>
      simp only [List.modify_zero_cons, noEmptyContainerList, Bool.and_eq_true] at h ⊢
      exact ⟨hFG c rfl h.1, h.2⟩
    | succ k =>
      simp only [List.modify_succ_cons, noEmptyContainerList, Bool.and_eq_true] at h ⊢
      exact ⟨h.1, ih k (fun c hc => hFG c (by simpa using hc)) h.2⟩

theorem noEmptyContainer_setChildren_modify (F G : Item → Item) (r : Item) (k : Nat)
    (hFG : ∀ c, r.m_children.get? k = some c → noEmptyContainer (F c) = true →
      noEmptyContainer (G c) = true)
    (h : noEmptyContainer (r.setChildren (r.m_children.modify F k)) = true) :
    noEmptyContainer (r.setChildren (r.m_children.modify G k)) = true := by
  cases r with
  | leaf => simp [setChildren, noEmptyContainer]
  | container n s o cs rs b kk =>
    simp only [setChildren, m_children, noEmptyContainer, Bool.and_eq_true, Bool.not_eq_true',
      List.isEmpty_eq_false_iff_exists_mem] at h hFG ⊢
    refine ⟨?_, noEmptyContainerList_modify F G cs k hFG h.2⟩
    have hl : (cs.modify G k).length = (cs.modify F k).length := by simp
    obtain ⟨x, hx⟩ := h.1
    have : 0 < (cs.modify G k).length := by
      rw [hl]
      exact List.length_pos_of_mem hx
    exact ⟨_, List.getElem_mem this⟩

/-- Replacing what `F` puts at path `p` by what `G` puts there keeps the
property, when it does so for the item at `p` itself. -/
theorem noEmptyContainer_modifyAt (F G : Item → Item) (p : List Nat) : ∀ (r c : Item),
    getAt r p = some c →
    (noEmptyContainer (F c) = true → noEmptyContainer (G c) = true) →
    noEmptyContainer (modifyAt F r p) = true → noEmptyContainer (modifyAt G r p) = true := by
  induction p with
  | nil =>
    intro r c hc hFG h
    simp only [getAt, Option.some.injEq] at hc
    subst hc
    exact hFG h
  | cons k ks ih =>
    intro r c hc hFG h
    simp only [modifyAt] at h ⊢
    apply noEmptyContainer_setChildren_modify (fun x => modifyAt F x ks) _ r k _ h
    intro x hx hx2
    have hcx : getAt x ks = some c := by
      simp only [getAt, hx] at hc
      exact hc
    exact ih x c hcx hFG hx2

theorem noEmptyNonRootContainer_modifyAt (F G : Item → Item) (k : Nat) (ks : List Nat)
    (r c : Item) (hc : getAt r (k :: ks) = some c)
    (hFG : noEmptyContainer (F c) = true → noEmptyContainer (G c) = true)
    (h : noEmptyNonRootContainer (modifyAt F r (k :: ks)) = true) :
    noEmptyNonRootContainer (modifyAt G r (k :: ks)) = true := by
  have hr : r.isContainer = true := by
    cases r with
    | leaf => simp [getAt, m_children] at hc
    | container => rfl
  simp only [noEmptyNonRootContainer, modifyAt, m_children_setChildren_of_container _ _ hr]
    at h ⊢
  apply noEmptyContainerList_modify (fun x => modifyAt F x ks) _ _ k _ h
  intro x hx hx2
  have hcx : getAt x ks = some c := by
    simp only [getAt, hx] at hc
    exact hc
  exact noEmptyContainer_modifyAt F G ks x c hcx hFG hx2

theorem noEmptyContainerList_eraseIdx (F : Item → Item) (cs : List Item) (k : Nat)
    (h : noEmptyContainerList (cs.modify F k) = true) :
    noEmptyContainerList (cs.eraseIdx k) = true := by
  induction cs generalizing k with
  | nil => simp [noEmptyContainerList]
  | cons c cs ih =>
    cases k with
    | zero =>
      simp only [List.modify_zero_cons, noEmptyContainerList, Bool.and_eq_true] at h
      simpa using h.2
    | succ k =>
      simp only [List.modify_succ_cons, noEmptyContainerList, Bool.and_eq_true,
        List.eraseIdx_cons_succ] at h ⊢
      exact ⟨h.1, ih k h.2⟩

theorem removeStep_hard (root : Item) (p : List Nat) (idx : Nat) (P X : Item)
    (hP : getAt root p = some P) (hX : P.m_children.get? idx = some X) :
    removeStep root p idx true
      = some (modifyAt (fun c => c.setChildren (c.m_children.eraseIdx idx)) root p,
          shiftAfterRemoval idx (P.visibleNeighbourFor idx .Side1),
          shiftAfterRemoval idx (P.visibleNeighbourFor idx .Side2)) := by
  simp only [removeStep, hP, hX, if_true]

theorem removeStep_none_of_getAt (root : Item) (p : List Nat) (idx : Nat) (hard : Bool)
    (h : getAt root (p ++ [idx]) = none) : removeStep root p idx hard = none := by
  rw [getAt_snoc] at h
  unfold removeStep
  cases hP : getAt root p with
  | none => rfl
  | some P =>
    simp only [hP, Option.some_bind] at h
    simp only [h]

/-- Hard removal of the item at `up.reverse ++ [idx]`, when every non-root
container outside that item has children. -/
theorem removeItemUp_hard_noEmpty (up : List Nat) : ∀ (root : Item) (idx : Nat) (X : Item),
    getAt root (up.reverse ++ [idx]) = some X →
    noEmptyNonRootContainer (modifyAt (fun _ => Item.leaf 0 defaultSizingInfo false none 0)
      root (up.reverse ++ [idx])) = true →
    noEmptyNonRootContainer (removeItemUp true root up idx) = true := by
  induction up with
  | nil =>
    intro root idx X hX h
    simp only [List.reverse_nil, List.nil_append, getAt_singleton] at hX h
    have hc := isContainer_of_get? hX
    simp only [removeItemUp, removeStep_hard root [] idx root X rfl hX]
    rw [noEmptyNonRootContainer_of_shape (shape_removeFinish _ _ _ _)]
    simp only [modifyAt, noEmptyNonRootContainer,
      m_children_setChildren_of_container _ _ hc] at h ⊢
    exact noEmptyContainerList_eraseIdx _ _ _ h
  | cons k up ih =>
    intro root idx X hX h
    simp only [List.reverse_cons] at hX h
    rw [getAt_snoc] at hX
    cases hP : getAt root (up.reverse ++ [k]) with
    | none => simp [hP] at hX
    | some P =>
      simp only [hP, Option.some_bind] at hX
      have hc := isContainer_of_get? hX
      obtain ⟨k0, ks, hpath⟩ : ∃ k0 ks, up.reverse ++ [k] = k0 :: ks := by
        cases hu : up.reverse ++ [k] with
        | nil => simp at hu
        | cons a l => exact ⟨a, l, rfl⟩
      have h1 : getAt (modifyAt (fun c => c.setChildren (c.m_children.eraseIdx idx)) root
          (up.reverse ++ [k])) (up.reverse ++ [k])
          = some (P.setChildren (P.m_children.eraseIdx idx)) := by
        rw [getAt_modifyAt, hP]
        rfl
      rw [modifyAt_append] at h
      simp only [removeItemUp, List.reverse_cons, removeStep_hard root _ idx P X hP hX, h1,
        Bool.true_and, Bool.not_true, Bool.false_and, Bool.or_false]
      split
      · rename_i hempty
        apply ih _ k _ h1
        rw [modifyAt_modifyAt]
        rw [hpath] at h hP ⊢
        exact noEmptyNonRootContainer_modifyAt _ _ k0 ks root P hP
          (fun _ => by simp [noEmptyContainer]) h
      · rename_i hempty
        rw [noEmptyNonRootContainer_of_shape (shape_removeFinish _ _ _ _)]
        rw [hpath] at h hP ⊢
        apply noEmptyNonRootContainer_modifyAt _ _ k0 ks root P hP _ h
        intro hF
        cases P with
        | leaf => simp [isContainer] at hc
        | container n s o cs rs b kk =>
          simp only [setChildren, m_children, isEmpty, modifyAt, noEmptyContainer,
            Bool.and_eq_true, Bool.not_eq_true'] at hF hempty ⊢
          exact ⟨by simpa using hempty, noEmptyContainerList_eraseIdx _ _ _ hF.2⟩

theorem modifyAt_id (r : Item) (p : List Nat) : modifyAt (fun c => c) r p = r := by
  induction p generalizing r with
  | nil => rfl
  | cons k ks ih =>
    simp only [modifyAt]
    have h : (fun c => modifyAt (fun c => c) c ks) = fun c => c := funext fun c => ih c
    rw [h]
    cases r with
    | leaf => rfl
    | container n s o cs rs b kk =>
      simp only [setChildren, m_children]
      congr
      induction cs generalizing k with
      | nil => cases k <;> rfl
      | cons c cs ihc =>
        cases k with
        | zero => rfl
        | succ k => simp [ihc]

theorem eraseIdx_modify_same (f : Item → Item) (cs : List Item) (k : Nat) :
    (cs.modify f k).eraseIdx k = cs.eraseIdx k := by
  induction cs generalizing k with
  | nil => cases k <;> rfl
  | cons c cs ih =>
    cases k with
    | zero => rfl
    | succ k => simp [ih]

/-- Hard removal of a child of a container that is the root or keeps another
child: the container stays at its path and loses exactly this child. -/
theorem removeItemUp_hard_parent (root : Item) (q : List Nat) (k : Nat) (P X : Item)
    (hP : getAt root q = some P) (hX : P.m_children.get? k = some X)
    (hkeep : q = [] ∨ 2 ≤ P.m_children.length) :
    ∃ P2, getAt (removeItemUp true root q.reverse k) q = some P2 ∧
      shape P2 = shape (P.setChildren (P.m_children.eraseIdx k)) := by
  have hc := isContainer_of_get? hX
  have hfin : ∀ a b, ∃ P2, getAt (removeFinish
      (modifyAt (fun c => c.setChildren (c.m_children.eraseIdx k)) root q) q a b) q = some P2 ∧
      shape P2 = shape (P.setChildren (P.m_children.eraseIdx k)) := by
    intro a b
    refine ⟨_, by rw [removeFinish, getAt_modifyAt, getAt_modifyAt, hP]; rfl, ?_⟩
    rw [shape_updateChildPercentages, shape_growNeighbours]
  cases hq : q.reverse with
  | nil =>
    have hq0 : q = [] := by simpa using hq
    subst hq0
    simp only [removeItemUp, removeStep_hard root [] k P X hP hX]
    exact hfin _ _
  | cons j up =>
    have hpath : (j :: up).reverse = q := by
      rw [← hq]
      simp
    have hlen : 2 ≤ P.m_children.length := by
      rcases hkeep with h | h
      · subst h
        simp at hq
      · exact h
    have h1 : getAt (modifyAt (fun c => c.setChildren (c.m_children.eraseIdx k)) root q) q
        = some (P.setChildren (P.m_children.eraseIdx k)) := by
      rw [getAt_modifyAt, hP]
      rfl
    have hne : (P.setChildren (P.m_children.eraseIdx k)).isEmpty = false := by
      simp only [isEmpty, m_children_setChildren_of_container _ _ hc]
      cases he : P.m_children.eraseIdx k with
      | nil =>
        have hk : k < P.m_children.length := by
          simp only [List.get?_eq_getElem?] at hX
          exact (List.getElem?_eq_some_iff.mp hX).1
        have := congrArg List.length he
        rw [List.length_eraseIdx, if_pos hk, List.length_nil] at this
        omega
      | cons a l => rfl
    simp only [removeItemUp, hpath, removeStep_hard root q k P X hP hX, h1, hne,
      Bool.true_and, Bool.not_true, Bool.false_and, Bool.or_false, Bool.false_eq_true, if_false]
    exact hfin _ _

/-! ## What `resize` does to the item itself -/

theorem anyVisible_eq_any (cs : List Item) : anyVisible cs = cs.any isVisible := by
  induction cs with
  | nil => simp [anyVisible]
  | cons c cs ih =>
    simp only [anyVisible, List.any_cons, ih]
    cases c.isVisible <;> simp

theorem any_isVisible_of_map_eq : ∀ (cs ds : List Item),
    cs.map isVisible = ds.map isVisible → cs.any isVisible = ds.any isVisible
  | [], [], _ => rfl
  | [], _ :: _, h => by simp at h
  | _ :: _, [], h => by simp at h
  | c :: cs, d :: ds, h => by
    simp only [List.map_cons, List.cons.injEq] at h
    simp only [List.any_cons, h.1, any_isVisible_of_map_eq cs ds h.2]

theorem isVisible_setChildren (c : Item) (cs : List Item)
    (h : cs.map isVisible = c.m_children.map isVisible) :
    (c.setChildren cs).isVisible = c.isVisible := by
  cases c with
  | leaf => rfl
  | container n s o cs0 rs b k =>
    simp only [setChildren, isVisible, anyVisible_eq_any, m_children] at h ⊢
    exact any_isVisible_of_map_eq _ _ h

@[simp] theorem isVisible_setBlock (c : Item) (b : Bool) :
    (c.setBlockUpdatePercentages b).isVisible = c.isVisible := by
  cases c <;> simp [setBlockUpdatePercentages, isVisible]

@[simp] theorem isVisible_setGeometry (c : Item) (r : QRect) :
    (c.setGeometry r).isVisible = c.isVisible := by
  rw [setGeometry_eq]
  simp

theorem map_isVisible_map (f : Item → Item) (hf : ∀ i, (f i).isVisible = i.isVisible)
    (cs : List Item) : (cs.map f).map isVisible = cs.map isVisible := by
  simp [List.map_map, Function.comp, hf]

theorem isVisible_refreshMinSizes (c : Item) : c.refreshMinSizes.isVisible = c.isVisible := by
  unfold refreshMinSizes
  apply isVisible_setChildren
  apply map_isVisible_map
  intro i
  split <;> simp

theorem isVisible_updateChildPercentages (c : Item) :
    (updateChildPercentages c).isVisible = c.isVisible := by
  unfold updateChildPercentages
  split
  · rfl
  · apply isVisible_setChildren
    apply map_isVisible_map
    intro i
    split <;> simp

theorem isVisible_setLength_recursiveWith (rz : Item → QSize → Item)
    (hrz : ∀ i sz, (rz i sz).isVisible = i.isVisible) (i : Item) (l : Int) (o : Orientation) :
    (setLength_recursiveWith rz i l o).isVisible = i.isVisible := by
  unfold setLength_recursiveWith
  split
  · cases o <;> simp [hrz]
  · cases o <;> simp [setLength, setSize]

theorem isVisible_applyPositionsWith (rz : Item → QSize → Item)
    (hrz : ∀ i sz, (rz i sz).isVisible = i.isVisible) (c : Item) (sizes : List SizingInfo) :
    (applyPositionsWith rz c sizes).isVisible = c.isVisible := by
  unfold applyPositionsWith
  apply isVisible_setChildren
  apply map_mapVisible_of_eq
  intro k i
  split
  · rfl
  · split
    · rfl
    · simp [setPos, isVisible_setLength_recursiveWith rz hrz]

theorem isVisible_positionItemsWith (rz : Item → QSize → Item)
    (hrz : ∀ i sz, (rz i sz).isVisible = i.isVisible) (c : Item) :
    (positionItemsWith rz c).isVisible = c.isVisible := by
  unfold positionItemsWith
  simp only []
  rw [isVisible_updateChildPercentages, isVisible_applyPositionsWith rz hrz,
    isVisible_refreshMinSizes]

theorem isVisible_applySizesWith (rz : Item → QSize → Item)
    (hrz : ∀ i sz, (rz i sz).isVisible = i.isVisible) (c : Item) (sizes : List SizingInfo) :
    (applySizesWith rz c sizes).isVisible = c.isVisible := by
  unfold applySizesWith
  simp only []
  rw [isVisible_positionItemsWith rz hrz]
  apply isVisible_setChildren
  apply map_mapVisible_of_eq
  intro k i
  split
  · rfl
  · exact hrz _ _

theorem isVisible_resizeBody (rz : Item → QSize → Item)
    (hrz : ∀ i sz, (rz i sz).isVisible = i.isVisible) (c : Item) (sz : QSize) :
    (resizeBody rz c sz).isVisible = c.isVisible := by
  unfold resizeBody
  simp only []
  split
  · simp
  · split
    · simp
    · split
      · simp [setSize]
      · split
        · simp [setSize, isVisible_refreshMinSizes]
        · simp [setSize, isVisible_refreshMinSizes, isVisible_positionItemsWith rz hrz,
            isVisible_applySizesWith rz hrz]

theorem isVisible_resizeFuel (fuel : Nat) : ∀ (i : Item) (sz : QSize),
    (resizeFuel fuel i sz).isVisible = i.isVisible := by
  induction fuel with
  | zero =>
    intro i sz
    unfold resizeFuel
    split
    · rfl
    · simp [setSize]
  | succ f ih =>
    intro i sz
    unfold resizeFuel
    split
    · exact isVisible_resizeBody _ ih i sz
    · simp [setSize]

@[simp] theorem m_sizingInfo_updateChildPercentages (c : Item) :
    (updateChildPercentages c).m_sizingInfo = c.m_sizingInfo := by
  unfold updateChildPercentages
  split <;> simp

@[simp] theorem m_sizingInfo_refreshMinSizes (c : Item) :
    c.refreshMinSizes.m_sizingInfo = c.m_sizingInfo := by
  simp [refreshMinSizes]

@[simp] theorem m_sizingInfo_applyPositionsWith (rz : Item → QSize → Item) (c : Item)
    (sizes : List SizingInfo) : (applyPositionsWith rz c sizes).m_sizingInfo = c.m_sizingInfo := by
  simp [applyPositionsWith]

@[simp] theorem m_sizingInfo_positionItemsWith (rz : Item → QSize → Item) (c : Item) :
    (positionItemsWith rz c).m_sizingInfo = c.m_sizingInfo := by
  simp [positionItemsWith]

@[simp] theorem m_sizingInfo_applySizesWith (rz : Item → QSize → Item) (c : Item)
    (sizes : List SizingInfo) : (applySizesWith rz c sizes).m_sizingInfo = c.m_sizingInfo := by
  simp [applySizesWith]

theorem m_sizingInfo_setSize (c : Item) (sz : QSize) :
    (c.setSize sz).m_sizingInfo
      = { c.m_sizingInfo with geometry := c.m_sizingInfo.geometry.setSize sz } := by
  simp [setSize, setGeometry_eq]

/-- The item's own `SizingInfo` after `ItemContainer::resize`: only the size of
the geometry can have changed. -/
theorem m_sizingInfo_resizeBody (rz : Item → QSize → Item) (c : Item) (sz : QSize) :
    (resizeBody rz c sz).m_sizingInfo = c.m_sizingInfo ∨
    (resizeBody rz c sz).m_sizingInfo
      = { c.m_sizingInfo with geometry := c.m_sizingInfo.geometry.setSize sz } := by
  unfold resizeBody
  simp only []
  split
  · exact Or.inl (by simp)
  · split
    · exact Or.inl (by simp)
    · split
      · exact Or.inr (by simp [m_sizingInfo_setSize])
      · split
        · exact Or.inr (by simp [m_sizingInfo_setSize])
        · exact Or.inr (by simp [m_sizingInfo_setSize])

theorem m_sizingInfo_resizeFuel (fuel : Nat) (i : Item) (sz : QSize) :
    (resizeFuel fuel i sz).m_sizingInfo = i.m_sizingInfo ∨
    (resizeFuel fuel i sz).m_sizingInfo
      = { i.m_sizingInfo with geometry := i.m_sizingInfo.geometry.setSize sz } := by
  cases fuel with
  | zero =>
    unfold resizeFuel
    split
    · exact Or.inl rfl
    · exact Or.inr (m_sizingInfo_setSize i sz)
  | succ f =>
    unfold resizeFuel
    split
    · exact m_sizingInfo_resizeBody _ i sz
    · exact Or.inr (m_sizingInfo_setSize i sz)

theorem QRect.setSize_self (g : QRect) (sz : QSize) (hw : g.width = sz.width)
    (hh : g.height = sz.height) : g.setSize sz = g := by
  cases g
  simp only [QRect.setSize] at *
  simp [hw, hh]

/-- An accepted `ItemContainer::resize(newSize)` stores the new size. -/
theorem m_sizingInfo_resizeBody_accepted (rz : Item → QSize → Item) (c : Item) (sz : QSize)
    (hacc : ¬ (sz.width < c.minSize.width ∨ sz.height < c.minSize.height)) :
    (resizeBody rz c sz).m_sizingInfo
      = { c.m_sizingInfo with geometry := c.m_sizingInfo.geometry.setSize sz } := by
  unfold resizeBody
  simp only [minSize_setBlock]
  split
  · rename_i h
    simp only [Bool.or_eq_true, decide_eq_true_eq] at h
    exact absurd h hacc
  · split
    · rename_i h
      simp only [width, height, m_sizingInfo_setBlock, Bool.and_eq_true, Bool.not_eq_true',
        bne_eq_false_iff_eq] at h
      simp only [setBlock_roundtrip]
      rw [QRect.setSize_self _ sz h.1 h.2]
    · split
      · simp [m_sizingInfo_setSize]
      · split
        · simp [m_sizingInfo_setSize]
        · simp [m_sizingInfo_setSize]

theorem m_sizingInfo_resizeFuel_accepted (fuel : Nat) (i : Item) (sz : QSize)
    (hfuel : i.isContainer = true → 1 ≤ fuel)
    (hacc : i.isContainer = true →
      ¬ (sz.width < i.minSize.width ∨ sz.height < i.minSize.height)) :
    (resizeFuel fuel i sz).m_sizingInfo
      = { i.m_sizingInfo with geometry := i.m_sizingInfo.geometry.setSize sz } := by
  cases fuel with
  | zero =>
    unfold resizeFuel
    split
    · rename_i h
      have := hfuel h
      omega
    · exact m_sizingInfo_setSize i sz
  | succ f =>
    unfold resizeFuel
    split
    · rename_i h
      exact m_sizingInfo_resizeBody_accepted _ i sz (hacc h)
    · exact m_sizingInfo_setSize i sz

/-! ## Visible children through the passes of `resize` -/

theorem filter_map_isVisible (f : Item → Item) (hf : ∀ i, (f i).isVisible = i.isVisible)
    (ys : List Item) : (ys.map f).filter isVisible = (ys.filter isVisible).map f := by
  induction ys with
  | nil => rfl
  | cons y ys ih =>
    simp only [List.map_cons, List.filter_cons, hf]
    split <;> simp [ih]

theorem filter_mapVisible_get? (F : Nat → Item → Item)
    (hF : ∀ k i, (F k i).isVisible = i.isVisible) (ys : List Item) (k0 j : Nat) :
    ((mapVisible F k0 ys).filter isVisible).get? j
      = ((ys.filter isVisible).get? j).map (F (k0 + j)) := by
  induction ys generalizing k0 j with
  | nil => simp [mapVisible]
  | cons y ys ih =>
    simp only [mapVisible]
    by_cases hv : y.isVisible = true
    · simp only [hv, if_true, List.filter_cons, hF]
      cases j with
      | zero => simp
      | succ j =>
        simp only [List.get?_cons_succ, ih]
        rw [show k0 + 1 + j = k0 + (j + 1) by omega]
    · simp only [hv, if_false, List.filter_cons, Bool.false_eq_true]
      exact ih k0 j

theorem length_filter_mapVisible (F : Nat → Item → Item)
    (hF : ∀ k i, (F k i).isVisible = i.isVisible) (ys : List Item) (k0 : Nat) :
    ((mapVisible F k0 ys).filter isVisible).length = (ys.filter isVisible).length := by
  induction ys generalizing k0 with
  | nil => simp [mapVisible]
  | cons y ys ih =>
    simp only [mapVisible]
    by_cases hv : y.isVisible = true
    · simp [hv, List.filter_cons, hF, ih]
    · simp [hv, List.filter_cons, ih]

theorem visibleChildren_setChildren (c : Item) (ys : List Item) (hc : c.isContainer = true) :
    (c.setChildren ys).visibleChildren = ys.filter isVisible := by
  simp [visibleChildren, m_children_setChildren_of_container _ _ hc]

/-- The entry of `sizes()` for one visible child. -/
theorem sizes_eq_map (c : Item) : c.sizes = c.visibleChildren.map fun i =>
    if i.isContainer then { i.m_sizingInfo with minSize := i.minSize } else i.m_sizingInfo :=
  rfl

theorem refreshMinSizes_children (c : Item) (hc : c.isContainer = true) :
    c.refreshMinSizes.m_children = c.m_children.map fun i =>
      if i.isVisible && i.isContainer then
        i.setSizingInfo { i.m_sizingInfo with minSize := i.minSize }
      else i := by
  simp [refreshMinSizes, m_children_setChildren_of_container _ _ hc]

/-! ### The lists of `SizingInfo` copies -/

theorem resizeEnforceMin_of_no_missing (o : Orientation) (fuel i : Nat) (sizes : List SizingInfo)
    (h : ∀ s ∈ sizes, s.missingLength o = 0) : resizeEnforceMin o fuel i sizes = sizes := by
  induction fuel generalizing i with
  | zero => rfl
  | succ f ih =>
    unfold resizeEnforceMin
    split
    · rfl
    · rename_i sz hsz
      have hm := h sz (List.get?_mem hsz)
      simp only [hm, beq_self_eq_true, if_true]
      exact ih (i + 1)

theorem positionSizes_length (o : Orientation) (sz : QSize) (sizes : List SizingInfo) (p : Int) :
    (positionSizes o sz sizes p).length = sizes.length := by
  induction sizes generalizing p with
  | nil => rfl
  | cons s rest ih =>
    simp only [positionSizes]
    split <;> simp [ih]

/-- Pass `positionItems(sizes)` keeps every length along the orientation, the
minimum sizes and the `isBeingInserted` flags. -/
theorem positionSizes_get? (o : Orientation) (sz : QSize) (sizes : List SizingInfo) (p : Int)
    (j : Nat) (s : SizingInfo) (h : sizes.get? j = some s) :
    ∃ t, (positionSizes o sz sizes p).get? j = some t ∧ t.length o = s.length o ∧
      t.minSize = s.minSize ∧ t.isBeingInserted = s.isBeingInserted ∧
      (t.length (oppositeOrientation o) = s.length (oppositeOrientation o) ∨
        t.length (oppositeOrientation o) = Layouting.length sz (oppositeOrientation o)) := by
  induction sizes generalizing p j with
  | nil => simp at h
  | cons s0 rest ih =>
    simp only [positionSizes]
    cases j with
    | zero =>
      simp only [List.get?_cons_zero, Option.some.injEq] at h
      subst h
      split
      · exact ⟨_, rfl, rfl, rfl, rfl, Or.inl rfl⟩
      · refine ⟨_, rfl, ?_, ?_, ?_, Or.inr ?_⟩ <;>
          cases o <;>
          simp [SizingInfo.setLength, SizingInfo.setPos, SizingInfo.length, SizingInfo.size,
            oppositeOrientation, Layouting.length, QRect.size, QRect.setWidth, QRect.setHeight,
            QRect.moveTop, QRect.moveLeft]
    | succ j =>
      simp only [List.get?_cons_succ] at h
      split
      · simpa using ih _ j h
      · simpa using ih _ j h

/-! ### One child in `applyPositions` -/

theorem m_sizingInfo_setPos (i : Item) (p : QPoint) :
    (i.setPos p).m_sizingInfo
      = { i.m_sizingInfo with geometry := i.m_sizingInfo.geometry.moveTopLeft p } := by
  simp [setPos, setGeometry_eq]

@[simp] theorem isVisible_setPos (i : Item) (p : QPoint) : (i.setPos p).isVisible = i.isVisible := by
  simp [setPos]

/-- What `applyPositions` does to one child that is not being inserted: the
length along the orientation and the `isBeingInserted` flag are kept, the
cross-axis length is kept or becomes the one of the sizing, the position becomes
the one of the sizing. -/
theorem applyPositions_child (rz : Item → QSize → Item)
    (hs : ∀ i sz, (rz i sz).m_sizingInfo = i.m_sizingInfo ∨
      (rz i sz).m_sizingInfo
        = { i.m_sizingInfo with geometry := i.m_sizingInfo.geometry.setSize sz })
    (Y : Item) (t : SizingInfo) (o : Orientation) :
    ((setLength_recursiveWith rz Y (t.length (oppositeOrientation o))
        (oppositeOrientation o)).setPos t.geometry.topLeft).m_sizingInfo.isBeingInserted
      = Y.m_sizingInfo.isBeingInserted ∧
    ((setLength_recursiveWith rz Y (t.length (oppositeOrientation o))
        (oppositeOrientation o)).setPos t.geometry.topLeft).length o = Y.length o ∧
    (((setLength_recursiveWith rz Y (t.length (oppositeOrientation o))
        (oppositeOrientation o)).setPos t.geometry.topLeft).length (oppositeOrientation o)
        = Y.length (oppositeOrientation o) ∨
      ((setLength_recursiveWith rz Y (t.length (oppositeOrientation o))
        (oppositeOrientation o)).setPos t.geometry.topLeft).length (oppositeOrientation o)
        = t.length (oppositeOrientation o)) ∧
    ((setLength_recursiveWith rz Y (t.length (oppositeOrientation o))
        (oppositeOrientation o)).setPos t.geometry.topLeft).m_sizingInfo.geometry.topLeft
      = t.geometry.topLeft := by
  unfold setLength_recursiveWith
  split
  · cases o
    · simp only [oppositeOrientation]
      rcases hs Y ⟨Y.size.width, t.length .Vertical⟩ with h | h <;>
        simp only [Item.size, QRect.size] at h <;>
        simp [m_sizingInfo_setPos, h, Item.length, Item.size,
          Layouting.length, QRect.moveTopLeft, QRect.size, QRect.setSize, QRect.topLeft]
    · simp only [oppositeOrientation]
      rcases hs Y ⟨t.length .Horizontal, Y.size.height⟩ with h | h <;>
        simp only [Item.size, QRect.size] at h <;>
        simp [m_sizingInfo_setPos, h, Item.length, Item.size,
          Layouting.length, QRect.moveTopLeft, QRect.size, QRect.setSize, QRect.topLeft]
  · cases o <;>
      simp [oppositeOrientation, m_sizingInfo_setPos, Item.setLength, m_sizingInfo_setSize,
        Item.length, Item.size, Item.width, Item.height,
        Layouting.length, QRect.moveTopLeft, QRect.size, QRect.setSize, QRect.topLeft]

theorem positionSizes_pos (o : Orientation) (sz : QSize) (sizes : List SizingInfo) (p : Int)
    (j : Nat) (t : SizingInfo) (hni : ∀ s ∈ sizes, s.isBeingInserted = false)
    (h : (positionSizes o sz sizes p).get? j = some t) :
    Layouting.pos t.geometry.topLeft o
      = p + ((sizes.take j).map fun s => s.length o + separatorThickness).sum := by
  induction sizes generalizing p j with
  | nil => simp [positionSizes] at h
  | cons s0 rest ih =>
    have h0 : s0.isBeingInserted = false := hni s0 (List.mem_cons_self _ _)
    have hrest : ∀ s ∈ rest, s.isBeingInserted = false :=
      fun s hs => hni s (List.mem_cons_of_mem _ hs)
    simp only [positionSizes, h0, Bool.false_eq_true, if_false] at h
    cases j with
    | zero =>
      simp only [List.get?_cons_zero, Option.some.injEq] at h
      subst h
      cases o <;>
        simp [SizingInfo.setLength, SizingInfo.setPos, Layouting.pos, QRect.topLeft,
          oppositeOrientation, QRect.setWidth, QRect.setHeight, QRect.moveTop, QRect.moveLeft]
    | succ j =>
      simp only [List.get?_cons_succ] at h
      rw [ih _ j hrest h]
      have hl : ((s0.setLength (Layouting.length sz (oppositeOrientation o))
          (oppositeOrientation o)).setPos p o).length o = s0.length o := by
        cases o <;>
          simp [SizingInfo.setLength, SizingInfo.setPos, SizingInfo.length, SizingInfo.size,
            oppositeOrientation, Layouting.length, QRect.size, QRect.setWidth, QRect.setHeight,
            QRect.moveTop, QRect.moveLeft]
      simp only [hl, List.take_succ_cons, List.map_cons, List.sum_cons]
      omega

theorem m_sizingInfo_container (n : Nat) (s : SizingInfo) (o : Orientation) (cs : List Item)
    (rs b k : Bool) : (Item.container n s o cs rs b k).m_sizingInfo = s := rfl

theorem m_orientation_container (n : Nat) (s : SizingInfo) (o : Orientation) (cs : List Item)
    (rs b k : Bool) : (Item.container n s o cs rs b k).m_orientation = o := rfl

theorem m_children_container (n : Nat) (s : SizingInfo) (o : Orientation) (cs : List Item)
    (rs b k : Bool) : (Item.container n s o cs rs b k).m_children = cs := rfl

theorem m_block_container (n : Nat) (s : SizingInfo) (o : Orientation) (cs : List Item)
    (rs b k : Bool) : (Item.container n s o cs rs b k).m_blockUpdatePercentages = b := rfl

theorem size_container (n : Nat) (s : SizingInfo) (o : Orientation) (cs : List Item)
    (rs b k : Bool) : (Item.container n s o cs rs b k).size = s.geometry.size := rfl

/-- The visible children after `positionItems()` of a container that blocks the
update of the percentages. -/
theorem positionItemsWith_visible (rz : Item → QSize → Item)
    (hv : ∀ i sz, (rz i sz).isVisible = i.isVisible)
    (hs : ∀ i sz, (rz i sz).m_sizingInfo = i.m_sizingInfo ∨
      (rz i sz).m_sizingInfo
        = { i.m_sizingInfo with geometry := i.m_sizingInfo.geometry.setSize sz })
    (n : Nat) (s : SizingInfo) (o : Orientation) (cs : List Item) (rs : Bool) (k : Bool)
    (j : Nat) (Y : Item) (hY : (cs.filter isVisible).get? j = some Y) :
    ∃ Y2, (positionItemsWith rz (.container n s o cs rs true k)).visibleChildren.get? j = some Y2 ∧
      Y2.m_sizingInfo.isBeingInserted = Y.m_sizingInfo.isBeingInserted ∧
      Y2.length o = Y.length o ∧
      (Y2.length (oppositeOrientation o) = Y.length (oppositeOrientation o) ∨
        Y2.length (oppositeOrientation o) = Layouting.length s.geometry.size (oppositeOrientation o)) ∧
      ((∀ X ∈ cs.filter isVisible, X.m_sizingInfo.isBeingInserted = false) →
        Y2.position o
          = (((cs.filter isVisible).take j).map fun X => X.length o + separatorThickness).sum) := by
  simp only [positionItemsWith, updateChildPercentages, applyPositionsWith, refreshMinSizes,
    setChildren, visibleChildren, if_true, sizes, m_sizingInfo_container, m_orientation_container,
    m_children_container, m_block_container, size_container]
  rw [filter_mapVisible_get?, filter_map_isVisible, List.get?_map, hY]
  · simp only [Option.map_some', Nat.zero_add]
    have hsz : ((cs.filter isVisible).map fun i =>
        if i.isContainer then { i.m_sizingInfo with minSize := i.minSize }
        else i.m_sizingInfo).get? j
          = some (if Y.isContainer then { Y.m_sizingInfo with minSize := Y.minSize }
              else Y.m_sizingInfo) := by
      rw [List.get?_map, hY]
      rfl
    obtain ⟨t, ht, hlen, -, hins, hcross⟩ := positionSizes_get? o s.geometry.size _ 0 j _ hsz
    have hrfs : ∀ Z : Item, (if (Z.isVisible && Z.isContainer) = true then
        Z.setSizingInfo { Z.m_sizingInfo with minSize := Z.minSize } else Z).m_sizingInfo.geometry
          = Z.m_sizingInfo.geometry ∧
        (if (Z.isVisible && Z.isContainer) = true then
        Z.setSizingInfo { Z.m_sizingInfo with minSize := Z.minSize } else Z).m_sizingInfo.isBeingInserted
          = Z.m_sizingInfo.isBeingInserted := by
      intro Z
      split <;> simp
    have hYlen : ∀ a : Orientation, SizingInfo.length (if Y.isContainer then
        { Y.m_sizingInfo with minSize := Y.minSize } else Y.m_sizingInfo) a = Y.length a := by
      intro a
      split <;> rfl
    have hYins : SizingInfo.isBeingInserted (if Y.isContainer then
        { Y.m_sizingInfo with minSize := Y.minSize } else Y.m_sizingInfo)
          = Y.m_sizingInfo.isBeingInserted := by
      split <;> rfl
    rw [hYlen] at hlen
    rw [hYins] at hins
    rw [hYlen] at hcross
    rw [ht]
    refine ⟨_, rfl, ?_⟩
    simp only []
    by_cases hti : t.isBeingInserted = true
    · rw [if_pos hti]
      refine ⟨(hrfs Y).2, ?_, Or.inl ?_, ?_⟩
      · simp only [Item.length, Item.size, (hrfs Y).1]
      · simp only [Item.length, Item.size, (hrfs Y).1]
      · intro hall
        have := hall Y (List.get?_mem hY)
        rw [← hins, hti] at this
        exact absurd this (by simp)
    · rw [if_neg hti]
      obtain ⟨h1, h2, h3, h4⟩ := applyPositions_child rz hs (if (Y.isVisible && Y.isContainer) = true then
        Y.setSizingInfo { Y.m_sizingInfo with minSize := Y.minSize } else Y) t o
      refine ⟨h1.trans (hrfs Y).2, h2.trans ?_, ?_, ?_⟩
      · simp only [Item.length, Item.size, (hrfs Y).1]
      · rcases h3 with h3 | h3
        · left
          rw [h3]
          simp only [Item.length, Item.size, (hrfs Y).1]
        · rcases hcross with hc | hc
          · left
            rw [h3, hc]
          · right
            rw [h3, hc]
      · intro hall
        have hni : ∀ x ∈ ((cs.filter isVisible).map fun i =>
            if i.isContainer then { i.m_sizingInfo with minSize := i.minSize }
            else i.m_sizingInfo), x.isBeingInserted = false := by
          intro x hx
          obtain ⟨Z, hZ, rfl⟩ := List.mem_map.1 hx
          have := hall Z hZ
          split <;> exact this
        have hp := positionSizes_pos o s.geometry.size _ 0 j t hni ht
        have hpos : ∀ Z : Item, Z.position o = Layouting.pos Z.m_sizingInfo.geometry.topLeft o := by
          intro Z
          cases o <;> rfl
        rw [hpos, h4, hp, List.map_take, List.map_map, ← List.map_take]
        simp only [Int.zero_add]
        congr 1
        apply List.map_congr_left
        intro Z _
        simp only [Function.comp]
        split <;> rfl
  · intro i
    split <;> simp
  · intro k i
    split
    · rfl
    · split
      · rfl
      · simp [setPos, isVisible_setLength_recursiveWith rz hv]

/-! ### Step #1 of `resize` -/

theorem resizeAssign_same (c : Item) (T : Int) (sizes : List SizingInfo) (pcts : List Percentage)
    (rem : Int) (hpos : ∀ x ∈ sizes, 0 < x.length c.m_orientation) :
    resizeAssign c false T sizes pcts rem
      = some (List.zipWith (assignLength c) sizes
          (sizes.map fun x => x.length c.m_orientation)) := by
  induction sizes generalizing pcts rem with
  | nil => rfl
  | cons x rest ih =>
    have hx := hpos x (List.mem_cons_self _ _)
    have hrest : ∀ y ∈ rest, 0 < y.length c.m_orientation :=
      fun y hy => hpos y (List.mem_cons_of_mem _ hy)
    simp only [resizeAssign, Bool.false_eq_true, if_false, not_le.2 hx, ih _ _ hrest,
      Option.map_some', List.map_cons, List.zipWith_cons_cons, assignLength]

theorem resizeAssign_changed (c : Item) (T : Int) (sizes : List SizingInfo)
    (pcts : List Percentage) (rem : Int) (hlen : sizes.length = pcts.length)
    (hpos : ∀ a ∈ (pcts.dropLast.map fun p => p.scale T)
      ++ [rem - (pcts.dropLast.map fun p => p.scale T).sum], 0 < a) :
    resizeAssign c true T sizes pcts rem
      = some (List.zipWith (assignLength c) sizes
          ((pcts.dropLast.map fun p => p.scale T)
            ++ [rem - (pcts.dropLast.map fun p => p.scale T).sum])) := by
  induction sizes generalizing pcts rem with
  | nil => simp [resizeAssign]
  | cons x rest ih =>
    cases pcts with
    | nil => simp at hlen
    | cons p ps =>
      simp only [List.length_cons, Nat.add_right_cancel_iff] at hlen
      cases rest with
      | nil =>
        have hps : ps = [] := List.length_eq_zero.1 hlen.symm
        subst hps
        have hr : 0 < rem := by simpa using hpos
        simp only [resizeAssign, List.isEmpty_nil, if_true, not_le.2 hr, if_false,
          Option.map_some', List.dropLast_single, List.map_nil, List.sum_nil, Int.sub_zero,
          List.nil_append, List.zipWith_cons_cons, List.zipWith_nil_right, assignLength]
      | cons y ys =>
        cases ps with
        | nil => simp at hlen
        | cons q qs =>
          have hp : 0 < p.scale T := hpos _ (by simp)
          have heq : rem - p.scale T - (((q :: qs).dropLast.map fun p => p.scale T).sum)
              = rem - (((p :: q :: qs).dropLast.map fun p => p.scale T).sum) := by
            simp only [List.dropLast_cons₂, List.map_cons, List.sum_cons]
            omega
          have hpos2 : ∀ a ∈ ((q :: qs).dropLast.map fun p => p.scale T)
              ++ [rem - p.scale T - ((q :: qs).dropLast.map fun p => p.scale T).sum], 0 < a := by
            intro a ha
            apply hpos
            rw [heq] at ha
            simp only [List.dropLast_cons₂, List.map_cons, List.cons_append, List.mem_cons]
            exact Or.inr ha
          have := ih (q :: qs) (rem - p.scale T) hlen hpos2
          rw [heq] at this
          simp only [resizeAssign, List.isEmpty_cons, if_true, Bool.false_eq_true, if_false,
            List.headD_cons, not_le.2 hp, List.tail_cons] at this ⊢
          simp only [resizeAssign, this, Option.map_some', List.dropLast_cons₂, List.map_cons,
            List.cons_append, List.zipWith_cons_cons, assignLength]

theorem sum_assigned (others : List Int) (rem : Int) : (others ++ [rem - others.sum]).sum = rem := by
  simp

/-! ### Minimum sizes and nesting depth of the children -/

theorem le_qMax_left (a b : Int) : a ≤ qMax a b := by
  unfold qMax
  split <;> omega

theorem le_qMax_right (a b : Int) : b ≤ qMax a b := by
  unfold qMax
  split <;> omega

theorem minSizeLoop_cross (o : Orientation) (cs : List Item) (minW minH n : Int) :
    Layouting.length ⟨minW, minH⟩ (oppositeOrientation o)
        ≤ Layouting.length ⟨(minSizeLoop o cs minW minH n).1, (minSizeLoop o cs minW minH n).2.1⟩
            (oppositeOrientation o) ∧
    ∀ X ∈ cs, X.isVisible = true →
      Layouting.length X.minSize (oppositeOrientation o)
        ≤ Layouting.length ⟨(minSizeLoop o cs minW minH n).1, (minSizeLoop o cs minW minH n).2.1⟩
            (oppositeOrientation o) := by
  induction cs generalizing minW minH n with
  | nil => simp [minSizeLoop]
  | cons c cs ih =>
    by_cases hv : c.isVisible = true
    · cases o with
      | Vertical =>
        have h := ih (qMax minW c.minSize.width) (minH + c.minSize.height) (n + 1)
        simp only [minSizeLoop, hv, if_true, oppositeOrientation, Layouting.length,
          List.mem_cons, forall_eq_or_imp] at h ⊢
        have h1 := le_qMax_left minW c.minSize.width
        have h2 := le_qMax_right minW c.minSize.width
        exact ⟨by omega, fun _ => by omega, h.2⟩
      | Horizontal =>
        have h := ih (minW + c.minSize.width) (qMax minH c.minSize.height) (n + 1)
        simp only [minSizeLoop, hv, if_true, oppositeOrientation, Layouting.length,
          List.mem_cons, forall_eq_or_imp, reduceCtorEq, if_false] at h ⊢
        have h1 := le_qMax_left minH c.minSize.height
        have h2 := le_qMax_right minH c.minSize.height
        exact ⟨by omega, fun _ => by omega, h.2⟩
    · have h := ih minW minH n
      simp only [minSizeLoop, hv, Bool.false_eq_true, if_false, List.mem_cons,
        forall_eq_or_imp] at h ⊢
      exact ⟨h.1, fun hc => hc.elim, h.2⟩

/-- A visible child's minimum size across the orientation is at most the one of
its container. -/
theorem minSize_cross_le (n : Nat) (s : SizingInfo) (o : Orientation) (cs : List Item)
    (rs b k : Bool) (X : Item) (hX : X ∈ cs) (hv : X.isVisible = true) :
    Layouting.length X.minSize (oppositeOrientation o)
      ≤ Layouting.length (Item.container n s o cs rs b k).minSize (oppositeOrientation o) := by
  cases cs with
  | nil => simp at hX
  | cons c cs =>
    have h := (minSizeLoop_cross o (c :: cs) 0 0 0).2 X hX hv
    cases o <;> simp only [minSize, oppositeOrientation, Layouting.length, if_true, reduceCtorEq,
      if_false] at h ⊢ <;> exact h

theorem depth_le_depthList (X : Item) (cs : List Item) (hX : X ∈ cs) :
    X.depth ≤ depthList cs := by
  induction cs with
  | nil => simp at hX
  | cons c cs ih =>
    simp only [depthList]
    rcases List.mem_cons.1 hX with h | h
    · subst h
      exact Nat.le_max_left _ _
    · exact Nat.le_trans (ih h) (Nat.le_max_right _ _)

theorem one_le_depth_of_container (X : Item) (h : X.isContainer = true) : 1 ≤ X.depth := by
  cases X with
  | leaf => simp [isContainer] at h
  | container => simp [depth]

/-! ### The passes over the children, list by list -/

theorem map_eq_of_get? {α β γ : Type} (a : List α) (b : List β) (f : β → γ) (g : α → γ)
    (hl : b.length = a.length)
    (h : ∀ j x, a.get? j = some x → ∃ y, b.get? j = some y ∧ f y = g x) :
    b.map f = a.map g := by
  apply List.ext_get?
  intro j
  rw [List.get?_map, List.get?_map]
  cases ha : a.get? j with
  | none =>
    have : b.get? j = none := by
      rw [List.get?_eq_none] at ha ⊢
      omega
    rw [this]
    rfl
  | some x =>
    obtain ⟨y, hy, hfg⟩ := h j x ha
    rw [hy]
    simp [hfg]

theorem positionItemsWith_container (rz : Item → QSize → Item) (n : Nat) (s : SizingInfo)
    (o : Orientation) (cs : List Item) (rs k : Bool) :
    positionItemsWith rz (.container n s o cs rs true k)
      = .container n s o (positionItemsWith rz (.container n s o cs rs true k)).m_children
          rs true k := by
  simp only [positionItemsWith, updateChildPercentages, applyPositionsWith, refreshMinSizes,
    setChildren, if_true, m_block_container, m_children_container]

theorem positionItemsWith_visible_length (rz : Item → QSize → Item)
    (hv : ∀ i sz, (rz i sz).isVisible = i.isVisible)
    (n : Nat) (s : SizingInfo) (o : Orientation) (cs : List Item) (rs k : Bool) :
    (positionItemsWith rz (.container n s o cs rs true k)).visibleChildren.length
      = (cs.filter isVisible).length := by
  simp only [positionItemsWith, updateChildPercentages, applyPositionsWith, refreshMinSizes,
    setChildren, visibleChildren, if_true, sizes, m_sizingInfo_container, m_orientation_container,
    m_children_container, m_block_container, size_container]
  rw [length_filter_mapVisible, filter_map_isVisible, List.length_map]
  · intro i
    split <;> simp
  · intro k i
    split
    · rfl
    · split
      · rfl
      · simp [setPos, isVisible_setLength_recursiveWith rz hv]

theorem positionItemsWith_map_length (rz : Item → QSize → Item)
    (hv : ∀ i sz, (rz i sz).isVisible = i.isVisible)
    (hs : ∀ i sz, (rz i sz).m_sizingInfo = i.m_sizingInfo ∨
      (rz i sz).m_sizingInfo
        = { i.m_sizingInfo with geometry := i.m_sizingInfo.geometry.setSize sz })
    (n : Nat) (s : SizingInfo) (o : Orientation) (cs : List Item) (rs k : Bool) :
    ((positionItemsWith rz (.container n s o cs rs true k)).visibleChildren.map
        fun X => X.length o) = (cs.filter isVisible).map fun X => X.length o := by
  apply map_eq_of_get? _ _ _ _ (positionItemsWith_visible_length rz hv n s o cs rs k)
  intro j Y hY
  obtain ⟨Y2, h1, -, h2, -⟩ := positionItemsWith_visible rz hv hs n s o cs rs k j Y hY
  exact ⟨Y2, h1, h2⟩

theorem positionItemsWith_map_inserted (rz : Item → QSize → Item)
    (hv : ∀ i sz, (rz i sz).isVisible = i.isVisible)
    (hs : ∀ i sz, (rz i sz).m_sizingInfo = i.m_sizingInfo ∨
      (rz i sz).m_sizingInfo
        = { i.m_sizingInfo with geometry := i.m_sizingInfo.geometry.setSize sz })
    (n : Nat) (s : SizingInfo) (o : Orientation) (cs : List Item) (rs k : Bool) :
    ((positionItemsWith rz (.container n s o cs rs true k)).visibleChildren.map
        fun X => X.m_sizingInfo.isBeingInserted)
      = (cs.filter isVisible).map fun X => X.m_sizingInfo.isBeingInserted := by
  apply map_eq_of_get? _ _ _ _ (positionItemsWith_visible_length rz hv n s o cs rs k)
  intro j Y hY
  obtain ⟨Y2, h1, h2, -⟩ := positionItemsWith_visible rz hv hs n s o cs rs k j Y hY
  exact ⟨Y2, h1, h2⟩

theorem forall_of_map_eq {α β : Type} (f : α → β) (a b : List α) (h : a.map f = b.map f)
    (v : β) (hb : ∀ x ∈ b, f x = v) : ∀ x ∈ a, f x = v := by
  intro x hx
  have : f x ∈ b.map f := h ▸ List.mem_map_of_mem f hx
  obtain ⟨y, hy, hxy⟩ := List.mem_map.1 this
  rw [← hxy]
  exact hb y hy

theorem applySizesWith_children (rz : Item → QSize → Item)
    (hv : ∀ i sz, (rz i sz).isVisible = i.isVisible)
    (n : Nat) (s : SizingInfo) (o : Orientation) (cs : List Item) (rs k : Bool)
    (L : List SizingInfo) :
    ∃ cs1, applySizesWith rz (.container n s o cs rs true k) L
        = positionItemsWith rz (.container n s o cs1 rs true k) ∧
      (cs1.filter isVisible).length = (cs.filter isVisible).length ∧
      ∀ j Y t, (cs.filter isVisible).get? j = some Y → L.get? j = some t →
        (cs1.filter isVisible).get? j = some (rz Y t.geometry.size) := by
  refine ⟨_, rfl, ?_, ?_⟩
  · simp only [m_children_container]
    rw [length_filter_mapVisible]
    intro k i
    split
    · rfl
    · exact hv _ _
  · intro j Y t hY ht
    simp only [m_children_container]
    rw [filter_mapVisible_get?, hY]
    · simp only [Option.map_some', Nat.zero_add, ht]
    · intro k i
      split
      · rfl
      · exact hv _ _

/-- The visible children after steps #3 and #4 of `resize`, when every child
stores the size it is given in step #3. -/
theorem applySizes_positionItems_visible (rz : Item → QSize → Item)
    (hv : ∀ i sz, (rz i sz).isVisible = i.isVisible)
    (hs : ∀ i sz, (rz i sz).m_sizingInfo = i.m_sizingInfo ∨
      (rz i sz).m_sizingInfo
        = { i.m_sizingInfo with geometry := i.m_sizingInfo.geometry.setSize sz })
    (n : Nat) (s : SizingInfo) (o : Orientation) (cs : List Item) (rs k : Bool)
    (L : List SizingInfo) (hlen : L.length = (cs.filter isVisible).length)
    (hL : ∀ j Y t, (cs.filter isVisible).get? j = some Y → L.get? j = some t →
      (rz Y t.geometry.size).m_sizingInfo
        = { Y.m_sizingInfo with geometry := Y.m_sizingInfo.geometry.setSize t.geometry.size })
    (j : Nat) (Y : Item) (t : SizingInfo) (hY : (cs.filter isVisible).get? j = some Y)
    (ht : L.get? j = some t) :
    ∃ Y4, (positionItemsWith rz (applySizesWith rz (.container n s o cs rs true k)
        L)).visibleChildren.get? j = some Y4 ∧
      Y4.m_sizingInfo.isBeingInserted = Y.m_sizingInfo.isBeingInserted ∧
      Y4.length o = t.length o ∧
      (Y4.length (oppositeOrientation o) = t.length (oppositeOrientation o) ∨
        Y4.length (oppositeOrientation o)
          = Layouting.length s.geometry.size (oppositeOrientation o)) ∧
      ((∀ X ∈ cs.filter isVisible, X.m_sizingInfo.isBeingInserted = false) →
        Y4.position o = ((L.take j).map fun t => t.length o + separatorThickness).sum) := by
  obtain ⟨cs1, happ, hlen1, hcs1⟩ := applySizesWith_children rz hv n s o cs rs k L
  rw [happ]
  have hY1 := hcs1 j Y t hY ht
  have hsi := hL j Y t hY ht
  -- the lists of lengths and flags after step #3
  have hlens1 : (cs1.filter isVisible).map (fun (X : Item) => X.length o)
      = L.map fun t => t.length o := by
    apply map_eq_of_get? _ _ _ _ (by rw [hlen1, hlen])
    intro i ti hti
    have hi : i < (cs.filter isVisible).length := by
      rw [← hlen]
      exact (List.get?_eq_some.1 hti).1
    obtain ⟨Yi, hYi⟩ : ∃ Yi, (cs.filter isVisible).get? i = some Yi :=
      ⟨_, List.get?_eq_get hi⟩
    refine ⟨_, hcs1 i Yi ti hYi hti, ?_⟩
    simp only [Item.length, Item.size, hL i Yi ti hYi hti]
    rfl
  have hins1 : (cs1.filter isVisible).map (fun (X : Item) => X.m_sizingInfo.isBeingInserted)
      = (cs.filter isVisible).map fun X => X.m_sizingInfo.isBeingInserted := by
    apply map_eq_of_get? _ _ _ _ hlen1
    intro i Yi hYi
    have hi : i < L.length := by
      rw [hlen]
      exact (List.get?_eq_some.1 hYi).1
    obtain ⟨ti, hti⟩ : ∃ ti, L.get? i = some ti := ⟨_, List.get?_eq_get hi⟩
    refine ⟨_, hcs1 i Yi ti hYi hti, ?_⟩
    simp only [hL i Yi ti hYi hti]
  -- step #3 ends with `positionItems()`
  obtain ⟨Y3, hY3, hi3, hl3, hc3, -⟩ :=
    positionItemsWith_visible rz hv hs n s o cs1 rs k j _ hY1
  have hlens3 := positionItemsWith_map_length rz hv hs n s o cs1 rs k
  have hins3 := positionItemsWith_map_inserted rz hv hs n s o cs1 rs k
  rw [positionItemsWith_container] at hY3 hlens3 hins3 ⊢
  simp only [visibleChildren, m_children_container] at hY3 hlens3 hins3
  -- step #4
  obtain ⟨Y4, hY4, hi4, hl4, hc4, hp4⟩ :=
    positionItemsWith_visible rz hv hs n s o _ rs k j _ hY3
  refine ⟨Y4, hY4, ?_, ?_, ?_, ?_⟩
  · rw [hi4, hi3, hsi]
  · rw [hl4, hl3]
    simp only [Item.length, Item.size, hsi]
    rfl
  · have h1 : (rz Y t.geometry.size).length (oppositeOrientation o)
        = t.length (oppositeOrientation o) := by
      simp only [Item.length, Item.size, hsi]
      rfl
    rcases hc4 with h | h
    · rcases hc3 with h3 | h3
      · left
        rw [h, h3, h1]
      · right
        rw [h, h3]
    · right
      exact h
  · intro hall
    have hall3 : ∀ X ∈ List.filter isVisible
        (positionItemsWith rz (.container n s o cs1 rs true k)).m_children,
        X.m_sizingInfo.isBeingInserted = false :=
      forall_of_map_eq (fun (X : Item) => X.m_sizingInfo.isBeingInserted) _ _ (hins3.trans hins1) false hall
    rw [hp4 hall3]
    have : ∀ (A : List Item) (B : List SizingInfo),
        (A.map fun X => X.length o) = (B.map fun t => t.length o) →
        ((A.take j).map fun X => X.length o + separatorThickness)
          = (B.take j).map fun t => t.length o + separatorThickness := by
      intro A B hAB
      have h1 : ((A.take j).map fun X => X.length o + separatorThickness)
          = ((A.map fun X => X.length o).take j).map fun a => a + separatorThickness := by
        simp only [List.map_take, List.map_map]
        rfl
      have h2 : ((B.take j).map fun t => t.length o + separatorThickness)
          = ((B.map fun t => t.length o).take j).map fun a => a + separatorThickness := by
        simp only [List.map_take, List.map_map]
        rfl
      rw [h1, h2, hAB]
    rw [this _ L (hlens3.trans hlens1)]

/-! ### The body of `resize` on a container that is not inside a resize -/

theorem lengthChanged_eq (n : Nat) (s : SizingInfo) (o : Orientation) (cs : List Item)
    (rs b k : Bool) (newSize : QSize) :
    (((Item.container n s o cs rs b k).isVertical &&
        ((Item.container n s o cs rs b k).height != newSize.height)) ||
      ((Item.container n s o cs rs b k).isHorizontal &&
        ((Item.container n s o cs rs b k).width != newSize.width)))
      = (Layouting.length s.geometry.size o != Layouting.length newSize o) := by
  cases o <;>
    simp [isVertical, isHorizontal, m_orientation, Item.height, Item.width, m_sizingInfo,
      Layouting.length, QRect.size]

theorem setSize_container (n : Nat) (s : SizingInfo) (o : Orientation) (cs : List Item)
    (rs b k : Bool) (newSize : QSize) :
    (Item.container n s o cs rs b k).setSize newSize
      = .container n { s with geometry := s.geometry.setSize newSize } o cs rs b k := by
  simp only [setSize, setGeometry_eq, m_sizingInfo_container]
  rfl

theorem refreshMinSizes_container (n : Nat) (s : SizingInfo) (o : Orientation) (cs : List Item)
    (rs b k : Bool) :
    (Item.container n s o cs rs b k).refreshMinSizes
      = .container n s o (cs.map fun i =>
          if i.isVisible && i.isContainer then
            i.setSizingInfo { i.m_sizingInfo with minSize := i.minSize }
          else i) rs b k := rfl

/-- The steps of `ItemContainer::resize(newSize)` when the new size is accepted,
differs from the current one and step #1 returns the list `l`. -/
theorem resizeBody_steps (rz : Item → QSize → Item) (n : Nat) (s : SizingInfo) (o : Orientation)
    (cs : List Item) (b k : Bool) (newSize : QSize)
    (hacc : ¬ (newSize.width < (Item.container n s o cs false b k).minSize.width ∨
      newSize.height < (Item.container n s o cs false b k).minSize.height))
    (hchg : ¬ (s.geometry.width = newSize.width ∧ s.geometry.height = newSize.height))
    (l : List SizingInfo)
    (hl : resizeAssign
        (Item.container n { s with geometry := s.geometry.setSize newSize } o cs false true
          k).refreshMinSizes
        (Layouting.length s.geometry.size o != Layouting.length newSize o)
        (Item.container n { s with geometry := s.geometry.setSize newSize } o cs false true
          k).usableLength
        (Item.container n { s with geometry := s.geometry.setSize newSize } o cs false true
          k).sizes
        (Item.container n { s with geometry := s.geometry.setSize newSize } o cs false true
          k).childPercentages
        (Item.container n { s with geometry := s.geometry.setSize newSize } o cs false true
          k).usableLength = some l) :
    resizeBody rz (.container n s o cs false b k) newSize
      = (positionItemsWith rz (applySizesWith rz
          (Item.container n { s with geometry := s.geometry.setSize newSize } o cs false true
            k).refreshMinSizes
          (resizeEnforceMin o (positionSizes o newSize l 0).length 0
            (positionSizes o newSize l 0)))).setBlockUpdatePercentages b := by
  unfold resizeBody
  simp only [minSize_setBlock, setBlockUpdatePercentages, lengthChanged_eq, setSize_container,
    m_block_container]
  split
  · rename_i h
    simp only [Bool.or_eq_true, decide_eq_true_eq] at h
    exact absurd h hacc
  · split
    · rename_i h
      simp only [Item.width, Item.height, m_sizingInfo_container, Bool.and_eq_true,
        Bool.not_eq_true', bne_eq_false_iff_eq] at h
      exact absurd h hchg
    · split
      · rename_i h
        simp [m_isResizing] at h
      · split
        · rename_i h
          rw [hl] at h
          simp at h
        · rename_i l2 h
          rw [hl] at h
          simp only [Option.some.injEq] at h
          subst h
          simp only [refreshMinSizes_container, m_orientation_container, size_container]
          rfl

theorem zipWith_get? {α β γ : Type} (f : α → β → γ) (a : List α) (b : List β) (j : Nat)
    (x : α) (y : β) (hx : a.get? j = some x) (hy : b.get? j = some y) :
    (List.zipWith f a b).get? j = some (f x y) := by
  induction a generalizing b j with
  | nil => simp at hx
  | cons a0 as ih =>
    cases b with
    | nil => simp at hy
    | cons b0 bs =>
      cases j with
      | zero =>
        simp only [List.get?_cons_zero, Option.some.injEq] at hx hy
        simp [hx, hy]
      | succ j =>
        simp only [List.get?_cons_succ] at hx hy
        simpa using ih bs j hx hy

theorem minSize_refreshed (Y : Item) :
    (if (Y.isVisible && Y.isContainer) = true then
      Y.setSizingInfo { Y.m_sizingInfo with minSize := Y.minSize } else Y).minSize = Y.minSize := by
  split
  · cases Y with
    | leaf => rfl
    | container n s o cs rs b k =>
      simp only [setSizingInfo]
      cases cs <;> simp [minSize]
  · rfl

theorem visibleChildren_setBlock (c : Item) (b : Bool) :
    (c.setBlockUpdatePercentages b).visibleChildren = c.visibleChildren := by
  cases c <;> rfl

theorem get?_exists_of_length {α β : Type} (a : List α) (b : List β) (h : a.length = b.length)
    (j : Nat) (y : β) (hy : b.get? j = some y) : ∃ x, a.get? j = some x := by
  have hj : j < a.length := by
    rw [h]
    exact (List.get?_eq_some.1 hy).1
  exact ⟨_, List.get?_eq_get hj⟩

/-- The list handed to step #3 of `resize`: the entries written by step #1,
positioned, when none of them is below its minimum length. -/
theorem positioned_get? (c : Item) (o : Orientation) (newSize : QSize)
    (hcross : (if c.isVertical then c.width else c.height)
      = Layouting.length newSize (oppositeOrientation o))
    (hvert : c.isVertical = (o == .Vertical))
    (V : List Item) (lens : List Int) (j : Nat) (X : Item) (a : Int)
    (hX : V.get? j = some X) (ha : lens.get? j = some a) :
    ∃ t, (positionSizes o newSize (List.zipWith (assignLength c)
        (V.map fun i => if i.isContainer then { i.m_sizingInfo with minSize := i.minSize }
          else i.m_sizingInfo) lens) 0).get? j = some t ∧
      t.length o = a ∧ t.minSize = X.minSize ∧
      t.length (oppositeOrientation o) = Layouting.length newSize (oppositeOrientation o) := by
  have hz := zipWith_get? (assignLength c)
    (V.map fun i => if i.isContainer then { i.m_sizingInfo with minSize := i.minSize }
      else i.m_sizingInfo) lens j
    (if X.isContainer then { X.m_sizingInfo with minSize := X.minSize } else X.m_sizingInfo) a
    (by rw [List.get?_map, hX]; rfl) ha
  obtain ⟨t, ht, h1, h2, -, h4⟩ := positionSizes_get? o newSize _ 0 j _ hz
  refine ⟨t, ht, ?_, ?_, ?_⟩
  · rw [h1]
    cases o <;> simp [assignLength, hvert, SizingInfo.length, SizingInfo.size, QRect.size,
      QRect.setSize, Layouting.length]
  · rw [h2]
    have : ∀ (x : SizingInfo), (assignLength c x a).minSize = x.minSize := by
      intro x
      unfold assignLength
      split <;> rfl
    rw [this]
    split
    · rfl
    · rename_i h
      cases X with
      | leaf => rfl
      | container => simp [isContainer] at h
  · rcases h4 with h | h
    · rw [h, ← hcross]
      cases o <;> simp [assignLength, hvert, SizingInfo.length, SizingInfo.size, QRect.size,
        QRect.setSize, Layouting.length, oppositeOrientation]
    · exact h

theorem applySizes_positionItems_length (rz : Item → QSize → Item)
    (hv : ∀ i sz, (rz i sz).isVisible = i.isVisible)
    (n : Nat) (s : SizingInfo) (o : Orientation) (cs : List Item) (rs k : Bool)
    (L : List SizingInfo) :
    (positionItemsWith rz (applySizesWith rz (.container n s o cs rs true k)
        L)).visibleChildren.length = (cs.filter isVisible).length := by
  obtain ⟨cs1, happ, hlen1, -⟩ := applySizesWith_children rz hv n s o cs rs k L
  rw [happ, positionItemsWith_container, positionItemsWith_visible_length rz hv]
  have := positionItemsWith_visible_length rz hv n s o cs1 rs k
  simp only [visibleChildren] at this
  rw [this, hlen1]

/-- The visible children after an accepted `resize(newSize)` of a container that
is not inside a resize, when step #1 assigns the lengths `lens` and none of them
is below the minimum length of its child. -/
theorem resize_visible (n : Nat) (s : SizingInfo) (o : Orientation) (cs : List Item)
    (b k : Bool) (newSize : QSize) (lens : List Int)
    (hacc : ¬ (newSize.width < (Item.container n s o cs false b k).minSize.width ∨
      newSize.height < (Item.container n s o cs false b k).minSize.height))
    (hchg : ¬ (s.geometry.width = newSize.width ∧ s.geometry.height = newSize.height))
    (hassign : resizeAssign
        (Item.container n { s with geometry := s.geometry.setSize newSize } o cs false true
          k).refreshMinSizes
        (Layouting.length s.geometry.size o != Layouting.length newSize o)
        (Item.container n { s with geometry := s.geometry.setSize newSize } o cs false true
          k).usableLength
        (Item.container n { s with geometry := s.geometry.setSize newSize } o cs false true
          k).sizes
        (Item.container n { s with geometry := s.geometry.setSize newSize } o cs false true
          k).childPercentages
        (Item.container n { s with geometry := s.geometry.setSize newSize } o cs false true
          k).usableLength
      = some (List.zipWith (assignLength
          (Item.container n { s with geometry := s.geometry.setSize newSize } o cs false true
            k).refreshMinSizes)
          (Item.container n { s with geometry := s.geometry.setSize newSize } o cs false true
            k).sizes lens))
    (hlen : lens.length = (cs.filter isVisible).length)
    (hmin : ∀ j X a, (cs.filter isVisible).get? j = some X → lens.get? j = some a →
      X.minLength o ≤ a) :
    ((Item.container n s o cs false b k).resize newSize).visibleChildren.length
      = (cs.filter isVisible).length ∧
    ∀ j X a, (cs.filter isVisible).get? j = some X → lens.get? j = some a →
      ∃ X4, ((Item.container n s o cs false b k).resize newSize).visibleChildren.get? j = some X4 ∧
        X4.m_sizingInfo.isBeingInserted = X.m_sizingInfo.isBeingInserted ∧
        X4.length o = a ∧
        X4.length (oppositeOrientation o) = Layouting.length newSize (oppositeOrientation o) ∧
        ((∀ Z ∈ cs.filter isVisible, Z.m_sizingInfo.isBeingInserted = false) →
          X4.position o = ((lens.take j).map fun a => a + separatorThickness).sum) := by
  have hres : (Item.container n s o cs false b k).resize newSize
      = resizeBody (resizeFuel (depthList cs)) (.container n s o cs false b k) newSize := rfl
  have hv := isVisible_resizeFuel (depthList cs)
  have hs := m_sizingInfo_resizeFuel (depthList cs)
  rw [hres, resizeBody_steps _ n s o cs b k newSize hacc hchg _ hassign, visibleChildren_setBlock]
  have hsizes : (Item.container n { s with geometry := s.geometry.setSize newSize } o cs false
      true k).sizes = (cs.filter isVisible).map fun i =>
        if i.isContainer then { i.m_sizingInfo with minSize := i.minSize }
        else i.m_sizingInfo := rfl
  rw [hsizes]
  have hcross : (if (Item.container n { s with geometry := s.geometry.setSize newSize } o cs
      false true k).refreshMinSizes.isVertical then
        (Item.container n { s with geometry := s.geometry.setSize newSize } o cs
          false true k).refreshMinSizes.width
      else (Item.container n { s with geometry := s.geometry.setSize newSize } o cs
          false true k).refreshMinSizes.height)
      = Layouting.length newSize (oppositeOrientation o) := by
    cases o <;> simp [refreshMinSizes_container, isVertical, m_orientation_container, Item.width,
      Item.height, m_sizingInfo_container, QRect.setSize, Layouting.length, oppositeOrientation]
  have hvert : (Item.container n { s with geometry := s.geometry.setSize newSize } o cs
      false true k).refreshMinSizes.isVertical = (o == .Vertical) := rfl
  have hL2 := positioned_get? _ o newSize hcross hvert (cs.filter isVisible) lens
  have hL2len : (positionSizes o newSize (List.zipWith (assignLength
      (Item.container n { s with geometry := s.geometry.setSize newSize } o cs false true
        k).refreshMinSizes)
      ((cs.filter isVisible).map fun i =>
        if i.isContainer then { i.m_sizingInfo with minSize := i.minSize }
        else i.m_sizingInfo) lens) 0).length = (cs.filter isVisible).length := by
    rw [positionSizes_length, List.length_zipWith, List.length_map, hlen, Nat.min_self]
  have hnomiss : ∀ t ∈ positionSizes o newSize (List.zipWith (assignLength
      (Item.container n { s with geometry := s.geometry.setSize newSize } o cs false true
        k).refreshMinSizes)
      ((cs.filter isVisible).map fun i =>
        if i.isContainer then { i.m_sizingInfo with minSize := i.minSize }
        else i.m_sizingInfo) lens) 0, t.missingLength o = 0 := by
    intro t ht
    obtain ⟨j, hj⟩ := List.get?_of_mem ht
    obtain ⟨X, hX⟩ := get?_exists_of_length _ _ hL2len.symm j t hj
    obtain ⟨a, ha⟩ := get?_exists_of_length _ _ (hlen.trans hL2len.symm) j t hj
    obtain ⟨t2, ht2, h1, h2, -⟩ := hL2 j X a hX ha
    rw [hj, Option.some.injEq] at ht2
    subst ht2
    have := hmin j X a hX ha
    simp only [SizingInfo.missingLength, SizingInfo.minLength, h1, h2]
    exact qMax_sub_nonpos _ _ this
  rw [resizeEnforceMin_of_no_missing _ _ _ _ hnomiss, refreshMinSizes_container]
  refine ⟨?_, ?_⟩
  · rw [applySizes_positionItems_length _ hv, filter_map_isVisible, List.length_map]
    intro i
    split <;> simp
  · intro j X a hX ha
    obtain ⟨t, ht, h1, h2, h3⟩ := hL2 j X a hX ha
    have hrf : ∀ i : Item, (if (i.isVisible && i.isContainer) = true then
        i.setSizingInfo { i.m_sizingInfo with minSize := i.minSize } else i).isVisible
          = i.isVisible := by
      intro i
      split <;> simp
    have hfilter := filter_map_isVisible _ hrf cs
    have hrfsi : ∀ i : Item, (if (i.isVisible && i.isContainer) = true then
        i.setSizingInfo { i.m_sizingInfo with minSize := i.minSize }
          else i).m_sizingInfo.isBeingInserted = i.m_sizingInfo.isBeingInserted := by
      intro i
      split <;> simp
    have hrfc : ∀ i : Item, (if (i.isVisible && i.isContainer) = true then
        i.setSizingInfo { i.m_sizingInfo with minSize := i.minSize } else i).isContainer
          = i.isContainer := by
      intro i
      split <;> simp
    have hstore : ∀ j Y t, ((cs.map fun i => if (i.isVisible && i.isContainer) = true then
          i.setSizingInfo { i.m_sizingInfo with minSize := i.minSize }
            else i).filter isVisible).get? j = some Y →
        (positionSizes o newSize (List.zipWith (assignLength
          (Item.container n { s with geometry := s.geometry.setSize newSize } o cs false true
            k).refreshMinSizes)
          ((cs.filter isVisible).map fun i =>
            if i.isContainer then { i.m_sizingInfo with minSize := i.minSize }
            else i.m_sizingInfo) lens) 0).get? j = some t →
        (resizeFuel (depthList cs) Y t.geometry.size).m_sizingInfo
          = { Y.m_sizingInfo with
              geometry := Y.m_sizingInfo.geometry.setSize t.geometry.size } := by
      intro i Y ti hY hti
      rw [hfilter, List.get?_map] at hY
      cases hXi : (cs.filter isVisible).get? i with
      | none =>
        rw [hXi] at hY
        simp at hY
      | some Xi =>
        rw [hXi] at hY
        simp only [Option.map_some', Option.some.injEq] at hY
        subst hY
        obtain ⟨ai, hai⟩ := get?_exists_of_length _ _ (hlen.trans hL2len.symm) i ti hti
        obtain ⟨t2, ht2, g1, -, g3⟩ := hL2 i Xi ai hXi hai
        rw [hti, Option.some.injEq] at ht2
        subst ht2
        have hmem := List.mem_filter.1 (List.get?_mem hXi)
        apply m_sizingInfo_resizeFuel_accepted
        · intro hc
          rw [hrfc] at hc
          exact Nat.le_trans (one_le_depth_of_container Xi hc) (depth_le_depthList Xi cs hmem.1)
        · intro _
          rw [minSize_refreshed]
          have hm1 := hmin i Xi ai hXi hai
          have hm2 := minSize_cross_le n s o cs false b k Xi hmem.1 hmem.2
          rw [← g1] at hm1
          cases o <;>
            simp only [Item.minLength, SizingInfo.length, SizingInfo.size, QRect.size,
              Layouting.length, oppositeOrientation] at hm1 hm2 g3 hacc ⊢ <;> omega
    have hlen2 : (positionSizes o newSize (List.zipWith (assignLength
          (Item.container n { s with geometry := s.geometry.setSize newSize } o cs false true
            k).refreshMinSizes)
          ((cs.filter isVisible).map fun i =>
            if i.isContainer then { i.m_sizingInfo with minSize := i.minSize }
            else i.m_sizingInfo) lens) 0).length
        = ((cs.map fun i => if (i.isVisible && i.isContainer) = true then
          i.setSizingInfo { i.m_sizingInfo with minSize := i.minSize }
            else i).filter isVisible).length := by
      rw [hfilter, List.length_map, hL2len]
    obtain ⟨Y4, hY4, hi4, hl4, hc4, hp4⟩ := applySizes_positionItems_visible _ hv hs n
      { s with geometry := s.geometry.setSize newSize } o _ false k _ hlen2 hstore j _ t
      (by rw [hfilter, List.get?_map, hX]; rfl) ht
    refine ⟨Y4, hY4, hi4.trans (hrfsi X), hl4.trans h1, ?_, ?_⟩
    · rcases hc4 with h | h
      · rw [h, h3]
      · rw [h]
        cases o <;> simp [QRect.setSize, QRect.size, Layouting.length, oppositeOrientation]
    · intro hall
      have hall2 : ∀ Z ∈ (cs.map fun i => if (i.isVisible && i.isContainer) = true then
          i.setSizingInfo { i.m_sizingInfo with minSize := i.minSize }
            else i).filter isVisible, Z.m_sizingInfo.isBeingInserted = false := by
        intro Z hZ
        rw [hfilter] at hZ
        obtain ⟨Z0, hZ0, rfl⟩ := List.mem_map.1 hZ
        rw [hrfsi]
        exact hall Z0 hZ0
      rw [hp4 hall2]
      have hmap : (positionSizes o newSize (List.zipWith (assignLength
          (Item.container n { s with geometry := s.geometry.setSize newSize } o cs false true
            k).refreshMinSizes)
          ((cs.filter isVisible).map fun i =>
            if i.isContainer then { i.m_sizingInfo with minSize := i.minSize }
            else i.m_sizingInfo) lens) 0).map (fun (t : SizingInfo) => t.length o)
          = lens.map id := by
        apply map_eq_of_get? _ _ _ _ (hL2len.trans hlen.symm)
        intro i ai hai
        obtain ⟨Xi, hXi⟩ := get?_exists_of_length _ _ hlen.symm i ai hai
        obtain ⟨ti, hti, g1, -⟩ := hL2 i Xi ai hXi hai
        exact ⟨ti, hti, g1⟩
      rw [List.map_id] at hmap
      have key : ∀ (B : List SizingInfo) (ls : List Int),
          B.map (fun (t : SizingInfo) => t.length o) = ls →
          ((B.take j).map fun t => t.length o + separatorThickness)
            = (ls.take j).map fun a => a + separatorThickness := by
        intro B ls hB
        subst hB
        simp only [List.map_take, List.map_map]
        rfl
      rw [key _ _ hmap]

/-! ### What `checkSanity` says about the children -/

theorem checkChildren_mem (rect : QRect) (o : Orientation) (h1 : Int) (cs : List Item)
    (h : checkChildren rect o h1 cs = true) (X : Item) (hX : X ∈ cs) :
    h1 = Layouting.length X.size (oppositeOrientation o) ∧ rect.contains X.geometry = true ∧
      checkSanity false X = true := by
  induction cs with
  | nil => simp at hX
  | cons c cs ih =>
    simp only [checkChildren] at h
    split at h
    · simp at h
    · rename_i h1'
      split at h
      · simp at h
      · rename_i h2'
        split at h
        · simp at h
        · rename_i h3'
          rcases List.mem_cons.1 hX with rfl | hmem
          · simp only [bne_iff_ne, ne_eq, Decidable.not_not, Bool.not_eq_true',
              Bool.not_eq_false] at h1' h2' h3'
            exact ⟨h1', by simpa using h2', by simpa using h3'⟩
          · exact ih h hmem

theorem checkSanity_container (isRoot : Bool) (n : Nat) (s : SizingInfo) (o : Orientation)
    (cs : List Item) (rs b k : Bool)
    (h : checkSanity isRoot (.container n s o cs rs b k) = true) :
    checkPositions o cs 0 = true ∧
    checkChildren (Item.container n s o cs rs b k).rect o
      (Layouting.length (Item.container n s o cs rs b k).size (oppositeOrientation o)) cs
        = true := by
  simp only [checkSanity] at h
  split at h
  · simp at h
  · split at h
    · simp at h
    · split at h
      · simp at h
      · rename_i h3
        split at h
        · simp at h
        · rename_i h4
          exact ⟨by simpa using h3, by simpa using h4⟩

theorem checkSanity_minSize (X : Item) (h : checkSanity false X = true) :
    X.minSize.width ≤ X.width ∧ X.minSize.height ≤ X.height := by
  cases X with
  | leaf n s v w r =>
    simp only [checkSanity, Bool.not_eq_true', Bool.or_eq_false_iff, decide_eq_false_iff_not,
      not_lt] at h
    exact h
  | container n s o cs rs b k =>
    simp only [checkSanity] at h
    split at h
    · simp at h
    · rename_i h1
      simp only [Bool.or_eq_true, decide_eq_true_eq, not_or, not_lt] at h1
      exact h1

theorem not_inserted_of_contains (rect : QRect) (X : Item)
    (h : rect.contains X.geometry = true) : X.m_sizingInfo.isBeingInserted = false := by
  cases hi : X.m_sizingInfo.isBeingInserted with
  | false => rfl
  | true =>
    have : X.geometry = QRect.null := by
      simp [Item.geometry, Item.isBeingInserted, hi]
    rw [this] at h
    simp [QRect.contains, QRect.isNull, QRect.null] at h

theorem checkPositions_get? (o : Orientation) (cs : List Item) (p : Int)
    (h : checkPositions o cs p = true) (j : Nat) (X : Item)
    (hX : (cs.filter isVisible).get? j = some X) :
    X.position o
      = p + (((cs.filter isVisible).take j).map fun Z => Z.length o + separatorThickness).sum := by
  induction cs generalizing p j with
  | nil => simp at hX
  | cons c cs ih =>
    simp only [checkPositions] at h
    by_cases hv : c.isVisible = true
    · simp only [hv, Bool.not_true, Bool.false_eq_true, if_false] at h
      split at h
      · simp at h
      · rename_i hp
        simp only [bne_iff_ne, ne_eq, Decidable.not_not] at hp
        have hpos : c.position o = Layouting.pos c.pos o := by
          cases o <;> rfl
        simp only [List.filter_cons, hv, if_true] at hX ⊢
        cases j with
        | zero =>
          simp only [List.get?_cons_zero, Option.some.injEq] at hX
          subst hX
          simp [hpos, hp]
        | succ j =>
          simp only [List.get?_cons_succ] at hX
          rw [ih _ h j hX]
          simp only [List.take_succ_cons, List.map_cons, List.sum_cons, Item.length, ← hp]
          omega
    · simp only [hv, Bool.not_false, if_true] at h
      simp only [List.filter_cons, hv, Bool.false_eq_true, if_false] at hX ⊢
      exact ih p h j hX

theorem mem_zip_of_get? {α β : Type} (a : List α) (b : List β) (j : Nat) (x : α) (y : β)
    (hx : a.get? j = some x) (hy : b.get? j = some y) : (x, y) ∈ List.zip a b :=
  List.get?_mem (zipWith_get? Prod.mk a b j x y hx hy)

theorem usableLength_resized (n : Nat) (s : SizingInfo) (o : Orientation) (cs : List Item)
    (rs b k : Bool) (newSize : QSize) (hn : 1 ≤ (cs.filter isVisible).length) :
    (Item.container n { s with geometry := s.geometry.setSize newSize } o cs rs b k).usableLength
      = Layouting.length newSize o
          - separatorThickness * (((cs.filter isVisible).length : Int) - 1) := by
  simp only [usableLength, numVisibleChildren, visibleChildren, m_children_container,
    containerLength, isVertical, m_orientation_container, Item.size, Item.height, Item.width,
    m_sizingInfo_container, separatorThickness]
  split
  · rename_i h
    have : ((cs.filter isVisible).length : Int) = 1 := by omega
    rw [this]
    cases o <;> simp [Layouting.length, QRect.setSize, QRect.size]
  · cases o <;> simp [Layouting.length, QRect.setSize, QRect.size]

/-- The own geometry after an accepted `resize(newSize)` of a container. -/
theorem size_resize_accepted (n : Nat) (s : SizingInfo) (o : Orientation) (cs : List Item)
    (rs b k : Bool) (newSize : QSize)
    (hacc : ¬ (newSize.width < (Item.container n s o cs rs b k).minSize.width ∨
      newSize.height < (Item.container n s o cs rs b k).minSize.height)) :
    ((Item.container n s o cs rs b k).resize newSize).size = newSize := by
  have hres : (Item.container n s o cs rs b k).resize newSize
      = resizeBody (resizeFuel (depthList cs)) (.container n s o cs rs b k) newSize := rfl
  rw [hres]
  simp only [Item.size, m_sizingInfo_resizeBody_accepted _ _ _ hacc]
  rfl

theorem resizeBody_same_size (rz : Item → QSize → Item) (c : Item) (sz : QSize)
    (hw : c.width = sz.width) (hh : c.height = sz.height) : resizeBody rz c sz = c := by
  unfold resizeBody
  simp only [minSize_setBlock]
  split
  · exact setBlock_roundtrip c
  · split
    · exact setBlock_roundtrip c
    · rename_i h
      simp only [Item.width, Item.height, m_sizingInfo_setBlock, Bool.and_eq_true,
        Bool.not_eq_true', bne_eq_false_iff_eq, not_and] at h
      simp only [Item.width, Item.height] at hw hh
      exact absurd hh (h hw)

/-! ## Mapping to the root and back -/

theorem QPoint.add_sub_cancel (p q : QPoint) : (p.add q).sub q = p := by
  cases p
  cases q
  simp [QPoint.add, QPoint.sub]

theorem QPoint.sub_add_cancel (p q : QPoint) : (p.sub q).add q = p := by
  cases p
  cases q
  simp [QPoint.add, QPoint.sub]

/-- Both mappings of an item move a point by the same offset, in opposite
directions. -/
theorem map_offset (root : Item) (rp : List Nat) :
    ∃ off : QPoint, ∀ p, mapToRootUp root rp p = p.add off ∧
      mapFromRootUp root rp p = p.sub off := by
  induction rp with
  | nil =>
    refine ⟨⟨0, 0⟩, fun p => ?_⟩
    cases p
    simp [mapToRootUp, mapFromRootUp, QPoint.add, QPoint.sub]
  | cons k up ih =>
    obtain ⟨off, hoff⟩ := ih
    cases h : getAt root up.reverse with
    | none =>
      refine ⟨⟨0, 0⟩, fun p => ?_⟩
      cases p
      simp [mapToRootUp, mapFromRootUp, h, QPoint.add, QPoint.sub]
    | some c =>
      refine ⟨c.pos.add off, fun p => ?_⟩
      simp only [mapToRootUp, mapFromRootUp, h, (hoff _).1, (hoff _).2]
      cases p
      cases off
      simp [QPoint.add, QPoint.sub]
      omega

/-! ## What a passed `checkSanity` guarantees -/

theorem checkSanity_minSize_any (isRoot : Bool) (X : Item) (h : checkSanity isRoot X = true) :
    X.minSize.width ≤ X.width ∧ X.minSize.height ≤ X.height := by
  cases X with
  | leaf n s v w r =>
    simp only [checkSanity, Bool.not_eq_true', Bool.or_eq_false_iff, decide_eq_false_iff_not,
      not_lt] at h
    exact h
  | container n s o cs rs b k =>
    simp only [checkSanity] at h
    split at h
    · simp at h
    · rename_i h1
      simp only [Bool.or_eq_true, decide_eq_true_eq, not_or, not_lt] at h1
      exact h1

theorem checkSanity_descendants (p : List Nat) :
    ∀ (isRoot : Bool) (c d : Item), checkSanity isRoot c = true → getAt c p = some d →
      d.minSize.width ≤ d.width ∧ d.minSize.height ≤ d.height := by
  induction p with
  | nil =>
    intro isRoot c d h hd
    simp only [getAt, Option.some.injEq] at hd
    subst hd
    exact checkSanity_minSize_any isRoot c h
  | cons k ks ih =>
    intro isRoot c d h hd
    cases c with
    | leaf n s v w r => simp [getAt, m_children] at hd
    | container n s o cs rs b kk =>
      rw [getAt] at hd
      simp only [m_children_container] at hd
      cases hX : cs.get? k with
      | none =>
        rw [hX] at hd
        simp at hd
      | some X =>
        rw [hX] at hd
        simp only [] at hd
        have hch := (checkSanity_container isRoot n s o cs rs b kk h).2
        exact ih false X d (checkChildren_mem _ o _ cs hch X (List.get?_mem hX)).2.2 hd

theorem foldl_add_eq_sum (l : List Int) (a : Int) : l.foldl (· + ·) a = a + l.sum := by
  induction l generalizing a with
  | nil => simp
  | cons x xs ih =>
    simp only [List.foldl_cons, List.sum_cons, ih]
    omega

theorem checkSanity_occupied (isRoot : Bool) (n : Nat) (s : SizingInfo) (o : Orientation)
    (cs : List Item) (rs b k : Bool)
    (h : checkSanity isRoot (.container n s o cs rs b k) = true)
    (hne : (cs.filter isVisible).isEmpty = false) :
    ((cs.filter isVisible).map fun i => i.length o).sum
        + separatorThickness * (((cs.filter isVisible).length : Int) - 1)
      = (Item.container n s o cs rs b k).containerLength := by
  simp only [checkSanity] at h
  split at h
  · simp at h
  · split at h
    · simp at h
    · split at h
      · simp at h
      · split at h
        · simp at h
        · simp only [hne, Bool.not_false, if_true] at h
          split at h
          · simp at h
          · rename_i h5
            simp only [bne_iff_ne, ne_eq, Decidable.not_not, foldl_add_eq_sum] at h5
            rw [← h5]
            have hlen : 1 ≤ (cs.filter isVisible).length := by
              cases hl : cs.filter isVisible with
              | nil => simp [hl] at hne
              | cons x xs => simp
            have : qMax 0 (separatorThickness * (((cs.filter isVisible).length : Int) - 1))
                = separatorThickness * (((cs.filter isVisible).length : Int) - 1) := by
              apply qMax_zero_of_nonneg
              simp only [separatorThickness]
              omega
            rw [this]
            omega

/-! ## `checkSanity` does not read the percentages -/

theorem minSize_setSizingInfo_of_minSize (X : Item) (s : SizingInfo)
    (h : s.minSize = X.m_sizingInfo.minSize) : (X.setSizingInfo s).minSize = X.minSize := by
  cases X with
  | leaf n t v w r =>
    simp only [setSizingInfo, minSize, m_sizingInfo] at h ⊢
    exact h
  | container n t o cs rs b k =>
    simp only [setSizingInfo]
    cases cs <;> simp [minSize]

theorem checkSanity_setSizingInfo (isRoot : Bool) (X : Item) (s : SizingInfo)
    (hg : s.geometry = X.m_sizingInfo.geometry) (hm : s.minSize = X.m_sizingInfo.minSize)
    (hi : s.isBeingInserted = X.m_sizingInfo.isBeingInserted) :
    checkSanity isRoot (X.setSizingInfo s) = checkSanity isRoot X := by
  cases X with
  | leaf n t v w r =>
    simp only [m_sizingInfo] at hg hm
    simp [setSizingInfo, checkSanity, hg, hm]
  | container n t o cs rs b k =>
    simp only [m_sizingInfo] at hg hm hi
    have hmin : (Item.container n s o cs rs b k).minSize
        = (Item.container n t o cs rs b k).minSize := by
      cases cs <;> simp [minSize]
    simp only [setSizingInfo, checkSanity, hmin, Item.width, Item.height, Item.rect, Item.size,
      containerLength, isVertical, m_sizingInfo_container, m_orientation_container, hg]

theorem minSizeLoop_map (o : Orientation) (g : Item → Item)
    (hv : ∀ X, (g X).isVisible = X.isVisible) (hm : ∀ X, (g X).minSize = X.minSize)
    (cs : List Item) (w h n : Int) :
    minSizeLoop o (cs.map g) w h n = minSizeLoop o cs w h n := by
  induction cs generalizing w h n with
  | nil => rfl
  | cons c cs ih => simp only [List.map_cons, minSizeLoop, hv, hm, ih]

theorem checkPositions_map (o : Orientation) (g : Item → Item)
    (hv : ∀ X, (g X).isVisible = X.isVisible)
    (hs : ∀ X, (g X).m_sizingInfo.geometry = X.m_sizingInfo.geometry)
    (cs : List Item) (p : Int) :
    checkPositions o (cs.map g) p = checkPositions o cs p := by
  induction cs generalizing p with
  | nil => rfl
  | cons c cs ih =>
    simp only [List.map_cons, checkPositions, hv, Item.pos, Item.size, hs, ih]

theorem checkChildren_map (rect : QRect) (o : Orientation) (h1 : Int) (g : Item → Item)
    (hs : ∀ X, (g X).m_sizingInfo.geometry = X.m_sizingInfo.geometry)
    (hi : ∀ X, (g X).m_sizingInfo.isBeingInserted = X.m_sizingInfo.isBeingInserted)
    (hc : ∀ X, checkSanity false (g X) = checkSanity false X)
    (cs : List Item) :
    checkChildren rect o h1 (cs.map g) = checkChildren rect o h1 cs := by
  induction cs with
  | nil => rfl
  | cons c cs ih =>
    simp only [List.map_cons, checkChildren, Item.size, Item.geometry, Item.isBeingInserted, hs,
      hi, hc, ih]

/-! ## What `growItem(index, sizes, side1Growth, side2Growth)` writes -/

theorem squeezeRound_length (toTake : Int) (as qs : List Int) (missing : Int) :
    (squeezeRound toTake as qs missing).2.1.length = qs.length := by
  induction as generalizing qs missing with
  | nil => cases qs <;> simp [squeezeRound]
  | cons a as ih =>
    cases qs with
    | nil => simp [squeezeRound]
    | cons q qs =>
      simp only [squeezeRound]
      split
      · simp [ih]
      · split
        · simp
        · simp [ih]

theorem calculateSqueezesLoop_length (fuel : Nat) (as qs : List Int) (missing : Int) :
    (calculateSqueezesLoop fuel as qs missing).length ≤ qs.length := by
  induction fuel generalizing as qs missing with
  | zero => simp [calculateSqueezesLoop]
  | succ f ih =>
    simp only [calculateSqueezesLoop]
    split
    · split
      · simp
      · exact Nat.le_trans (ih _ _ _) (Nat.le_of_eq (squeezeRound_length _ _ _ _))
    · exact Nat.le_refl _

theorem calculateSqueezes_length_le (o : Orientation) (range : List SizingInfo) (needed : Int) :
    (calculateSqueezes o range needed).length ≤ range.length := by
  unfold calculateSqueezes
  refine Nat.le_trans (calculateSqueezesLoop_length _ _ _ _) ?_
  simp

theorem applySqueezes_length (f : SizingInfo → Int → SizingInfo) (ss : List SizingInfo)
    (qs : List Int) : (applySqueezes f ss qs).length = ss.length := by
  induction ss generalizing qs with
  | nil => cases qs <;> simp [applySqueezes]
  | cons s ss ih =>
    cases qs with
    | nil => simp [applySqueezes]
    | cons q qs => simp [applySqueezes, ih]

theorem applySqueezes_sum (f : SizingInfo → Int → SizingInfo) (o : Orientation)
    (hf : ∀ s q, (f s q).length o = s.length o - q) (ss : List SizingInfo) (qs : List Int)
    (hlen : qs.length ≤ ss.length) :
    ((applySqueezes f ss qs).map fun s => s.length o).sum
      = (ss.map fun s => s.length o).sum - qs.sum := by
  induction ss generalizing qs with
  | nil =>
    cases qs with
    | nil => simp [applySqueezes]
    | cons q qs => simp at hlen
  | cons s ss ih =>
    cases qs with
    | nil => simp [applySqueezes]
    | cons q qs =>
      simp only [List.length_cons, Nat.add_le_add_iff_right] at hlen
      simp only [applySqueezes, List.map_cons, List.sum_cons, ih qs hlen, hf]
      omega

theorem length_shrunk_at_end (o : Orientation) (s : SizingInfo) (q : Int) :
    (s.setGeometry (adjustedRect s.geometry o 0 (-q))).length o = s.length o - q := by
  cases o <;>
    simp [SizingInfo.setGeometry, adjustedRect, QRect.adjust, SizingInfo.length, SizingInfo.size,
      QRect.size, Layouting.length] <;> omega

theorem length_shrunk_at_start (o : Orientation) (s : SizingInfo) (q : Int) :
    (s.setGeometry (adjustedRect s.geometry o q 0)).length o = s.length o - q := by
  cases o <;>
    simp [SizingInfo.setGeometry, adjustedRect, QRect.adjust, SizingInfo.length, SizingInfo.size,
      QRect.size, Layouting.length]

theorem take_drop_of_replaced_front {α : Type} (S A : List α) (i : Nat)
    (h : A.length = (S.take i).length) :
    (A ++ S.drop i).take i = A ∧ (A ++ S.drop i).drop i = S.drop i := by
  by_cases hi : i ≤ S.length
  · have hA : A.length = i := by rw [h, List.length_take]; omega
    exact ⟨List.take_left' hA, List.drop_left' hA⟩
  · have hd : S.drop i = [] := List.drop_eq_nil_of_le (by omega)
    have hA : A.length ≤ i := by rw [h, List.length_take]; omega
    rw [hd, List.append_nil]
    exact ⟨List.take_of_length_le hA, List.drop_eq_nil_of_le hA⟩

theorem take_drop_of_replaced_back {α : Type} (X B : List α) (i : Nat)
    (h : B.length = (X.drop i).length) :
    (X.take i ++ B).take i = X.take i ∧ (X.take i ++ B).drop i = B := by
  by_cases hi : i ≤ X.length
  · have hP : (X.take i).length = i := by rw [List.length_take]; omega
    exact ⟨List.take_left' hP, List.drop_left' hP⟩
  · have hB : B = [] := by
      apply List.eq_nil_of_length_eq_zero
      rw [h, List.length_drop]
      omega
    have hP : (X.take i).length ≤ i := by rw [List.length_take]; omega
    rw [hB, List.append_nil]
    exact ⟨List.take_of_length_le hP, List.drop_eq_nil_of_le hP⟩

theorem sum_take_add_sum_drop (l : List Int) (i : Nat) :
    (l.take i).sum + (l.drop i).sum = l.sum := by
  rw [← List.sum_append, List.take_append_drop]

/-! ## The distribution loop of `growItem` -/

theorem qMin_le_left (a b : Int) : qMin a b ≤ a := by
  unfold qMin
  split <;> omega

theorem qMin_le_right (a b : Int) : qMin a b ≤ b := by
  unfold qMin
  split <;> omega

theorem le_qMin (a b c : Int) (h1 : c ≤ a) (h2 : c ≤ b) : c ≤ qMin a b := by
  unfold qMin
  split <;> omega

theorem halfQuota_bounds (m : Int) (hm : 0 < m) :
    1 ≤ qMax 1 (Int.tdiv m 2) ∧ (2 ≤ m → 2 * qMax 1 (Int.tdiv m 2) ≤ m) ∧
    (m = 1 → qMax 1 (Int.tdiv m 2) = 1) := by
  have h := Int.tdiv_eq_ediv (show 0 ≤ m by omega) (show (0 : Int) ≤ 2 by omega)
  unfold qMax
  split <;> omega

/-- The growths only increase and never hand out more than what is missing,
whatever the number of iterations. -/
theorem growDistribute_le (fuel : Nat) (a1 a2 m g1 g2 : Int) (ha1 : 0 ≤ a1) (ha2 : 0 ≤ a2)
    (hm : 0 ≤ m) :
    g1 ≤ (growDistribute fuel a1 a2 m g1 g2).1 ∧ g2 ≤ (growDistribute fuel a1 a2 m g1 g2).2 ∧
    (growDistribute fuel a1 a2 m g1 g2).1 + (growDistribute fuel a1 a2 m g1 g2).2
      ≤ g1 + g2 + m := by
  induction fuel generalizing m g1 g2 with
  | zero => simp only [growDistribute]; omega
  | succ f ih =>
    unfold growDistribute
    by_cases hpos : m > 0
    · simp only [hpos, if_true]
      by_cases h1 : a1 = 0
      · simp only [h1, beq_self_eq_true, if_true]; omega
      · by_cases h2 : a2 = 0
        · simp only [beq_iff_eq, h1, h2, if_false, if_true]; omega
        · simp only [beq_iff_eq, h1, h2, if_false]
          have hq := halfQuota_bounds m hpos
          have t1 := qMin_le_left (qMax 1 (Int.tdiv m 2)) a1
          have t1' := le_qMin (qMax 1 (Int.tdiv m 2)) a1 1 hq.1 (by omega)
          have t2 := qMin_le_left (qMax 1 (Int.tdiv m 2)) a2
          have t2' := le_qMin (qMax 1 (Int.tdiv m 2)) a2 1 hq.1 (by omega)
          by_cases hz : m - qMin (qMax 1 (Int.tdiv m 2)) a1 = 0
          · simp only [hz, if_true]; omega
          · simp only [hz, if_false]
            have hm2 : 2 ≤ m := by
              by_contra hc
              have := hq.2.2 (by omega)
              omega
            have := hq.2.1 hm2
            have h := ih (m - qMin (qMax 1 (Int.tdiv m 2)) a1 - qMin (qMax 1 (Int.tdiv m 2)) a2)
              (g1 + qMin (qMax 1 (Int.tdiv m 2)) a1) (g2 + qMin (qMax 1 (Int.tdiv m 2)) a2)
              (by omega)
            omega
    · simp only [hpos, if_false]; omega

/-- With more iterations than the missing amount the loop has left through one
of its exits: the growths add up to exactly what was missing, and any larger
number of iterations gives the same result. -/
theorem growDistribute_exact (fuel : Nat) (a1 a2 m g1 g2 : Int) (ha1 : 0 ≤ a1) (ha2 : 0 ≤ a2)
    (hm : 0 ≤ m) (hfuel : m < fuel) :
    (growDistribute fuel a1 a2 m g1 g2).1 + (growDistribute fuel a1 a2 m g1 g2).2
      = g1 + g2 + m ∧
    ∀ fuel2 : Nat, m < fuel2 →
      growDistribute fuel2 a1 a2 m g1 g2 = growDistribute fuel a1 a2 m g1 g2 := by
  induction fuel generalizing m g1 g2 with
  | zero => simp at hfuel; omega
  | succ f ih =>
    have key : ∀ F : Nat, growDistribute (F + 1) a1 a2 m g1 g2 =
        if m > 0 then
          if a1 == 0 then (g1, g2 + m)
          else if a2 == 0 then (g1 + m, g2)
          else
            if m - qMin (qMax 1 (Int.tdiv m 2)) a1 == 0 then
              (g1 + qMin (qMax 1 (Int.tdiv m 2)) a1, g2)
            else
              growDistribute F a1 a2
                (m - qMin (qMax 1 (Int.tdiv m 2)) a1 - qMin (qMax 1 (Int.tdiv m 2)) a2)
                (g1 + qMin (qMax 1 (Int.tdiv m 2)) a1) (g2 + qMin (qMax 1 (Int.tdiv m 2)) a2)
        else (g1, g2) := fun F => by rw [growDistribute]
    have hfuel2 : ∀ fuel2 : Nat, m < fuel2 → ∃ F, fuel2 = F + 1 := fun fuel2 h =>
      ⟨fuel2 - 1, by omega⟩
    by_cases hpos : m > 0
    · by_cases h1 : a1 = 0
      · refine ⟨by rw [key]; simp only [hpos, h1, beq_self_eq_true, if_true]; omega, ?_⟩
        intro fuel2 h
        obtain ⟨F, rfl⟩ := hfuel2 fuel2 h
        rw [key, key]
        simp only [hpos, h1, beq_self_eq_true, if_true]
      · by_cases h2 : a2 = 0
        · refine ⟨by rw [key]; simp only [hpos, beq_iff_eq, h1, h2, if_false, if_true]; omega, ?_⟩
          intro fuel2 h
          obtain ⟨F, rfl⟩ := hfuel2 fuel2 h
          rw [key, key]
          simp only [hpos, beq_iff_eq, h1, h2, if_false, if_true]
        · have hq := halfQuota_bounds m hpos
          have t1 := qMin_le_left (qMax 1 (Int.tdiv m 2)) a1
          have t1' := le_qMin (qMax 1 (Int.tdiv m 2)) a1 1 hq.1 (by omega)
          have t2 := qMin_le_left (qMax 1 (Int.tdiv m 2)) a2
          have t2' := le_qMin (qMax 1 (Int.tdiv m 2)) a2 1 hq.1 (by omega)
          by_cases hz : m - qMin (qMax 1 (Int.tdiv m 2)) a1 = 0
          · refine ⟨by rw [key]; simp only [hpos, beq_iff_eq, h1, h2, hz, if_false, if_true]; omega,
              ?_⟩
            intro fuel2 h
            obtain ⟨F, rfl⟩ := hfuel2 fuel2 h
            rw [key, key]
            simp only [hpos, beq_iff_eq, h1, h2, hz, if_false, if_true]
          · have hm2 : 2 ≤ m := by
              by_contra hc
              have := hq.2.2 (by omega)
              omega
            have := hq.2.1 hm2
            have h := ih (m - qMin (qMax 1 (Int.tdiv m 2)) a1 - qMin (qMax 1 (Int.tdiv m 2)) a2)
              (g1 + qMin (qMax 1 (Int.tdiv m 2)) a1) (g2 + qMin (qMax 1 (Int.tdiv m 2)) a2)
              (by omega) (by omega)
            refine ⟨by rw [key]; simp only [hpos, beq_iff_eq, h1, h2, hz, if_false, if_true]; omega,
              ?_⟩
            intro fuel2 hf2
            obtain ⟨F, rfl⟩ := hfuel2 fuel2 hf2
            rw [key, key]
            simp only [hpos, beq_iff_eq, h1, h2, hz, if_false, if_true]
            exact h.2 F (by omega)
    · refine ⟨by rw [key]; simp only [hpos, if_false]; omega, ?_⟩
      intro fuel2 h
      obtain ⟨F, rfl⟩ := hfuel2 fuel2 h
      rw [key, key]
      simp only [hpos, if_false]

/-! ## One round of `calculateSqueezes` -/

/-- In one pass over the entries no squeeze grows by more than the quota. -/
theorem squeezeRound_increment (toTake : Int) (h0 : 0 ≤ toTake) (as qs : List Int)
    (missing : Int) (i : Nat) (q q' : Int) (hq : qs.get? i = some q)
    (hq' : (squeezeRound toTake as qs missing).2.1.get? i = some q') :
    q' - q ≤ toTake := by
  induction as generalizing qs missing i with
  | nil =>
    simp only [squeezeRound] at hq'
    rw [hq] at hq'
    simp only [Option.some.injEq] at hq'
    omega
  | cons a as ih =>
    cases qs with
    | nil => simp at hq
    | cons p ps =>
      unfold squeezeRound at hq'
      by_cases ha : a = 0
      · simp only [ha, beq_self_eq_true, if_true] at hq'
        cases i with
        | zero =>
          simp only [List.get?_cons_zero, Option.some.injEq] at hq hq'
          omega
        | succ j =>
          simp only [List.get?_cons_succ] at hq hq'
          exact ih ps missing j hq hq'
      · simp only [beq_iff_eq, ha, if_false] at hq'
        have t := qMin_le_left toTake a
        by_cases hz : missing - qMin toTake a = 0
        · simp only [hz, if_true] at hq'
          cases i with
          | zero =>
            simp only [List.get?_cons_zero, Option.some.injEq] at hq hq'
            omega
          | succ j =>
            simp only [List.get?_cons_succ] at hq hq'
            rw [hq] at hq'
            simp only [Option.some.injEq] at hq'
            omega
        · simp only [hz, if_false] at hq'
          cases i with
          | zero =>
            simp only [List.get?_cons_zero, Option.some.injEq] at hq hq'
            omega
          | succ j =>
            simp only [List.get?_cons_succ] at hq hq'
            exact ih ps _ j hq hq'

/-- The quota of a round: `missing / numDonors`, and the whole of `missing` when
that quotient is 0. -/
theorem squeezeQuota_cases (missing d : Int) (hm : 0 < missing) (hd : 0 ≤ d) :
    0 ≤ (if Int.tdiv missing d == 0 then missing else Int.tdiv missing d) ∧
    (0 < d → d ≤ missing →
      (if Int.tdiv missing d == 0 then missing else Int.tdiv missing d) = Int.tdiv missing d ∧
      1 ≤ Int.tdiv missing d) ∧
    (missing < d →
      (if Int.tdiv missing d == 0 then missing else Int.tdiv missing d) = missing) := by
  have he := Int.tdiv_eq_ediv (show 0 ≤ missing by omega) hd
  have hn : 0 ≤ missing / d := Int.ediv_nonneg (by omega) hd
  rw [he]
  refine ⟨?_, ?_, ?_⟩
  · split <;> omega
  · intro hd0 hle
    have h1 : 1 ≤ missing / d := (Int.le_ediv_iff_mul_le hd0).2 (by omega)
    have hne : ¬ (missing / d = 0) := by omega
    refine ⟨?_, h1⟩
    simp only [beq_iff_eq, hne, if_false]
  · intro hlt
    have h0 : missing / d = 0 := Int.ediv_eq_zero_of_lt (by omega) hlt
    simp only [h0, beq_self_eq_true, if_true]

/-! ## The index of a child among the visible children -/

theorem filter_take_get? (cs : List Item) (idx : Nat) (child : Item)
    (h : cs.get? idx = some child) (hv : child.isVisible = true) :
    (cs.filter isVisible).get? ((cs.take idx).filter isVisible).length = some child := by
  induction cs generalizing idx with
  | nil => simp at h
  | cons c cs ih =>
    cases idx with
    | zero =>
      simp only [List.get?_cons_zero, Option.some.injEq] at h
      subst h
      simp [hv]
    | succ j =>
      simp only [List.get?_cons_succ] at h
      by_cases hc : c.isVisible = true
      · simpa [hc] using ih j h
      · simpa [hc] using ih j h

/-! ## The aggregation loops of `minSize` and `maxSize` -/

theorem foldl_qMax_spec (l : List Int) (a : Int) :
    a ≤ l.foldl qMax a ∧ (∀ x ∈ l, x ≤ l.foldl qMax a) ∧
    (l.foldl qMax a = a ∨ l.foldl qMax a ∈ l) := by
  induction l generalizing a with
  | nil => simp
  | cons x xs ih =>
    have h := ih (qMax a x)
    have h1 := le_qMax_left a x
    have h2 := le_qMax_right a x
    simp only [List.foldl_cons, List.mem_cons, forall_eq_or_imp]
    refine ⟨by omega, ⟨by omega, h.2.1⟩, ?_⟩
    rcases h.2.2 with h3 | h3
    · rw [h3]
      unfold qMax
      split
      · exact Or.inr (Or.inl rfl)
      · exact Or.inl rfl
    · exact Or.inr (Or.inr h3)

theorem foldl_qMin_le (l : List Int) (a : Int) : l.foldl qMin a ≤ a := by
  induction l generalizing a with
  | nil => simp
  | cons x xs ih =>
    have h := ih (qMin a x)
    have h1 := qMin_le_left a x
    simp only [List.foldl_cons]
    omega

/-- The loop of `ItemContainer::minSize`: along the orientation it adds the
minimum lengths of the visible children, across it takes their maximum with
the starting value, and it counts the visible children. -/
theorem minSizeLoop_eq (o : Orientation) (cs : List Item) (minW minH n : Int) :
    Layouting.length ⟨(minSizeLoop o cs minW minH n).1, (minSizeLoop o cs minW minH n).2.1⟩ o
      = Layouting.length ⟨minW, minH⟩ o
        + ((cs.filter isVisible).map fun (X : Item) => X.minLength o).sum ∧
    Layouting.length ⟨(minSizeLoop o cs minW minH n).1, (minSizeLoop o cs minW minH n).2.1⟩
        (oppositeOrientation o)
      = ((cs.filter isVisible).map fun (X : Item) => X.minLength (oppositeOrientation o)).foldl
          qMax (Layouting.length ⟨minW, minH⟩ (oppositeOrientation o)) ∧
    (minSizeLoop o cs minW minH n).2.2 = n + ((cs.filter isVisible).length : Int) := by
  induction cs generalizing minW minH n with
  | nil => simp [minSizeLoop]
  | cons c cs ih =>
    by_cases hv : c.isVisible = true
    · cases o with
      | Vertical =>
        have h := ih (qMax minW c.minSize.width) (minH + c.minSize.height) (n + 1)
        simp only [minSizeLoop, hv, if_true, oppositeOrientation, Layouting.length,
          List.filter_cons, List.map_cons, List.sum_cons, List.foldl_cons, List.length_cons,
          minLength, Nat.cast_add, Nat.cast_one] at h ⊢
        refine ⟨by omega, h.2.1, by omega⟩
      | Horizontal =>
        have h := ih (minW + c.minSize.width) (qMax minH c.minSize.height) (n + 1)
        simp only [minSizeLoop, hv, if_true, oppositeOrientation, Layouting.length,
          List.filter_cons, List.map_cons, List.sum_cons, List.foldl_cons, List.length_cons,
          minLength, Nat.cast_add, Nat.cast_one, reduceCtorEq, if_false] at h ⊢
        refine ⟨by omega, h.2.1, by omega⟩
    · have h := ih minW minH n
      simp only [minSizeLoop, hv, Bool.false_eq_true, if_false, List.filter_cons] at h ⊢
      exact h

/-- The loop of `ItemContainer::maxSize`: along the orientation it adds the
maximum lengths of the visible children, across it takes their minimum with
the starting value, and it counts the visible children. -/
theorem maxSizeLoop_eq (o : Orientation) (cs : List Item) (maxW maxH n : Int) :
    Layouting.length ⟨(maxSizeLoop o cs maxW maxH n).1, (maxSizeLoop o cs maxW maxH n).2.1⟩ o
      = Layouting.length ⟨maxW, maxH⟩ o
        + ((cs.filter isVisible).map fun (X : Item) => Layouting.length X.maxSize o).sum ∧
    Layouting.length ⟨(maxSizeLoop o cs maxW maxH n).1, (maxSizeLoop o cs maxW maxH n).2.1⟩
        (oppositeOrientation o)
      = ((cs.filter isVisible).map
          fun (X : Item) => Layouting.length X.maxSize (oppositeOrientation o)).foldl
          qMin (Layouting.length ⟨maxW, maxH⟩ (oppositeOrientation o)) ∧
    (maxSizeLoop o cs maxW maxH n).2.2 = n + ((cs.filter isVisible).length : Int) := by
  induction cs generalizing maxW maxH n with
  | nil => simp [maxSizeLoop]
  | cons c cs ih =>
    by_cases hv : c.isVisible = true
    · cases o with
      | Vertical =>
        have h := ih (qMin maxW c.maxSize.width) (maxH + c.maxSize.height) (n + 1)
        simp only [maxSizeLoop, hv, if_true, oppositeOrientation, Layouting.length,
          List.filter_cons, List.map_cons, List.sum_cons, List.foldl_cons, List.length_cons,
          Nat.cast_add, Nat.cast_one] at h ⊢
        refine ⟨by omega, h.2.1, by omega⟩
      | Horizontal =>
        have h := ih (maxW + c.maxSize.width) (qMin maxH c.maxSize.height) (n + 1)
        simp only [maxSizeLoop, hv, if_true, oppositeOrientation, Layouting.length,
          List.filter_cons, List.map_cons, List.sum_cons, List.foldl_cons, List.length_cons,
          Nat.cast_add, Nat.cast_one, reduceCtorEq, if_false] at h ⊢
        refine ⟨by omega, h.2.1, by omega⟩
    · have h := ih maxW maxH n
      simp only [maxSizeLoop, hv, Bool.false_eq_true, if_false, List.filter_cons] at h ⊢
      exact h

/-- The loop of `minSize` does not look at hidden children. -/
theorem minSizeLoop_filter (o : Orientation) (cs : List Item) (minW minH n : Int) :
    minSizeLoop o (cs.filter isVisible) minW minH n = minSizeLoop o cs minW minH n := by
  induction cs generalizing minW minH n with
  | nil => rfl
  | cons c cs ih =>
    by_cases hv : c.isVisible = true
    · simp only [List.filter_cons, hv, if_true, minSizeLoop, ih]
    · simp only [List.filter_cons, hv, Bool.false_eq_true, if_false, minSizeLoop, ih]

/-- The minimum size of a container with at least one child, by axis. -/
theorem minSize_container_eq (n : Nat) (s : SizingInfo) (o : Orientation) (c : Item)
    (cs : List Item) (rs b k : Bool) :
    Layouting.length (Item.container n s o (c :: cs) rs b k).minSize o
      = (((c :: cs).filter isVisible).map fun (X : Item) => X.minLength o).sum
        + ((((c :: cs).filter isVisible).length : Int) - 1) * separatorThickness ∧
    Layouting.length (Item.container n s o (c :: cs) rs b k).minSize (oppositeOrientation o)
      = (((c :: cs).filter isVisible).map
          fun (X : Item) => X.minLength (oppositeOrientation o)).foldl qMax 0 := by
  have h := minSizeLoop_eq o (c :: cs) 0 0 0
  cases o with
  | Vertical =>
    simp only [minSize, if_true, oppositeOrientation, Layouting.length] at h ⊢
    rw [h.2.2, Int.zero_add]
    exact ⟨by omega, h.2.1⟩
  | Horizontal =>
    simp only [minSize, reduceCtorEq, if_false, oppositeOrientation, Layouting.length] at h ⊢
    rw [h.2.2, Int.zero_add]
    exact ⟨by omega, h.2.1⟩

/-- The maximum size of a container with at least one child, by axis. -/
theorem maxSize_container_eq (n : Nat) (s : SizingInfo) (o : Orientation) (c : Item)
    (cs : List Item) (rs b k : Bool) :
    Layouting.length (Item.container n s o (c :: cs) rs b k).maxSize o
      = (((c :: cs).filter isVisible).map fun (X : Item) => Layouting.length X.maxSize o).sum
        + ((((c :: cs).filter isVisible).length : Int) - 1) * separatorThickness ∧
    Layouting.length (Item.container n s o (c :: cs) rs b k).maxSize (oppositeOrientation o)
      = (((c :: cs).filter isVisible).map
          fun (X : Item) => Layouting.length X.maxSize (oppositeOrientation o)).foldl qMin 0 := by
  have h := maxSizeLoop_eq o (c :: cs) 0 0 0
  cases o with
  | Vertical =>
    simp only [maxSize, if_true, oppositeOrientation, Layouting.length] at h ⊢
    rw [h.2.2, Int.zero_add]
    exact ⟨by omega, h.2.1⟩
  | Horizontal =>
    simp only [maxSize, reduceCtorEq, if_false, oppositeOrientation, Layouting.length] at h ⊢
    rw [h.2.2, Int.zero_add]
    exact ⟨by omega, h.2.1⟩

/-! ## What `growNeighbours` does with two neighbours -/

/-- The geometry stored by `setGeometry_recursive`, for a leaf and for a
container that accepts the new size. -/
theorem geometry_setGeometry_recursive (X : Item) (rect : QRect)
    (hacc : X.isContainer = true →
      ¬ (rect.width < X.minSize.width ∨ rect.height < X.minSize.height)) :
    (X.setGeometry_recursive rect).m_sizingInfo.geometry = rect := by
  unfold setGeometry_recursive
  split
  · rename_i hc
    have hc2 : (X.setPos rect.topLeft).isContainer = true := by
      simpa [setPos, setGeometry_eq] using hc
    have hmin : (X.setPos rect.topLeft).minSize = X.minSize := by
      rw [setPos, setGeometry_eq]
      exact minSize_setSizingInfo_of_minSize X _ rfl
    unfold resize
    rw [m_sizingInfo_resizeFuel_accepted _ _ _ (fun _ => one_le_depth_of_container _ hc2)
      (fun _ => by rw [hmin]; exact hacc hc)]
    simp only [m_sizingInfo_setPos, QRect.moveTopLeft, QRect.setSize, QRect.topLeft, QRect.size]
  · rw [setGeometry_eq]
    simp

theorem get?_modify_modify (f g : Item → Item) (cs : List Item) (i1 i2 : Nat) (n1 n2 : Item)
    (h1 : cs.get? i1 = some n1) (h2 : cs.get? i2 = some n2) (hne : i1 ≠ i2) :
    ((cs.modify f i1).modify g i2).get? i1 = some (f n1) ∧
    ((cs.modify f i1).modify g i2).get? i2 = some (g n2) := by
  simp only [List.get?_eq_getElem?] at h1 h2 ⊢
  refine ⟨?_, ?_⟩
  · rw [List.getElem?_modify, List.getElem?_modify, h1]
    simp [hne, Ne.symm hne]
  · rw [List.getElem?_modify, List.getElem?_modify, h2]
    simp [hne, Ne.symm hne]

/-- The two children that `growNeighbours(side1Neighbour, side2Neighbour)`
writes, in a horizontal container. -/
theorem growNeighbours_both_horizontal (c : Item) (i1 i2 : Nat) (n1 n2 : Item)
    (h1 : c.m_children.get? i1 = some n1) (h2 : c.m_children.get? i2 = some n2)
    (hne : i1 ≠ i2) (ho : c.m_orientation = .Horizontal) :
    (growNeighbours c (some i1) (some i2)).m_children.get? i1
      = some (n1.setGeometry_recursive
          (n1.geometry.setWidth (n1.geometry.width
            + Int.tdiv (n2.geometry.x - n1.geometry.right - separatorThickness) 2))) ∧
    (growNeighbours c (some i1) (some i2)).m_children.get? i2
      = some (n2.setGeometry_recursive
          (n2.geometry.setLeft
            ((n1.geometry.setWidth (n1.geometry.width
              + Int.tdiv (n2.geometry.x - n1.geometry.right - separatorThickness) 2)).right
              + separatorThickness + 1))) := by
  have hc := isContainer_of_get? h1
  unfold growNeighbours
  simp only [Option.some_bind, h1, h2, isVertical, ho, Option.getD_some, beq_iff_eq, reduceCtorEq,
    if_false, if_true, beq_self_eq_true]
  rw [m_children_setChildren_of_container _ _ hc]
  exact get?_modify_modify _ _ _ i1 i2 n1 n2 h1 h2 hne

/-- The two children that `growNeighbours(side1Neighbour, side2Neighbour)`
writes, in a vertical container. -/
theorem growNeighbours_both_vertical (c : Item) (i1 i2 : Nat) (n1 n2 : Item)
    (h1 : c.m_children.get? i1 = some n1) (h2 : c.m_children.get? i2 = some n2)
    (hne : i1 ≠ i2) (ho : c.m_orientation = .Vertical) :
    (growNeighbours c (some i1) (some i2)).m_children.get? i1
      = some (n1.setGeometry_recursive
          (n1.geometry.setHeight (n1.geometry.height
            + Int.tdiv (n2.geometry.y - n1.geometry.bottom - separatorThickness) 2))) ∧
    (growNeighbours c (some i1) (some i2)).m_children.get? i2
      = some (n2.setGeometry_recursive
          (n2.geometry.setTop
            ((n1.geometry.setHeight (n1.geometry.height
              + Int.tdiv (n2.geometry.y - n1.geometry.bottom - separatorThickness) 2)).bottom
              + separatorThickness + 1))) := by
  have hc := isContainer_of_get? h1
  unfold growNeighbours
  simp only [Option.some_bind, h1, h2, isVertical, ho, Option.getD_some, beq_iff_eq, reduceCtorEq,
    if_false, if_true, beq_self_eq_true]
  rw [m_children_setChildren_of_container _ _ hc]
  exact get?_modify_modify _ _ _ i1 i2 n1 n2 h1 h2 hne

/-- The geometries of the two neighbours after `growNeighbours`, along and
across the orientation of the container. The side-1 neighbour grows by half of
`available` (the distance from its last pixel to the start of the side-2
neighbour, less one separator); the side-2 neighbour then starts one separator
after it and keeps its far edge. -/
theorem growNeighbours_both_lengths (c : Item) (i1 i2 : Nat) (n1 n2 : Item)
    (h1 : c.m_children.get? i1 = some n1) (h2 : c.m_children.get? i2 = some n2)
    (hne : i1 ≠ i2)
    (hins1 : n1.isBeingInserted = false) (hins2 : n2.isBeingInserted = false)
    (hmin1 : n1.isContainer = true →
      n1.minSize.width ≤ n1.width ∧ n1.minSize.height ≤ n1.height)
    (hmin2 : n2.isContainer = true →
      n2.minSize.width ≤ n2.width ∧ n2.minSize.height ≤ n2.height)
    (hgap : n1.position c.m_orientation + n1.length c.m_orientation + 5
      ≤ n2.position c.m_orientation) :
    ∃ m1 m2 : Item,
      (growNeighbours c (some i1) (some i2)).m_children.get? i1 = some m1 ∧
      (growNeighbours c (some i1) (some i2)).m_children.get? i2 = some m2 ∧
      m1.position c.m_orientation = n1.position c.m_orientation ∧
      m1.length c.m_orientation = n1.length c.m_orientation
        + (n2.position c.m_orientation
            - (n1.position c.m_orientation + n1.length c.m_orientation - 1) - 5) / 2 ∧
      m2.position c.m_orientation
        = m1.position c.m_orientation + m1.length c.m_orientation + 5 ∧
      m2.position c.m_orientation + m2.length c.m_orientation
        = n2.position c.m_orientation + n2.length c.m_orientation ∧
      m1.position (oppositeOrientation c.m_orientation)
        = n1.position (oppositeOrientation c.m_orientation) ∧
      m1.length (oppositeOrientation c.m_orientation)
        = n1.length (oppositeOrientation c.m_orientation) ∧
      m2.position (oppositeOrientation c.m_orientation)
        = n2.position (oppositeOrientation c.m_orientation) ∧
      m2.length (oppositeOrientation c.m_orientation)
        = n2.length (oppositeOrientation c.m_orientation) := by
  have hg1 : n1.geometry = n1.m_sizingInfo.geometry := by
    simp [Item.geometry, hins1]
  have hg2 : n2.geometry = n2.m_sizingInfo.geometry := by
    simp [Item.geometry, hins2]
  cases ho : c.m_orientation with
  | Horizontal =>
    rw [ho] at hgap
    simp only [position, Item.length, Layouting.length, Item.size, QRect.size, Item.x, Item.y,
      oppositeOrientation] at hgap ⊢
    obtain ⟨e1, e2⟩ := growNeighbours_both_horizontal c i1 i2 n1 n2 h1 h2 hne ho
    rw [hg1, hg2] at e1 e2
    simp only [QRect.right, separatorThickness, QRect.setWidth, QRect.setLeft] at e1 e2
    have hd := Int.tdiv_eq_ediv
      (show 0 ≤ n2.m_sizingInfo.geometry.x
          - (n1.m_sizingInfo.geometry.x + n1.m_sizingInfo.geometry.width - 1) - 5 by omega)
      (show (0 : Int) ≤ 2 by omega)
    rw [hd] at e1 e2
    refine ⟨_, _, e1, e2, ?_⟩
    rw [geometry_setGeometry_recursive n1 _ (fun hc => by
        have := hmin1 hc
        simp only [Item.width, Item.height] at this
        simp only []
        omega),
      geometry_setGeometry_recursive n2 _ (fun hc => by
        have := hmin2 hc
        simp only [Item.width, Item.height] at this
        simp only []
        omega)]
    simp only []
    refine ⟨trivial, trivial, by omega, by omega, trivial, trivial, trivial, trivial⟩
  | Vertical =>
    rw [ho] at hgap
    simp only [position, Item.length, Layouting.length, Item.size, QRect.size, Item.x, Item.y,
      oppositeOrientation] at hgap ⊢
    obtain ⟨e1, e2⟩ := growNeighbours_both_vertical c i1 i2 n1 n2 h1 h2 hne ho
    rw [hg1, hg2] at e1 e2
    simp only [QRect.bottom, separatorThickness, QRect.setHeight, QRect.setTop] at e1 e2
    have hd := Int.tdiv_eq_ediv
      (show 0 ≤ n2.m_sizingInfo.geometry.y
          - (n1.m_sizingInfo.geometry.y + n1.m_sizingInfo.geometry.height - 1) - 5 by omega)
      (show (0 : Int) ≤ 2 by omega)
    rw [hd] at e1 e2
    refine ⟨_, _, e1, e2, ?_⟩
    rw [geometry_setGeometry_recursive n1 _ (fun hc => by
        have := hmin1 hc
        simp only [Item.width, Item.height] at this
        simp only []
        omega),
      geometry_setGeometry_recursive n2 _ (fun hc => by
        have := hmin2 hc
        simp only [Item.width, Item.height] at this
        simp only []
        omega)]
    simp only []
    refine ⟨trivial, trivial, by omega, by omega, trivial, trivial, trivial, trivial⟩

/-! ## Resizing across the orientation -/

/-- For a container that passes `checkSanity`, is not inside a resize and whose
visible children all have a positive length along the orientation, an accepted `resize(newSize)` that keeps the length along the
orientation leaves the length and the position of every visible child along the
orientation unchanged and gives every visible child the new cross-axis length of
the container. -/
theorem cross_axis_resize_of_positive_lengths (isRoot : Bool) (c : Item)
    (newSize : QSize) (hc : c.isContainer = true) (hrest : c.m_isResizing = false)
    (hsane : checkSanity isRoot c = true)
    (hacc : c.minSize.width ≤ newSize.width ∧ c.minSize.height ≤ newSize.height)
    (hsame : Layouting.length newSize c.m_orientation = c.length c.m_orientation)
    (hpos : ∀ X ∈ c.visibleChildren, 0 < X.length c.m_orientation) :
    ((c.resize newSize).visibleChildren.map fun X =>
        (X.length c.m_orientation, X.position c.m_orientation,
          X.length (oppositeOrientation c.m_orientation)))
      = c.visibleChildren.map fun X =>
        (X.length c.m_orientation, X.position c.m_orientation,
          Layouting.length newSize (oppositeOrientation c.m_orientation)) := by
  cases c with
  | leaf => simp [isContainer] at hc
  | container n s o cs rs b k =>
    simp only [m_isResizing] at hrest
    subst hrest
    simp only [m_orientation_container, visibleChildren, m_children_container] at *
    obtain ⟨hpacked, hchildren⟩ := checkSanity_container isRoot n s o cs false b k hsane
    have hfacts := checkChildren_mem _ o _ cs hchildren
    have hsame2 : Layouting.length newSize o = Layouting.length s.geometry.size o := hsame
    by_cases hsz : s.geometry.width = newSize.width ∧ s.geometry.height = newSize.height
    · have hres : (Item.container n s o cs false b k).resize newSize
          = resizeBody (resizeFuel (depthList cs)) (.container n s o cs false b k) newSize := rfl
      rw [hres, resizeBody_same_size _ (Item.container n s o cs false b k) newSize hsz.1 hsz.2]
      simp only [m_children_container]
      apply List.map_congr_left
      intro X hX
      have h1 := (hfacts X (List.mem_filter.1 hX).1).1
      simp only [Item.length, ← h1, size_container, Prod.mk.injEq, true_and]
      cases o <;> simp [oppositeOrientation, Layouting.length, QRect.size, hsz.1, hsz.2]
    · have hacc2 : ¬ (newSize.width < (Item.container n s o cs false b k).minSize.width ∨
          newSize.height < (Item.container n s o cs false b k).minSize.height) := by
        omega
      have hlc : (Layouting.length s.geometry.size o != Layouting.length newSize o) = false := by
        simp [hsame2]
      have hsizeOf : ∀ X : Item, (if X.isContainer then
          { X.m_sizingInfo with minSize := X.minSize } else X.m_sizingInfo).length o
            = X.length o := by
        intro X
        split <;> rfl
      have hlensEq : ((Item.container n { s with geometry := s.geometry.setSize newSize } o cs
          false true k).sizes.map fun x => x.length
            (Item.container n { s with geometry := s.geometry.setSize newSize } o cs
              false true k).refreshMinSizes.m_orientation)
          = (cs.filter isVisible).map fun X => X.length o := by
        simp only [sizes, visibleChildren, m_children_container, List.map_map,
          refreshMinSizes_container, m_orientation_container]
        apply List.map_congr_left
        intro X _
        exact hsizeOf X
      have hassign : resizeAssign
          (Item.container n { s with geometry := s.geometry.setSize newSize } o cs false true
            k).refreshMinSizes
          (Layouting.length s.geometry.size o != Layouting.length newSize o)
          (Item.container n { s with geometry := s.geometry.setSize newSize } o cs false true
            k).usableLength
          (Item.container n { s with geometry := s.geometry.setSize newSize } o cs false true
            k).sizes
          (Item.container n { s with geometry := s.geometry.setSize newSize } o cs false true
            k).childPercentages
          (Item.container n { s with geometry := s.geometry.setSize newSize } o cs false true
            k).usableLength
        = some (List.zipWith (assignLength
            (Item.container n { s with geometry := s.geometry.setSize newSize } o cs false true
              k).refreshMinSizes)
            (Item.container n { s with geometry := s.geometry.setSize newSize } o cs false true
              k).sizes ((cs.filter isVisible).map fun X => X.length o)) := by
        rw [hlc, ← hlensEq]
        apply resizeAssign_same
        intro x hx
        simp only [sizes, visibleChildren, m_children_container, List.mem_map,
          refreshMinSizes_container, m_orientation_container] at hx ⊢
        obtain ⟨X, hX, rfl⟩ := hx
        rw [hsizeOf]
        exact hpos X hX
      have hmin : ∀ j X a, (cs.filter isVisible).get? j = some X →
          ((cs.filter isVisible).map fun X => X.length o).get? j = some a →
          X.minLength o ≤ a := by
        intro j X a hX ha
        rw [List.get?_map, hX] at ha
        simp only [Option.map_some', Option.some.injEq] at ha
        subst ha
        have hm := checkSanity_minSize X (hfacts X (List.mem_filter.1 (List.get?_mem hX)).1).2.2
        cases o <;> simp only [Item.minLength, Item.length, Item.size, Item.width, Item.height,
          QRect.size, Layouting.length] at hm ⊢ <;> omega
      obtain ⟨hlenR, hR⟩ := resize_visible n s o cs b k newSize _ hacc2 hsz hassign
        (List.length_map _ _) hmin
      have hins : ∀ Z ∈ cs.filter isVisible, Z.m_sizingInfo.isBeingInserted = false := by
        intro Z hZ
        exact not_inserted_of_contains _ Z (hfacts Z (List.mem_filter.1 hZ).1).2.1
      apply map_eq_of_get? _ _ _ _ hlenR
      intro j X hX
      obtain ⟨X4, h4, -, hl, hcr, hp⟩ := hR j X (X.length o) hX (by rw [List.get?_map, hX]; rfl)
      refine ⟨X4, h4, ?_⟩
      rw [hl, hcr, hp hins, checkPositions_get? o cs 0 hpacked j X hX]
      simp only [List.map_take, List.map_map, Int.zero_add]
      rfl

/-! ## The drop rectangle, in general -/

/-- The rectangle of `suggestedDropRect` on the whole root for `OnLeft` and
`OnRight`: its width is the suggested length, which is measured along the
orientation of the root. -/
theorem suggestedDropRect_whole_root (c : Item) (minSize : QSize) :
    suggestedDropRect c true minSize none .OnLeft
      = ⟨0, 0, qMax (qMin (c.availableLength - 5) (Int.tdiv c.containerLength 3))
          (Layouting.length minSize c.m_orientation), c.height⟩ ∧
    suggestedDropRect c true minSize none .OnRight
      = ⟨c.width - qMax (qMin (c.availableLength - 5) (Int.tdiv c.containerLength 3))
          (Layouting.length minSize c.m_orientation), 0,
        qMax (qMin (c.availableLength - 5) (Int.tdiv c.containerLength 3))
          (Layouting.length minSize c.m_orientation), c.height⟩ := by
  refine ⟨?_, ?_⟩
  · simp [suggestedDropRect, rect, QRect.moveTo, QRect.setWidth, separatorThickness, height]
  · simp [suggestedDropRect, rect, QRect.moveTo, QRect.adjust, separatorThickness, height,
      width]

/-- The rectangle of `suggestedDropRect` next to an anchor when the location is
perpendicular to the orientation of the container: its length along the axis of
the location is the suggested length, which is measured along the orientation
of the container. -/
theorem suggestedDropRect_perpendicular (c : Item) (isRoot : Bool) (minSize : QSize)
    (idx : Nat) (a : Item) (loc : Location) (L : Int)
    (ha : c.m_children.get? idx = some a) (hv : a.isVisible = true)
    (hins : a.isBeingInserted = false) (hloc : loc ≠ .None)
    (hperp : orientationForLocation loc ≠ c.m_orientation)
    (hcount : 2 ≤ c.visibleChildren.length)
    (hL : L = qMax (qMin (c.availableLength - separatorThickness)
      (Int.tdiv c.usableLength (c.m_children.length + 1)))
      (Layouting.length minSize c.m_orientation)) :
    suggestedDropRect c isRoot minSize (some idx) loc
      = (if loc = .OnLeft then ⟨a.x, a.y, L, a.height⟩
        else if loc = .OnRight then ⟨a.x + a.width - L, a.y, L, a.height⟩
        else if loc = .OnTop then ⟨a.x, a.y, a.width, L⟩
        else ⟨a.x, a.y + a.height - L, a.width, L⟩) := by
  have hcnt : ((c.sizes.length : Int) == 1) = false := by
    have : c.sizes.length = c.visibleChildren.length := by simp [sizes]
    rw [this]
    simp only [beq_eq_false_iff_ne, ne_eq]
    omega
  have hgeo : a.geometry = a.m_sizingInfo.geometry := by
    simp only [Item.geometry, hins, Bool.false_eq_true, if_false]
  subst hL
  cases loc with
  | None => exact absurd rfl hloc
  | OnLeft =>
    simp only [orientationForLocation] at hperp
    simp only [suggestedDropRect, ha, hv, Bool.not_true, Bool.false_eq_true, if_false,
      reduceCtorEq, hcnt, hperp, hgeo, orientationForLocation, Item.x, Item.y, Item.width,
      Item.height, if_true]
  | OnRight =>
    simp only [orientationForLocation] at hperp
    simp only [suggestedDropRect, ha, hv, Bool.not_true, Bool.false_eq_true, if_false,
      reduceCtorEq, hcnt, hperp, hgeo, orientationForLocation, Item.x, Item.y, Item.width,
      Item.height, if_true, QRect.right]
    congr 1
    omega
  | OnTop =>
    simp only [orientationForLocation] at hperp
    simp only [suggestedDropRect, ha, hv, Bool.not_true, Bool.false_eq_true, if_false,
      reduceCtorEq, hcnt, hperp, hgeo, orientationForLocation, Item.x, Item.y, Item.width,
      Item.height, if_true]
  | OnBottom =>
    simp only [orientationForLocation] at hperp
    simp only [suggestedDropRect, ha, hv, Bool.not_true, Bool.false_eq_true, if_false,
      reduceCtorEq, hcnt, hperp, hgeo, orientationForLocation, Item.x, Item.y, Item.width,
      Item.height, if_true, QRect.bottom]
    congr 1
    omega

/-! ## `setGeometry` inside a tree -/

theorem modifyAt_congr (f g : Item → Item) (r : Item) (p : List Nat) (i : Item)
    (hi : getAt r p = some i) (h : f i = g i) : modifyAt f r p = modifyAt g r p := by
  induction p generalizing r with
  | nil =>
    simp only [getAt, Option.some.injEq] at hi
    subst hi
    simpa [modifyAt] using h
  | cons k ks ih =>
    rw [getAt] at hi
    simp only [modifyAt]
    cases hX : r.m_children.get? k with
    | none => rw [hX] at hi; simp at hi
    | some X =>
      rw [hX] at hi
      simp only [] at hi
      congr 1
      simp only [List.get?_eq_getElem?] at hX
      apply List.ext_getElem?
      intro j
      rw [List.getElem?_modify, List.getElem?_modify]
      by_cases hj : k = j
      · subst hj
        simp only [hX, if_true, Option.map_eq_map, Option.map_some']
        rw [ih X hi]
      · simp only [hj, if_false]

theorem modifyAt_of_fixed (f : Item → Item) (r : Item) (p : List Nat) (i : Item)
    (hi : getAt r p = some i) (h : f i = i) : modifyAt f r p = r := by
  rw [modifyAt_congr f (fun c => c) r p i hi h, modifyAt_id]

/-! ## The write of `suggestedDropRect` -/

/-- The write of `suggestedDropRect` leaves the container's own sizing info,
its orientation and the number of its children unchanged, and every child is
left as it is except that a visible container child may get its stored
`m_sizingInfo.minSize` set to its `minSize()`: the child's geometry, percentage,
visibility, children list, orientation and `minSize()` are unchanged, and a leaf
or a hidden child is untouched. -/
theorem suggestedDropRectEffect_kept (c : Item)
    (relativeTo : Option Nat) (loc : Location) :
    (suggestedDropRectEffect c relativeTo loc).m_sizingInfo = c.m_sizingInfo ∧
    (suggestedDropRectEffect c relativeTo loc).m_orientation = c.m_orientation ∧
    (suggestedDropRectEffect c relativeTo loc).m_children.length = c.m_children.length ∧
    ∀ k X, c.m_children.get? k = some X →
      ∃ X2, (suggestedDropRectEffect c relativeTo loc).m_children.get? k = some X2 ∧
        (X2 = X ∨ X2 = X.setSizingInfo { X.m_sizingInfo with minSize := X.minSize }) ∧
        ((X.isVisible && X.isContainer) = false → X2 = X) ∧
        X2.m_sizingInfo.geometry = X.m_sizingInfo.geometry ∧
        X2.m_sizingInfo.percentageWithinParent = X.m_sizingInfo.percentageWithinParent ∧
        X2.isVisible = X.isVisible ∧ X2.m_children = X.m_children ∧
        X2.m_orientation = X.m_orientation ∧ X2.minSize = X.minSize := by
  have key : ∀ c2 : Item, (c2 = c ∨ c2 = c.refreshMinSizes) →
      c2.m_sizingInfo = c.m_sizingInfo ∧ c2.m_orientation = c.m_orientation ∧
      c2.m_children.length = c.m_children.length ∧
      ∀ k X, c.m_children.get? k = some X →
        ∃ X2, c2.m_children.get? k = some X2 ∧
          (X2 = X ∨ X2 = X.setSizingInfo { X.m_sizingInfo with minSize := X.minSize }) ∧
          ((X.isVisible && X.isContainer) = false → X2 = X) ∧
          X2.m_sizingInfo.geometry = X.m_sizingInfo.geometry ∧
          X2.m_sizingInfo.percentageWithinParent = X.m_sizingInfo.percentageWithinParent ∧
          X2.isVisible = X.isVisible ∧ X2.m_children = X.m_children ∧
          X2.m_orientation = X.m_orientation ∧ X2.minSize = X.minSize := by
    intro c2 h
    rcases h with rfl | rfl
    · exact ⟨rfl, rfl, rfl, fun k X hX => ⟨X, hX, Or.inl rfl, fun _ => rfl, rfl, rfl, rfl, rfl,
        rfl, rfl⟩⟩
    · cases c with
      | leaf n s v w r =>
        exact ⟨rfl, rfl, rfl, fun k X hX => by simp [m_children] at hX⟩
      | container n s o cs rs b kk =>
        rw [refreshMinSizes_container]
        refine ⟨rfl, rfl, by simp [m_children_container], fun k X hX => ?_⟩
        simp only [m_children_container] at hX ⊢
        rw [List.get?_map, hX]
        refine ⟨_, rfl, ?_⟩
        simp only []
        have horient : ∀ t : SizingInfo, (X.setSizingInfo t).m_orientation = X.m_orientation := by
          intro t
          cases X <;> rfl
        refine ⟨?_, ?_, ?_, ?_, ?_, ?_, ?_, minSize_refreshed X⟩
        · split
          · exact Or.inr rfl
          · exact Or.inl rfl
        · intro h
          rw [if_neg (by simp [h])]
        · split <;> simp
        · split <;> simp
        · split <;> simp
        · split <;> simp
        · split
          · exact horient _
          · rfl
  apply key
  unfold suggestedDropRectEffect
  simp only []
  split
  · exact Or.inl rfl
  · split
    · exact Or.inl rfl
    · split
      · exact Or.inl rfl
      · exact Or.inr rfl


/-! ## The write of `checkSanity` -/

mutual
theorem isVisible_erasePercentages : ∀ (X : Item), (erasePercentages X).isVisible = X.isVisible
  | .leaf .. => rfl
  | .container n s o cs rs b k => by
    have := anyVisible_erasePercentagesList cs
    simp only [erasePercentages, isVisible, this]
theorem anyVisible_erasePercentagesList : ∀ (cs : List Item),
    anyVisible (erasePercentagesList cs) = anyVisible cs
  | [] => rfl
  | c :: cs => by
    have h1 := isVisible_erasePercentages c
    have h2 := anyVisible_erasePercentagesList cs
    simp only [erasePercentagesList, anyVisible, h1, h2]
end

theorem isVisible_eq_of_erasePercentages {X Y : Item}
    (h : erasePercentages X = erasePercentages Y) : X.isVisible = Y.isVisible := by
  rw [← isVisible_erasePercentages X, h, isVisible_erasePercentages]

theorem name_eq_of_erasePercentages {X Y : Item}
    (h : erasePercentages X = erasePercentages Y) : X.name = Y.name := by
  rw [← name_shape X, shape_eq_of_erasePercentages h, name_shape]

theorem geometry_eq_of_ownData {X Y : Item} (h : ownData X = ownData Y) :
    X.geometry = Y.geometry := by
  simp only [ownData, Prod.mk.injEq] at h
  simp only [Item.geometry, isBeingInserted, h.1, h.2.1]

theorem geometry_eq_of_erasePercentages {X Y : Item}
    (h : erasePercentages X = erasePercentages Y) : X.geometry = Y.geometry :=
  geometry_eq_of_ownData (ownData_eq_of_erasePercentages h)

theorem children_of_erasePercentages_eq {A B : Item}
    (h : erasePercentages A = erasePercentages B) :
    A.m_children.map erasePercentages = B.m_children.map erasePercentages := by
  cases A with
  | leaf =>
    cases B with
    | leaf => rfl
    | container => simp [erasePercentages] at h
  | container n s o cs rs b k =>
    cases B with
    | leaf => simp [erasePercentages] at h
    | container n2 s2 o2 cs2 rs2 b2 k2 =>
      rw [erasePercentages_container, erasePercentages_container] at h
      injection h with _ _ _ h4

/-- A single child stays the single child under the write of `checkSanity`,
with its name, visibility and geometry. -/
theorem single_child_checkSanityEffect (isRoot : Bool) (c : Item) (nm : Nat) (g : QRect)
    (h : ∃ item, c.m_children = [item] ∧ item.name = nm ∧ item.isVisible = true ∧
      item.geometry = g) :
    ∃ item, (checkSanityEffect isRoot c).m_children = [item] ∧ item.name = nm ∧
      item.isVisible = true ∧ item.geometry = g := by
  obtain ⟨item, hc, h1, h2, h3⟩ := h
  have he := children_of_erasePercentages_eq (erasePercentages_checkSanityEffect isRoot c)
  rw [hc] at he
  cases hm : (checkSanityEffect isRoot c).m_children with
  | nil =>
    rw [hm] at he
    simp at he
  | cons i2 t =>
    cases t with
    | cons _ _ =>
      rw [hm] at he
      simp at he
    | nil =>
      rw [hm] at he
      simp only [List.map_cons, List.map_nil, List.cons.injEq, and_true] at he
      exact ⟨i2, rfl, (name_eq_of_erasePercentages he).trans h1,
        (isVisible_eq_of_erasePercentages he).trans h2,
        (geometry_eq_of_erasePercentages he).trans h3⟩

theorem m_sizingInfo_checkSanityEffect (isRoot : Bool) (X : Item) :
    (checkSanityEffect isRoot X).m_sizingInfo = X.m_sizingInfo := by
  cases X with
  | leaf n s v w r => rfl
  | container n s o cs rs b k =>
    unfold checkSanityEffect
    simp only []
    split
    · rfl
    · split
      · rfl
      · split
        · rfl
        · split
          · rfl
          · split
            · split
              · rfl
              · split
                · rw [m_sizingInfo_updateChildPercentages]
                  rfl
                · rfl
            · rfl

mutual
theorem isVisible_checkSanityEffect : ∀ (isRoot : Bool) (X : Item),
    (checkSanityEffect isRoot X).isVisible = X.isVisible
  | _, .leaf .. => rfl
  | isRoot, .container n s o cs rs b k => by
    have hcs := map_isVisible_checkChildrenEffect
      (Item.container n s o cs rs b k).rect o
      (Layouting.length (Item.container n s o cs rs b k).size (oppositeOrientation o)) cs
    have h1 : (Item.container n s o
        (checkChildrenEffect (Item.container n s o cs rs b k).rect o
          (Layouting.length (Item.container n s o cs rs b k).size (oppositeOrientation o)) cs)
        rs b k).isVisible = (Item.container n s o cs rs b k).isVisible := by
      simp only [isVisible, anyVisible_eq_any]
      exact any_isVisible_of_map_eq _ _ hcs
    unfold checkSanityEffect
    simp only []
    split
    · rfl
    · split
      · rfl
      · split
        · rfl
        · split
          · exact h1
          · split
            · split
              · exact h1
              · split
                · rw [isVisible_updateChildPercentages]
                  exact h1
                · exact h1
            · exact h1
theorem map_isVisible_checkChildrenEffect : ∀ (rect : QRect) (o : Orientation) (h1 : Int)
    (cs : List Item), (checkChildrenEffect rect o h1 cs).map isVisible = cs.map isVisible
  | _, _, _, [] => rfl
  | rect, o, h1, item :: rest => by
    have hi := isVisible_checkSanityEffect false item
    have hr := map_isVisible_checkChildrenEffect rect o h1 rest
    unfold checkChildrenEffect
    split
    · rfl
    · split
      · rfl
      · split
        · simp only [List.map_cons, hi]
        · simp only [List.map_cons, hi, hr]
end

theorem map_m_sizingInfo_checkChildrenEffect (rect : QRect) (o : Orientation) (h1 : Int)
    (cs : List Item) :
    (checkChildrenEffect rect o h1 cs).map m_sizingInfo = cs.map m_sizingInfo := by
  induction cs with
  | nil => rfl
  | cons item rest ih =>
    unfold checkChildrenEffect
    split
    · rfl
    · split
      · rfl
      · split
        · simp only [List.map_cons, m_sizingInfo_checkSanityEffect]
        · simp only [List.map_cons, m_sizingInfo_checkSanityEffect, ih]

/-- Two lists with the same visibilities and the same sizing infos have the same
sizing infos of visible entries. -/
theorem visible_sizingInfo_congr : ∀ (l1 l2 : List Item),
    l1.map isVisible = l2.map isVisible → l1.map m_sizingInfo = l2.map m_sizingInfo →
    (l1.filter isVisible).map m_sizingInfo = (l2.filter isVisible).map m_sizingInfo
  | [], [], _, _ => rfl
  | [], _ :: _, h, _ => by simp at h
  | _ :: _, [], h, _ => by simp at h
  | a :: l1, b :: l2, hv, hs => by
    simp only [List.map_cons, List.cons.injEq] at hv hs
    have ih := visible_sizingInfo_congr l1 l2 hv.2 hs.2
    simp only [List.filter_cons, hv.1]
    split
    · simp only [List.map_cons, hs.1, ih]
    · exact ih

theorem length_checkChildrenEffect (rect : QRect) (o : Orientation) (h1 : Int)
    (cs : List Item) : (checkChildrenEffect rect o h1 cs).length = cs.length := by
  have := congrArg List.length (map_m_sizingInfo_checkChildrenEffect rect o h1 cs)
  simpa using this

/-- What `updateChildPercentages` stores. -/
theorem childPercentagesStored_updateChildPercentages (c : Item)
    (hb : c.m_blockUpdatePercentages = false) :
    childPercentagesStored (updateChildPercentages c)
      = c.m_children.map fun (X : Item) =>
          if X.isVisible then (⟨X.length c.m_orientation, c.usableLength⟩ : Percentage)
          else Percentage.zero := by
  cases c with
  | leaf n s v w r => simp [updateChildPercentages, childPercentagesStored, m_children, setChildren,
      m_blockUpdatePercentages]
  | container n s o cs rs b k =>
    simp only [m_blockUpdatePercentages] at hb
    subst hb
    simp only [updateChildPercentages, childPercentagesStored, m_blockUpdatePercentages,
      Bool.false_eq_true, if_false, setChildren, m_children_container, List.map_map,
      m_orientation_container]
    apply List.map_congr_left
    intro X _
    simp only [Function.comp]
    split <;> simp

theorem isEmpty_eq_of_length_eq {α β : Type} : ∀ (l1 : List α) (l2 : List β),
    l1.length = l2.length → l1.isEmpty = l2.isEmpty
  | [], [], _ => rfl
  | [], _ :: _, h => by simp at h
  | _ :: _, [], h => by simp at h
  | _ :: _, _ :: _, _ => rfl

/-- The write of `checkSanity` on a container that passes it: the children have
had their own calls, and the percentages of the children are recomputed when
their sum fails `qFuzzyCompare(total, 1.0)`. -/
theorem checkSanityEffect_of_sane (isRoot : Bool) (n : Nat) (s : SizingInfo) (o : Orientation)
    (cs : List Item) (rs b k : Bool)
    (h : checkSanity isRoot (.container n s o cs rs b k) = true) :
    checkSanityEffect isRoot (.container n s o cs rs b k)
      = if (cs.filter isVisible).isEmpty = false ∧
            Double.qFuzzyCompare
              (totalPercentage (Item.container n s o cs rs b k).childPercentages)
              (Double.ofInt 1) = false then
          updateChildPercentages (.container n s o
            (checkChildrenEffect (Item.container n s o cs rs b k).rect o
              (Layouting.length (Item.container n s o cs rs b k).size (oppositeOrientation o))
              cs) rs b k)
        else
          .container n s o
            (checkChildrenEffect (Item.container n s o cs rs b k).rect o
              (Layouting.length (Item.container n s o cs rs b k).size (oppositeOrientation o))
              cs) rs b k := by
  have hV := visible_sizingInfo_congr _ _
    (map_isVisible_checkChildrenEffect (Item.container n s o cs rs b k).rect o
      (Layouting.length (Item.container n s o cs rs b k).size (oppositeOrientation o)) cs)
    (map_m_sizingInfo_checkChildrenEffect (Item.container n s o cs rs b k).rect o
      (Layouting.length (Item.container n s o cs rs b k).size (oppositeOrientation o)) cs)
  generalize hE : checkChildrenEffect (Item.container n s o cs rs b k).rect o
      (Layouting.length (Item.container n s o cs rs b k).size (oppositeOrientation o)) cs = E
    at hV
  have hlen : (E.filter isVisible).length = (cs.filter isVisible).length := by
    have := congrArg List.length hV
    simpa using this
  have hempty : (E.filter isVisible).isEmpty = (cs.filter isVisible).isEmpty :=
    isEmpty_eq_of_length_eq _ _ hlen
  have hlens : ((E.filter isVisible).map fun (i : Item) => i.length o)
      = (cs.filter isVisible).map fun (i : Item) => i.length o := by
    have := congrArg (List.map fun (t : SizingInfo) => Layouting.length t.geometry.size o) hV
    simpa [List.map_map, Function.comp, Item.length, Item.size] using this
  have hpct : (Item.container n s o E rs b k).childPercentages
      = (Item.container n s o cs rs b k).childPercentages := by
    have := congrArg (List.map fun (t : SizingInfo) => t.percentageWithinParent) hV
    simpa [List.map_map, Function.comp, childPercentages, visibleChildren, m_children] using this
  have hcl : (Item.container n s o E rs b k).containerLength
      = (Item.container n s o cs rs b k).containerLength := rfl
  simp only [checkSanity] at h
  split at h
  · simp at h
  · rename_i c1n
    split at h
    · simp at h
    · rename_i c2n
      split at h
      · simp at h
      · rename_i c3n
        split at h
        · simp at h
        · rename_i c4n
          unfold checkSanityEffect
          simp only [c1n, c2n, c3n, c4n, if_false, hE, visibleChildren, m_children_container,
            hempty, hlens, hlen, hpct, hcl]
          cases hne : (cs.filter isVisible).isEmpty
          · simp only [hne, Bool.not_false, if_true] at h ⊢
            split at h
            · simp at h
            · rename_i c5n
              simp only [c5n, if_false, true_and]
              cases hf : Double.qFuzzyCompare
                (totalPercentage (Item.container n s o cs rs b k).childPercentages)
                (Double.ofInt 1) <;> simp
          · simp

theorem map_congr_of_visible_sizingInfo {γ : Type} (G : Bool → SizingInfo → γ) :
    ∀ (l1 l2 : List Item),
    l1.map isVisible = l2.map isVisible → l1.map m_sizingInfo = l2.map m_sizingInfo →
    (l1.map fun (X : Item) => G X.isVisible X.m_sizingInfo)
      = l2.map fun (X : Item) => G X.isVisible X.m_sizingInfo
  | [], [], _, _ => rfl
  | [], _ :: _, h, _ => by simp at h
  | _ :: _, [], h, _ => by simp at h
  | a :: l1, b :: l2, hv, hs => by
    simp only [List.map_cons, List.cons.injEq] at hv hs
    simp only [List.map_cons, hv.1, hs.1, map_congr_of_visible_sizingInfo G l1 l2 hv.2 hs.2]

/-- The write of `checkSanity` on a container that passes it and has a visible
child, with the list `E` of the children after their own calls. -/
theorem checkSanityEffect_children (isRoot : Bool) (n : Nat) (s : SizingInfo) (o : Orientation)
    (cs : List Item) (rs b k : Bool)
    (h : checkSanity isRoot (.container n s o cs rs b k) = true)
    (hne : (cs.filter isVisible).isEmpty = false) :
    ∃ E : List Item, E.map isVisible = cs.map isVisible ∧
      E.map m_sizingInfo = cs.map m_sizingInfo ∧
      checkSanityEffect isRoot (.container n s o cs rs b k)
        = if Double.qFuzzyCompare
              (totalPercentage (Item.container n s o cs rs b k).childPercentages)
              (Double.ofInt 1) = false then
            updateChildPercentages (.container n s o E rs b k)
          else .container n s o E rs b k := by
  refine ⟨checkChildrenEffect (Item.container n s o cs rs b k).rect o
      (Layouting.length (Item.container n s o cs rs b k).size (oppositeOrientation o)) cs,
    map_isVisible_checkChildrenEffect _ o _ cs,
    map_m_sizingInfo_checkChildrenEffect _ o _ cs, ?_⟩
  rw [checkSanityEffect_of_sane isRoot n s o cs rs b k h]
  simp only [hne, true_and]

/-- The result of `checkSanity` does not depend on the
percentages the children store: writing any percentages into the children of a
container leaves the result as it is. -/
theorem checkSanity_ignores_the_percentages (isRoot : Bool) (c : Item)
    (f : Item → Percentage) :
    checkSanity isRoot (c.setChildren (c.m_children.map fun i =>
      i.setSizingInfo { i.m_sizingInfo with percentageWithinParent := f i }))
      = checkSanity isRoot c := by
  cases c with
  | leaf n s v w r => rfl
  | container n s o cs rs b k =>
    have hv : ∀ X : Item, (X.setSizingInfo
        { X.m_sizingInfo with percentageWithinParent := f X }).isVisible = X.isVisible := by
      intro X
      simp
    have hm : ∀ X : Item, (X.setSizingInfo
        { X.m_sizingInfo with percentageWithinParent := f X }).minSize = X.minSize := by
      intro X
      exact minSize_setSizingInfo_of_minSize X _ rfl
    have hs : ∀ X : Item, (X.setSizingInfo
        { X.m_sizingInfo with percentageWithinParent := f X }).m_sizingInfo.geometry
          = X.m_sizingInfo.geometry := by
      intro X
      simp
    have hi : ∀ X : Item, (X.setSizingInfo
        { X.m_sizingInfo with percentageWithinParent := f X }).m_sizingInfo.isBeingInserted
          = X.m_sizingInfo.isBeingInserted := by
      intro X
      simp
    have hc : ∀ X : Item, checkSanity false (X.setSizingInfo
        { X.m_sizingInfo with percentageWithinParent := f X }) = checkSanity false X := by
      intro X
      exact checkSanity_setSizingInfo false X _ rfl rfl rfl
    have hmin : (Item.container n s o (cs.map fun i =>
        i.setSizingInfo { i.m_sizingInfo with percentageWithinParent := f i }) rs b k).minSize
        = (Item.container n s o cs rs b k).minSize := by
      cases cs with
      | nil => rfl
      | cons x xs =>
        simp only [List.map_cons, minSize]
        rw [← List.map_cons (fun i =>
          i.setSizingInfo { i.m_sizingInfo with percentageWithinParent := f i }) x xs,
          minSizeLoop_map o _ hv hm]
    have hfl : ((cs.map fun i =>
        i.setSizingInfo { i.m_sizingInfo with percentageWithinParent := f i }).filter
          isVisible).map (fun i => i.length o) = (cs.filter isVisible).map fun i => i.length o := by
      rw [filter_map_isVisible _ hv, List.map_map]
      apply List.map_congr_left
      intro X _
      simp only [Function.comp, Item.length, Item.size, hs]
    have hfe : (cs.map fun i =>
        i.setSizingInfo { i.m_sizingInfo with percentageWithinParent := f i }).isEmpty
          = cs.isEmpty := by
      cases cs <;> rfl
    have hfn : ((cs.map fun i =>
        i.setSizingInfo { i.m_sizingInfo with percentageWithinParent := f i }).filter
          isVisible).length = (cs.filter isVisible).length := by
      rw [filter_map_isVisible _ hv, List.length_map]
    have hfi : ((cs.map fun i =>
        i.setSizingInfo { i.m_sizingInfo with percentageWithinParent := f i }).filter
          isVisible).isEmpty = (cs.filter isVisible).isEmpty := by
      rw [filter_map_isVisible _ hv]
      cases cs.filter isVisible <;> rfl
    simp only [setChildren, m_children_container, checkSanity, hmin, Item.width, Item.height,
      Item.rect, Item.size, containerLength, isVertical, m_sizingInfo_container,
      m_orientation_container, checkPositions_map o _ hv hs, checkChildren_map _ o _ _ hs hi hc,
      hfl, hfe, hfn, hfi]

/-! ## Positions across the orientation -/

theorem positionSizes_cross_pos (o : Orientation) (sz : QSize) (sizes : List SizingInfo) (p : Int)
    (j : Nat) (s t : SizingInfo) (h : sizes.get? j = some s)
    (ht : (positionSizes o sz sizes p).get? j = some t) :
    Layouting.pos t.geometry.topLeft (oppositeOrientation o)
      = Layouting.pos s.geometry.topLeft (oppositeOrientation o) := by
  induction sizes generalizing p j with
  | nil => simp at h
  | cons s0 rest ih =>
    simp only [positionSizes] at ht
    cases j with
    | zero =>
      simp only [List.get?_cons_zero, Option.some.injEq] at h
      subst h
      split at ht
      · simp only [List.get?_cons_zero, Option.some.injEq] at ht
        rw [← ht]
      · simp only [List.get?_cons_zero, Option.some.injEq] at ht
        rw [← ht]
        cases o <;>
          simp [SizingInfo.setLength, SizingInfo.setPos, Layouting.pos, QRect.topLeft,
            oppositeOrientation, QRect.setWidth, QRect.setHeight, QRect.moveTop, QRect.moveLeft]
    | succ j =>
      simp only [List.get?_cons_succ] at h
      split at ht
      · simp only [List.get?_cons_succ] at ht
        exact ih _ j h ht
      · simp only [List.get?_cons_succ] at ht
        exact ih _ j h ht

/-- The position across the orientation of a visible child is not written by
`positionItems()`. -/
theorem positionItemsWith_visible_cross (rz : Item → QSize → Item)
    (hv : ∀ i sz, (rz i sz).isVisible = i.isVisible)
    (hs : ∀ i sz, (rz i sz).m_sizingInfo = i.m_sizingInfo ∨
      (rz i sz).m_sizingInfo
        = { i.m_sizingInfo with geometry := i.m_sizingInfo.geometry.setSize sz })
    (n : Nat) (s : SizingInfo) (o : Orientation) (cs : List Item) (rs : Bool) (k : Bool)
    (j : Nat) (Y Y2 : Item) (hY : (cs.filter isVisible).get? j = some Y)
    (hY2 : (positionItemsWith rz (.container n s o cs rs true k)).visibleChildren.get? j
      = some Y2) :
    Y2.position (oppositeOrientation o) = Y.position (oppositeOrientation o) := by
  simp only [positionItemsWith, updateChildPercentages, applyPositionsWith, refreshMinSizes,
    setChildren, visibleChildren, if_true, sizes, m_sizingInfo_container, m_orientation_container,
    m_children_container, m_block_container, size_container] at hY2
  rw [filter_mapVisible_get?, filter_map_isVisible, List.get?_map, hY] at hY2
  · simp only [Option.map_some', Nat.zero_add, Option.some.injEq] at hY2
    have hsz : ((cs.filter isVisible).map fun i =>
        if i.isContainer then { i.m_sizingInfo with minSize := i.minSize }
        else i.m_sizingInfo).get? j
          = some (if Y.isContainer then { Y.m_sizingInfo with minSize := Y.minSize }
              else Y.m_sizingInfo) := by
      rw [List.get?_map, hY]
      rfl
    obtain ⟨t, ht, -⟩ := positionSizes_get? o s.geometry.size _ 0 j _ hsz
    have hcp := positionSizes_cross_pos o s.geometry.size _ 0 j _ t hsz ht
    have hrfs : ∀ Z : Item, (if (Z.isVisible && Z.isContainer) = true then
        Z.setSizingInfo { Z.m_sizingInfo with minSize := Z.minSize } else Z).m_sizingInfo.geometry
          = Z.m_sizingInfo.geometry := by
      intro Z
      split <;> simp
    have hYg : SizingInfo.geometry (if Y.isContainer then
        { Y.m_sizingInfo with minSize := Y.minSize } else Y.m_sizingInfo)
          = Y.m_sizingInfo.geometry := by
      split <;> rfl
    rw [hYg] at hcp
    have hpos : ∀ (Z : Item) (a : Orientation),
        Z.position a = Layouting.pos Z.m_sizingInfo.geometry.topLeft a := by
      intro Z a
      cases a <;> rfl
    rw [ht] at hY2
    simp only [] at hY2
    rw [← hY2]
    by_cases hti : t.isBeingInserted = true
    · rw [if_pos hti, hpos, hpos, hrfs]
    · rw [if_neg hti]
      obtain ⟨-, -, -, h4⟩ := applyPositions_child rz hs
        (if (Y.isVisible && Y.isContainer) = true then
          Y.setSizingInfo { Y.m_sizingInfo with minSize := Y.minSize } else Y) t o
      rw [hpos, h4, hcp, hpos]
  · intro i
    split <;> simp
  · intro k i
    split
    · rfl
    · split
      · rfl
      · simp [setPos, isVisible_setLength_recursiveWith rz hv]

/-- The visible children after `applySizes(sizes)` of a container that blocks
the update of the percentages, when every child stores the size it is given. -/
theorem applySizesWith_visible (rz : Item → QSize → Item)
    (hv : ∀ i sz, (rz i sz).isVisible = i.isVisible)
    (hs : ∀ i sz, (rz i sz).m_sizingInfo = i.m_sizingInfo ∨
      (rz i sz).m_sizingInfo
        = { i.m_sizingInfo with geometry := i.m_sizingInfo.geometry.setSize sz })
    (n : Nat) (s : SizingInfo) (o : Orientation) (cs : List Item) (rs k : Bool)
    (L : List SizingInfo) (hlen : L.length = (cs.filter isVisible).length)
    (hL : ∀ j Y t, (cs.filter isVisible).get? j = some Y → L.get? j = some t →
      (rz Y t.geometry.size).m_sizingInfo
        = { Y.m_sizingInfo with geometry := Y.m_sizingInfo.geometry.setSize t.geometry.size })
    (j : Nat) (Y : Item) (t : SizingInfo) (hY : (cs.filter isVisible).get? j = some Y)
    (ht : L.get? j = some t) :
    ∃ Y3, (applySizesWith rz (.container n s o cs rs true k) L).visibleChildren.get? j
        = some Y3 ∧
      Y3.m_sizingInfo.isBeingInserted = Y.m_sizingInfo.isBeingInserted ∧
      Y3.length o = t.length o ∧
      (Y3.length (oppositeOrientation o) = t.length (oppositeOrientation o) ∨
        Y3.length (oppositeOrientation o)
          = Layouting.length s.geometry.size (oppositeOrientation o)) ∧
      ((∀ X ∈ cs.filter isVisible, X.m_sizingInfo.isBeingInserted = false) →
        Y3.position o = ((L.take j).map fun t => t.length o + separatorThickness).sum) ∧
      Y3.position (oppositeOrientation o) = Y.position (oppositeOrientation o) := by
  obtain ⟨cs1, happ, hlen1, hcs1⟩ := applySizesWith_children rz hv n s o cs rs k L
  rw [happ]
  have hY1 := hcs1 j Y t hY ht
  have hsi := hL j Y t hY ht
  have hlens1 : (cs1.filter isVisible).map (fun (X : Item) => X.length o)
      = L.map fun t => t.length o := by
    apply map_eq_of_get? _ _ _ _ (by rw [hlen1, hlen])
    intro i ti hti
    have hi : i < (cs.filter isVisible).length := by
      rw [← hlen]
      exact (List.get?_eq_some.1 hti).1
    obtain ⟨Yi, hYi⟩ : ∃ Yi, (cs.filter isVisible).get? i = some Yi :=
      ⟨_, List.get?_eq_get hi⟩
    refine ⟨_, hcs1 i Yi ti hYi hti, ?_⟩
    simp only [Item.length, Item.size, hL i Yi ti hYi hti]
    rfl
  have hins1 : (cs1.filter isVisible).map (fun (X : Item) => X.m_sizingInfo.isBeingInserted)
      = (cs.filter isVisible).map fun X => X.m_sizingInfo.isBeingInserted := by
    apply map_eq_of_get? _ _ _ _ hlen1
    intro i Yi hYi
    have hi : i < L.length := by
      rw [hlen]
      exact (List.get?_eq_some.1 hYi).1
    obtain ⟨ti, hti⟩ : ∃ ti, L.get? i = some ti := ⟨_, List.get?_eq_get hi⟩
    refine ⟨_, hcs1 i Yi ti hYi hti, ?_⟩
    simp only [hL i Yi ti hYi hti]
  obtain ⟨Y3, hY3, hi3, hl3, hc3, hp3⟩ :=
    positionItemsWith_visible rz hv hs n s o cs1 rs k j _ hY1
  have hx3 := positionItemsWith_visible_cross rz hv hs n s o cs1 rs k j _ Y3 hY1 hY3
  have hpos : ∀ (Z : Item) (a : Orientation),
      Z.position a = Layouting.pos Z.m_sizingInfo.geometry.topLeft a := by
    intro Z a
    cases a <;> rfl
  refine ⟨Y3, hY3, ?_, ?_, ?_, ?_, ?_⟩
  · rw [hi3, hsi]
  · rw [hl3]
    simp only [Item.length, Item.size, hsi]
    rfl
  · have h1 : (rz Y t.geometry.size).length (oppositeOrientation o)
        = t.length (oppositeOrientation o) := by
      simp only [Item.length, Item.size, hsi]
      rfl
    rcases hc3 with h3 | h3
    · left
      rw [h3, h1]
    · right
      exact h3
  · intro hall
    have hall1 : ∀ X ∈ cs1.filter isVisible, X.m_sizingInfo.isBeingInserted = false :=
      forall_of_map_eq (fun (X : Item) => X.m_sizingInfo.isBeingInserted) _ _ hins1 false hall
    rw [hp3 hall1]
    have := congrArg (fun (l : List Int) => (l.take j).map fun a => a + separatorThickness)
      hlens1
    simp only [← List.map_take, List.map_map] at this
    exact congrArg List.sum this
  · rw [hx3, hpos, hsi, hpos]
    cases o <;> rfl

theorem filter_isVisible_of_map_erasePercentages (A B : List Item)
    (h : A.map erasePercentages = B.map erasePercentages) :
    (A.filter isVisible).map erasePercentages = (B.filter isVisible).map erasePercentages := by
  induction A generalizing B with
  | nil =>
    cases B with
    | nil => rfl
    | cons _ _ => simp at h
  | cons a A ih =>
    cases B with
    | nil => simp at h
    | cons b B =>
      simp only [List.map_cons, List.cons.injEq] at h
      have hvis := isVisible_eq_of_erasePercentages h.1
      simp only [List.filter_cons, hvis]
      split
      · simp only [List.map_cons, h.1, ih B h.2]
      · exact ih B h.2

theorem get?_of_map_erasePercentages (A B : List Item)
    (h : A.map erasePercentages = B.map erasePercentages) (j : Nat) (Y : Item)
    (hY : B.get? j = some Y) :
    ∃ Y2, A.get? j = some Y2 ∧ erasePercentages Y2 = erasePercentages Y := by
  have h1 : (A.map erasePercentages).get? j = (B.map erasePercentages).get? j := by rw [h]
  rw [List.get?_map, List.get?_map, hY] at h1
  cases hA : A.get? j with
  | none =>
    rw [hA] at h1
    simp only [Option.map_none', Option.map_some', reduceCtorEq] at h1
  | some Y2 =>
    rw [hA] at h1
    simp only [Option.map_some', Option.some.injEq] at h1
    exact ⟨Y2, rfl, h1⟩

theorem sizingInfo_of_erasePercentages {X Y : Item}
    (h : erasePercentages X = erasePercentages Y) :
    X.m_sizingInfo.geometry = Y.m_sizingInfo.geometry ∧
      X.m_sizingInfo.isBeingInserted = Y.m_sizingInfo.isBeingInserted := by
  have := ownData_eq_of_erasePercentages h
  simp only [ownData, Prod.mk.injEq] at this
  exact ⟨this.1, this.2.1⟩

/-- The flag `m_blockUpdatePercentages` changes only the percentages that
`positionItems()` leaves behind. -/
theorem positionItemsWith_block (rz : Item → QSize → Item) (n : Nat) (s : SizingInfo)
    (o : Orientation) (cs : List Item) (rs b k : Bool) :
    (positionItemsWith rz (.container n s o cs rs b k)).m_children.map erasePercentages
      = (positionItemsWith rz (.container n s o cs rs true k)).m_children.map
          erasePercentages := by
  cases b with
  | true => rfl
  | false =>
    simp only [positionItemsWith, updateChildPercentages, applyPositionsWith, refreshMinSizes,
      setChildren, sizes, m_sizingInfo_container, m_orientation_container,
      m_children_container, m_block_container, size_container, visibleChildren, if_true,
      Bool.false_eq_true, if_false, List.map_map]
    apply List.map_congr_left
    intro i _
    simp only [Function.comp]
    split
    · rw [erasePercentages_setPercentage]
      cases i <;> rfl
    · rw [erasePercentages_setPercentage]
      cases i <;> rfl

theorem applySizesWith_block (rz : Item → QSize → Item) (n : Nat) (s : SizingInfo)
    (o : Orientation) (cs : List Item) (rs b k : Bool) (L : List SizingInfo) :
    (applySizesWith rz (.container n s o cs rs b k) L).m_children.map erasePercentages
      = (applySizesWith rz (.container n s o cs rs true k) L).m_children.map
          erasePercentages := by
  simp only [applySizesWith, setChildren, m_children_container]
  exact positionItemsWith_block rz n s o _ rs b k

/-- The visible children after `growItem(item, amount)`, when the new size of
every visible container child is not below its minimum size. -/
theorem growItem_visible (n : Nat) (s : SizingInfo) (o : Orientation) (cs : List Item)
    (rs b k : Bool) (i : Nat) (amount : Int) (L : List SizingInfo)
    (hLdef : L = growItemInSizes o i (Item.container n s o cs rs b k).sizes amount)
    (hlen : L.length = (cs.filter isVisible).length)
    (hacc : ∀ j Y t, (cs.filter isVisible).get? j = some Y → L.get? j = some t →
      Y.isContainer = true →
      ¬ (t.geometry.size.width < Y.minSize.width ∨ t.geometry.size.height < Y.minSize.height))
    (j : Nat) (Y : Item) (t : SizingInfo) (hY : (cs.filter isVisible).get? j = some Y)
    (ht : L.get? j = some t) :
    ∃ Y3, (growItem (.container n s o cs rs b k) (some i) amount).visibleChildren.get? j
        = some Y3 ∧
      Y3.m_sizingInfo.isBeingInserted = Y.m_sizingInfo.isBeingInserted ∧
      Y3.length o = t.length o ∧
      (Y3.length (oppositeOrientation o) = t.length (oppositeOrientation o) ∨
        Y3.length (oppositeOrientation o)
          = Layouting.length s.geometry.size (oppositeOrientation o)) ∧
      ((∀ X ∈ cs.filter isVisible, X.m_sizingInfo.isBeingInserted = false) →
        Y3.position o = ((L.take j).map fun t => t.length o + separatorThickness).sum) ∧
      Y3.position (oppositeOrientation o) = Y.position (oppositeOrientation o) := by
  let refresh : Item → Item := fun i =>
    if i.isVisible && i.isContainer then
      i.setSizingInfo { i.m_sizingInfo with minSize := i.minSize }
    else i
  have hrv : ∀ Z : Item, (refresh Z).isVisible = Z.isVisible := by
    intro Z
    simp only [refresh]
    split <;> simp
  have hrg : ∀ Z : Item, (refresh Z).m_sizingInfo.geometry = Z.m_sizingInfo.geometry ∧
      (refresh Z).m_sizingInfo.isBeingInserted = Z.m_sizingInfo.isBeingInserted := by
    intro Z
    simp only [refresh]
    split <;> simp
  have hrc : ∀ Z : Item, (refresh Z).isContainer = Z.isContainer := by
    intro Z
    simp only [refresh]
    split <;> simp
  have hgrow : growItem (.container n s o cs rs b k) (some i) amount
      = applySizesWith resize (.container n s o (cs.map refresh) rs b k) L := by
    rw [hLdef]
    rfl
  have hfil : (cs.map refresh).filter isVisible = (cs.filter isVisible).map refresh :=
    filter_map_isVisible refresh hrv cs
  have hlen2 : L.length = ((cs.map refresh).filter isVisible).length := by
    rw [hfil, List.length_map, hlen]
  have hL2 : ∀ j Y2 t, ((cs.map refresh).filter isVisible).get? j = some Y2 →
      L.get? j = some t →
      (resize Y2 t.geometry.size).m_sizingInfo
        = { Y2.m_sizingInfo with
            geometry := Y2.m_sizingInfo.geometry.setSize t.geometry.size } := by
    intro j Y2 t hY2 ht
    rw [hfil, List.get?_map] at hY2
    cases hYj : (cs.filter isVisible).get? j with
    | none =>
      rw [hYj] at hY2
      simp only [Option.map_none', reduceCtorEq] at hY2
    | some Yj =>
      rw [hYj] at hY2
      simp only [Option.map_some', Option.some.injEq] at hY2
      subst hY2
      apply m_sizingInfo_resizeFuel_accepted
      · intro hc
        exact one_le_depth_of_container _ hc
      · intro hc
        rw [show (refresh Yj).minSize = Yj.minSize from minSize_refreshed Yj]
        exact hacc j Yj t hYj ht (by rw [← hrc]; exact hc)
  have hY2 : ((cs.map refresh).filter isVisible).get? j = some (refresh Y) := by
    rw [hfil, List.get?_map, hY]
    rfl
  obtain ⟨Y3, hY3, h1, h2, h3, h4, h5⟩ := applySizesWith_visible resize
    (fun i sz => isVisible_resizeFuel _ i sz) (fun i sz => m_sizingInfo_resizeFuel _ i sz)
    n s o (cs.map refresh) rs k L hlen2 hL2 j (refresh Y) t hY2 ht
  have hblock := filter_isVisible_of_map_erasePercentages _ _
    (applySizesWith_block resize n s o (cs.map refresh) rs b k L)
  obtain ⟨Y4, hY4, he⟩ := get?_of_map_erasePercentages _ _ hblock j Y3 hY3
  obtain ⟨hg, hbi⟩ := sizingInfo_of_erasePercentages he
  have hlenEq : ∀ a : Orientation, Y4.length a = Y3.length a := by
    intro a
    simp only [Item.length, Item.size, hg]
  have hposEq : ∀ a : Orientation, Y4.position a = Y3.position a := by
    intro a
    cases a <;> simp only [Item.position, Item.x, Item.y, hg]
  rw [hgrow]
  refine ⟨Y4, hY4, ?_, ?_, ?_, ?_, ?_⟩
  · rw [hbi, h1, (hrg Y).2]
  · rw [hlenEq, h2]
  · rw [hlenEq]
    exact h3
  · intro hall
    rw [hposEq]
    apply h4
    intro X hX
    rw [hfil] at hX
    obtain ⟨Z, hZ, rfl⟩ := List.mem_map.1 hX
    rw [(hrg Z).2]
    exact hall Z hZ
  · rw [hposEq, h5]
    cases o <;> simp only [Item.position, Item.x, Item.y, oppositeOrientation, (hrg Y).1]

/-! ## Showing a leaf next to one visible sibling -/

@[simp] theorem isVisible_setLength (i : Item) (l : Int) (o : Orientation) :
    (i.setLength l o).isVisible = i.isVisible := by
  cases o <;> simp [Item.setLength, setSize, setGeometry_eq]

theorem m_sizingInfo_setLength (i : Item) (l : Int) (o : Orientation) :
    (i.setLength l o).m_sizingInfo
      = { i.m_sizingInfo with geometry := (i.m_sizingInfo.geometry.setSize
            (match o with
              | .Vertical => ⟨i.m_sizingInfo.geometry.width, l⟩
              | .Horizontal => ⟨l, i.m_sizingInfo.geometry.height⟩)) } := by
  cases o <;> simp [Item.setLength, setSize, setGeometry_eq, Item.width, Item.height]

theorem isContainer_setLength (i : Item) (l : Int) (o : Orientation) :
    (i.setLength l o).isContainer = i.isContainer := by
  cases o <;> simp [Item.setLength, setSize, setGeometry_eq]

theorem missingSize_isNull_of_le (c : Item) (h1 : c.minSize.width ≤ c.size.width)
    (h2 : c.minSize.height ≤ c.size.height) : c.missingSize.isNull = true := by
  have e1 : qMax (c.minSize.width - c.size.width) 0 = 0 := by unfold qMax; split <;> omega
  have e2 : qMax (c.minSize.height - c.size.height) 0 = 0 := by unfold qMax; split <;> omega
  simp [missingSize, QSize.sub, QSize.isNull, e1, e2]

/-- The minimum size of a container with two visible children, by axis. -/
theorem minSize_pair (n : Nat) (s : SizingInfo) (o : Orientation) (A B : Item) (rs b k : Bool)
    (hA : A.isVisible = true) (hB : B.isVisible = true) :
    Layouting.length (Item.container n s o [A, B] rs b k).minSize o
      = A.minLength o + B.minLength o + separatorThickness ∧
    Layouting.length (Item.container n s o [A, B] rs b k).minSize (oppositeOrientation o)
      = qMax (qMax 0 (A.minLength (oppositeOrientation o))) (B.minLength (oppositeOrientation o)) := by
  have h := minSize_container_eq n s o A [B] rs b k
  simp only [List.filter_cons, hA, hB, if_true, List.filter_nil, List.map_cons, List.map_nil,
    List.sum_cons, List.sum_nil, List.length_cons, List.length_nil, List.foldl_cons,
    List.foldl_nil] at h
  refine ⟨?_, h.2⟩
  rw [h.1]
  simp only [separatorThickness]
  push_cast
  omega

theorem restorePlaceholder_leaf_first (n : Nat) (s : SizingInfo) (o : Orientation) (W : Item)
    (rs b k : Bool) (xn : Nat) (xs : SizingInfo) (xw : Option Nat) (xr : Nat)
    (hWv : W.isVisible = true)
    (hfit : (Item.container n s o
      [.leaf xn { xs with isBeingInserted := true } true xw xr, W] rs b k).missingSize.isNull
        = true) :
    restorePlaceholder (.container n s o [.leaf xn xs false xw xr, W] rs b k) [] 0
      = growItem (.container n s o
          [(Item.leaf xn { xs with isBeingInserted := false } true xw xr).setLength
            (qBound (Layouting.length xs.minSize o) (Layouting.length xs.geometry.size o)
              (Layouting.length xs.geometry.size o + (Item.container n s o
                [.leaf xn { xs with isBeingInserted := false } true xw xr, W] rs b
                  k).availableLength)) o, W] rs b k) (some 0)
          (qBound (Layouting.length xs.minSize o) (Layouting.length xs.geometry.size o)
              (Layouting.length xs.geometry.size o + (Item.container n s o
                [.leaf xn { xs with isBeingInserted := false } true xw xr, W] rs b
                  k).availableLength) + separatorThickness) := by
  simp [restorePlaceholder, setIsVisibleAt, getAt, m_children, depth,
    setIsVisibleFuel, setLeafVisibleAt, onChildMinSizeChanged, propagateMinSize, hfit,
    adjustChild, numVisibleChildren, visibleChildren, hWv, isVisible, modifyAt, setChildren,
    isContainer, isBeingInserted, m_sizingInfo, setBeingInserted, setSizingInfo,
    setLength_recursive, setLength_recursiveWith, visibleIndexOf, minLength, Item.length,
    Item.size, minSize, m_orientation]

theorem restorePlaceholder_leaf_second (n : Nat) (s : SizingInfo) (o : Orientation) (W : Item)
    (rs b k : Bool) (xn : Nat) (xs : SizingInfo) (xw : Option Nat) (xr : Nat)
    (hWv : W.isVisible = true)
    (hfit : (Item.container n s o
      [W, .leaf xn { xs with isBeingInserted := true } true xw xr] rs b k).missingSize.isNull
        = true) :
    restorePlaceholder (.container n s o [W, .leaf xn xs false xw xr] rs b k) [] 1
      = growItem (.container n s o
          [W, (Item.leaf xn { xs with isBeingInserted := false } true xw xr).setLength
            (qBound (Layouting.length xs.minSize o) (Layouting.length xs.geometry.size o)
              (Layouting.length xs.geometry.size o + (Item.container n s o
                [W, .leaf xn { xs with isBeingInserted := false } true xw xr] rs b
                  k).availableLength)) o] rs b k) (some 1)
          (qBound (Layouting.length xs.minSize o) (Layouting.length xs.geometry.size o)
              (Layouting.length xs.geometry.size o + (Item.container n s o
                [W, .leaf xn { xs with isBeingInserted := false } true xw xr] rs b
                  k).availableLength) + separatorThickness) := by
  simp [restorePlaceholder, setIsVisibleAt, getAt, m_children, depth,
    setIsVisibleFuel, setLeafVisibleAt, onChildMinSizeChanged, propagateMinSize, hfit,
    adjustChild, numVisibleChildren, visibleChildren, hWv, isVisible, modifyAt, setChildren,
    isContainer, isBeingInserted, m_sizingInfo, setBeingInserted, setSizingInfo,
    setLength_recursive, setLength_recursiveWith, visibleIndexOf, minLength, Item.length,
    Item.size, minSize, m_orientation]

theorem pair_of_visible_get? (c : Item) (A B : Item) (hlen : c.m_children.length = 2)
    (h0 : c.visibleChildren.get? 0 = some A) (h1 : c.visibleChildren.get? 1 = some B) :
    c.m_children = [A, B] := by
  have hle : c.visibleChildren.length ≤ c.m_children.length := List.length_filter_le _ _
  have h2 : 1 < c.visibleChildren.length := (List.get?_eq_some.1 h1).1
  have hfl : (c.m_children.filter isVisible).length = c.m_children.length := by
    simp only [visibleChildren] at hle h2
    omega
  have hall := List.filter_length_eq_length.1 hfl
  have heq : c.m_children.filter isVisible = c.m_children := List.filter_eq_self.2 hall
  simp only [visibleChildren, heq] at h0 h1
  match hc : c.m_children, hlen, h0, h1 with
  | [a, b2], _, h0, h1 =>
    simp only [List.get?_cons_zero, List.get?_cons_succ, Option.some.injEq] at h0 h1
    rw [h0, h1]

theorem availableLength_eq (c : Item) :
    c.availableLength
      = Layouting.length c.size c.m_orientation - Layouting.length c.minSize c.m_orientation := by
  unfold availableLength availableSize isVertical
  cases c.m_orientation <;> simp [QSize.sub, Layouting.length]

theorem missingSize_isNull_of_length_le (c : Item) (o : Orientation)
    (h1 : Layouting.length c.minSize o ≤ Layouting.length c.size o)
    (h2 : Layouting.length c.minSize (oppositeOrientation o)
      ≤ Layouting.length c.size (oppositeOrientation o)) : c.missingSize.isNull = true := by
  cases o with
  | Vertical => exact missingSize_isNull_of_le c h2 h1
  | Horizontal => exact missingSize_isNull_of_le c h1 h2

/-- A hidden leaf is shown (`restorePlaceholder`) in front of its only sibling,
which is visible and has the slack for it: the sibling gives the length of the
leaf plus one separator and starts behind them. -/
theorem restorePlaceholder_pair_first (n : Nat) (s : SizingInfo) (o : Orientation) (W : Item)
    (rs b k : Bool) (xn : Nat) (xs : SizingInfo) (xw : Option Nat) (xr : Nat)
    (hWv : W.isVisible = true) (hWi : W.m_sizingInfo.isBeingInserted = false)
    (hx0 : 0 ≤ Layouting.length xs.minSize o)
    (hal : Layouting.length xs.minSize o + W.minLength o + separatorThickness
      ≤ Layouting.length s.geometry.size o)
    (hcx : Layouting.length xs.minSize (oppositeOrientation o)
      ≤ Layouting.length s.geometry.size (oppositeOrientation o))
    (hcW : W.minLength (oppositeOrientation o)
      ≤ Layouting.length s.geometry.size (oppositeOrientation o))
    (hc0 : 0 ≤ Layouting.length s.geometry.size (oppositeOrientation o))
    (hfit : qMax (Layouting.length xs.minSize o) (Layouting.length xs.geometry.size o)
        + separatorThickness ≤ W.length o - W.minLength o)
    (hacc : W.minLength (oppositeOrientation o) ≤ W.length (oppositeOrientation o)) :
    ∃ X2 W2,
      (restorePlaceholder (.container n s o [.leaf xn xs false xw xr, W] rs b k) []
        0).m_children = [X2, W2] ∧
      W2.m_sizingInfo.isBeingInserted = false ∧
      W2.length o = W.length o
        - (qMax (Layouting.length xs.minSize o) (Layouting.length xs.geometry.size o)
            + separatorThickness) ∧
      W2.position o = qMax (Layouting.length xs.minSize o) (Layouting.length xs.geometry.size o)
        + separatorThickness ∧
      (W2.length (oppositeOrientation o) = W.length (oppositeOrientation o) ∨
        W2.length (oppositeOrientation o)
          = Layouting.length s.geometry.size (oppositeOrientation o)) ∧
      W2.position (oppositeOrientation o) = W.position (oppositeOrientation o) ∧
      X2.m_sizingInfo.isBeingInserted = false ∧
      X2.length o = qMax (Layouting.length xs.minSize o) (Layouting.length xs.geometry.size o) ∧
      X2.position o = 0 := by
  have hpair := fun (bi : Bool) => minSize_pair n s o
    (.leaf xn { xs with isBeingInserted := bi } true xw xr) W rs b k rfl hWv
  have hml : ∀ (bi : Bool) (a : Orientation),
      (Item.leaf xn { xs with isBeingInserted := bi } true xw xr).minLength a
        = Layouting.length xs.minSize a := fun _ _ => by simp [minLength, minSize]
  have hnull : (Item.container n s o
      [.leaf xn { xs with isBeingInserted := true } true xw xr, W] rs b k).missingSize.isNull
        = true := by
    obtain ⟨h1, h2⟩ := hpair true
    rw [hml] at h1 h2
    have e : qMax (qMax 0 (Layouting.length xs.minSize (oppositeOrientation o)))
        (W.minLength (oppositeOrientation o))
          ≤ Layouting.length s.geometry.size (oppositeOrientation o) := by
      unfold qMax
      split <;> split <;> omega
    apply missingSize_isNull_of_length_le _ o
    · rw [h1, size_container]
      exact hal
    · rw [h2, size_container]
      exact e
  rw [restorePlaceholder_leaf_first n s o W rs b k xn xs xw xr hWv hnull]
  have hav : (Item.container n s o
      [.leaf xn { xs with isBeingInserted := false } true xw xr, W] rs b k).availableLength
        = Layouting.length s.geometry.size o
          - (Layouting.length xs.minSize o + W.minLength o + separatorThickness) := by
    rw [availableLength_eq, m_orientation_container, (hpair false).1, hml]
    rfl
  rw [hav, qBound_of_slack _ _ _ (by omega)]
  generalize hl : qMax (Layouting.length xs.minSize o) (Layouting.length xs.geometry.size o) = l
    at hfit ⊢
  have hlmin : Layouting.length xs.minSize o ≤ l := by
    rw [← hl]
    unfold qMax
    split <;> omega
  have hpos : 0 < l + separatorThickness := by
    simp only [separatorThickness]
    omega
  generalize hX : (Item.leaf xn { xs with isBeingInserted := false } true xw xr).setLength l o
    = X
  have hXv : X.isVisible = true := by rw [← hX, isVisible_setLength]; rfl
  have hXc : X.isContainer = false := by rw [← hX, isContainer_setLength]; rfl
  have hXi : X.m_sizingInfo.isBeingInserted = false := by
    rw [← hX, m_sizingInfo_setLength]
    rfl
  have hXl : X.m_sizingInfo.length o = l := by
    rw [← hX, m_sizingInfo_setLength]
    cases o <;> rfl
  let Wsi : SizingInfo :=
    if W.isContainer then { W.m_sizingInfo with minSize := W.minSize } else W.m_sizingInfo
  have hWsg : Wsi.geometry = W.m_sizingInfo.geometry := by
    simp only [Wsi]
    split <;> rfl
  have hWsm : Wsi.minSize = W.minSize := by
    simp only [Wsi]
    split
    · rfl
    · rename_i hc
      cases W with
      | leaf => rfl
      | container => simp [isContainer] at hc
  have hsizes : (Item.container n s o [X, W] rs b k).sizes = [X.m_sizingInfo, Wsi] := by
    simp [sizes, visibleChildren, m_children, hXv, hWv, hXc, Wsi]
  have hle : l + separatorThickness ≤ Wsi.availableLength o := by
    simp only [SizingInfo.availableLength, SizingInfo.length, SizingInfo.minLength,
      SizingInfo.size, hWsg, hWsm]
    exact hfit
  have hL := growItemInSizes_first o Wsi X.m_sizingInfo (l + separatorThickness) hpos hle
  have hfilter : [X, W].filter isVisible = [X, W] := by
    simp [List.filter_cons, hXv, hWv]
  have hacc2 : ∀ j Y t, ([X, W].filter isVisible).get? j = some Y →
      [X.m_sizingInfo, Wsi.setGeometry (adjustedRect Wsi.geometry o (l + separatorThickness)
        0)].get? j = some t → Y.isContainer = true →
      ¬ (t.geometry.size.width < Y.minSize.width ∨
        t.geometry.size.height < Y.minSize.height) := by
    intro j Y t hY ht hc
    rw [hfilter] at hY
    match j, hY, ht with
    | 0, hY, _ =>
      simp only [List.get?_cons_zero, Option.some.injEq] at hY
      rw [← hY, hXc] at hc
      exact absurd hc (by simp)
    | 1, hY, ht =>
      simp only [List.get?_cons_succ, List.get?_cons_zero, Option.some.injEq] at hY ht
      subst hY
      subst ht
      simp only [Item.length, Item.minLength, Item.size] at hfit hacc
      cases o <;>
        simp only [SizingInfo.setGeometry, adjustedRect, QRect.adjust, QRect.size, hWsg,
          Layouting.length, oppositeOrientation, separatorThickness] at hfit hacc ⊢ <;>
        omega
  have key := growItem_visible n s o [X, W] rs b k 0 (l + separatorThickness) _
    (by rw [hsizes, hL]) (by rw [hfilter]; rfl) hacc2
  have hall : ∀ Z ∈ [X, W].filter isVisible, Z.m_sizingInfo.isBeingInserted = false := by
    rw [hfilter]
    intro Z hZ
    simp only [List.mem_cons, List.mem_singleton, List.not_mem_nil, or_false] at hZ
    rcases hZ with rfl | rfl
    · exact hXi
    · exact hWi
  obtain ⟨X2, hX2, x1, x2, -, x4, -⟩ := key 0 X X.m_sizingInfo (by rw [hfilter]; rfl) rfl
  obtain ⟨W2, hW2, w1, w2, w3, w4, w5⟩ := key 1 W _ (by rw [hfilter]; rfl) rfl
  have hshape : (growItem (.container n s o [X, W] rs b k) (some 0)
      (l + separatorThickness)).m_children.length = 2 :=
    length_children_of_shape (shape_growItem _ _ _)
  refine ⟨X2, W2, pair_of_visible_get? _ X2 W2 hshape hX2 hW2, ?_, ?_, ?_, ?_, w5, ?_, ?_, ?_⟩
  · rw [w1, hWi]
  · rw [w2]
    simp only [Item.length, Item.size]
    cases o <;>
      simp [SizingInfo.length, SizingInfo.size, SizingInfo.setGeometry, adjustedRect,
        QRect.adjust, QRect.size, hWsg, Layouting.length]
  · rw [w4 hall]
    simp [hXl]
  · rcases w3 with h | h
    · left
      rw [h]
      simp only [Item.length, Item.size]
      cases o <;>
        simp [SizingInfo.length, SizingInfo.size, SizingInfo.setGeometry, adjustedRect,
          QRect.adjust, QRect.size, hWsg, Layouting.length, oppositeOrientation]
    · right
      exact h
  · rw [x1, hXi]
  · rw [x2, hXl]
  · rw [x4 hall]
    simp

/-- A hidden leaf is shown (`restorePlaceholder`) behind its only sibling, which
is visible and has the slack for it: the sibling gives the length of the leaf
plus one separator and keeps its position. -/
theorem restorePlaceholder_pair_second (n : Nat) (s : SizingInfo) (o : Orientation) (W : Item)
    (rs b k : Bool) (xn : Nat) (xs : SizingInfo) (xw : Option Nat) (xr : Nat)
    (hWv : W.isVisible = true) (hWi : W.m_sizingInfo.isBeingInserted = false)
    (hx0 : 0 ≤ Layouting.length xs.minSize o)
    (hal : Layouting.length xs.minSize o + W.minLength o + separatorThickness
      ≤ Layouting.length s.geometry.size o)
    (hcx : Layouting.length xs.minSize (oppositeOrientation o)
      ≤ Layouting.length s.geometry.size (oppositeOrientation o))
    (hcW : W.minLength (oppositeOrientation o)
      ≤ Layouting.length s.geometry.size (oppositeOrientation o))
    (hc0 : 0 ≤ Layouting.length s.geometry.size (oppositeOrientation o))
    (hfit : qMax (Layouting.length xs.minSize o) (Layouting.length xs.geometry.size o)
        + separatorThickness ≤ W.length o - W.minLength o)
    (hacc : W.minLength (oppositeOrientation o) ≤ W.length (oppositeOrientation o)) :
    ∃ X2 W2,
      (restorePlaceholder (.container n s o [W, .leaf xn xs false xw xr] rs b k) []
        1).m_children = [W2, X2] ∧
      W2.m_sizingInfo.isBeingInserted = false ∧
      W2.length o = W.length o
        - (qMax (Layouting.length xs.minSize o) (Layouting.length xs.geometry.size o)
            + separatorThickness) ∧
      W2.position o = 0 ∧
      (W2.length (oppositeOrientation o) = W.length (oppositeOrientation o) ∨
        W2.length (oppositeOrientation o)
          = Layouting.length s.geometry.size (oppositeOrientation o)) ∧
      W2.position (oppositeOrientation o) = W.position (oppositeOrientation o) ∧
      X2.m_sizingInfo.isBeingInserted = false ∧
      X2.length o = qMax (Layouting.length xs.minSize o) (Layouting.length xs.geometry.size o) ∧
      X2.position o = W.length o
        - (qMax (Layouting.length xs.minSize o) (Layouting.length xs.geometry.size o)
            + separatorThickness) + separatorThickness := by
  have hpair := fun (bi : Bool) => minSize_pair n s o W
    (.leaf xn { xs with isBeingInserted := bi } true xw xr) rs b k hWv rfl
  have hml : ∀ (bi : Bool) (a : Orientation),
      (Item.leaf xn { xs with isBeingInserted := bi } true xw xr).minLength a
        = Layouting.length xs.minSize a := fun _ _ => by simp [minLength, minSize]
  have hnull : (Item.container n s o
      [W, .leaf xn { xs with isBeingInserted := true } true xw xr] rs b k).missingSize.isNull
        = true := by
    obtain ⟨h1, h2⟩ := hpair true
    rw [hml] at h1 h2
    have e : qMax (qMax 0 (W.minLength (oppositeOrientation o)))
        (Layouting.length xs.minSize (oppositeOrientation o))
          ≤ Layouting.length s.geometry.size (oppositeOrientation o) := by
      unfold qMax
      split <;> split <;> omega
    apply missingSize_isNull_of_length_le _ o
    · rw [h1, size_container]
      omega
    · rw [h2, size_container]
      exact e
  rw [restorePlaceholder_leaf_second n s o W rs b k xn xs xw xr hWv hnull]
  have hav : (Item.container n s o
      [W, .leaf xn { xs with isBeingInserted := false } true xw xr] rs b k).availableLength
        = Layouting.length s.geometry.size o
          - (Layouting.length xs.minSize o + W.minLength o + separatorThickness) := by
    rw [availableLength_eq, m_orientation_container, (hpair false).1, hml,
      size_container]
    omega
  rw [hav, qBound_of_slack _ _ _ (by omega)]
  generalize hl : qMax (Layouting.length xs.minSize o) (Layouting.length xs.geometry.size o) = l
    at hfit ⊢
  have hlmin : Layouting.length xs.minSize o ≤ l := by
    rw [← hl]
    unfold qMax
    split <;> omega
  have hpos : 0 < l + separatorThickness := by
    simp only [separatorThickness]
    omega
  generalize hX : (Item.leaf xn { xs with isBeingInserted := false } true xw xr).setLength l o
    = X
  have hXv : X.isVisible = true := by rw [← hX, isVisible_setLength]; rfl
  have hXc : X.isContainer = false := by rw [← hX, isContainer_setLength]; rfl
  have hXi : X.m_sizingInfo.isBeingInserted = false := by
    rw [← hX, m_sizingInfo_setLength]
    rfl
  have hXl : X.m_sizingInfo.length o = l := by
    rw [← hX, m_sizingInfo_setLength]
    cases o <;> rfl
  let Wsi : SizingInfo :=
    if W.isContainer then { W.m_sizingInfo with minSize := W.minSize } else W.m_sizingInfo
  have hWsg : Wsi.geometry = W.m_sizingInfo.geometry := by
    simp only [Wsi]
    split <;> rfl
  have hWsm : Wsi.minSize = W.minSize := by
    simp only [Wsi]
    split
    · rfl
    · rename_i hc
      cases W with
      | leaf => rfl
      | container => simp [isContainer] at hc
  have hsizes : (Item.container n s o [W, X] rs b k).sizes = [Wsi, X.m_sizingInfo] := by
    simp [sizes, visibleChildren, m_children, hXv, hWv, hXc, Wsi]
  have hle : l + separatorThickness ≤ Wsi.availableLength o := by
    simp only [SizingInfo.availableLength, SizingInfo.length, SizingInfo.minLength,
      SizingInfo.size, hWsg, hWsm]
    exact hfit
  have hL := growItemInSizes_second o Wsi X.m_sizingInfo (l + separatorThickness) hpos hle
  have hfilter : [W, X].filter isVisible = [W, X] := by
    simp [List.filter_cons, hXv, hWv]
  have hacc2 : ∀ j Y t, ([W, X].filter isVisible).get? j = some Y →
      [Wsi.setGeometry (adjustedRect Wsi.geometry o 0 (-(l + separatorThickness))),
        X.m_sizingInfo].get? j = some t → Y.isContainer = true →
      ¬ (t.geometry.size.width < Y.minSize.width ∨
        t.geometry.size.height < Y.minSize.height) := by
    intro j Y t hY ht hc
    rw [hfilter] at hY
    match j, hY, ht with
    | 1, hY, _ =>
      simp only [List.get?_cons_succ, List.get?_cons_zero, Option.some.injEq] at hY
      rw [← hY, hXc] at hc
      exact absurd hc (by simp)
    | 0, hY, ht =>
      simp only [List.get?_cons_zero, Option.some.injEq] at hY ht
      subst hY
      subst ht
      simp only [Item.length, Item.minLength, Item.size] at hfit hacc
      cases o <;>
        simp only [SizingInfo.setGeometry, adjustedRect, QRect.adjust, QRect.size, hWsg,
          Layouting.length, oppositeOrientation, separatorThickness] at hfit hacc ⊢ <;>
        omega
  have key := growItem_visible n s o [W, X] rs b k 1 (l + separatorThickness) _
    (by rw [hsizes, hL]) (by rw [hfilter]; rfl) hacc2
  have hall : ∀ Z ∈ [W, X].filter isVisible, Z.m_sizingInfo.isBeingInserted = false := by
    rw [hfilter]
    intro Z hZ
    simp only [List.mem_cons, List.mem_singleton, List.not_mem_nil, or_false] at hZ
    rcases hZ with rfl | rfl
    · exact hWi
    · exact hXi
  obtain ⟨X2, hX2, x1, x2, -, x4, -⟩ := key 1 X X.m_sizingInfo (by rw [hfilter]; rfl) rfl
  obtain ⟨W2, hW2, w1, w2, w3, w4, w5⟩ := key 0 W _ (by rw [hfilter]; rfl) rfl
  have hshape : (growItem (.container n s o [W, X] rs b k) (some 1)
      (l + separatorThickness)).m_children.length = 2 :=
    length_children_of_shape (shape_growItem _ _ _)
  refine ⟨X2, W2, pair_of_visible_get? _ W2 X2 hshape hW2 hX2, ?_, ?_, ?_, ?_, w5, ?_, ?_, ?_⟩
  · rw [w1, hWi]
  · rw [w2]
    simp only [Item.length, Item.size]
    cases o <;>
      simp [SizingInfo.length, SizingInfo.size, SizingInfo.setGeometry, adjustedRect,
        QRect.adjust, QRect.size, hWsg, Layouting.length] <;> omega
  · rw [w4 hall]
    simp
  · rcases w3 with h | h
    · left
      rw [h]
      simp only [Item.length, Item.size]
      cases o <;>
        simp [SizingInfo.length, SizingInfo.size, SizingInfo.setGeometry, adjustedRect,
          QRect.adjust, QRect.size, hWsg, Layouting.length, oppositeOrientation]
    · right
      exact h
  · rw [x1, hXi]
  · rw [x2, hXl]
  · rw [x4 hall]
    simp only [List.take_succ_cons, List.take_zero, List.map_cons, List.map_nil, List.sum_cons,
      List.sum_nil, Int.add_zero]
    cases o <;>
      simp [SizingInfo.length, SizingInfo.size, SizingInfo.setGeometry, adjustedRect,
        QRect.adjust, QRect.size, hWsg, Layouting.length, Item.length, Item.size] <;> omega

/-- The wrapper that `insertItem(item, loc)` creates in a root whose orientation
does not fit: it holds the former children and has the root's rect. -/
theorem containerInsertItem_wrap (n : Nat) (s : SizingInfo) (o : Orientation) (cs : List Item)
    (rs b k : Bool) (x : Item) (loc : Location) (w : Nat)
    (htwo : 2 ≤ cs.length) (hmis : o ≠ orientationForLocation loc)
    (hnew : ∀ c ∈ cs, c.name ≠ x.name) :
    containerInsertItem (.container n s o cs rs b k) [] x loc none w
      = checkSanityEffect true (updateChildPercentages (containerInsertItemFuel 1
          (setIsVisibleAt (.container n s (oppositeOrientation o)
              [.container w { defaultSizingInfo with geometry := (Item.container n s o cs rs b k).rect }
                o (cs.map fun i => i.setConnected true) false false false] rs b k) [0]
            (decide ((Item.container w defaultSizingInfo o (cs.map fun i => i.setConnected true)
              false false false).numVisibleChildren > 0)))
          [] (setIsVisibleAt x [] false) loc none (w + 1))) := by
  have hlen : ¬ cs.length ≤ 1 := by omega
  have hor : (o == orientationForLocation loc) = false := by simpa using hmis
  have hfind := findIdx?_name_none cs x.name hnew
  show containerInsertItemFuel (1 + 1) _ _ _ _ _ _ = _
  rw [containerInsertItemFuel]
  simp only [getAt, m_children, hfind, hasOrientationFor, hlen, if_false, hor,
    Bool.false_eq_true, m_orientation, checkSanityAt, List.isEmpty_nil, modifyAt,
    insertChildAt, newContainer, setChildren, setOrientation, insertAt, List.take_zero,
    List.drop_zero, List.nil_append, List.modify, setGeometry_eq, setSizingInfo, m_sizingInfo]
  rfl

/-! ## `setIsVisible` on items that have the visibility already -/

theorem leavesShownList_get? (is : Bool) (cs : List Item) (k : Nat) (c : Item)
    (h : leavesShownList is cs = true) (hc : cs.get? k = some c) : leavesShown is c = true := by
  induction cs generalizing k with
  | nil => simp at hc
  | cons a cs ih =>
    simp only [leavesShownList, Bool.and_eq_true] at h
    cases k with
    | zero =>
      simp only [List.get?_cons_zero, Option.some.injEq] at hc
      rw [← hc]
      exact h.1
    | succ k =>
      simp only [List.get?_cons_succ] at hc
      exact ih k h.2 hc

theorem leavesShownList_iff (is : Bool) (cs : List Item) :
    leavesShownList is cs = true ↔ ∀ c ∈ cs, leavesShown is c = true := by
  induction cs with
  | nil => simp [leavesShownList]
  | cons a cs ih => simp [leavesShownList, ih]

mutual
theorem leavesShown_of_hidden : ∀ (X : Item), X.isVisible = false → leavesShown false X = true
  | .leaf _ _ v _ _, h => by
    simp only [isVisible] at h
    simp [leavesShown, h]
  | .container _ _ _ cs _ _ _, h => by
    simp only [isVisible] at h
    simp only [leavesShown]
    exact leavesShownList_of_hidden cs h
theorem leavesShownList_of_hidden : ∀ (cs : List Item), anyVisible cs = false →
    leavesShownList false cs = true
  | [], _ => rfl
  | c :: cs, h => by
    simp only [anyVisible] at h
    by_cases hc : c.isVisible = true
    · simp [hc] at h
    · simp only [hc, Bool.false_eq_true, if_false] at h
      simp only [leavesShownList, Bool.and_eq_true]
      exact ⟨leavesShown_of_hidden c (by simpa using hc), leavesShownList_of_hidden cs h⟩
end

theorem leavesShown_setConnected (is : Bool) (X : Item) (k : Bool) :
    leavesShown is (X.setConnected k) = leavesShown is X := by
  cases X <;> simp [setConnected, leavesShown]

theorem foldl_fixed {α : Type} (f : Item → α → Item) (r : Item) (l : List α)
    (h : ∀ a ∈ l, f r a = r) : l.foldl f r = r := by
  induction l with
  | nil => rfl
  | cons a l ih =>
    simp only [List.foldl_cons, h a (List.mem_cons_self _ _)]
    exact ih fun a2 ha2 => h a2 (List.mem_cons_of_mem _ ha2)

theorem setIsVisibleFuel_of_leavesShown (is : Bool) (root : Item) (fuel : Nat) :
    ∀ (q : List Nat) (i : Item), getAt root q = some i → leavesShown is i = true →
    setIsVisibleFuel fuel root q is = root := by
  have hleaf : ∀ (q : List Nat) (i : Item), getAt root q = some i → leavesShown is i = true →
      ¬ i.isContainer = true → setLeafVisibleAt root q is = root := by
    intro q i hi hs hc
    cases i with
    | container => simp [isContainer] at hc
    | leaf n s v w r =>
      simp only [leavesShown, beq_iff_eq] at hs
      unfold setLeafVisibleAt
      simp [hi, isVisible, hs]
  induction fuel with
  | zero =>
    intro q i hi hs
    unfold setIsVisibleFuel
    simp only [hi]
    split
    · rfl
    · rename_i hc
      exact hleaf q i hi hs hc
  | succ m ih =>
    intro q i hi hs
    unfold setIsVisibleFuel
    simp only [hi]
    split
    · apply foldl_fixed
      intro a _
      cases hc : getAt root (q ++ [a]) with
      | none =>
        unfold setIsVisibleFuel
        simp only [hc]
      | some c =>
        apply ih (q ++ [a]) c hc
        rw [getAt_snoc, hi] at hc
        cases i with
        | leaf => simp [m_children] at hc
        | container n s o cs rs b k =>
          simp only [leavesShown] at hs
          exact leavesShownList_get? is cs a c hs hc
    · rename_i hc
      exact hleaf q i hi hs hc

theorem setIsVisibleAt_of_leavesShown (is : Bool) (root : Item) (q : List Nat) (i : Item)
    (hi : getAt root q = some i) (hs : leavesShown is i = true) :
    setIsVisibleAt root q is = root := by
  unfold setIsVisibleAt
  simp only [hi]
  exact setIsVisibleFuel_of_leavesShown is root _ q i hi hs

/-! ## A hidden sibling of a leaf that is shown -/

theorem ChildKept.isVisible_eq {X Y : Item} (h : ChildKept X Y) : Y.isVisible = X.isVisible := by
  obtain ⟨s, rfl, -⟩ := h
  simp

theorem get?_modify_ne (f : Item → Item) (cs : List Item) (idx k : Nat) (hk : k ≠ idx) :
    (cs.modify f idx).get? k = cs.get? k := by
  simp only [List.get?_eq_getElem?]
  exact List.getElem?_modify_ne f cs (Ne.symm hk)

theorem modifyAt_nil (f : Item → Item) (r : Item) : modifyAt f r [] = f r := rfl

theorem modifyAt_child_other (f : Item → Item) (r : Item) (idx k : Nat) (hk : k ≠ idx) :
    (modifyAt f r [idx]).m_children.get? k = r.m_children.get? k := by
  cases r with
  | leaf => rfl
  | container n s o cs rs b c =>
    simp only [modifyAt, setChildren, m_children]
    exact get?_modify_ne _ cs idx k hk

theorem adjustChild_kept_other (G : Item) (idx k : Nat) (X : Item) (hk : k ≠ idx)
    (hX : G.m_children.get? k = some X) (hv : X.isVisible = false) :
    ∃ X2, (adjustChild G idx).m_children.get? k = some X2 ∧ ChildKept X X2 := by
  have hself : ∃ X2, G.m_children.get? k = some X2 ∧ ChildKept X X2 :=
    ⟨X, hX, ChildKept.refl X⟩
  unfold adjustChild
  split
  · exact hself
  · simp only []
    split
    · rw [m_children_setChildren_of_container _ _ (isContainer_of_get? hX),
        get?_modify_ne _ _ idx k hk]
      exact hself
    · split
      · exact hself
      · split
        · exact hself
        · exact keeps_growItem _ _ G k X hX (Or.inl hv)

/-- Showing a hidden leaf (`restorePlaceholder`) changes a sibling that is not
visible only in its `SizingInfo`, and neither its geometry nor its
`isBeingInserted` flag. -/
theorem restorePlaceholder_keeps_hidden_sibling (n : Nat) (s : SizingInfo) (o : Orientation)
    (cs : List Item) (rs b k : Bool) (idx kW : Nat) (xn : Nat) (xs : SizingInfo)
    (xw : Option Nat) (xr : Nat) (W : Item) (hk : kW ≠ idx)
    (hx : cs.get? idx = some (.leaf xn xs false xw xr)) (hW : cs.get? kW = some W)
    (hWv : W.isVisible = false) :
    ∃ W2, (restorePlaceholder (.container n s o cs rs b k) [] idx).m_children.get? kW = some W2 ∧
      ChildKept W W2 := by
  have hget : getAt (Item.container n s o cs rs b k) [idx]
      = some (.leaf xn xs false xw xr) := by
    simp only [getAt_singleton, m_children]
    exact hx
  -- the leaf becomes visible
  have h1 : ∃ W1, (setIsVisibleAt (Item.container n s o cs rs b k) [idx]
      true).m_children.get? kW = some W1 ∧ ChildKept W W1 := by
    unfold setIsVisibleAt
    simp only [hget, depth]
    unfold setIsVisibleFuel
    simp only [hget, isContainer, Bool.false_eq_true, if_false]
    unfold setLeafVisibleAt
    simp only [hget, isVisible, bne_iff_ne, ne_eq, Bool.true_eq_false, not_false_eq_true,
      if_true, List.reverse_cons, List.reverse_nil, List.nil_append, onChildMinSizeChanged,
      modifyAt_nil]
    rw [modifyAt_child_other _ _ idx kW hk]
    have hA : (modifyAt (fun i => match i with
        | .leaf n s _ w r => Item.leaf n { s with isBeingInserted := true || s.isBeingInserted }
            true w r
        | c => c) (Item.container n s o cs rs b k) [idx]).m_children.get? kW = some W := by
      rw [modifyAt_child_other _ _ idx kW hk]
      exact hW
    obtain ⟨W1, hW1, k1⟩ := propagateMinSize_child [] _ kW W
      (by simpa only [List.reverse_nil, List.nil_append, getAt_singleton] using hA)
    simp only [List.reverse_nil, List.nil_append, getAt_singleton] at hW1
    obtain ⟨W2, hW2, k2⟩ := adjustChild_kept_other _ idx kW W1 hk hW1
      (by rw [k1.isVisible_eq]; exact hWv)
    exact ⟨W2, hW2, k1.trans k2⟩
  obtain ⟨W1, hW1, k1⟩ := h1
  have hk2 : ∀ (G : Item) (index : Option Nat) (amount : Int),
      G.m_children.get? kW = some W1 →
      ∃ W2, (growItem G index amount).m_children.get? kW = some W2 ∧ ChildKept W W2 := by
    intro G index amount hG
    obtain ⟨W2, hW2, k2⟩ := keeps_growItem index amount G kW W1 hG
      (Or.inl (by rw [k1.isVisible_eq]; exact hWv))
    exact ⟨W2, hW2, k1.trans k2⟩
  unfold restorePlaceholder
  simp only [modifyAt_nil, List.nil_append]
  split
  · exact ⟨W1, hW1, k1⟩
  · split
    · exact ⟨W1, hW1, k1⟩
    · apply hk2
      rw [m_children_setChildren_of_container _ _ (isContainer_of_get? hW1),
        get?_modify_ne _ _ idx kW hk]
      exact hW1

/-! ## The wrapper made by `insertItem(item, loc)` in the root -/

theorem isVisible_setConnected (X : Item) (k : Bool) :
    (X.setConnected k).isVisible = X.isVisible := by
  cases X <;> simp [setConnected, isVisible]

theorem minSize_setConnected (X : Item) (k : Bool) : (X.setConnected k).minSize = X.minSize := by
  cases X with
  | leaf => rfl
  | container n s o cs rs b c => cases cs <;> simp [setConnected, minSize]

theorem filter_isVisible_map_setConnected (cs : List Item) :
    (cs.map fun i => i.setConnected true).filter isVisible
      = (cs.filter isVisible).map fun i => i.setConnected true :=
  filter_map_isVisible _ (fun i => isVisible_setConnected i true) cs

theorem anyVisible_map_setConnected (cs : List Item) :
    anyVisible (cs.map fun i => i.setConnected true) = anyVisible cs := by
  rw [anyVisible_eq_any, anyVisible_eq_any, List.any_map]
  congr 1
  funext i
  exact isVisible_setConnected i true

/-- The wrapper has the minimum size of the root whose children it takes. -/
theorem minSize_wrapper (n w : Nat) (s sW : SizingInfo) (o : Orientation) (cs : List Item)
    (rs b k rs2 b2 k2 : Bool) :
    (Item.container w sW o (cs.map fun i => i.setConnected true) rs2 b2 k2).minSize
      = (Item.container n s o cs rs b k).minSize := by
  cases cs with
  | nil => simp [minSize]
  | cons c cs =>
    have h := minSizeLoop_map o (fun i => i.setConnected true)
      (fun X => isVisible_setConnected X true) (fun X => minSize_setConnected X true)
      (c :: cs) 0 0 0
    simp only [List.map_cons] at h
    simp only [List.map_cons, minSize, h]

theorem setIsVisibleAt_leaf_false (xn : Nat) (xs : SizingInfo) (xv : Bool) (xw : Option Nat)
    (xr : Nat) :
    ∃ xs1 : SizingInfo, setIsVisibleAt (.leaf xn xs xv xw xr) [] false = .leaf xn xs1 false xw xr ∧
      xs1.geometry = xs.geometry ∧ xs1.minSize = xs.minSize := by
  cases xv
  · exact ⟨xs, by simp [setIsVisibleAt, getAt, depth, setIsVisibleFuel, isContainer,
      setLeafVisibleAt, isVisible], rfl, rfl⟩
  · exact ⟨{ xs with isBeingInserted := false }, by simp [setIsVisibleAt, getAt, depth,
      setIsVisibleFuel, isContainer, setLeafVisibleAt, isVisible, modifyAt, setBeingInserted,
      setSizingInfo, m_sizingInfo], rfl, rfl⟩

theorem opposite_of_ne {o o2 : Orientation} (h : o ≠ o2) : oppositeOrientation o2 = o := by
  cases o <;> cases o2 <;> simp_all [oppositeOrientation]

/-- A leaf is inserted into a root with another orientation: up to the
percentages, the result is the root with the leaf shown next to the wrapper. -/
theorem containerInsertItem_wrap_leaf (n : Nat) (s : SizingInfo) (o : Orientation)
    (cs : List Item) (rs b k : Bool) (xn : Nat) (xs : SizingInfo) (xv : Bool) (xw : Option Nat)
    (xr : Nat) (loc : Location) (w : Nat) (is : Bool)
    (htwo : 2 ≤ cs.length) (hmis : o ≠ orientationForLocation loc)
    (hnew : ∀ c ∈ cs, c.name ≠ xn) (hw : w ≠ xn)
    (his : decide ((Item.container w defaultSizingInfo o (cs.map fun i => i.setConnected true)
      false false false).numVisibleChildren > 0) = is)
    (hshown : ∀ c ∈ cs, leavesShown is c = true) :
    ∃ xs1 : SizingInfo, xs1.geometry = xs.geometry ∧ xs1.minSize = xs.minSize ∧
      erasePercentages (containerInsertItem (.container n s o cs rs b k) []
          (.leaf xn xs xv xw xr) loc none w)
        = erasePercentages (restorePlaceholder (.container n s (orientationForLocation loc)
            (if locationIsSide1 loc then
              [.leaf xn xs1 false xw xr,
               .container w { defaultSizingInfo with
                  geometry := (Item.container n s o cs rs b k).rect } o
                (cs.map fun i => i.setConnected true) false false false]
             else
              [.container w { defaultSizingInfo with
                  geometry := (Item.container n s o cs rs b k).rect } o
                (cs.map fun i => i.setConnected true) false false false,
               .leaf xn xs1 false xw xr]) rs b k) []
            (if locationIsSide1 loc then 0 else 1)) := by
  obtain ⟨xs1, hxh, hg, hm⟩ := setIsVisibleAt_leaf_false xn xs xv xw xr
  refine ⟨xs1, hg, hm, ?_⟩
  rw [containerInsertItem_wrap n s o cs rs b k (.leaf xn xs xv xw xr) loc w htwo hmis hnew, his,
    hxh]
  have hW1 : leavesShown is (Item.container w { defaultSizingInfo with
      geometry := (Item.container n s o cs rs b k).rect } o
      (cs.map fun i => i.setConnected true) false false false) = true := by
    simp only [leavesShown]
    rw [leavesShownList_iff]
    intro c hc
    obtain ⟨c0, hc0, rfl⟩ := List.mem_map.1 hc
    rw [leavesShown_setConnected]
    exact hshown c0 hc0
  rw [setIsVisibleAt_of_leavesShown is (Item.container n s (oppositeOrientation o)
      [Item.container w { defaultSizingInfo with
        geometry := (Item.container n s o cs rs b k).rect } o
        (cs.map fun i => i.setConnected true) false false false] rs b k) [0] _ rfl hW1]
  have hfind : [Item.container w { defaultSizingInfo with
      geometry := (Item.container n s o cs rs b k).rect } o
      (cs.map fun i => i.setConnected true) false false false].findIdx?
        (fun i => i.name == (Item.leaf xn xs1 false xw xr).name) = none := by
    apply findIdx?_name_none
    intro c hc
    simp only [List.mem_singleton] at hc
    subst hc
    exact hw
  rw [containerInsertItemFuel_fitting 0 n s (oppositeOrientation o) _ rs b k _ loc (w + 1) hfind
    (by simp [hasOrientationFor, m_children])]
  rw [erasePercentages_checkSanityEffect, erasePercentages_updateChildPercentages,
    erasePercentages_checkSanityEffect, erasePercentages_updateChildPercentages]
  have hx2 : setIsVisibleAt (Item.leaf xn xs1 false xw xr) [] false
      = Item.leaf xn xs1 false xw xr := by
    simp [setIsVisibleAt, getAt, depth, setIsVisibleFuel, isContainer, setLeafVisibleAt,
      isVisible]
  rw [hx2]
  cases hside : locationIsSide1 loc <;>
    simp [insertChildAt, getAt, modifyAt, setChildren, insertAt, setConnected, m_children]

theorem get?_of_erasePercentages_eq {A B : Item}
    (h : erasePercentages A = erasePercentages B) (j : Nat) (Y : Item)
    (hY : B.m_children.get? j = some Y) :
    ∃ Y2, A.m_children.get? j = some Y2 ∧ erasePercentages Y2 = erasePercentages Y :=
  get?_of_map_erasePercentages _ _ (children_of_erasePercentages_eq h) j Y hY

/-- No former child is visible: the wrapper keeps the root's rect. -/
theorem wrapper_keeps_root_rect (n : Nat) (s : SizingInfo) (o : Orientation)
    (cs : List Item) (rs b k : Bool) (xn : Nat) (xs : SizingInfo) (xv : Bool) (xw : Option Nat)
    (xr : Nat) (loc : Location) (w : Nat)
    (htwo : 2 ≤ cs.length) (hmis : o ≠ orientationForLocation loc)
    (hnew : ∀ c ∈ cs, c.name ≠ xn) (hw : w ≠ xn)
    (hhid : ∀ c ∈ cs, c.isVisible = false) :
    ∃ W3, (containerInsertItem (.container n s o cs rs b k) [] (.leaf xn xs xv xw xr) loc none
        w).m_children.get? (if locationIsSide1 loc then 1 else 0) = some W3 ∧
      W3.geometry = (Item.container n s o cs rs b k).rect := by
  have hfil : (cs.map fun i => i.setConnected true).filter isVisible = [] := by
    rw [filter_isVisible_map_setConnected, List.filter_eq_nil_iff.2 (by simpa using hhid)]
    rfl
  have his : decide ((Item.container w defaultSizingInfo o
      (cs.map fun i => i.setConnected true) false false false).numVisibleChildren > 0)
        = false := by
    simp [numVisibleChildren, visibleChildren, m_children, hfil]
  obtain ⟨xs1, -, -, he⟩ := containerInsertItem_wrap_leaf n s o cs rs b k xn xs xv xw xr loc w
    false htwo hmis hnew hw his (fun c hc => leavesShown_of_hidden c (hhid c hc))
  generalize hW1 : Item.container w { defaultSizingInfo with
      geometry := (Item.container n s o cs rs b k).rect } o
      (cs.map fun i => i.setConnected true) false false false = W1 at *
  have hWv : W1.isVisible = false := by
    rw [← hW1]
    simp only [isVisible]
    rw [anyVisible_map_setConnected, anyVisible_eq_any, List.any_eq_false]
    intro c hc
    simp [hhid c hc]
  have hWg : W1.geometry = (Item.container n s o cs rs b k).rect := by
    rw [← hW1]
    rfl
  have hT : ∃ W2, (restorePlaceholder (.container n s (orientationForLocation loc)
      (if locationIsSide1 loc then [.leaf xn xs1 false xw xr, W1]
       else [W1, .leaf xn xs1 false xw xr]) rs b k) []
      (if locationIsSide1 loc then 0 else 1)).m_children.get?
        (if locationIsSide1 loc then 1 else 0) = some W2 ∧
      W2.geometry = (Item.container n s o cs rs b k).rect := by
    cases hside : locationIsSide1 loc
    · simp only [Bool.false_eq_true, if_false]
      obtain ⟨W2, hW2, kW⟩ := restorePlaceholder_keeps_hidden_sibling n s
        (orientationForLocation loc) [W1, .leaf xn xs1 false xw xr] rs b k 1 0 xn xs1 xw xr W1
        (by decide) rfl rfl hWv
      exact ⟨W2, hW2, (geometry_eq_of_ownData (kW.ownData_eq hWv)).trans hWg⟩
    · simp only [if_true]
      obtain ⟨W2, hW2, kW⟩ := restorePlaceholder_keeps_hidden_sibling n s
        (orientationForLocation loc) [.leaf xn xs1 false xw xr, W1] rs b k 0 1 xn xs1 xw xr W1
        (by decide) rfl rfl hWv
      exact ⟨W2, hW2, (geometry_eq_of_ownData (kW.ownData_eq hWv)).trans hWg⟩
  obtain ⟨W2, hW2, hg2⟩ := hT
  obtain ⟨W3, hW3, he3⟩ := get?_of_erasePercentages_eq he _ W2 hW2
  exact ⟨W3, hW3, (geometry_eq_of_erasePercentages he3).trans hg2⟩

theorem rect_of_parts (g : QRect) (o : Orientation) (pos len cross : Int) (r : QRect)
    (h1 : Layouting.pos g.topLeft o = pos)
    (h2 : Layouting.pos g.topLeft (oppositeOrientation o) = 0)
    (h3 : Layouting.length g.size o = len)
    (h4 : Layouting.length g.size (oppositeOrientation o) = cross)
    (hr : r = if o = .Vertical then ⟨0, pos, cross, len⟩ else ⟨pos, 0, len, cross⟩) :
    g = r := by
  subst hr
  cases g with
  | mk x y w h =>
    cases o <;>
      simp only [Layouting.pos, Layouting.length, QRect.topLeft, QRect.size,
        oppositeOrientation] at h1 h2 h3 h4 <;>
      subst h1 h2 h3 h4 <;> simp

/-- Every former leaf is visible and the new leaf fits: the wrapper is shortened
along the orientation of `loc` by the length of the new leaf and one separator. -/
theorem wrapper_gives_room (n : Nat) (s : SizingInfo) (o : Orientation)
    (cs : List Item) (rs b k : Bool) (xn : Nat) (xs : SizingInfo) (xv : Bool) (xw : Option Nat)
    (xr : Nat) (loc : Location) (w : Nat)
    (htwo : 2 ≤ cs.length) (hmis : o ≠ orientationForLocation loc)
    (hnew : ∀ c ∈ cs, c.name ≠ xn) (hw : w ≠ xn)
    (hshown : ∀ c ∈ cs, leavesShown true c = true) (hvis : ∃ c ∈ cs, c.isVisible = true)
    (hx0 : 0 ≤ xs.minSize.width ∧ 0 ≤ xs.minSize.height)
    (hcx : Layouting.length xs.minSize o ≤ Layouting.length s.geometry.size o)
    (hcR : (Item.container n s o cs rs b k).minLength o ≤ Layouting.length s.geometry.size o)
    (hfit : qMax (Layouting.length xs.minSize (orientationForLocation loc))
        (Layouting.length xs.geometry.size (orientationForLocation loc)) + separatorThickness
      ≤ Layouting.length s.geometry.size (orientationForLocation loc)
        - (Item.container n s o cs rs b k).minLength (orientationForLocation loc)) :
    ∃ W3, (containerInsertItem (.container n s o cs rs b k) [] (.leaf xn xs xv xw xr) loc none
        w).m_children.get? (if locationIsSide1 loc then 1 else 0) = some W3 ∧
      W3.geometry = adjustedRect (Item.container n s o cs rs b k).rect
        (orientationForLocation loc)
        (if locationIsSide1 loc then
          qMax (Layouting.length xs.minSize (orientationForLocation loc))
            (Layouting.length xs.geometry.size (orientationForLocation loc))
            + separatorThickness else 0)
        (if locationIsSide1 loc then 0 else
          -(qMax (Layouting.length xs.minSize (orientationForLocation loc))
            (Layouting.length xs.geometry.size (orientationForLocation loc))
            + separatorThickness)) := by
  obtain ⟨c0, hc0, hc0v⟩ := hvis
  have hany : anyVisible (cs.map fun i => i.setConnected true) = true := by
    rw [anyVisible_map_setConnected, anyVisible_eq_any, List.any_eq_true]
    exact ⟨c0, hc0, hc0v⟩
  have his : decide ((Item.container w defaultSizingInfo o
      (cs.map fun i => i.setConnected true) false false false).numVisibleChildren > 0)
        = true := by
    simp only [numVisibleChildren, visibleChildren, m_children, gt_iff_lt, Nat.cast_pos,
      decide_eq_true_eq, List.length_pos]
    intro hnil
    have : (c0.setConnected true) ∈ (cs.map fun i => i.setConnected true).filter isVisible :=
      List.mem_filter.2 ⟨List.mem_map_of_mem _ hc0, by rw [isVisible_setConnected]; exact hc0v⟩
    rw [hnil] at this
    simp at this
  obtain ⟨xs1, hg1, hm1, he⟩ := containerInsertItem_wrap_leaf n s o cs rs b k xn xs xv xw xr
    loc w true htwo hmis hnew hw his hshown
  have hopp := opposite_of_ne hmis
  generalize ho2 : orientationForLocation loc = o2 at *
  generalize hl : qMax (Layouting.length xs.minSize o2) (Layouting.length xs.geometry.size o2)
    = l at *
  have hlmin : Layouting.length xs.minSize o2 ≤ l := by
    rw [← hl]
    unfold qMax
    split <;> omega
  generalize hW1 : Item.container w { defaultSizingInfo with
      geometry := (Item.container n s o cs rs b k).rect } o
      (cs.map fun i => i.setConnected true) false false false = W1 at *
  have hWv : W1.isVisible = true := by
    rw [← hW1]
    exact hany
  have hWi : W1.m_sizingInfo.isBeingInserted = false := by rw [← hW1]; rfl
  have hWg : W1.m_sizingInfo.geometry = ⟨0, 0, s.geometry.width, s.geometry.height⟩ := by
    rw [← hW1]
    rfl
  have hWm : W1.minSize = (Item.container n s o cs rs b k).minSize := by
    rw [← hW1]
    exact minSize_wrapper n w s _ o cs rs b k false false false
  have hWlen : ∀ a : Orientation, W1.length a = Layouting.length s.geometry.size a := by
    intro a
    simp only [Item.length, Item.size, hWg]
    cases a <;> rfl
  have hWpos : ∀ a : Orientation, W1.position a = 0 := by
    intro a
    cases a <;> simp only [Item.position, Item.x, Item.y, hWg]
  have hWmin : ∀ a : Orientation,
      W1.minLength a = (Item.container n s o cs rs b k).minLength a := by
    intro a
    simp only [Item.minLength, hWm]
  have h0 : ∀ a : Orientation, 0 ≤ Layouting.length xs.minSize a := by
    intro a
    cases a with
    | Vertical => exact hx0.2
    | Horizontal => exact hx0.1
  have h0al := h0 o2
  have h0cr := h0 o
  have hparts : ∃ W2, (restorePlaceholder (.container n s o2
      (if locationIsSide1 loc then [.leaf xn xs1 false xw xr, W1]
       else [W1, .leaf xn xs1 false xw xr]) rs b k) []
      (if locationIsSide1 loc then 0 else 1)).m_children.get?
        (if locationIsSide1 loc then 1 else 0) = some W2 ∧
      W2.m_sizingInfo.isBeingInserted = false ∧
      W2.length o2 = Layouting.length s.geometry.size o2 - (l + separatorThickness) ∧
      W2.position o2 = (if locationIsSide1 loc then l + separatorThickness else 0) ∧
      W2.length (oppositeOrientation o2)
        = Layouting.length s.geometry.size (oppositeOrientation o2) ∧
      W2.position (oppositeOrientation o2) = 0 := by
    have hxl : Layouting.length xs1.geometry.size o2 = Layouting.length xs.geometry.size o2 := by
      rw [hg1]
    cases hside : locationIsSide1 loc
    · simp only [Bool.false_eq_true, if_false]
      obtain ⟨X2, W2, hch, w1, w2, w3, w4, w5, -⟩ := restorePlaceholder_pair_second n s o2 W1
        rs b k xn xs1 xw xr hWv hWi (by rw [hm1]; exact h0al)
        (by rw [hm1, hWmin]; omega) (by rw [hm1, hopp]; exact hcx)
        (by rw [hWmin, hopp]; exact hcR) (by rw [hopp]; omega)
        (by rw [hm1, hxl, hl, hWlen, hWmin]; exact hfit)
        (by rw [hWmin, hWlen, hopp]; exact hcR)
      refine ⟨W2, by rw [hch]; rfl, w1, ?_, w3, ?_, by rw [w5, hWpos]⟩
      · rw [w2, hm1, hxl, hl, hWlen]
      · rcases w4 with h | h
        · rw [h, hWlen]
        · exact h
    · simp only [if_true]
      obtain ⟨X2, W2, hch, w1, w2, w3, w4, w5, -⟩ := restorePlaceholder_pair_first n s o2 W1
        rs b k xn xs1 xw xr hWv hWi (by rw [hm1]; exact h0al)
        (by rw [hm1, hWmin]; omega) (by rw [hm1, hopp]; exact hcx)
        (by rw [hWmin, hopp]; exact hcR) (by rw [hopp]; omega)
        (by rw [hm1, hxl, hl, hWlen, hWmin]; exact hfit)
        (by rw [hWmin, hWlen, hopp]; exact hcR)
      refine ⟨W2, by rw [hch]; rfl, w1, ?_, ?_, ?_, by rw [w5, hWpos]⟩
      · rw [w2, hm1, hxl, hl, hWlen]
      · rw [w3, hm1, hxl, hl]
      · rcases w4 with h | h
        · rw [h, hWlen]
        · exact h
  obtain ⟨W2, hW2, p1, p2, p3, p4, p5⟩ := hparts
  obtain ⟨W3, hW3, he3⟩ := get?_of_erasePercentages_eq he _ W2 hW2
  refine ⟨W3, hW3, ?_⟩
  rw [geometry_eq_of_erasePercentages he3]
  simp only [Item.geometry, isBeingInserted, p1, Bool.false_eq_true, if_false]
  have hpos : ∀ (Z : Item) (a : Orientation),
      Z.position a = Layouting.pos Z.m_sizingInfo.geometry.topLeft a := by
    intro Z a
    cases a <;> rfl
  rw [hpos] at p3 p5
  simp only [Item.length, Item.size] at p2 p4
  apply rect_of_parts _ o2 _ _ _ _ p3 p5 p2 p4
  cases hside : locationIsSide1 loc <;> cases o2 <;>
    simp [adjustedRect, QRect.adjust, rect, QRect.moveTo, Layouting.length, QRect.size,
      oppositeOrientation, m_sizingInfo] <;> omega

/-! ## Inserting a leaf and removing it again -/

/-! ## Leaf rectangles below a path -/

/-- C1: in the layout `tightLeft` (which passes `checkSanity`), inserting the new
leaf (minimum 100 x 100, size 100 x 600, so 105 of the 795 available pixels are
needed) to the right of the visible leaf 1 leaves leaf 1 at 102, gives the new
leaf 100 and leaf 2 798: with the two separators that is 1010, not the 1000 of
the root, so axis packing fails after `insertItem`. -/
theorem C1_insertItem_breaks_axis_packing :
    Example.tightLeft.checkSanity true = true ∧
    Example.tightLeft.availableLength = 795 ∧
    ((insertItem Example.tightLeft [0] Example.newLeaf .OnRight 100).m_children.map fun i => i.geometry)
      = [⟨0, 0, 102, 600⟩, ⟨107, 0, 100, 600⟩, ⟨212, 0, 798, 600⟩] ∧
    (insertItem Example.tightLeft [0] Example.newLeaf .OnRight 100).containerLength = 1000 ∧
    allAxisPacked (insertItem Example.tightLeft [0] Example.newLeaf .OnRight 100) = false := by
  decide

/-- C2: in the layout `withNested`, hiding leaf 2, the last visible child of the
nested container, leaves leaf 1 at its width of 497 in the root of width 1000:
the root's `removeItem` for the nested container returns at once, no neighbour
grows, and the root is no longer axis packed. -/
theorem C2_soft_removal_leaves_container_span_unclaimed :
    Example.withNested.checkSanity true = true ∧
    ((removeItem Example.withNested [1, 0] false).visibleChildren.map fun i => (i.name, i.geometry))
      = [(1, ⟨0, 0, 497, 600⟩)] ∧
    (removeItem Example.withNested [1, 0] false).containerLength = 1000 ∧
    axisPacked (removeItem Example.withNested [1, 0] false) = false := by
  decide

set_option maxRecDepth 100000 in
/-- C3: the layout `threeLeaves` passes `checkSanity` and has minimum size
428 x 100; after `resize(610 x 600)` its visible children have the lengths 150,
170 and 285, which sum to 605 while `usableLength()` is 600. -/
theorem C3_resize_overfills_container :
    Example.threeLeaves.checkSanity true = true ∧
    Example.threeLeaves.minSize = ⟨428, 100⟩ ∧
    ((Example.threeLeaves.resize ⟨610, 600⟩).visibleChildren.map fun i => i.length .Horizontal)
      = [150, 170, 285] ∧
    allAtLeastMin .Horizontal (Example.threeLeaves.resize ⟨610, 600⟩).visibleChildren = true ∧
    totalLength .Horizontal (Example.threeLeaves.resize ⟨610, 600⟩).visibleChildren = 605 ∧
    (Example.threeLeaves.resize ⟨610, 600⟩).usableLength = 600 := by
  decide

/-- C4: `resize(newSize)` of a container with a size below `minSize()` in width
or in height returns before anything is written, so the container and all its
descendants keep their geometry (the whole subtree is unchanged). -/
theorem C4_resize_below_minSize_changes_nothing (c : Item) (newSize : QSize)
    (hc : c.isContainer = true)
    (h : newSize.width < c.minSize.width ∨ newSize.height < c.minSize.height) :
    c.resize newSize = c := by
  cases c with
  | leaf => simp [isContainer] at hc
  | container n s o cs rs b k =>
    have hb := setBlock_roundtrip (.container n s o cs rs b k)
    have hm := minSize_setBlock (.container n s o cs rs b k) true
    simp only [resize, depth, resizeFuel, isContainer, if_true, resizeBody]
    rw [hm]
    have hcond : (decide (newSize.width < (Item.container n s o cs rs b k).minSize.width) ||
        decide (newSize.height < (Item.container n s o cs rs b k).minSize.height)) = true := by
      rcases h with h | h <;> simp [h]
    rw [if_pos hcond]
    exact hb

theorem C4_resize_below_minSize_witness :
    Example.threeLeaves.isContainer = true ∧ Example.threeLeaves.minSize = ⟨428, 100⟩ ∧
      Example.threeLeaves.resize ⟨400, 600⟩ = Example.threeLeaves :=
  ⟨rfl, by decide,
    C4_resize_below_minSize_changes_nothing Example.threeLeaves ⟨400, 600⟩ rfl (Or.inl (by decide))⟩

/-- C6: in the layout `stacked` leaf 2 is 298 high; after hiding it
(`removeItem(leaf, false)`) and showing it again (`restorePlaceholder`) it is
600 high, more than before. -/
theorem C6_hide_then_show_grows_the_leaf :
    Example.stacked.checkSanity true = true ∧
    (Example.stacked.m_children.map fun i => (i.name, i.length .Vertical)) = [(1, 297), (2, 298)] ∧
    ((removeItem Example.stacked [1] false).m_children.map fun i => (i.name, i.isVisible, i.geometry))
      = [(1, true, ⟨0, 0, 498, 600⟩), (2, false, ⟨0, 0, 498, 600⟩)] ∧
    ((restorePlaceholder (removeItem Example.stacked [1] false) [] 1).m_children.map
      fun i => (i.name, i.length .Vertical)) = [(1, 600), (2, 600)] := by
  decide

/-- C7: in the layout `placeholderFirst` the hidden leaf 1 precedes the visible
anchor leaf 2; inserting the new leaf 3 `OnRight` of leaf 2 puts it at index 1 of
the children, before the anchor, and on its left on screen. -/
theorem C7_insertItem_lands_on_the_wrong_side :
    Example.placeholderFirst.checkSanity true = true ∧
    ((insertItem Example.placeholderFirst [1] Example.newLeaf .OnRight 100).m_children.map
      fun i => (i.name, i.isVisible, i.geometry))
      = [(1, false, ⟨0, 0, 1000, 600⟩), (3, true, ⟨0, 0, 100, 600⟩),
         (2, true, ⟨105, 0, 895, 600⟩)] := by
  decide

/-- C8: when the parent `P` of a leaf anchor has two or more children and an
orientation other than that of `loc`, `anchor.insertItem(newItem, loc)` keeps the
number of children of `P` and puts into the slot of the anchor a new container
`W` (named by the fresh pointer `w`) that has the former geometry of the anchor,
the orientation of `loc`, and exactly the children `[newItem, anchor]` for a
`Side1` location and `[anchor, newItem]` for a `Side2` location. -/
theorem C8_mismatch_insertion_wraps_anchor (root : Item) (p : List Nat) (idx : Nat) (P : Item)
    (an : Nat) (as : SizingInfo) (av : Bool) (aw : Option Nat) (ar : Nat)
    (x : Item) (loc : Location) (w : Nat)
    (hP : getAt root p = some P)
    (hanchor : P.m_children.get? idx = some (.leaf an as av aw ar))
    (htwo : 2 ≤ P.m_children.length)
    (hmis : P.m_orientation ≠ orientationForLocation loc)
    (hname : x.name ≠ an) :
    ∃ P2 W, getAt (insertItem root (p ++ [idx]) x loc w) p = some P2 ∧
      P2.m_children.length = P.m_children.length ∧
      P2.m_children.get? idx = some W ∧
      W.isContainer = true ∧ W.name = w ∧
      W.geometry = (Item.leaf an as av aw ar).geometry ∧
      W.m_orientation = orientationForLocation loc ∧
      W.m_children.map name = (if locationIsSide1 loc then [x.name, an] else [an, x.name]) ∧
      W.m_children.map shape =
        (if locationIsSide1 loc then [shape x, shape (.leaf an as av aw ar)]
         else [shape (.leaf an as av aw ar), shape x]) := by
  have hor : P.hasOrientationFor loc = false := by
    have h1 : ¬ P.m_children.length ≤ 1 := by omega
    simp [hasOrientationFor, h1, hmis]
  have hA := WrapperAt.convertChildToContainer w hP hanchor
  have hB := WrapperAt.containerInsertItemFuel 1 x loc none (w + 1) _ rfl hA hA (by simp)
    (by simp [shape_leaf, Ne.symm hname])
  have hfinal : insertItem root (p ++ [idx]) x loc w =
      containerInsertItemFuel 2 (convertChildToContainer root p idx w) (p ++ [idx]) x loc none
        (w + 1) := by
    simp only [insertItem, List.reverse_append, List.reverse_cons, List.reverse_nil,
      List.nil_append, List.singleton_append, List.reverse_reverse, hP, hor, hanchor,
      Bool.false_eq_true, if_false, containerInsertItem, checkSanityOfAnchor_leaf]
  rw [hfinal]
  obtain ⟨P2, W, hP2, hn, hW, hs, ho⟩ := hB
  refine ⟨P2, W, hP2, hn, hW, ?_, ?_, ?_, ?_, ?_, ?_⟩
  · rw [← isContainer_shape, hs]
    rfl
  · rw [← name_shape, hs]
    rfl
  · simp only [ownData, Prod.mk.injEq] at ho
    simp only [Item.geometry, isBeingInserted, ho.2.1, Bool.false_eq_true, if_false]
    exact ho.1
  · rw [← m_orientation_shape, hs]
    simp [m_orientation]
  · have h1 : W.m_children.map name = (shape W).m_children.map name := by
      rw [m_children_shape, List.map_map]
      apply List.map_congr_left
      intro c _
      exact (name_shape c).symm
    rw [h1, hs]
    by_cases hside : locationIsSide1 loc = true <;>
      simp [m_children, insertAt, hside, name_shape, shape_leaf, name_setIsVisibleAt]
  · rw [← m_children_shape, hs]
    by_cases hside : locationIsSide1 loc = true <;>
      simp [m_children, insertAt, hside, shape_leaf]

theorem C8_mismatch_insertion_wraps_anchor_witness :
    (getAt Example.twoLeaves [] = some Example.twoLeaves ∧
      2 ≤ Example.twoLeaves.m_children.length ∧
      Example.twoLeaves.m_orientation ≠ orientationForLocation .OnBottom ∧
      Example.smallLeaf.name ≠ 2) ∧
    ∃ P2 W, getAt (insertItem Example.twoLeaves ([] ++ [1]) Example.smallLeaf .OnBottom 100) []
        = some P2 ∧
      P2.m_children.length = Example.twoLeaves.m_children.length ∧
      P2.m_children.get? 1 = some W ∧
      W.isContainer = true ∧ W.name = 100 ∧
      W.geometry = (Item.leaf 2 ⟨⟨502, 0, 498, 600⟩, ⟨100, 100⟩, Example.maxSize, ⟨498, 995⟩,
        false⟩ true (some 2) 1).geometry ∧
      W.m_orientation = orientationForLocation .OnBottom ∧
      W.m_children.map name =
        (if locationIsSide1 .OnBottom then [Example.smallLeaf.name, 2]
         else [2, Example.smallLeaf.name]) ∧
      W.m_children.map shape =
        (if locationIsSide1 .OnBottom then [shape Example.smallLeaf,
            shape (.leaf 2 ⟨⟨502, 0, 498, 600⟩, ⟨100, 100⟩, Example.maxSize, ⟨498, 995⟩,
              false⟩ true (some 2) 1)]
         else [shape (.leaf 2 ⟨⟨502, 0, 498, 600⟩, ⟨100, 100⟩, Example.maxSize, ⟨498, 995⟩,
              false⟩ true (some 2) 1), shape Example.smallLeaf]) :=
  ⟨⟨rfl, by decide, by decide, by decide⟩,
    C8_mismatch_insertion_wraps_anchor Example.twoLeaves [] 1 Example.twoLeaves 2
      ⟨⟨502, 0, 498, 600⟩, ⟨100, 100⟩, Example.maxSize, ⟨498, 995⟩, false⟩ true (some 2) 1
      Example.smallLeaf .OnBottom 100 rfl rfl (by decide) (by decide) (by decide)⟩

/-- C9 (counterexample): in the horizontal root `twoLeaves` (1000 x 600, two
children) a new leaf of size 200 x 200 is inserted `OnTop`; afterwards the
wrapper that holds the former children has the geometry `(0, 205, 1000, 395)`,
not the root's rect `(0, 0, 1000, 600)`. -/
theorem C9_wrapper_does_not_keep_the_root_rect :
    2 ≤ Example.twoLeaves.m_children.length ∧
    Example.twoLeaves.m_orientation ≠ orientationForLocation .OnTop ∧
    ((containerInsertItem Example.twoLeaves [] Example.smallLeaf .OnTop none 100).m_children.map
      fun i => (i.name, i.isContainer, i.geometry))
      = [(3, false, ⟨0, 0, 1000, 200⟩), (100, true, ⟨0, 205, 1000, 395⟩)] ∧
    Example.twoLeaves.rect = ⟨0, 0, 1000, 600⟩ ∧
    ¬ ∃ i ∈ (containerInsertItem Example.twoLeaves [] Example.smallLeaf .OnTop none
        100).m_children, i.isContainer = true ∧ i.geometry = Example.twoLeaves.rect := by
  decide!

/-- C9 (amended): when the root has two or more children, none of them `newItem`,
and its orientation differs from the orientation of `loc`, after
`root.insertItem(newItem, loc)` the root has exactly two children, `newItem` at
index 0 for a `Side1` location and at index 1 for a `Side2` location, and a new
wrapper container (named by the fresh pointer `w`) that holds all former root
children in their former order under the former orientation; the root's
orientation is the orientation of `loc`. For a leaf `newItem` the geometry of the
wrapper is the root's rect when no former child is visible;
when every leaf of the former layout is visible, a former child is visible and
the leaf fits (non-negative minimum size that fits across `loc`, the root's
minimum size fits across `loc`, and the length of the leaf, at least its minimum
length, plus one separator is within the root's slack along `loc`), the wrapper's
geometry is the root's rect shortened along the orientation of `loc` by that
length plus `separatorThickness`, at the side of `loc`. -/
theorem C9_root_insert_wraps_former_children (n : Nat) (s : SizingInfo) (o : Orientation)
    (cs : List Item) (rs b k : Bool) (x : Item) (loc : Location) (w : Nat)
    (htwo : 2 ≤ cs.length) (hmis : o ≠ orientationForLocation loc)
    (hnew : ∀ c ∈ cs, c.name ≠ x.name) (hw : w ≠ x.name) :
    ∃ X W,
      (containerInsertItem (.container n s o cs rs b k) [] x loc none w).m_children
        = (if locationIsSide1 loc then [X, W] else [W, X]) ∧
      (containerInsertItem (.container n s o cs rs b k) [] x loc none w).m_orientation
        = orientationForLocation loc ∧
      shape X = shape x ∧ X.name = x.name ∧
      W.name = w ∧ W.isContainer = true ∧ W.m_orientation = o ∧
      W.m_children.map shape = cs.map shape ∧ W.m_children.map name = cs.map name ∧
      (x.isContainer = false → (∀ c ∈ cs, c.isVisible = false) →
        W.geometry = (Item.container n s o cs rs b k).rect) ∧
      (x.isContainer = false → (∀ c ∈ cs, leavesShown true c = true) →
        (∃ c ∈ cs, c.isVisible = true) →
        (0 ≤ x.minSize.width ∧ 0 ≤ x.minSize.height) →
        x.minLength o ≤ Layouting.length s.geometry.size o →
        (Item.container n s o cs rs b k).minLength o ≤ Layouting.length s.geometry.size o →
        qMax (x.minLength (orientationForLocation loc)) (x.length (orientationForLocation loc))
            + separatorThickness
          ≤ Layouting.length s.geometry.size (orientationForLocation loc)
            - (Item.container n s o cs rs b k).minLength (orientationForLocation loc) →
        W.geometry = adjustedRect (Item.container n s o cs rs b k).rect
          (orientationForLocation loc)
          (if locationIsSide1 loc then
            qMax (x.minLength (orientationForLocation loc))
              (x.length (orientationForLocation loc)) + separatorThickness else 0)
          (if locationIsSide1 loc then 0 else
            -(qMax (x.minLength (orientationForLocation loc))
              (x.length (orientationForLocation loc)) + separatorThickness))) := by
  have hs := shape_root_wrap_item n s o cs rs b k x loc w htwo hmis hnew hw
  obtain ⟨s1, cs1, rs1, b1, k1, e1, hcs1⟩ := exists_of_shape_container hs
  have contFacts : ∀ W : Item,
      shape W = .container w defaultSizingInfo o (cs.map shape) false false false →
      W.name = w ∧ W.isContainer = true ∧ W.m_orientation = o ∧
        W.m_children.map shape = cs.map shape ∧ W.m_children.map name = cs.map name := by
    intro W hW
    obtain ⟨sW, csW, rsW, bW, kW, eW, hcsW⟩ := exists_of_shape_container hW
    subst eW
    exact ⟨rfl, rfl, rfl, hcsW, map_name_of_map_shape hcsW⟩
  have nameFact : ∀ X : Item, shape X = shape x → X.name = x.name := by
    intro X hX
    rw [← name_shape, hX, name_shape]
  -- the rectangle of the child at the position of the wrapper
  have geoA : x.isContainer = false → (∀ c ∈ cs, c.isVisible = false) →
      ∃ W3, (containerInsertItem (.container n s o cs rs b k) [] x loc none
        w).m_children.get? (if locationIsSide1 loc then 1 else 0) = some W3 ∧
      W3.geometry = (Item.container n s o cs rs b k).rect := by
    intro hx hhid
    cases x with
    | container => simp [isContainer] at hx
    | leaf xn xs xv xw xr =>
      exact wrapper_keeps_root_rect n s o cs rs b k xn xs xv xw xr loc w htwo hmis hnew hw hhid
  have geoB : x.isContainer = false → (∀ c ∈ cs, leavesShown true c = true) →
      (∃ c ∈ cs, c.isVisible = true) →
      (0 ≤ x.minSize.width ∧ 0 ≤ x.minSize.height) →
      x.minLength o ≤ Layouting.length s.geometry.size o →
      (Item.container n s o cs rs b k).minLength o ≤ Layouting.length s.geometry.size o →
      qMax (x.minLength (orientationForLocation loc)) (x.length (orientationForLocation loc))
          + separatorThickness
        ≤ Layouting.length s.geometry.size (orientationForLocation loc)
          - (Item.container n s o cs rs b k).minLength (orientationForLocation loc) →
      ∃ W3, (containerInsertItem (.container n s o cs rs b k) [] x loc none
        w).m_children.get? (if locationIsSide1 loc then 1 else 0) = some W3 ∧
      W3.geometry = adjustedRect (Item.container n s o cs rs b k).rect
        (orientationForLocation loc)
        (if locationIsSide1 loc then
          qMax (x.minLength (orientationForLocation loc))
            (x.length (orientationForLocation loc)) + separatorThickness else 0)
        (if locationIsSide1 loc then 0 else
          -(qMax (x.minLength (orientationForLocation loc))
            (x.length (orientationForLocation loc)) + separatorThickness)) := by
    intro hx hshown hvis hx0 hcx hcR hfit
    cases x with
    | container => simp [isContainer] at hx
    | leaf xn xs xv xw xr =>
      exact wrapper_gives_room n s o cs rs b k xn xs xv xw xr loc w htwo hmis hnew hw hshown
        hvis hx0 hcx hcR hfit
  rw [e1] at geoA geoB ⊢
  cases hside : locationIsSide1 loc
  · simp only [hside, Bool.false_eq_true, if_false] at hcs1 geoA geoB ⊢
    obtain ⟨W, X, rfl, hW, hX⟩ := exists_pair_of_map_shape hcs1
    refine ⟨X, W, rfl, rfl, hX, nameFact X hX, (contFacts W hW).1, (contFacts W hW).2.1,
      (contFacts W hW).2.2.1, (contFacts W hW).2.2.2.1, (contFacts W hW).2.2.2.2, ?_, ?_⟩
    · intro hx hhid
      obtain ⟨W3, hW3, hg⟩ := geoA hx hhid
      simp only [m_children, List.get?_cons_zero, Option.some.injEq] at hW3
      rw [hW3]
      exact hg
    · intro hx hshown hvis hx0 hcx hcR hfit
      obtain ⟨W3, hW3, hg⟩ := geoB hx hshown hvis hx0 hcx hcR hfit
      simp only [m_children, List.get?_cons_zero, Option.some.injEq] at hW3
      rw [hW3]
      exact hg
  · simp only [hside, if_true] at hcs1 geoA geoB ⊢
    obtain ⟨X, W, rfl, hX, hW⟩ := exists_pair_of_map_shape hcs1
    refine ⟨X, W, rfl, rfl, hX, nameFact X hX, (contFacts W hW).1, (contFacts W hW).2.1,
      (contFacts W hW).2.2.1, (contFacts W hW).2.2.2.1, (contFacts W hW).2.2.2.2, ?_, ?_⟩
    · intro hx hhid
      obtain ⟨W3, hW3, hg⟩ := geoA hx hhid
      simp only [m_children, List.get?_cons_succ, List.get?_cons_zero,
        Option.some.injEq] at hW3
      rw [hW3]
      exact hg
    · intro hx hshown hvis hx0 hcx hcR hfit
      obtain ⟨W3, hW3, hg⟩ := geoB hx hshown hvis hx0 hcx hcR hfit
      simp only [m_children, List.get?_cons_succ, List.get?_cons_zero,
        Option.some.injEq] at hW3
      rw [hW3]
      exact hg

theorem C9_root_insert_wraps_former_children_witness :
    (2 ≤ Example.twoLeaves.m_children.length ∧
      Orientation.Horizontal ≠ orientationForLocation .OnTop ∧
      (∀ c ∈ Example.twoLeaves.m_children, c.name ≠ Example.smallLeaf.name) ∧
      100 ≠ Example.smallLeaf.name) ∧
    ((∀ c ∈ Example.twoLeaves.m_children, leavesShown true c = true) ∧
      (∃ c ∈ Example.twoLeaves.m_children, c.isVisible = true) ∧
      Example.smallLeaf.minLength .Horizontal ≤ 1000 ∧
      Example.twoLeaves.minLength .Horizontal ≤ 1000 ∧
      qMax (Example.smallLeaf.minLength .Vertical) (Example.smallLeaf.length .Vertical)
          + separatorThickness ≤ 600 - Example.twoLeaves.minLength .Vertical) ∧
    ∃ X W,
      (containerInsertItem Example.twoLeaves [] Example.smallLeaf .OnTop none 100).m_children
        = (if locationIsSide1 .OnTop then [X, W] else [W, X]) ∧
      (containerInsertItem Example.twoLeaves [] Example.smallLeaf .OnTop none
          100).m_orientation = orientationForLocation .OnTop ∧
      shape X = shape Example.smallLeaf ∧ X.name = 3 ∧
      W.name = 100 ∧ W.isContainer = true ∧ W.m_orientation = .Horizontal ∧
      W.m_children.map shape = Example.twoLeaves.m_children.map shape ∧
      W.m_children.map name = [1, 2] ∧
      W.geometry = ⟨0, 205, 1000, 395⟩ := by
  refine ⟨by decide, by decide, ?_⟩
  obtain ⟨X, W, h1, h2, h3, h4, h5, h6, h7, h8, h9, -, h11⟩ :=
    C9_root_insert_wraps_former_children 0
      ⟨⟨0, 0, 1000, 600⟩, ⟨0, 0⟩, Example.maxSize, Percentage.zero, false⟩ .Horizontal
      Example.twoLeaves.m_children false false false Example.smallLeaf .OnTop 100
      (by decide) (by decide) (by decide) (by decide)
  exact ⟨X, W, h1, h2, h3, h4, h5, h6, h7, h8, h9,
    (h11 rfl (by decide) (by decide) (by decide) (by decide) (by decide) (by decide)).trans
      (by decide)⟩

set_option maxHeartbeats 1000000 in
/-- C10: inserting a leaf whose (non-negative) minimum size fits into a root
without children, at any location, leaves the root with that leaf as its only
child, visible and with the root's rect `(0, 0, width, height)` as geometry. -/
theorem C10_insert_into_empty_root (n : Nat) (s : SizingInfo) (o : Orientation)
    (rs b k : Bool) (ln : Nat) (ls : SizingInfo) (lv : Bool) (lw : Option Nat) (lr : Nat)
    (loc : Location) (w : Nat)
    (hmin : 0 ≤ ls.minSize.width ∧ 0 ≤ ls.minSize.height)
    (hfit : ls.minSize.width ≤ s.geometry.width ∧ ls.minSize.height ≤ s.geometry.height) :
    ∃ item,
      (containerInsertItem (.container n s o [] rs b k) [] (.leaf ln ls lv lw lr) loc none w).m_children
        = [item] ∧
      item.name = ln ∧ item.isVisible = true ∧
      item.geometry = ⟨0, 0, s.geometry.width, s.geometry.height⟩ := by
  obtain ⟨hw, hh⟩ := hmin
  obtain ⟨fw, fh⟩ := hfit
  have e1 := qMax_zero_of_nonneg _ hw
  have e2 := qMax_zero_of_nonneg _ hh
  have e3 := qMax_sub_nonpos _ _ fw
  have e4 := qMax_sub_nonpos _ _ fh
  have hR := containerInsertItemFuel_fitting 1 n s o [] rs b k (.leaf ln ls lv lw lr) loc w rfl
    (by simp [hasOrientationFor, m_children])
  rw [show containerInsertItem (.container n s o [] rs b k) [] (.leaf ln ls lv lw lr) loc none w
    = _ from hR]
  apply single_child_checkSanityEffect
  cases lv <;> cases o <;> cases b <;>
  simp [getAt, m_children, name, setIsVisibleAt,
    depth, setIsVisibleFuel, isContainer, setLeafVisibleAt, isVisible, modifyAt, hasOrientationFor,
    insertChildAt, setConnected, setChildren, insertAt, restorePlaceholder,
    onChildMinSizeChanged, propagateMinSize, missingSize, minSize, minSizeLoop, anyVisible,
    QSize.sub, QSize.isNull, size, QRect.size, m_sizingInfo, adjustChild, numVisibleChildren,
    visibleChildren, setGeometry_eq, rect, QRect.moveTo, setSizingInfo, setBeingInserted,
    updateChildPercentages, m_blockUpdatePercentages, geometry, isBeingInserted,
    e1, e2, e3, e4, separatorThickness]
theorem C10_insert_into_empty_root_witness :
    ((0 : Int) ≤ 100 ∧ (0 : Int) ≤ 100) ∧ ((100 : Int) ≤ 900 ∧ (100 : Int) ≤ 600) ∧
    ∃ item,
      (containerInsertItem Example.emptyRoot [] Example.newLeaf .OnLeft none 100).m_children
        = [item] ∧
      item.name = 3 ∧ item.isVisible = true ∧ item.geometry = ⟨0, 0, 900, 600⟩ :=
  ⟨by decide, by decide,
    C10_insert_into_empty_root 0 ⟨⟨0, 0, 900, 600⟩, ⟨0, 0⟩, Example.maxSize, Percentage.zero, false⟩
      .Vertical false false false 3
      ⟨⟨0, 0, 100, 600⟩, ⟨100, 100⟩, Example.maxSize, Percentage.zero, false⟩ false (some 3) 1
      .OnLeft 100 (by decide) (by decide)⟩

/-- C11 (counterexample): the new leaf 3 is 100 wide before it is inserted
`OnRight` of leaf 1 in the 1000 x 600 root `singleLeaf`; afterwards leaf 1 is 895
wide and leaf 3 is still 100 wide, not 497 and 498. -/
theorem C11_new_leaf_keeps_its_width :
    (insertItem Example.singleLeaf [0] Example.newLeaf .OnRight 100).m_orientation
      = .Horizontal ∧
    ((insertItem Example.singleLeaf [0] Example.newLeaf .OnRight 100).m_children.map
      fun i => (i.name, i.geometry))
      = [(1, ⟨0, 0, 895, 600⟩), (3, ⟨900, 0, 100, 600⟩)] := by
  decide

/-- C11 (amended): in a 1000 x 600 root whose only child is leaf `A` (minimum
100 x 100, occupying `(0, 0, 1000, 600)`), after inserting the new leaf `B`
(minimum 100 x 100, initial geometry `(x, 0, w, h)` with `w ≤ 895`) `OnRight` of
`A` the root is horizontal, `B` has the length `L = max(100, w)` of its initial
geometry and `A` the rest: `A` is at `(0, 0, 995 - L, 600)` and `B` at
`(1000 - L, 0, L, 600)`, with the gap of 5 between them. These are
`(0, 0, 497, 600)` and `(502, 0, 498, 600)` when `B` is 498 wide at first. -/
theorem C11_two_way_split (n : Nat) (s : SizingInfo) (o : Orientation) (k : Bool) (an : Nat)
    (as : SizingInfo) (aw : Option Nat) (ar : Nat) (xn : Nat) (xs : SizingInfo)
    (xw : Option Nat) (xr : Nat) (w : Nat)
    (hroot : s.geometry.width = 1000 ∧ s.geometry.height = 600)
    (hA : as.geometry = ⟨0, 0, 1000, 600⟩ ∧ as.minSize = ⟨100, 100⟩ ∧
      as.isBeingInserted = false)
    (hB : xs.minSize = ⟨100, 100⟩ ∧ xs.geometry.y = 0 ∧ xs.geometry.width ≤ 895) :
    (insertItem (.container n s o [.leaf an as true aw ar] false false k) [0]
        (.leaf xn xs false xw xr) .OnRight w).m_orientation = .Horizontal ∧
    ((insertItem (.container n s o [.leaf an as true aw ar] false false k) [0]
        (.leaf xn xs false xw xr) .OnRight w).m_children.map
      fun i => (i.name, i.isVisible, i.geometry))
      = [(an, true, ⟨0, 0, 995 - qMax 100 xs.geometry.width, 600⟩),
         (xn, true, ⟨1000 - qMax 100 xs.geometry.width, 0, qMax 100 xs.geometry.width, 600⟩)] ∧
    (xs.geometry.width = 498 →
      ((insertItem (.container n s o [.leaf an as true aw ar] false false k) [0]
          (.leaf xn xs false xw xr) .OnRight w).m_children.map fun i => i.geometry)
        = [⟨0, 0, 497, 600⟩, ⟨502, 0, 498, 600⟩]) := by
  obtain ⟨hw, hh⟩ := hroot
  obtain ⟨hg, hm, hi⟩ := hA
  obtain ⟨hxm, hy, hxw⟩ := hB
  have hq : qMax 100 xs.geometry.width ≤ 895 := by
    unfold qMax; split <;> omega
  have hq0 : 100 ≤ qMax 100 xs.geometry.width := by
    unfold qMax; split <;> omega
  have key := insertItem_single_OnRight n s o an as aw ar k xn xs xw xr w
    (by rw [hg, hw, hh]) hi (by simp [hm, hw, hh]) (by simp [hxm]) (by simp [hxm, hh])
    (by simp only [hxm, hm, hw]; omega)
  rw [key]
  simp only [hxm, hw, hh, hy] at hq ⊢
  refine ⟨rfl, ?_, ?_⟩
  · simp [m_children, Item.geometry, isBeingInserted, m_sizingInfo, isVisible, hi]
    constructor <;> omega
  · intro h498
    simp [m_children, Item.geometry, isBeingInserted, m_sizingInfo, h498, qMax, hi]

theorem C11_two_way_split_witness :
    (((1000 : Int) = 1000 ∧ (600 : Int) = 600) ∧ (498 : Int) ≤ 895) ∧
    (insertItem Example.singleLeaf [0]
        (Example.leaf 2 ⟨0, 0, 498, 200⟩ ⟨100, 100⟩ false Percentage.zero) .OnRight
        100).m_orientation = .Horizontal ∧
    ((insertItem Example.singleLeaf [0]
        (Example.leaf 2 ⟨0, 0, 498, 200⟩ ⟨100, 100⟩ false Percentage.zero) .OnRight
        100).m_children.map fun i => (i.name, i.isVisible, i.geometry))
      = [(1, true, ⟨0, 0, 995 - qMax 100 498, 600⟩),
         (2, true, ⟨1000 - qMax 100 498, 0, qMax 100 498, 600⟩)] ∧
    ((498 : Int) = 498 →
      ((insertItem Example.singleLeaf [0]
          (Example.leaf 2 ⟨0, 0, 498, 200⟩ ⟨100, 100⟩ false Percentage.zero) .OnRight
          100).m_children.map fun i => i.geometry)
        = [⟨0, 0, 497, 600⟩, ⟨502, 0, 498, 600⟩]) :=
  ⟨⟨⟨rfl, rfl⟩, by decide⟩,
    C11_two_way_split 0 ⟨⟨0, 0, 1000, 600⟩, ⟨0, 0⟩, Example.maxSize, Percentage.zero, false⟩
      .Horizontal false 1 ⟨⟨0, 0, 1000, 600⟩, ⟨100, 100⟩, Example.maxSize, ⟨1, 1⟩, false⟩
      (some 1) 1 2 ⟨⟨0, 0, 498, 200⟩, ⟨100, 100⟩, Example.maxSize, Percentage.zero, false⟩
      (some 2) 1 100 ⟨rfl, rfl⟩ ⟨rfl, rfl, rfl⟩ ⟨rfl, rfl, by decide⟩⟩

/-- C12: for every layout in which no non-root container is without children,
after `removeItem(item, true)` of any item no non-root container of the layout
is without children; in particular, when the item was the only child of the
non-root container `W` (the child `k` of `P`, where `P` is the root or has
another child), `P` is still at its path and its children are the former ones
without `W`. -/
theorem C12_hard_removal_leaves_no_empty_container (root : Item) (item : List Nat)
    (h : noEmptyNonRootContainer root = true) :
    noEmptyNonRootContainer (removeItem root item true) = true ∧
    ∀ (up : List Nat) (k : Nat) (P W : Item), item = up ++ [k, 0] →
      getAt root up = some P → P.m_children.get? k = some W →
      W.isContainer = true → W.m_children.length = 1 →
      (up = [] ∨ 2 ≤ P.m_children.length) →
      ∃ P2, getAt (removeItem root item true) up = some P2 ∧
        P2.m_children.map name = (P.m_children.eraseIdx k).map name := by
  constructor
  · unfold removeItem
    cases hrev : item.reverse with
    | nil => exact h
    | cons idx up =>
      have hitem : item = up.reverse ++ [idx] := by
        have := congrArg List.reverse hrev
        simpa using this
      simp only []
      cases hX : getAt root (up.reverse ++ [idx]) with
      | none =>
        rw [removeItemUp_of_removeStep_none true root up idx
          (removeStep_none_of_getAt root _ idx true hX)]
        exact h
      | some X =>
        apply removeItemUp_hard_noEmpty up root idx X hX
        obtain ⟨k0, ks, hpath⟩ : ∃ k0 ks, up.reverse ++ [idx] = k0 :: ks := by
          cases hu : up.reverse ++ [idx] with
          | nil => simp at hu
          | cons a l => exact ⟨a, l, rfl⟩
        rw [hpath] at hX ⊢
        apply noEmptyNonRootContainer_modifyAt (fun c => c) _ k0 ks root X hX
          (fun _ => by simp [noEmptyContainer])
        rw [modifyAt_id]
        exact h
  · intro up k P W hitem hP hW hWc hWlen hkeep
    subst hitem
    have hPc := isContainer_of_get? hW
    have hgW : getAt root (up ++ [k]) = some W := by
      rw [getAt_snoc, hP]
      exact hW
    obtain ⟨x, hx⟩ : ∃ x, W.m_children = [x] := by
      cases hl : W.m_children with
      | nil => simp [hl] at hWlen
      | cons a l =>
        cases l with
        | nil => exact ⟨a, rfl⟩
        | cons b l2 => simp [hl] at hWlen
    have hrev : (up ++ [k, 0]).reverse = 0 :: k :: up.reverse := by simp
    have hpath : (k :: up.reverse).reverse = up ++ [k] := by simp
    have h1 : getAt (modifyAt (fun c => c.setChildren (c.m_children.eraseIdx 0)) root
        (up ++ [k])) (up ++ [k]) = some (W.setChildren (W.m_children.eraseIdx 0)) := by
      rw [getAt_modifyAt, hgW]
      rfl
    have hempty : (W.setChildren (W.m_children.eraseIdx 0)).isEmpty = true := by
      simp [isEmpty, m_children_setChildren_of_container _ _ hWc, hx]
    simp only [removeItem, hrev, removeItemUp, hpath,
      removeStep_hard root (up ++ [k]) 0 W x hgW (by simp [hx]), h1, hempty, Bool.true_and,
      Bool.true_or, if_true]
    have hP1 : getAt (modifyAt (fun c => c.setChildren (c.m_children.eraseIdx 0)) root
        (up ++ [k])) up
        = some (P.setChildren (P.m_children.modify
            (fun c => c.setChildren (c.m_children.eraseIdx 0)) k)) := by
      rw [modifyAt_snoc, getAt_modifyAt, hP]
      rfl
    obtain ⟨P2, hP2, hsh⟩ := removeItemUp_hard_parent _ up k _
      (W.setChildren (W.m_children.eraseIdx 0)) hP1
      (by
        rw [m_children_setChildren_of_container _ _ hPc]
        simp only [List.get?_eq_getElem?] at hW ⊢
        rw [List.getElem?_modify_eq, hW]
        rfl)
      (by
        rw [m_children_setChildren_of_container _ _ hPc, List.length_modify]
        exact hkeep)
    refine ⟨P2, hP2, ?_⟩
    apply map_name_of_map_shape
    rw [m_children_setChildren_of_container _ _ hPc, setChildren_setChildren,
      eraseIdx_modify_same] at hsh
    have := congrArg m_children hsh
    rw [m_children_shape, m_children_shape, m_children_setChildren_of_container _ _ hPc] at this
    exact this

theorem C12_hard_removal_leaves_no_empty_container_witness :
    noEmptyNonRootContainer Example.withNested = true ∧
    (noEmptyNonRootContainer (removeItem Example.withNested [1, 0] true) = true ∧
    ∀ (up : List Nat) (k : Nat) (P W : Item), [1, 0] = up ++ [k, 0] →
      getAt Example.withNested up = some P → P.m_children.get? k = some W →
      W.isContainer = true → W.m_children.length = 1 →
      (up = [] ∨ 2 ≤ P.m_children.length) →
      ∃ P2, getAt (removeItem Example.withNested [1, 0] true) up = some P2 ∧
        P2.m_children.map name = (P.m_children.eraseIdx k).map name) :=
  ⟨by decide, C12_hard_removal_leaves_no_empty_container Example.withNested [1, 0] (by decide)⟩

/-- C13: for every container `P` of a layout (at path `p`) and every leaf child
at index `idx`: when the leaf is visible, `removeItem(leaf, false)` leaves the
children of `P` the same members in the same order, and the child at `idx` is
the leaf, now hidden and without guest; when the leaf is a placeholder already,
`removeItem(leaf, false)` changes nothing in the whole layout. -/
theorem C13_soft_removal_keeps_item_in_place (root : Item) (p : List Nat) (idx : Nat)
    (P : Item) (n : Nat) (s : SizingInfo) (v : Bool) (w : Option Nat) (r : Nat)
    (hP : getAt root p = some P) (hleaf : P.m_children.get? idx = some (.leaf n s v w r)) :
    if v = true then
      ∃ P2 s2, getAt (removeItem root (p ++ [idx]) false) p = some P2 ∧
        P2.m_children.map name = P.m_children.map name ∧
        P2.m_children.get? idx = some (.leaf n s2 false none r)
    else removeItem root (p ++ [idx]) false = root := by
  cases v with
  | true =>
    simp only [if_true]
    obtain ⟨s2, hX, hsh⟩ := removeItem_soft_visible_leaf root p idx P n s w r hP hleaf
    rw [getAt_snoc] at hX
    cases hP2 : getAt (removeItem root (p ++ [idx]) false) p with
    | none => simp [hP2] at hX
    | some P2 =>
      simp only [hP2, Option.some_bind] at hX
      refine ⟨P2, s2, rfl, ?_, hX⟩
      apply map_name_of_map_shape
      have h1 := getAt_shape root p
      have h2 := getAt_shape (removeItem root (p ++ [idx]) false) p
      rw [hsh, h1, hP, hP2] at h2
      have h3 : shape P2 = shape P := by simpa using h2.symm
      rw [← m_children_shape, ← m_children_shape, h3]
  | false =>
    simp only [Bool.false_eq_true, if_false]
    have hrev : (p ++ [idx]).reverse = idx :: p.reverse := by simp
    simp only [removeItem, hrev]
    apply removeItemUp_of_removeStep_none
    simp only [List.reverse_reverse, removeStep, hP, hleaf, Bool.false_eq_true, if_false,
      isVisible, Bool.and_false]

theorem C13_soft_removal_keeps_item_in_place_witness :
    (getAt Example.twoLeaves [] = some Example.twoLeaves ∧
      Example.twoLeaves.m_children.get? 1
        = some (.leaf 2 ⟨⟨502, 0, 498, 600⟩, ⟨100, 100⟩, Example.maxSize, ⟨498, 995⟩, false⟩
            true (some 2) 1)) ∧
    (if true = true then
      ∃ P2 s2, getAt (removeItem Example.twoLeaves ([] ++ [1]) false) [] = some P2 ∧
        P2.m_children.map name = Example.twoLeaves.m_children.map name ∧
        P2.m_children.get? 1 = some (.leaf 2 s2 false none 1)
    else removeItem Example.twoLeaves ([] ++ [1]) false = Example.twoLeaves) :=
  ⟨⟨rfl, rfl⟩,
    C13_soft_removal_keeps_item_in_place Example.twoLeaves [] 1 Example.twoLeaves 2
      ⟨⟨502, 0, 498, 600⟩, ⟨100, 100⟩, Example.maxSize, ⟨498, 995⟩, false⟩ true (some 2) 1
      rfl rfl⟩

/-- C14: in the layout `withNested` leaf 2 is the only child of the nested
container and has the percentage 1/1; after `removeItem(leaf 2, false)` it is
hidden and still has the percentage 1/1, not 0: the nested container asks the
root to remove it and does not reach its own `updateChildPercentages()`. -/
theorem C14_last_placeholder_keeps_its_percentage :
    Example.withNested.checkSanity true = true ∧
    ((getAt Example.withNested [1, 0]).map fun i =>
      (i.isVisible, i.m_sizingInfo.percentageWithinParent)) = some (true, ⟨1, 1⟩) ∧
    ((getAt (removeItem Example.withNested [1, 0] false) [1, 0]).map fun i =>
      (i.isVisible, i.m_sizingInfo.percentageWithinParent)) = some (false, ⟨1, 1⟩) := by
  decide

/-- C15: when `resize(newSize)` changes the length of a container along its
orientation, the container is not inside a resize, the new size is accepted and
every proportionally assigned length (`int(percentage * usable)`, computed in
`double` arithmetic, for all but the last visible child, the rest of the usable
length for the last) is positive and
at least the minimum length of its child, then the visible children end with
exactly those lengths, and their sum plus `(n - 1) * 5` is the new length of the
container. -/
theorem C15_proportional_resize_conserves_the_total (c : Item) (newSize : QSize) (U : Int)
    (others : List Int) (hc : c.isContainer = true) (hrest : c.m_isResizing = false)
    (hacc : c.minSize.width ≤ newSize.width ∧ c.minSize.height ≤ newSize.height)
    (hchg : Layouting.length newSize c.m_orientation ≠ c.length c.m_orientation)
    (hn : 1 ≤ c.visibleChildren.length)
    (hU : U = Layouting.length newSize c.m_orientation
      - separatorThickness * ((c.visibleChildren.length : Int) - 1))
    (hothers : others = c.childPercentages.dropLast.map fun p => p.scale U)
    (hassigned : ∀ p ∈ List.zip c.visibleChildren (others ++ [U - others.sum]),
      0 < p.2 ∧ p.1.minLength c.m_orientation ≤ p.2) :
    ((c.resize newSize).visibleChildren.map fun X => X.length c.m_orientation)
      = others ++ [U - others.sum] ∧
    ((c.resize newSize).visibleChildren.map fun X => X.length c.m_orientation).sum
        + ((c.visibleChildren.length : Int) - 1) * separatorThickness
      = (c.resize newSize).length c.m_orientation ∧
    (c.resize newSize).length c.m_orientation = Layouting.length newSize c.m_orientation := by
  cases c with
  | leaf => simp [isContainer] at hc
  | container n s o cs rs b k =>
    simp only [m_isResizing] at hrest
    subst hrest
    simp only [m_orientation_container, visibleChildren, m_children_container] at *
    have hacc2 : ¬ (newSize.width < (Item.container n s o cs false b k).minSize.width ∨
        newSize.height < (Item.container n s o cs false b k).minSize.height) := by
      omega
    have hchg2 : ¬ (s.geometry.width = newSize.width ∧ s.geometry.height = newSize.height) := by
      intro h
      apply hchg
      cases o <;> simp [Item.length, Item.size, m_sizingInfo_container, Layouting.length,
        QRect.size, h.1, h.2]
    have hlc : (Layouting.length s.geometry.size o != Layouting.length newSize o) = true := by
      simp only [bne_iff_ne, ne_eq]
      exact fun h => hchg h.symm
    have hUeq := usableLength_resized n s o cs false true k newSize hn
    rw [← hU] at hUeq
    have hpcts : (Item.container n { s with geometry := s.geometry.setSize newSize } o cs false
        true k).childPercentages = (Item.container n s o cs false b k).childPercentages := rfl
    have hsl : (Item.container n { s with geometry := s.geometry.setSize newSize } o cs false
        true k).sizes.length = (cs.filter isVisible).length := by
      simp [sizes, visibleChildren, m_children_container]
    have hpl : (Item.container n s o cs false b k).childPercentages.length
        = (cs.filter isVisible).length := by
      simp [childPercentages, visibleChildren, m_children_container]
    have hlens : (others ++ [U - others.sum]).length = (cs.filter isVisible).length := by
      rw [hothers, List.length_append, List.length_map, List.length_dropLast, hpl]
      simp only [List.length_singleton]
      omega
    have hpos : ∀ a ∈ others ++ [U - others.sum], 0 < a := by
      intro a ha
      obtain ⟨j, hj⟩ := List.get?_of_mem ha
      obtain ⟨X, hX⟩ := get?_exists_of_length _ _ hlens.symm j a hj
      exact (hassigned _ (mem_zip_of_get? _ _ j X a hX hj)).1
    have hmin : ∀ j X a, (cs.filter isVisible).get? j = some X →
        (others ++ [U - others.sum]).get? j = some a → X.minLength o ≤ a := by
      intro j X a hX ha
      exact (hassigned _ (mem_zip_of_get? _ _ j X a hX ha)).2
    have hassign : resizeAssign
        (Item.container n { s with geometry := s.geometry.setSize newSize } o cs false true
          k).refreshMinSizes
        (Layouting.length s.geometry.size o != Layouting.length newSize o)
        (Item.container n { s with geometry := s.geometry.setSize newSize } o cs false true
          k).usableLength
        (Item.container n { s with geometry := s.geometry.setSize newSize } o cs false true
          k).sizes
        (Item.container n { s with geometry := s.geometry.setSize newSize } o cs false true
          k).childPercentages
        (Item.container n { s with geometry := s.geometry.setSize newSize } o cs false true
          k).usableLength
      = some (List.zipWith (assignLength
          (Item.container n { s with geometry := s.geometry.setSize newSize } o cs false true
            k).refreshMinSizes)
          (Item.container n { s with geometry := s.geometry.setSize newSize } o cs false true
            k).sizes (others ++ [U - others.sum])) := by
      rw [hlc, hUeq, hpcts]
      have h := resizeAssign_changed
        (Item.container n { s with geometry := s.geometry.setSize newSize } o cs false true
          k).refreshMinSizes U
        (Item.container n { s with geometry := s.geometry.setSize newSize } o cs false true
          k).sizes
        (Item.container n s o cs false b k).childPercentages U (hsl.trans hpl.symm)
        (by rw [← hothers]; exact hpos)
      rw [← hothers] at h
      exact h
    obtain ⟨hlenR, hR⟩ := resize_visible n s o cs b k newSize _ hacc2 hchg2 hassign hlens hmin
    have hsize := size_resize_accepted n s o cs false b k newSize hacc2
    have hlist : (((Item.container n s o cs false b k).resize newSize).visibleChildren.map
        fun X => X.length o) = others ++ [U - others.sum] := by
      have := map_eq_of_get? (others ++ [U - others.sum])
        ((Item.container n s o cs false b k).resize newSize).visibleChildren
        (fun X => X.length o) id (hlenR.trans hlens.symm) (by
          intro j a ha
          obtain ⟨X, hX⟩ := get?_exists_of_length _ _ hlens.symm j a ha
          obtain ⟨X4, h4, -, h5, -⟩ := hR j X a hX ha
          exact ⟨X4, h4, h5⟩)
      rw [this, List.map_id]
    simp only [visibleChildren] at hlist
    refine ⟨hlist, ?_, ?_⟩
    · rw [hlist, sum_assigned, hU]
      simp only [Item.length, hsize, separatorThickness]
      omega
    · simp only [Item.length, hsize]

set_option maxRecDepth 100000 in
/-- C15 at `roundedSplit` (leaves 150 and 447 wide, percentages 150/597 and
447/597) resized from 602 to 1000 wide: the usable length is 995, the product
`(150.0 / 597) * 995` is 249.99999999999997 in `double` arithmetic, so leaf 1
ends 249 wide and leaf 2, the last child, takes the remaining 746. -/
theorem C15_proportional_resize_conserves_the_total_witness :
    (Example.roundedSplit.isContainer = true ∧ Example.roundedSplit.m_isResizing = false ∧
      (Example.roundedSplit.minSize.width ≤ 1000 ∧ Example.roundedSplit.minSize.height ≤ 600) ∧
      Layouting.length ⟨1000, 600⟩ Example.roundedSplit.m_orientation
        ≠ Example.roundedSplit.length Example.roundedSplit.m_orientation ∧
      1 ≤ Example.roundedSplit.visibleChildren.length ∧
      (995 : Int) = Layouting.length ⟨1000, 600⟩ Example.roundedSplit.m_orientation
        - separatorThickness * ((Example.roundedSplit.visibleChildren.length : Int) - 1) ∧
      ([249] : List Int)
        = Example.roundedSplit.childPercentages.dropLast.map (fun p => p.scale 995) ∧
      ∀ p ∈ List.zip Example.roundedSplit.visibleChildren ([249] ++ [995 - [249].sum]),
        0 < p.2 ∧ p.1.minLength Example.roundedSplit.m_orientation ≤ p.2) ∧
    ((Example.roundedSplit.resize ⟨1000, 600⟩).visibleChildren.map fun X =>
        X.length Example.roundedSplit.m_orientation) = [249] ++ [995 - [249].sum] ∧
    ((Example.roundedSplit.resize ⟨1000, 600⟩).visibleChildren.map fun X =>
        X.length Example.roundedSplit.m_orientation).sum
        + ((Example.roundedSplit.visibleChildren.length : Int) - 1) * separatorThickness
      = (Example.roundedSplit.resize ⟨1000, 600⟩).length Example.roundedSplit.m_orientation ∧
    (Example.roundedSplit.resize ⟨1000, 600⟩).length Example.roundedSplit.m_orientation
      = Layouting.length ⟨1000, 600⟩ Example.roundedSplit.m_orientation :=
  ⟨⟨by decide, by decide, by decide, by decide, by decide, by decide, by decide, by decide⟩,
    C15_proportional_resize_conserves_the_total Example.roundedSplit ⟨1000, 600⟩ 995 [249]
      (by decide) (by decide) (by decide) (by decide) (by decide) (by decide) (by decide)
      (by decide)⟩

/-- C16: for a container that passes `checkSanity`, is not inside a resize and
whose visible children all have a positive minimum length along the orientation
(the minimum size of a leaf is at least the hard-coded minimum), an accepted
`resize(newSize)` that keeps the length along the orientation leaves the length
and the position of every visible child along the orientation unchanged and
gives every visible child the new cross-axis length of the container. -/
theorem C16_cross_axis_resize_keeps_lengths_and_positions (isRoot : Bool) (c : Item)
    (newSize : QSize) (hc : c.isContainer = true) (hrest : c.m_isResizing = false)
    (hsane : checkSanity isRoot c = true)
    (hacc : c.minSize.width ≤ newSize.width ∧ c.minSize.height ≤ newSize.height)
    (hsame : Layouting.length newSize c.m_orientation = c.length c.m_orientation)
    (hmin : ∀ X ∈ c.visibleChildren, 0 < X.minLength c.m_orientation) :
    ((c.resize newSize).visibleChildren.map fun X =>
        (X.length c.m_orientation, X.position c.m_orientation,
          X.length (oppositeOrientation c.m_orientation)))
      = c.visibleChildren.map fun X =>
        (X.length c.m_orientation, X.position c.m_orientation,
          Layouting.length newSize (oppositeOrientation c.m_orientation)) := by
  apply cross_axis_resize_of_positive_lengths isRoot c newSize hc hrest hsane hacc hsame
  intro X hX
  have hm := hmin X hX
  cases c with
  | leaf => simp [isContainer] at hc
  | container n s o cs rs b k =>
    simp only [m_orientation_container, visibleChildren, m_children_container] at hX hm ⊢
    obtain ⟨-, hchildren⟩ := checkSanity_container isRoot n s o cs rs b k hsane
    have hs := checkSanity_minSize X (checkChildren_mem _ o _ cs hchildren X
      (List.mem_filter.1 hX).1).2.2
    cases o <;> simp only [Item.minLength, Item.length, Item.size, Item.width, Item.height,
      QRect.size, Layouting.length] at hs hm ⊢ <;> omega

/-- C16 at `twoLeaves` resized from 1000 x 600 to 1000 x 700. -/
theorem C16_cross_axis_resize_keeps_lengths_and_positions_witness :
    (Example.twoLeaves.isContainer = true ∧ Example.twoLeaves.m_isResizing = false ∧
      checkSanity true Example.twoLeaves = true ∧
      (Example.twoLeaves.minSize.width ≤ 1000 ∧ Example.twoLeaves.minSize.height ≤ 700) ∧
      Layouting.length ⟨1000, 700⟩ Example.twoLeaves.m_orientation
        = Example.twoLeaves.length Example.twoLeaves.m_orientation ∧
      ∀ X ∈ Example.twoLeaves.visibleChildren,
        0 < X.minLength Example.twoLeaves.m_orientation) ∧
    ((Example.twoLeaves.resize ⟨1000, 700⟩).visibleChildren.map fun X =>
        (X.length Example.twoLeaves.m_orientation, X.position Example.twoLeaves.m_orientation,
          X.length (oppositeOrientation Example.twoLeaves.m_orientation)))
      = Example.twoLeaves.visibleChildren.map fun X =>
        (X.length Example.twoLeaves.m_orientation, X.position Example.twoLeaves.m_orientation,
          Layouting.length ⟨1000, 700⟩ (oppositeOrientation Example.twoLeaves.m_orientation)) :=
  ⟨⟨by decide, by decide, by decide, by decide, by decide, by decide⟩,
    C16_cross_axis_resize_keeps_lengths_and_positions true Example.twoLeaves ⟨1000, 700⟩
      (by decide) (by decide) (by decide) (by decide) (by decide) (by decide)⟩

/-- C17: for every container and all sizes `A` and `B`, the stored
`percentageWithinParent` of every child after `resize(A); resize(B); resize(A)`
equals the one after a single `resize(A)`: `resize` only reads the percentages
(`updateChildPercentages` is blocked during the call), so both are the
percentages the children had before. -/
theorem C17_resizing_back_and_forth_keeps_percentages (c : Item) (A B : QSize) :
    childPercentagesStored (((c.resize A).resize B).resize A)
      = childPercentagesStored (c.resize A) ∧
    childPercentagesStored (c.resize A) = childPercentagesStored c := by
  simp only [stored_resize, and_self]

/-- C18: on the whole root the suggested length is computed along the
orientation of the root (`availableLength()`, `length()`) and is then used as
the width for `OnLeft` and `OnRight`. For the empty vertical root of 900 x 600
and the minimum size 100 x 100 the rectangles are 200 wide, `(0, 0, 200, 600)`
and `(700, 0, 200, 600)`, while `max(100, min(900 - 0 - 5, 900 / 3))` is 300. For
the empty vertical root of 900 x 30000 they are 10000 wide, `(0, 0, 10000, 30000)`
and `(-9100, 0, 10000, 30000)`, outside the root. For every root the width is
`max(min(availableLength() - 5, length() / 3), min along the orientation)`. -/
theorem C18_drop_rect_width_is_measured_along_the_orientation :
    suggestedDropRect Example.emptyRoot true ⟨100, 100⟩ none .OnLeft = ⟨0, 0, 200, 600⟩ ∧
    suggestedDropRect Example.emptyRoot true ⟨100, 100⟩ none .OnRight = ⟨700, 0, 200, 600⟩ ∧
    qMax 100 (qMin (Example.emptyRoot.width - Example.emptyRoot.minSize.width - 5)
      (Int.tdiv Example.emptyRoot.width 3)) = 300 ∧
    Example.tallEmptyRoot.rect = ⟨0, 0, 900, 30000⟩ ∧
    suggestedDropRect Example.tallEmptyRoot true ⟨100, 100⟩ none .OnLeft
      = ⟨0, 0, 10000, 30000⟩ ∧
    suggestedDropRect Example.tallEmptyRoot true ⟨100, 100⟩ none .OnRight
      = ⟨-9100, 0, 10000, 30000⟩ ∧
    ∀ (c : Item) (minSize : QSize),
      (suggestedDropRect c true minSize none .OnLeft).width
        = qMax (qMin (c.availableLength - 5) (Int.tdiv c.containerLength 3))
          (Layouting.length minSize c.m_orientation) ∧
      (suggestedDropRect c true minSize none .OnRight).width
        = qMax (qMin (c.availableLength - 5) (Int.tdiv c.containerLength 3))
          (Layouting.length minSize c.m_orientation) := by
  refine ⟨by decide, by decide, by decide, by decide, by decide, by decide, ?_⟩
  intro c minSize
  rw [(suggestedDropRect_whole_root c minSize).1, (suggestedDropRect_whole_root c minSize).2]
  exact ⟨rfl, rfl⟩

/-- C19: for the empty vertical root of 900 x 600 and the minimum size 100 x 100
the suggested length is 200; `OnTop` gives `(0, 0, 900, 200)`, but `OnBottom`
gives `(0, 399, 900, 201)`, one more than the suggested length (the code
subtracts from `rect.bottom()`, which is `height - 1`, where `OnRight` subtracts
from `rect.width()`). For every root the height for `OnBottom` is the height for
`OnTop` plus 1. -/
theorem C19_bottom_drop_rect_is_one_too_high :
    suggestedDropRect Example.emptyRoot true ⟨100, 100⟩ none .OnTop = ⟨0, 0, 900, 200⟩ ∧
    suggestedDropRect Example.emptyRoot true ⟨100, 100⟩ none .OnBottom = ⟨0, 399, 900, 201⟩ ∧
    ∀ (c : Item) (minSize : QSize),
      (suggestedDropRect c true minSize none .OnBottom).height
        = (suggestedDropRect c true minSize none .OnTop).height + 1 := by
  refine ⟨by decide, by decide, ?_⟩
  intro c minSize
  simp [suggestedDropRect, rect, QRect.moveTo, QRect.adjust, QRect.setHeight, QRect.bottom]
  omega

/-- C20: in the layout `nestedTwo` the nested container is at `(502, 0)` in the
root; its `suggestedDropRect` for `OnLeft` of its child leaf 2 is
`(0, 0, 198, 297)`, which is the drop position in the coordinates of the nested
container: `mapToRoot` of it is `(502, 0, 198, 297)`. -/
theorem C20_drop_rect_is_not_mapped_to_root :
    Example.nestedTwo.checkSanity true = true ∧
    ((getAt Example.nestedTwo [1]).map fun c => c.pos) = some ⟨502, 0⟩ ∧
    ((getAt Example.nestedTwo [1]).map fun c =>
      suggestedDropRect c false ⟨100, 100⟩ (some 0) .OnLeft) = some ⟨0, 0, 198, 297⟩ ∧
    ((getAt Example.nestedTwo [1]).map fun c =>
      mapToRoot Example.nestedTwo [1, 0] (suggestedDropRect c false ⟨100, 100⟩ (some 0) .OnLeft))
      = some ⟨502, 0, 198, 297⟩ := by
  decide

/-- C21: for a location perpendicular to the orientation of the container the
code reuses the suggested length it has computed along the orientation of the
container (the equitative length `usableLength() / (numChildren + 1)`, bounded
by `availableLength() - 5` and the candidate's minimum along that orientation)
as the length along the axis of the location. In the horizontal root `wideTwo`
(2999 x 300, passes `checkSanity`) leaf 1 is at `(0, 0, 1497, 300)`; the drop
rectangle `OnBottom` of it is `(0, -698, 1497, 998)` and the one `OnTop` is
`(0, 0, 1497, 998)`: 998 high next to an anchor that is 300 high, while
`max(100, min(300 - 100 - 5, 300 / 3))` is 100. The same holds for every
container, anchor and perpendicular location. -/
theorem C21_perpendicular_length_is_measured_along_the_orientation :
    Example.wideTwo.checkSanity true = true ∧
    ((Example.wideTwo.m_children.get? 0).map fun (a : Item) => (a.isVisible, a.geometry))
      = some (true, ⟨0, 0, 1497, 300⟩) ∧
    suggestedDropRect Example.wideTwo true ⟨100, 100⟩ (some 0) .OnBottom
      = ⟨0, -698, 1497, 998⟩ ∧
    suggestedDropRect Example.wideTwo true ⟨100, 100⟩ (some 0) .OnTop = ⟨0, 0, 1497, 998⟩ ∧
    qMax 100 (qMin (Example.wideTwo.availableSize.height - separatorThickness)
      (Int.tdiv Example.wideTwo.height 3)) = 100 ∧
    ∀ (c : Item) (isRoot : Bool) (minSize : QSize) (idx : Nat) (a : Item) (loc : Location),
      c.m_children.get? idx = some a → a.isVisible = true → a.isBeingInserted = false →
      loc ≠ .None → orientationForLocation loc ≠ c.m_orientation →
      2 ≤ c.visibleChildren.length →
      Layouting.length (suggestedDropRect c isRoot minSize (some idx) loc).size
          (orientationForLocation loc)
        = qMax (qMin (c.availableLength - separatorThickness)
            (Int.tdiv c.usableLength (c.m_children.length + 1)))
          (Layouting.length minSize c.m_orientation) := by
  refine ⟨by decide, by decide, by decide, by decide, by decide, ?_⟩
  intro c isRoot minSize idx a loc ha hv hins hloc hperp hcount
  rw [suggestedDropRect_perpendicular c isRoot minSize idx a loc _ ha hv hins hloc hperp hcount
    rfl]
  cases loc <;> simp [orientationForLocation, Layouting.length, QRect.size] at hloc ⊢

/-- C22 (counterexample): in `nestedTwo` the nested container stores the minimum
size 0 x 0; after `suggestedDropRect(min, nullptr, OnLeft)` on the root it stores
100 x 205, its `minSize()`. -/
theorem C22_suggestedDropRect_writes_a_minimum_size :
    (Example.nestedTwo.m_children.map fun i => i.m_sizingInfo.minSize)
      = [⟨100, 100⟩, ⟨0, 0⟩] ∧
    ((suggestedDropRectEffect Example.nestedTwo none .OnLeft).m_children.map fun i =>
      i.m_sizingInfo.minSize) = [⟨100, 100⟩, ⟨100, 205⟩] := by
  decide

/-- C22 (amended): `suggestedDropRect` writes exactly the stored minimum sizes
of the visible container children. On an early return (`Location_None`, an
anchor that is not a child of the container or is hidden) the result is
`QRect()` and nothing is written. Otherwise the container keeps its own sizing
info and orientation, and its children list becomes the same list in which
every visible container child has its stored `m_sizingInfo.minSize` set to its
`minSize()`; so every child keeps its geometry, percentage, visibility, children
list, orientation and `minSize()`, and a leaf or a hidden child is untouched. -/
theorem C22_suggestedDropRect_only_refreshes_minimum_sizes (c : Item)
    (relativeTo : Option Nat) (loc : Location) :
    ((loc = .None ∨ ∃ idx, relativeTo = some idx ∧
          ∀ a, c.m_children.get? idx = some a → a.isVisible = false) →
      suggestedDropRectEffect c relativeTo loc = c ∧
      ∀ (isRoot : Bool) (minSize : QSize),
        suggestedDropRect c isRoot minSize relativeTo loc = QRect.null) ∧
    (loc ≠ .None →
      (relativeTo = none ∨ ∃ idx a, relativeTo = some idx ∧
          c.m_children.get? idx = some a ∧ a.isVisible = true) →
      (suggestedDropRectEffect c relativeTo loc).m_children
        = c.m_children.map fun (X : Item) =>
          if X.isVisible && X.isContainer then
            X.setSizingInfo { X.m_sizingInfo with minSize := X.minSize }
          else X) ∧
    (suggestedDropRectEffect c relativeTo loc).m_sizingInfo = c.m_sizingInfo ∧
    (suggestedDropRectEffect c relativeTo loc).m_orientation = c.m_orientation ∧
    (suggestedDropRectEffect c relativeTo loc).m_children.length = c.m_children.length ∧
    ∀ k X, c.m_children.get? k = some X →
      ∃ X2, (suggestedDropRectEffect c relativeTo loc).m_children.get? k = some X2 ∧
        (X2 = X ∨ X2 = X.setSizingInfo { X.m_sizingInfo with minSize := X.minSize }) ∧
        ((X.isVisible && X.isContainer) = false → X2 = X) ∧
        X2.m_sizingInfo.geometry = X.m_sizingInfo.geometry ∧
        X2.m_sizingInfo.percentageWithinParent = X.m_sizingInfo.percentageWithinParent ∧
        X2.isVisible = X.isVisible ∧ X2.m_children = X.m_children ∧
        X2.m_orientation = X.m_orientation ∧ X2.minSize = X.minSize := by
  refine ⟨?_, ?_, suggestedDropRectEffect_kept c relativeTo loc⟩
  · intro h
    rcases h with hnone | ⟨idx, rfl, hhid⟩
    · subst hnone
      refine ⟨?_, fun isRoot minSize => ?_⟩
      · unfold suggestedDropRectEffect
        simp only []
        split
        · rfl
        · split <;> rfl
      · unfold suggestedDropRect
        simp only []
        split
        · rfl
        · split <;> rfl
    · cases ha : c.m_children.get? idx with
      | none =>
        exact ⟨by simp only [suggestedDropRectEffect, ha], fun isRoot minSize => by
          simp only [suggestedDropRect, ha]⟩
      | some a =>
        have hv := hhid a ha
        exact ⟨by simp only [suggestedDropRectEffect, ha, hv, Bool.not_false, if_true],
          fun isRoot minSize => by
            simp only [suggestedDropRect, ha, hv, Bool.not_false, if_true]⟩
  · intro hloc h
    have hchildren : c.refreshMinSizes.m_children
        = c.m_children.map fun (X : Item) =>
          if X.isVisible && X.isContainer then
            X.setSizingInfo { X.m_sizingInfo with minSize := X.minSize }
          else X := by
      cases c with
      | leaf n s v w r => rfl
      | container n s o cs rs b kk => rw [refreshMinSizes_container]; rfl
    rcases h with rfl | ⟨idx, a, rfl, ha, hv⟩
    · simp only [suggestedDropRectEffect, Bool.false_eq_true, if_false, hloc, hchildren]
    · simp only [suggestedDropRectEffect, ha, hv, Bool.not_true, Bool.false_eq_true, if_false,
        hloc, hchildren]

set_option maxRecDepth 100000 in
/-- C23 (counterexample): in the layout `quarterPercentages` the two visible
children store the percentages 1/4 and 1/4, whose sum 1/2 fails
`qFuzzyCompare(total, 1.0)`, and `checkSanity` returns true; after the call the
children store 497/995 and 498/995. -/
theorem C23_broken_percentage_sum_is_accepted :
    Example.quarterPercentages.childPercentages = [⟨1, 4⟩, ⟨1, 4⟩] ∧
    Example.quarterPercentages.visibleChildren.length = 2 ∧
    Double.qFuzzyCompare (totalPercentage Example.quarterPercentages.childPercentages)
      (Double.ofInt 1) = false ∧
    checkSanity true Example.quarterPercentages = true ∧
    childPercentagesStored (checkSanityEffect true Example.quarterPercentages)
      = [⟨497, 995⟩, ⟨498, 995⟩] := by
  decide

/-- C23 (amended): `checkSanity` does not reject a broken percentage sum, it
repairs it. For a container that passes the other checks and has a visible
child the result stays true whatever percentages the children store. When the
stored percentages of the visible children fail `qFuzzyCompare(total, 1.0)` the
call has run `updateChildPercentages()`: unless the updates are blocked, every
visible child then stores `length / usableLength()` and every hidden child 0.
When they pass, the stored percentages of the children are unchanged. In both
cases the sizing info of the container and the visibility and the geometry of
every child are unchanged. -/
theorem C23_checkSanity_accepts_and_repairs_the_percentages (isRoot : Bool) (c : Item)
    (hc : c.isContainer = true) (hsane : checkSanity isRoot c = true)
    (hvis : 1 ≤ c.visibleChildren.length) :
    (∀ f : Item → Percentage,
      checkSanity isRoot (c.setChildren (c.m_children.map fun i =>
        i.setSizingInfo { i.m_sizingInfo with percentageWithinParent := f i })) = true) ∧
    (Double.qFuzzyCompare (totalPercentage c.childPercentages) (Double.ofInt 1) = false →
      c.m_blockUpdatePercentages = false →
      childPercentagesStored (checkSanityEffect isRoot c)
        = c.m_children.map fun (X : Item) =>
          if X.isVisible then (⟨X.length c.m_orientation, c.usableLength⟩ : Percentage)
          else Percentage.zero) ∧
    (Double.qFuzzyCompare (totalPercentage c.childPercentages) (Double.ofInt 1) = true →
      childPercentagesStored (checkSanityEffect isRoot c) = childPercentagesStored c) ∧
    (checkSanityEffect isRoot c).m_sizingInfo = c.m_sizingInfo ∧
    ((checkSanityEffect isRoot c).m_children.map fun (X : Item) =>
        (X.isVisible, X.m_sizingInfo.geometry))
      = c.m_children.map fun (X : Item) => (X.isVisible, X.m_sizingInfo.geometry) := by
  cases c with
  | leaf => simp [isContainer] at hc
  | container n s o cs rs b k =>
    have hne : (cs.filter isVisible).isEmpty = false := by
      simp only [visibleChildren, m_children_container] at hvis
      cases hl : cs.filter isVisible with
      | nil => rw [hl] at hvis; simp at hvis
      | cons x xs => rfl
    obtain ⟨E, hEv, hEs, hEff⟩ := checkSanityEffect_children isRoot n s o cs rs b k hsane hne
    refine ⟨fun f => by rw [checkSanity_ignores_the_percentages]; exact hsane, ?_, ?_,
      m_sizingInfo_checkSanityEffect isRoot _, ?_⟩
    · intro hf hb
      rw [hEff]
      simp only [hf, if_true]
      simp only [m_blockUpdatePercentages] at hb
      rw [childPercentagesStored_updateChildPercentages _
        (by simpa [m_blockUpdatePercentages] using hb)]
      simp only [m_children_container, m_orientation_container]
      have hu : (Item.container n s o E rs b k).usableLength
          = (Item.container n s o cs rs b k).usableLength := by
        have hlen := congrArg List.length (visible_sizingInfo_congr _ _ hEv hEs)
        simp only [List.length_map] at hlen
        simp only [usableLength, numVisibleChildren, visibleChildren, m_children_container, hlen]
        rfl
      rw [hu]
      exact map_congr_of_visible_sizingInfo
        (fun v t => if v then (⟨Layouting.length t.geometry.size o,
          (Item.container n s o cs rs b k).usableLength⟩ : Percentage) else Percentage.zero)
        E cs hEv hEs
    · intro hf
      rw [hEff]
      simp only [hf, Bool.true_eq_false, if_false, childPercentagesStored, m_children_container]
      exact map_congr_of_visible_sizingInfo (fun _ t => t.percentageWithinParent) E cs hEv hEs
    · have hbase := map_congr_of_visible_sizingInfo (fun v t => (v, t.geometry)) E cs hEv hEs
      rw [hEff]
      simp only [m_children_container]
      rw [← hbase]
      split
      · unfold updateChildPercentages
        split
        · rfl
        · simp only [setChildren, m_children_container, List.map_map]
          apply List.map_congr_left
          intro X _
          simp only [Function.comp]
          split <;> simp
      · rfl

set_option maxRecDepth 100000 in
/-- C23 (amended) at the layout `quarterPercentages`. -/
theorem C23_checkSanity_accepts_and_repairs_the_percentages_witness :
    (Example.quarterPercentages.isContainer = true ∧
      checkSanity true Example.quarterPercentages = true ∧
      1 ≤ Example.quarterPercentages.visibleChildren.length) ∧
    ((∀ f : Item → Percentage,
      checkSanity true (Example.quarterPercentages.setChildren
        (Example.quarterPercentages.m_children.map fun i =>
          i.setSizingInfo { i.m_sizingInfo with percentageWithinParent := f i })) = true) ∧
    (Double.qFuzzyCompare (totalPercentage Example.quarterPercentages.childPercentages)
        (Double.ofInt 1) = false →
      Example.quarterPercentages.m_blockUpdatePercentages = false →
      childPercentagesStored (checkSanityEffect true Example.quarterPercentages)
        = Example.quarterPercentages.m_children.map fun (X : Item) =>
          if X.isVisible then
            (⟨X.length Example.quarterPercentages.m_orientation,
              Example.quarterPercentages.usableLength⟩ : Percentage)
          else Percentage.zero) ∧
    (Double.qFuzzyCompare (totalPercentage Example.quarterPercentages.childPercentages)
        (Double.ofInt 1) = true →
      childPercentagesStored (checkSanityEffect true Example.quarterPercentages)
        = childPercentagesStored Example.quarterPercentages) ∧
    (checkSanityEffect true Example.quarterPercentages).m_sizingInfo
      = Example.quarterPercentages.m_sizingInfo ∧
    ((checkSanityEffect true Example.quarterPercentages).m_children.map fun (X : Item) =>
        (X.isVisible, X.m_sizingInfo.geometry))
      = Example.quarterPercentages.m_children.map fun (X : Item) =>
        (X.isVisible, X.m_sizingInfo.geometry)) :=
  ⟨⟨by decide, by decide, by decide⟩,
    C23_checkSanity_accepts_and_repairs_the_percentages true Example.quarterPercentages
      (by decide) (by decide) (by decide)⟩

/-- C24: on every item for which `checkSanity` returns true, the first visible
child starts at position 0 along the orientation, every following visible child
starts at the end of the previous one plus 5, the far edge of the last visible
child is the length of the container, every child has the cross-axis length of
the container, and every item of the tree has a width and a height of at least
its `minSize()`. -/
theorem C24_checkSanity_is_sound_for_axis_packing (isRoot : Bool) (c : Item)
    (hsane : checkSanity isRoot c = true) :
    (∀ X, c.visibleChildren.head? = some X → X.position c.m_orientation = 0) ∧
    (∀ j X Y, c.visibleChildren.get? j = some X → c.visibleChildren.get? (j + 1) = some Y →
      Y.position c.m_orientation
        = X.position c.m_orientation + X.length c.m_orientation + separatorThickness) ∧
    (∀ X, c.visibleChildren.getLast? = some X →
      X.position c.m_orientation + X.length c.m_orientation = c.containerLength) ∧
    (∀ X ∈ c.m_children, X.length (oppositeOrientation c.m_orientation)
      = c.length (oppositeOrientation c.m_orientation)) ∧
    (∀ p d, getAt c p = some d →
      d.minSize.width ≤ d.width ∧ d.minSize.height ≤ d.height) := by
  refine ⟨?_, ?_, ?_, ?_, fun p d hd => checkSanity_descendants p isRoot c d hsane hd⟩
  · cases c with
    | leaf n s v w r => simp [visibleChildren, m_children]
    | container n s o cs rs b k =>
      obtain ⟨hpacked, -⟩ := checkSanity_container isRoot n s o cs rs b k hsane
      simp only [visibleChildren, m_children_container, m_orientation_container]
      intro X hX
      have h0 : (cs.filter isVisible).get? 0 = some X := by
        cases hl : cs.filter isVisible with
        | nil => simp [hl] at hX
        | cons x xs =>
          simp only [hl, List.head?_cons, Option.some.injEq] at hX
          simp [hX]
      have := checkPositions_get? o cs 0 hpacked 0 X h0
      simpa using this
  · cases c with
    | leaf n s v w r => simp [visibleChildren, m_children]
    | container n s o cs rs b k =>
      obtain ⟨hpacked, -⟩ := checkSanity_container isRoot n s o cs rs b k hsane
      simp only [visibleChildren, m_children_container, m_orientation_container]
      intro j X Y hX hY
      have hX2 : (cs.filter isVisible)[j]? = some X := by
        rw [← List.get?_eq_getElem?]
        exact hX
      rw [checkPositions_get? o cs 0 hpacked j X hX,
        checkPositions_get? o cs 0 hpacked (j + 1) Y hY, List.take_succ, hX2]
      simp only [Option.toList_some, List.map_append, List.map_cons, List.map_nil,
        List.sum_append, List.sum_cons, List.sum_nil]
      omega
  · cases c with
    | leaf n s v w r => simp [visibleChildren, m_children]
    | container n s o cs rs b k =>
      obtain ⟨hpacked, -⟩ := checkSanity_container isRoot n s o cs rs b k hsane
      simp only [visibleChildren, m_children_container, m_orientation_container]
      intro X hX
      have hsplit := List.dropLast_append_getLast? X hX
      have hne : (cs.filter isVisible).isEmpty = false := by
        cases hl : cs.filter isVisible with
        | nil => simp [hl] at hX
        | cons x xs => rfl
      have hocc := checkSanity_occupied isRoot n s o cs rs b k hsane hne
      have hgen : ∀ (l : List Item) (init : List Item), init ++ [X] = l →
          l.get? init.length = some X ∧ l.take init.length = init := by
        intro l init hl
        subst hl
        simp
      obtain ⟨hget, htake⟩ := hgen _ _ hsplit
      have hpos := checkPositions_get? o cs 0 hpacked _ X hget
      rw [htake] at hpos
      rw [hpos, ← hocc]
      have hsum : ∀ l : List Item, (l.map fun Z => Z.length o + separatorThickness).sum
          = (l.map fun Z => Z.length o).sum + separatorThickness * (l.length : Int) := by
        intro l
        induction l with
        | nil => simp
        | cons z zs ihz =>
          simp only [List.map_cons, List.sum_cons, List.length_cons, Nat.cast_add, Nat.cast_one]
          rw [ihz]
          simp only [separatorThickness]
          omega
      rw [hsum]
      have hall : ∀ (l : List Item) (init : List Item), init ++ [X] = l →
          (l.map fun Z => Z.length o).sum = (init.map fun Z => Z.length o).sum + X.length o ∧
          (l.length : Int) = (init.length : Int) + 1 := by
        intro l init hl
        subst hl
        simp
      obtain ⟨h1, h2⟩ := hall _ _ hsplit
      rw [h1, h2]
      simp only [separatorThickness]
      omega
  · cases c with
    | leaf n s v w r => simp [m_children]
    | container n s o cs rs b k =>
      obtain ⟨-, hchildren⟩ := checkSanity_container isRoot n s o cs rs b k hsane
      simp only [m_children_container, m_orientation_container]
      intro X hX
      have h1 := (checkChildren_mem _ o _ cs hchildren X hX).1
      simp only [Item.length, ← h1]

/-- C24 at the layout `nestedTwo`. -/
theorem C24_checkSanity_is_sound_for_axis_packing_witness :
    checkSanity true Example.nestedTwo = true ∧
    ((∀ X, Example.nestedTwo.visibleChildren.head? = some X →
      X.position Example.nestedTwo.m_orientation = 0) ∧
    (∀ j X Y, Example.nestedTwo.visibleChildren.get? j = some X →
      Example.nestedTwo.visibleChildren.get? (j + 1) = some Y →
      Y.position Example.nestedTwo.m_orientation
        = X.position Example.nestedTwo.m_orientation
          + X.length Example.nestedTwo.m_orientation + separatorThickness) ∧
    (∀ X, Example.nestedTwo.visibleChildren.getLast? = some X →
      X.position Example.nestedTwo.m_orientation + X.length Example.nestedTwo.m_orientation
        = Example.nestedTwo.containerLength) ∧
    (∀ X ∈ Example.nestedTwo.m_children,
      X.length (oppositeOrientation Example.nestedTwo.m_orientation)
        = Example.nestedTwo.length (oppositeOrientation Example.nestedTwo.m_orientation)) ∧
    (∀ p d, getAt Example.nestedTwo p = some d →
      d.minSize.width ≤ d.width ∧ d.minSize.height ≤ d.height)) :=
  ⟨by decide, C24_checkSanity_is_sound_for_axis_packing true Example.nestedTwo (by decide)⟩

/-- C25: for every tree, every item (given by the reversed path `rp` from the
root, or by its path `item` for the rectangles) and every point,
`mapFromRoot(mapToRoot(p)) = p` and `mapToRoot(mapFromRoot(p)) = p`; the same holds
for rectangles, and both mappings keep the size of a rectangle. -/
theorem C25_mapping_to_root_and_back (root : Item) (rp item : List Nat) (p : QPoint)
    (r : QRect) :
    mapFromRootUp root rp (mapToRootUp root rp p) = p ∧
    mapToRootUp root rp (mapFromRootUp root rp p) = p ∧
    mapFromRoot root item (mapToRoot root item r) = r ∧
    mapToRoot root item (mapFromRoot root item r) = r ∧
    (mapToRoot root item r).size = r.size ∧ (mapFromRoot root item r).size = r.size := by
  obtain ⟨off, hoff⟩ := map_offset root rp
  obtain ⟨off2, hoff2⟩ := map_offset root item.reverse
  refine ⟨?_, ?_, ?_, ?_, rfl, rfl⟩
  · rw [(hoff _).1, (hoff _).2, QPoint.add_sub_cancel]
  · rw [(hoff _).2, (hoff _).1, QPoint.sub_add_cancel]
  · simp only [mapFromRoot, mapToRoot, QRect.moveTopLeft, QRect.topLeft, (hoff2 _).1,
      (hoff2 _).2]
    cases r
    cases off2
    simp [QPoint.add, QPoint.sub]
  · simp only [mapFromRoot, mapToRoot, QRect.moveTopLeft, QRect.topLeft, (hoff2 _).1,
      (hoff2 _).2]
    cases r
    cases off2
    simp [QPoint.add, QPoint.sub]

/-- C26 (counterexample): leaf 1 of the layout `twoLeaves` has the geometry
(0, 0, 497, 600); `setGeometry` with the empty rectangle (0, 0, 0, 50) returns
and leaves that rectangle as the stored geometry of the leaf. -/
theorem C26_empty_geometry_is_stored :
    ((getAt Example.twoLeaves [0]).map fun (i : Item) => i.m_sizingInfo.geometry)
      = some ⟨0, 0, 497, 600⟩ ∧
    (⟨0, 0, 0, 50⟩ : QRect).isEmpty = true ∧
    ((setGeometryAt Example.twoLeaves [0] ⟨0, 0, 0, 50⟩).bind fun root =>
      (getAt root [0]).map fun (i : Item) => i.m_sizingInfo.geometry)
      = some ⟨0, 0, 0, 50⟩ := by
  decide

/-- C26 (amended): for every item of a tree whose top is a container and every
rectangle `r`, an empty one included, `setGeometry(r)` returns, stores `r` as
the geometry of the item and changes nothing else in the tree: the result is
the tree with `r` written into the sizing info of that item. An item without
parent that is not a container has no `root()`; for it `setGeometry` of a new
empty rectangle runs into the null pointer. -/
theorem C26_setGeometry_stores_every_rectangle (root : Item) (p : List Nat) (i : Item)
    (r : QRect) (hroot : root.isContainer = true) (hi : getAt root p = some i) :
    setGeometryAt root p r
      = some (modifyAt (fun (X : Item) => X.setSizingInfo { X.m_sizingInfo with geometry := r })
          root p) ∧
    ((setGeometryAt root p r).bind fun root2 =>
      (getAt root2 p).map fun (X : Item) => X.m_sizingInfo)
      = some { i.m_sizingInfo with geometry := r } ∧
    (∀ (n : Nat) (s : SizingInfo) (v : Bool) (w : Option Nat) (k : Nat),
      r.isEmpty = true → r ≠ s.geometry → setGeometryAt (.leaf n s v w k) [] r = none) := by
  have h1 : setGeometryAt root p r
      = some (modifyAt (fun (X : Item) => X.setSizingInfo { X.m_sizingInfo with geometry := r })
          root p) := by
    unfold setGeometryAt
    simp only [hi, hroot, Bool.not_true, Bool.and_false, Bool.false_eq_true, if_false]
    have hfun : (fun (X : Item) => X.setGeometry r)
        = fun (X : Item) => X.setSizingInfo { X.m_sizingInfo with geometry := r } := by
      funext X
      exact setGeometry_eq X r
    split
    · rw [hfun]
    · rename_i hsame
      simp only [ne_eq, Decidable.not_not] at hsame
      rw [modifyAt_of_fixed _ root p i hi (by rw [hsame]; exact setSizingInfo_self i)]
  refine ⟨h1, ?_, ?_⟩
  · rw [h1]
    simp only [Option.some_bind, getAt_modifyAt, hi, Option.map_some', m_sizingInfo_setSizingInfo]
  · intro n s v w k hempty hne
    simp [setGeometryAt, getAt, m_sizingInfo, hne, hempty, isContainer]

/-- C26 (amended) at leaf 1 of `twoLeaves` and the rectangle (0, 0, 0, 50). -/
theorem C26_setGeometry_stores_every_rectangle_witness :
    (Example.twoLeaves.isContainer = true ∧
      getAt Example.twoLeaves [0]
        = some (Example.leaf 1 ⟨0, 0, 497, 600⟩ ⟨100, 100⟩ true ⟨497, 995⟩)) ∧
    (setGeometryAt Example.twoLeaves [0] ⟨0, 0, 0, 50⟩
      = some (modifyAt
          (fun (X : Item) => X.setSizingInfo { X.m_sizingInfo with geometry := ⟨0, 0, 0, 50⟩ })
          Example.twoLeaves [0]) ∧
    ((setGeometryAt Example.twoLeaves [0] ⟨0, 0, 0, 50⟩).bind fun root2 =>
      (getAt root2 [0]).map fun (X : Item) => X.m_sizingInfo)
      = some { (Example.leaf 1 ⟨0, 0, 497, 600⟩ ⟨100, 100⟩ true ⟨497, 995⟩).m_sizingInfo with
          geometry := ⟨0, 0, 0, 50⟩ } ∧
    (∀ (n : Nat) (s : SizingInfo) (v : Bool) (w : Option Nat) (k : Nat),
      (⟨0, 0, 0, 50⟩ : QRect).isEmpty = true → (⟨0, 0, 0, 50⟩ : QRect) ≠ s.geometry →
      setGeometryAt (.leaf n s v w k) [] ⟨0, 0, 0, 50⟩ = none)) :=
  ⟨⟨rfl, rfl⟩,
    C26_setGeometry_stores_every_rectangle Example.twoLeaves [0] _ ⟨0, 0, 0, 50⟩ rfl rfl⟩

/-- C27 (counterexample): leaf 1 of `detachedPlaceholder` is hidden, has no guest
and the non-empty geometry (0, 0, 497, 600); after `setFrame(g)` with a guest of
minimum size 600 x 100 it has the guest, is still hidden, and is 600 wide. -/
theorem C27_setFrame_keeps_hidden_and_grows :
    ((getAt Example.detachedPlaceholder [0]).map fun i =>
      (i.isVisible, i.m_widget, i.m_sizingInfo.geometry, i.m_sizingInfo.geometry.isEmpty))
      = some (false, none, ⟨0, 0, 497, 600⟩, false) ∧
    ((getAt (setFrameAt Example.detachedPlaceholder [0]
        (some ⟨7, ⟨600, 100⟩, ⟨0, 0, 600, 100⟩⟩)) [0]).map fun i =>
      (i.isVisible, i.m_widget, i.m_sizingInfo.geometry))
      = some (false, some 7, ⟨0, 0, 600, 600⟩) := by
  decide

/-- C27 (amended): `setFrame(g)` on a leaf without guest binds the guest and sets
`minSize` to the guest's minimum size; it leaves `isVisible` as it was. A geometry
that was not empty keeps its position and, when the guest's minimum size differs
from the stored one, has its size expanded to that minimum: it is unchanged when
it is at least as large as the guest's minimum size. -/
theorem C27_setFrame_binds_the_guest (root : Item) (p : List Nat) (n : Nat) (s : SizingInfo)
    (v : Bool) (r : Nat) (g : Guest) (hleaf : getAt root p = some (.leaf n s v none r)) :
    ∃ s2, getAt (setFrameAt root p (some g)) p = some (.leaf n s2 v (some g.handle) r) ∧
      s2.minSize = g.minSize ∧
      (s.geometry.isEmpty = false →
        s2.geometry = (if g.minSize = s.minSize then s.geometry
          else s.geometry.setSize (s.geometry.size.expandedTo g.minSize))) ∧
      (s.geometry.isEmpty = false → g.minSize.width ≤ s.geometry.width →
        g.minSize.height ≤ s.geometry.height → s2.geometry = s.geometry) := by
  have hexp : s.geometry.isEmpty = false →
      (s.geometry.setSize (s.geometry.size.expandedTo g.minSize)).isEmpty = false := by
    intro h
    have h1 := le_qMax_left s.geometry.width g.minSize.width
    have h2 := le_qMax_left s.geometry.height g.minSize.height
    simp only [QRect.isEmpty, Bool.or_eq_false_iff, decide_eq_false_iff_not, not_le, QRect.setSize,
      QRect.size, QSize.expandedTo] at h ⊢
    omega
  have hsame : g.minSize.width ≤ s.geometry.width → g.minSize.height ≤ s.geometry.height →
      s.geometry.setSize (s.geometry.size.expandedTo g.minSize) = s.geometry := by
    intro hw hh
    apply QRect.setSize_self
    · simp only [QRect.size, QSize.expandedTo, qMax]
      split <;> omega
    · simp only [QRect.size, QSize.expandedTo, qMax]
      split <;> omega
  simp only [setFrameAt, getAt_modifyAt, hleaf, Option.map_some', setFrame, setMinSize,
    m_sizingInfo, setSizingInfo, Item.size, m_sizingInfo_setSize, setGeometry_eq]
  by_cases hmin : g.minSize = s.minSize
  · simp only [hmin, ne_eq, not_true_eq_false, if_false, m_sizingInfo]
    by_cases he : s.geometry.isEmpty = true
    · simp only [he, if_true, setSizingInfo]
      exact ⟨_, rfl, rfl, fun h => by simp [he] at h, fun h => by simp [he] at h⟩
    · simp only [he, Bool.false_eq_true, if_false]
      exact ⟨_, rfl, rfl, fun _ => by simp, fun _ _ _ => rfl⟩
  · simp only [ne_eq, hmin, not_false_eq_true, if_true, setSize, setGeometry_eq, m_sizingInfo,
      setSizingInfo]
    by_cases he : s.geometry.isEmpty = true
    · split
      · exact ⟨_, rfl, rfl, fun h => by simp [he] at h, fun h => by simp [he] at h⟩
      · exact ⟨_, rfl, rfl, fun h => by simp [he] at h, fun h => by simp [he] at h⟩
    · have he2 : s.geometry.isEmpty = false := by simpa using he
      simp only [hexp he2, Bool.false_eq_true, if_false]
      exact ⟨_, rfl, rfl, fun _ => by simp [hmin], fun _ hw hh => hsame hw hh⟩

/-- C27 (amended) at leaf 1 of `detachedPlaceholder` with a guest of minimum size
100 x 100. -/
theorem C27_setFrame_binds_the_guest_witness :
    getAt Example.detachedPlaceholder [0]
      = some (.leaf 1 ⟨⟨0, 0, 497, 600⟩, ⟨100, 100⟩, Example.maxSize, Percentage.zero, false⟩
          false none 1) ∧
    ∃ s2, getAt (setFrameAt Example.detachedPlaceholder [0]
        (some ⟨7, ⟨100, 100⟩, ⟨0, 0, 600, 100⟩⟩)) [0] = some (.leaf 1 s2 false (some 7) 1) ∧
      s2.minSize = ⟨100, 100⟩ ∧
      ((⟨0, 0, 497, 600⟩ : QRect).isEmpty = false →
        s2.geometry = (if (⟨100, 100⟩ : QSize) = ⟨100, 100⟩ then ⟨0, 0, 497, 600⟩
          else (⟨0, 0, 497, 600⟩ : QRect).setSize
            ((⟨0, 0, 497, 600⟩ : QRect).size.expandedTo ⟨100, 100⟩))) ∧
      ((⟨0, 0, 497, 600⟩ : QRect).isEmpty = false → (100 : Int) ≤ 497 → (100 : Int) ≤ 600 →
        s2.geometry = ⟨0, 0, 497, 600⟩) :=
  ⟨rfl, C27_setFrame_binds_the_guest Example.detachedPlaceholder [0] 1
    ⟨⟨0, 0, 497, 600⟩, ⟨100, 100⟩, Example.maxSize, Percentage.zero, false⟩ false 1
    ⟨7, ⟨100, 100⟩, ⟨0, 0, 600, 100⟩⟩ rfl⟩

/-- C28: for the three entries of `threeLeaves` (lengths 250, 250, 500, minimum
lengths 148, 170, 100) and the index 1 the slack before the entry is 102 and the
slack after it is 400; for the amount 300, which is at most 502, the loop of
`growItem` computes `side1Growth = 126`, more than the 102 available on side 1. -/
theorem C28_side1_growth_exceeds_the_slack :
    Example.threeLeaves.sizes.length = 3 ∧
    (lengthOnSide Example.threeLeaves.sizes 0 .Side1 .Horizontal).available = 102 ∧
    (lengthOnSide Example.threeLeaves.sizes 2 .Side2 .Horizontal).available = 400 ∧
    growDistribute (300 + 1) 102 400 300 0 0 = (126, 174) ∧
    (growItemInSizes .Horizontal 1 Example.threeLeaves.sizes 300).map
      (fun s => s.length .Horizontal) = [250, 250, 326] := by
  decide

/-- C29 (counterexample): for the entries of `threeLeaves` (lengths 250, 250,
500), the index 1 and the growths 10 and 20, which fit the slacks 102 and 400,
`growItem(1, sizes, 10, 20)` leaves the entry 1 at 250 and shrinks the others to
240 and 480: the total goes from 1000 to 970. -/
theorem C29_growItem_leaves_the_grown_entry :
    (Example.threeLeaves.sizes.map fun s => s.length .Horizontal) = [250, 250, 500] ∧
    ((growItemBySides .Horizontal 1 Example.threeLeaves.sizes 10 20).map fun s =>
      s.length .Horizontal) = [240, 250, 480] := by
  decide

/-- C29 (amended): `growItem(i, sizes, g1, g2)` keeps the number of entries and
leaves the entry `i` as it is; the entries before `i` shrink in total by the sum
of the squeezes that `calculateSqueezes` returns for `g1` (nothing when `g1` is
not positive), the entries after `i` by the sum of those it returns for `g2`, and
the total length of the list decreases by both sums. -/
theorem C29_growItem_shrinks_the_donors_only (o : Orientation) (sizes : List SizingInfo)
    (i : Nat) (g1 g2 : Int) :
    (growItemBySides o i sizes g1 g2).length = sizes.length ∧
    (growItemBySides o i sizes g1 g2).get? i = sizes.get? i ∧
    (((growItemBySides o i sizes g1 g2).take i).map fun s => s.length o).sum
      = ((sizes.take i).map fun s => s.length o).sum
        - (if 0 < g1 then (calculateSqueezes o (sizes.take i) g1).sum else 0) ∧
    (((growItemBySides o i sizes g1 g2).drop (i + 1)).map fun s => s.length o).sum
      = ((sizes.drop (i + 1)).map fun s => s.length o).sum
        - (if 0 < g2 then (calculateSqueezes o (sizes.drop (i + 1)) g2).sum else 0) ∧
    ((growItemBySides o i sizes g1 g2).map fun s => s.length o).sum
      = (sizes.map fun s => s.length o).sum
        - ((if 0 < g1 then (calculateSqueezes o (sizes.take i) g1).sum else 0)
          + (if 0 < g2 then (calculateSqueezes o (sizes.drop (i + 1)) g2).sum else 0)) := by
  -- the list after the entries before `i` have been squeezed
  have h1 : ∃ X : List SizingInfo,
      (growItemBySides o i sizes g1 g2
        = if g2 > 0 then
            X.take (i + 1) ++ applySqueezes
              (fun s q => s.setGeometry (adjustedRect s.geometry o q 0))
              (X.drop (i + 1)) (calculateSqueezes o (X.drop (i + 1)) g2)
          else X) ∧
      X.length = sizes.length ∧ X.drop i = sizes.drop i ∧
      ((X.take i).map fun s => s.length o).sum
        = ((sizes.take i).map fun s => s.length o).sum
          - (if 0 < g1 then (calculateSqueezes o (sizes.take i) g1).sum else 0) := by
    by_cases hg1 : g1 > 0
    · refine ⟨applySqueezes (fun s q => s.setGeometry (adjustedRect s.geometry o 0 (-q)))
        (sizes.take i) (calculateSqueezes o (sizes.take i) g1) ++ sizes.drop i, ?_, ?_, ?_, ?_⟩
      · simp only [growItemBySides, hg1, if_true]
      · rw [List.length_append, applySqueezes_length, ← List.length_append,
          List.take_append_drop]
      · exact (take_drop_of_replaced_front sizes _ i (applySqueezes_length _ _ _)).2
      · rw [(take_drop_of_replaced_front sizes _ i (applySqueezes_length _ _ _)).1,
          applySqueezes_sum _ o (length_shrunk_at_end o) _ _
            (calculateSqueezes_length_le o _ _), if_pos hg1]
    · refine ⟨sizes, ?_, rfl, rfl, ?_⟩
      · simp only [growItemBySides, hg1, if_false]
      · rw [if_neg hg1]
        simp
  obtain ⟨X, hR, hXlen, hXdrop, hXsum⟩ := h1
  have hXdrop1 : X.drop (i + 1) = sizes.drop (i + 1) := by
    rw [← List.drop_drop 1 i X, ← List.drop_drop 1 i sizes, hXdrop]
  have hXget : X.get? i = sizes.get? i := by
    have h := congrArg List.head? hXdrop
    simpa [List.head?_drop] using h
  have hXtotal : (X.map fun s => s.length o).sum
      = (sizes.map fun s => s.length o).sum
        - (if 0 < g1 then (calculateSqueezes o (sizes.take i) g1).sum else 0) := by
    have e1 := sum_take_add_sum_drop (X.map fun s => s.length o) i
    have e2 := sum_take_add_sum_drop (sizes.map fun s => s.length o) i
    rw [← List.map_take, ← List.map_drop] at e1 e2
    rw [hXsum, hXdrop] at e1
    omega
  rw [hR]
  by_cases hg2 : g2 > 0
  · simp only [hg2, if_true]
    have hB := applySqueezes_length (fun s q => s.setGeometry (adjustedRect s.geometry o q 0))
      (X.drop (i + 1)) (calculateSqueezes o (X.drop (i + 1)) g2)
    obtain ⟨ht, hd⟩ := take_drop_of_replaced_back X _ (i + 1) hB
    have hBsum := applySqueezes_sum (fun s q => s.setGeometry (adjustedRect s.geometry o q 0)) o
      (length_shrunk_at_start o) (X.drop (i + 1)) (calculateSqueezes o (X.drop (i + 1)) g2)
      (calculateSqueezes_length_le o _ _)
    refine ⟨?_, ?_, ?_, ?_, ?_⟩
    · rw [List.length_append, hB, ← List.length_append, List.take_append_drop, hXlen]
    · rw [← hXget]
      have e1 : ∀ l : List SizingInfo, l.get? i = (l.take (i + 1)).get? i := by
        intro l
        rw [List.get?_take (Nat.lt_succ_self i)]
      rw [e1, ht, ← e1]
    · have e2 : ∀ l : List SizingInfo, l.take i = (l.take (i + 1)).take i := by
        intro l
        rw [List.take_take, Nat.min_eq_left (Nat.le_succ i)]
      rw [e2, ht, ← e2, hXsum]
    · rw [hd, hBsum, hXdrop1]
    · rw [List.map_append, List.sum_append, hBsum, ← hXdrop1]
      have := sum_take_add_sum_drop (X.map fun s => s.length o) (i + 1)
      rw [← List.map_take, ← List.map_drop] at this
      rw [hXdrop1] at this ⊢
      omega
  · simp only [hg2, if_false]
    refine ⟨hXlen, hXget, hXsum, ?_, ?_⟩
    · rw [hXdrop1]
      simp
    · rw [hXtotal]
      simp

/-- C30: for the three entries of `threeDonors`, whose availabilities are 1, 5
and 5, and `needed = 2`, `calculateSqueezes` returns the squeezes 1, 2 and 2,
whose sum is 5. -/
theorem C30_squeezes_exceed_what_is_needed :
    (Example.threeDonors.sizes.map fun s => s.availableLength .Horizontal) = [1, 5, 5] ∧
    calculateSqueezes .Horizontal Example.threeDonors.sizes 2 = [1, 2, 2] ∧
    (calculateSqueezes .Horizontal Example.threeDonors.sizes 2).sum = 5 := by
  decide

/-- C31 (counterexample): three entries with slack 5 each and `needed = 2`
yield the squeeze vector `[2, 0, 0]`, not `[1, 1, 0]`. The first donor gives 2,
more than `max(1, missing/donors) = max(1, 2/3) = 1`. -/
theorem C31_first_donor_gives_everything :
    (Example.threeEqualDonors.sizes.map fun s => s.availableLength .Horizontal) = [5, 5, 5] ∧
    calculateSqueezes .Horizontal Example.threeEqualDonors.sizes 2 = [2, 0, 0] ∧
    qMax 1 (Int.tdiv 2 3) = 1 := by
  decide

/-- C31 (amended): in every round of the loop of `calculateSqueezes` no
donor gives more than the quota of that round, and the quota is
`missing / donors` when `donors <= missing`, and the whole of `missing` (not 1)
when `missing < donors`. A round of the loop with `missing > 0` and at least one
donor is one pass of `squeezeRound` with that quota followed by the remaining
rounds. -/
theorem C31_no_donor_gives_more_than_the_quota (fuel : Nat) (availabilities squeezes : List Int)
    (missing : Int) (hm : 0 < missing) :
    (((availabilities.filter fun num => decide (num > 0)).length : Int) ≠ 0 →
      calculateSqueezesLoop (fuel + 1) availabilities squeezes missing
        = calculateSqueezesLoop fuel
            (squeezeRound
              (if Int.tdiv missing (availabilities.filter fun num => decide (num > 0)).length == 0
                then missing
                else Int.tdiv missing (availabilities.filter fun num => decide (num > 0)).length)
              availabilities squeezes missing).1
            (squeezeRound
              (if Int.tdiv missing (availabilities.filter fun num => decide (num > 0)).length == 0
                then missing
                else Int.tdiv missing (availabilities.filter fun num => decide (num > 0)).length)
              availabilities squeezes missing).2.1
            (squeezeRound
              (if Int.tdiv missing (availabilities.filter fun num => decide (num > 0)).length == 0
                then missing
                else Int.tdiv missing (availabilities.filter fun num => decide (num > 0)).length)
              availabilities squeezes missing).2.2) ∧
    (∀ (i : Nat) (q q' : Int), squeezes.get? i = some q →
      (squeezeRound
        (if Int.tdiv missing (availabilities.filter fun num => decide (num > 0)).length == 0
          then missing
          else Int.tdiv missing (availabilities.filter fun num => decide (num > 0)).length)
        availabilities squeezes missing).2.1.get? i = some q' →
      q' - q ≤
        (if Int.tdiv missing (availabilities.filter fun num => decide (num > 0)).length == 0
          then missing
          else Int.tdiv missing (availabilities.filter fun num => decide (num > 0)).length)) ∧
    (0 < ((availabilities.filter fun num => decide (num > 0)).length : Int) →
      ((availabilities.filter fun num => decide (num > 0)).length : Int) ≤ missing →
      (if Int.tdiv missing (availabilities.filter fun num => decide (num > 0)).length == 0
          then missing
          else Int.tdiv missing (availabilities.filter fun num => decide (num > 0)).length)
        = Int.tdiv missing (availabilities.filter fun num => decide (num > 0)).length ∧
      1 ≤ Int.tdiv missing (availabilities.filter fun num => decide (num > 0)).length) ∧
    (missing < ((availabilities.filter fun num => decide (num > 0)).length : Int) →
      (if Int.tdiv missing (availabilities.filter fun num => decide (num > 0)).length == 0
          then missing
          else Int.tdiv missing (availabilities.filter fun num => decide (num > 0)).length)
        = missing) := by
  have hq := squeezeQuota_cases missing
    ((availabilities.filter fun num => decide (num > 0)).length : Int) hm (by omega)
  refine ⟨?_, ?_, hq.2.1, hq.2.2⟩
  · intro hd
    rw [calculateSqueezesLoop]
    simp only [gt_iff_lt, hm, if_true, beq_iff_eq, hd, if_false]
  · intro i q q' h1 h2
    exact squeezeRound_increment _ hq.1 availabilities squeezes missing i q q' h1 h2

/-- C31 (amended) for three availabilities of 5 and 2 missing. -/
theorem C31_no_donor_gives_more_than_the_quota_witness :
    ((0 : Int) < 2) ∧
    ((((([5, 5, 5] : List Int).filter fun num => decide (num > 0)).length : Int) ≠ 0 →
      calculateSqueezesLoop (3 + 1) [5, 5, 5] [0, 0, 0] 2
        = calculateSqueezesLoop 3
            (squeezeRound
              (if Int.tdiv 2 (([5, 5, 5] : List Int).filter fun num => decide (num > 0)).length == 0
                then 2
                else Int.tdiv 2 (([5, 5, 5] : List Int).filter fun num => decide (num > 0)).length)
              [5, 5, 5] [0, 0, 0] 2).1
            (squeezeRound
              (if Int.tdiv 2 (([5, 5, 5] : List Int).filter fun num => decide (num > 0)).length == 0
                then 2
                else Int.tdiv 2 (([5, 5, 5] : List Int).filter fun num => decide (num > 0)).length)
              [5, 5, 5] [0, 0, 0] 2).2.1
            (squeezeRound
              (if Int.tdiv 2 (([5, 5, 5] : List Int).filter fun num => decide (num > 0)).length == 0
                then 2
                else Int.tdiv 2 (([5, 5, 5] : List Int).filter fun num => decide (num > 0)).length)
              [5, 5, 5] [0, 0, 0] 2).2.2) ∧
    (∀ (i : Nat) (q q' : Int), ([0, 0, 0] : List Int).get? i = some q →
      (squeezeRound
        (if Int.tdiv 2 (([5, 5, 5] : List Int).filter fun num => decide (num > 0)).length == 0
          then 2
          else Int.tdiv 2 (([5, 5, 5] : List Int).filter fun num => decide (num > 0)).length)
        [5, 5, 5] [0, 0, 0] 2).2.1.get? i = some q' →
      q' - q ≤
        (if Int.tdiv 2 (([5, 5, 5] : List Int).filter fun num => decide (num > 0)).length == 0
          then 2
          else Int.tdiv 2 (([5, 5, 5] : List Int).filter fun num => decide (num > 0)).length)) ∧
    (0 < ((([5, 5, 5] : List Int).filter fun num => decide (num > 0)).length : Int) →
      ((([5, 5, 5] : List Int).filter fun num => decide (num > 0)).length : Int) ≤ 2 →
      (if Int.tdiv 2 (([5, 5, 5] : List Int).filter fun num => decide (num > 0)).length == 0
          then 2
          else Int.tdiv 2 (([5, 5, 5] : List Int).filter fun num => decide (num > 0)).length)
        = Int.tdiv 2 (([5, 5, 5] : List Int).filter fun num => decide (num > 0)).length ∧
      1 ≤ Int.tdiv 2 (([5, 5, 5] : List Int).filter fun num => decide (num > 0)).length) ∧
    ((2 : Int) < ((([5, 5, 5] : List Int).filter fun num => decide (num > 0)).length : Int) →
      (if Int.tdiv 2 (([5, 5, 5] : List Int).filter fun num => decide (num > 0)).length == 0
          then 2
          else Int.tdiv 2 (([5, 5, 5] : List Int).filter fun num => decide (num > 0)).length)
        = 2)) :=
  ⟨by decide, C31_no_donor_gives_more_than_the_quota 3 [5, 5, 5] [0, 0, 0] 2 (by decide)⟩

/-- C32: `growNeighbours` with both neighbours closes the gap exactly. For
every container and two of its children `s1` and `s2`, neither being inserted,
where `s2` starts at least one separator after the end of `s1` (they are
separated by a freed span) and a neighbour that is a container is not below
its minimum size, after `growNeighbours(s1, s2)` the start of `s1` and the far
edge of `s2` along the orientation are unchanged, `s2` starts exactly 5 after
the end of `s1`, and both keep their cross-axis extent. -/
theorem C32_growNeighbours_closes_the_gap (c : Item) (i1 i2 : Nat) (n1 n2 : Item)
    (h1 : c.m_children.get? i1 = some n1) (h2 : c.m_children.get? i2 = some n2)
    (hne : i1 ≠ i2)
    (hins1 : n1.isBeingInserted = false) (hins2 : n2.isBeingInserted = false)
    (hmin1 : n1.isContainer = true →
      n1.minSize.width ≤ n1.width ∧ n1.minSize.height ≤ n1.height)
    (hmin2 : n2.isContainer = true →
      n2.minSize.width ≤ n2.width ∧ n2.minSize.height ≤ n2.height)
    (hgap : n1.position c.m_orientation + n1.length c.m_orientation + 5
      ≤ n2.position c.m_orientation) :
    ∃ m1 m2 : Item,
      (growNeighbours c (some i1) (some i2)).m_children.get? i1 = some m1 ∧
      (growNeighbours c (some i1) (some i2)).m_children.get? i2 = some m2 ∧
      m1.position c.m_orientation = n1.position c.m_orientation ∧
      m2.position c.m_orientation + m2.length c.m_orientation
        = n2.position c.m_orientation + n2.length c.m_orientation ∧
      m2.position c.m_orientation
        = m1.position c.m_orientation + m1.length c.m_orientation + 5 ∧
      m1.length (oppositeOrientation c.m_orientation)
        = n1.length (oppositeOrientation c.m_orientation) ∧
      m2.length (oppositeOrientation c.m_orientation)
        = n2.length (oppositeOrientation c.m_orientation) := by
  obtain ⟨m1, m2, e1, e2, p1, _, p2, f2, _, c1, _, c2⟩ :=
    growNeighbours_both_lengths c i1 i2 n1 n2 h1 h2 hne hins1 hins2 hmin1 hmin2 hgap
  exact ⟨m1, m2, e1, e2, p1, f2, p2, c1, c2⟩

/-- C32 at the layout `threeLeaves`, for its first and third child. -/
theorem C32_growNeighbours_closes_the_gap_witness :
    (Example.threeLeaves.m_children.get? 0
        = some (Example.leaf 1 ⟨0, 0, 250, 600⟩ ⟨148, 100⟩ true ⟨1, 4⟩) ∧
      Example.threeLeaves.m_children.get? 2
        = some (Example.leaf 3 ⟨510, 0, 500, 600⟩ ⟨100, 100⟩ true ⟨1, 2⟩) ∧
      (0 : Nat) ≠ 2 ∧
      (Example.leaf 1 ⟨0, 0, 250, 600⟩ ⟨148, 100⟩ true ⟨1, 4⟩).isBeingInserted = false ∧
      (Example.leaf 3 ⟨510, 0, 500, 600⟩ ⟨100, 100⟩ true ⟨1, 2⟩).isBeingInserted = false ∧
      (Example.leaf 1 ⟨0, 0, 250, 600⟩ ⟨148, 100⟩ true ⟨1, 4⟩).position
            Example.threeLeaves.m_orientation
          + (Example.leaf 1 ⟨0, 0, 250, 600⟩ ⟨148, 100⟩ true ⟨1, 4⟩).length
            Example.threeLeaves.m_orientation + 5
        ≤ (Example.leaf 3 ⟨510, 0, 500, 600⟩ ⟨100, 100⟩ true ⟨1, 2⟩).position
            Example.threeLeaves.m_orientation) ∧
    (∃ m1 m2 : Item,
      (growNeighbours Example.threeLeaves (some 0) (some 2)).m_children.get? 0 = some m1 ∧
      (growNeighbours Example.threeLeaves (some 0) (some 2)).m_children.get? 2 = some m2 ∧
      m1.position Example.threeLeaves.m_orientation
        = (Example.leaf 1 ⟨0, 0, 250, 600⟩ ⟨148, 100⟩ true ⟨1, 4⟩).position
            Example.threeLeaves.m_orientation ∧
      m2.position Example.threeLeaves.m_orientation
          + m2.length Example.threeLeaves.m_orientation
        = (Example.leaf 3 ⟨510, 0, 500, 600⟩ ⟨100, 100⟩ true ⟨1, 2⟩).position
            Example.threeLeaves.m_orientation
          + (Example.leaf 3 ⟨510, 0, 500, 600⟩ ⟨100, 100⟩ true ⟨1, 2⟩).length
            Example.threeLeaves.m_orientation ∧
      m2.position Example.threeLeaves.m_orientation
        = m1.position Example.threeLeaves.m_orientation
          + m1.length Example.threeLeaves.m_orientation + 5 ∧
      m1.length (oppositeOrientation Example.threeLeaves.m_orientation)
        = (Example.leaf 1 ⟨0, 0, 250, 600⟩ ⟨148, 100⟩ true ⟨1, 4⟩).length
            (oppositeOrientation Example.threeLeaves.m_orientation) ∧
      m2.length (oppositeOrientation Example.threeLeaves.m_orientation)
        = (Example.leaf 3 ⟨510, 0, 500, 600⟩ ⟨100, 100⟩ true ⟨1, 2⟩).length
            (oppositeOrientation Example.threeLeaves.m_orientation)) :=
  ⟨⟨rfl, rfl, by decide, by decide, by decide, by decide⟩,
    C32_growNeighbours_closes_the_gap Example.threeLeaves 0 2 _ _ rfl rfl (by decide)
      (by decide) (by decide) (by decide) (by decide) (by decide)⟩

/-- C33: `growNeighbours` splits the freed span evenly. For every
container and two of its children, neither being inserted and a container
neighbour not below its minimum size, between which an item of length
`W >= 1` and its two separators have been taken out (the side-2 neighbour
starts at `end of side 1 + 5 + W + 5`), the amounts by which `growNeighbours`
lengthens the side-1 neighbour and the side-2 neighbour sum to `W + 5` and
differ by at most 1. -/
theorem C33_growNeighbours_splits_the_freed_span_evenly (c : Item) (i1 i2 : Nat)
    (n1 n2 : Item) (W : Int) (hW : 1 ≤ W)
    (h1 : c.m_children.get? i1 = some n1) (h2 : c.m_children.get? i2 = some n2)
    (hne : i1 ≠ i2)
    (hins1 : n1.isBeingInserted = false) (hins2 : n2.isBeingInserted = false)
    (hmin1 : n1.isContainer = true →
      n1.minSize.width ≤ n1.width ∧ n1.minSize.height ≤ n1.height)
    (hmin2 : n2.isContainer = true →
      n2.minSize.width ≤ n2.width ∧ n2.minSize.height ≤ n2.height)
    (hspan : n2.position c.m_orientation
      = n1.position c.m_orientation + n1.length c.m_orientation + 5 + W + 5) :
    ∃ m1 m2 : Item,
      (growNeighbours c (some i1) (some i2)).m_children.get? i1 = some m1 ∧
      (growNeighbours c (some i1) (some i2)).m_children.get? i2 = some m2 ∧
      (m1.length c.m_orientation - n1.length c.m_orientation)
        + (m2.length c.m_orientation - n2.length c.m_orientation) = W + 5 ∧
      (m1.length c.m_orientation - n1.length c.m_orientation)
        - (m2.length c.m_orientation - n2.length c.m_orientation) ≤ 1 ∧
      (m2.length c.m_orientation - n2.length c.m_orientation)
        - (m1.length c.m_orientation - n1.length c.m_orientation) ≤ 1 := by
  obtain ⟨m1, m2, e1, e2, p1, l1, p2, f2, _, _, _, _⟩ :=
    growNeighbours_both_lengths c i1 i2 n1 n2 h1 h2 hne hins1 hins2 hmin1 hmin2 (by omega)
  exact ⟨m1, m2, e1, e2, by omega, by omega, by omega⟩

/-- C33 at the layout `threeLeaves`, for its first and third child and `W = 250`. -/
theorem C33_growNeighbours_splits_the_freed_span_evenly_witness :
    ((1 : Int) ≤ 250 ∧
      Example.threeLeaves.m_children.get? 0
        = some (Example.leaf 1 ⟨0, 0, 250, 600⟩ ⟨148, 100⟩ true ⟨1, 4⟩) ∧
      Example.threeLeaves.m_children.get? 2
        = some (Example.leaf 3 ⟨510, 0, 500, 600⟩ ⟨100, 100⟩ true ⟨1, 2⟩) ∧
      (0 : Nat) ≠ 2 ∧
      (Example.leaf 1 ⟨0, 0, 250, 600⟩ ⟨148, 100⟩ true ⟨1, 4⟩).isBeingInserted = false ∧
      (Example.leaf 3 ⟨510, 0, 500, 600⟩ ⟨100, 100⟩ true ⟨1, 2⟩).isBeingInserted = false ∧
      (Example.leaf 3 ⟨510, 0, 500, 600⟩ ⟨100, 100⟩ true ⟨1, 2⟩).position
          Example.threeLeaves.m_orientation
        = (Example.leaf 1 ⟨0, 0, 250, 600⟩ ⟨148, 100⟩ true ⟨1, 4⟩).position
            Example.threeLeaves.m_orientation
          + (Example.leaf 1 ⟨0, 0, 250, 600⟩ ⟨148, 100⟩ true ⟨1, 4⟩).length
            Example.threeLeaves.m_orientation + 5 + 250 + 5) ∧
    (∃ m1 m2 : Item,
      (growNeighbours Example.threeLeaves (some 0) (some 2)).m_children.get? 0 = some m1 ∧
      (growNeighbours Example.threeLeaves (some 0) (some 2)).m_children.get? 2 = some m2 ∧
      (m1.length Example.threeLeaves.m_orientation
          - (Example.leaf 1 ⟨0, 0, 250, 600⟩ ⟨148, 100⟩ true ⟨1, 4⟩).length
              Example.threeLeaves.m_orientation)
        + (m2.length Example.threeLeaves.m_orientation
          - (Example.leaf 3 ⟨510, 0, 500, 600⟩ ⟨100, 100⟩ true ⟨1, 2⟩).length
              Example.threeLeaves.m_orientation) = 250 + 5 ∧
      (m1.length Example.threeLeaves.m_orientation
          - (Example.leaf 1 ⟨0, 0, 250, 600⟩ ⟨148, 100⟩ true ⟨1, 4⟩).length
              Example.threeLeaves.m_orientation)
        - (m2.length Example.threeLeaves.m_orientation
          - (Example.leaf 3 ⟨510, 0, 500, 600⟩ ⟨100, 100⟩ true ⟨1, 2⟩).length
              Example.threeLeaves.m_orientation) ≤ 1 ∧
      (m2.length Example.threeLeaves.m_orientation
          - (Example.leaf 3 ⟨510, 0, 500, 600⟩ ⟨100, 100⟩ true ⟨1, 2⟩).length
              Example.threeLeaves.m_orientation)
        - (m1.length Example.threeLeaves.m_orientation
          - (Example.leaf 1 ⟨0, 0, 250, 600⟩ ⟨148, 100⟩ true ⟨1, 4⟩).length
              Example.threeLeaves.m_orientation) ≤ 1) :=
  ⟨⟨by decide, rfl, rfl, by decide, by decide, by decide, by decide⟩,
    C33_growNeighbours_splits_the_freed_span_evenly Example.threeLeaves 0 2 _ _ 250 (by decide)
      rfl rfl (by decide) (by decide) (by decide) (by decide) (by decide) (by decide)⟩

/-- C34: the minimum size of a container is aggregated bottom-up. For
every container with `n >= 1` visible children, `minSize()` along the
orientation is the sum of the visible children's minimum lengths plus
`(n - 1) * 5`; along the opposite axis it is the maximum of the visible
children's minimum lengths (the running maximum of the loop, which starts at 0:
no visible child has a larger minimum, and when no minimum is negative one of
them attains it); hidden children do not contribute: the container without
them has the same minimum size. -/
theorem C34_container_minSize_is_aggregated (c : Item) (hn : 1 ≤ c.visibleChildren.length) :
    c.minLength c.m_orientation
      = (c.visibleChildren.map fun (X : Item) => X.minLength c.m_orientation).sum
        + ((c.visibleChildren.length : Int) - 1) * 5 ∧
    c.minLength (oppositeOrientation c.m_orientation)
      = (c.visibleChildren.map
          fun (X : Item) => X.minLength (oppositeOrientation c.m_orientation)).foldl qMax 0 ∧
    (∀ X ∈ c.visibleChildren,
      X.minLength (oppositeOrientation c.m_orientation)
        ≤ c.minLength (oppositeOrientation c.m_orientation)) ∧
    ((∀ X ∈ c.visibleChildren, 0 ≤ X.minLength (oppositeOrientation c.m_orientation)) →
      ∃ X ∈ c.visibleChildren,
        X.minLength (oppositeOrientation c.m_orientation)
          = c.minLength (oppositeOrientation c.m_orientation)) ∧
    (c.setChildren c.visibleChildren).minSize = c.minSize := by
  cases c with
  | leaf n s v w r => simp [visibleChildren, m_children] at hn
  | container n s o cs rs b k =>
    cases cs with
    | nil => simp [visibleChildren, m_children] at hn
    | cons c0 cs =>
      have h := minSize_container_eq n s o c0 cs rs b k
      simp only [visibleChildren, m_children_container, m_orientation_container, minLength,
        separatorThickness] at h hn ⊢
      have hf := foldl_qMax_spec
        (((c0 :: cs).filter isVisible).map
          fun (X : Item) => Layouting.length X.minSize (oppositeOrientation o)) 0
      refine ⟨h.1, h.2, ?_, ?_, ?_⟩
      · intro X hX
        rw [h.2]
        exact hf.2.1 _ (List.mem_map.2 ⟨X, hX, rfl⟩)
      · intro hall
        rw [h.2]
        rcases hf.2.2 with h0 | hmem
        · cases hl : (c0 :: cs).filter isVisible with
          | nil => rw [hl] at hn; simp at hn
          | cons X Xs =>
            rw [hl] at hf hall h0
            refine ⟨X, List.mem_cons_self _ _, ?_⟩
            have h1 := hf.2.1 (Layouting.length X.minSize (oppositeOrientation o))
              (List.mem_map.2 ⟨X, List.mem_cons_self _ _, rfl⟩)
            have h2 := hall X (List.mem_cons_self _ _)
            rw [h0] at h1 ⊢
            omega
        · obtain ⟨X, hX, hXe⟩ := List.mem_map.1 hmem
          exact ⟨X, hX, hXe⟩
      · cases hl : (c0 :: cs).filter isVisible with
        | nil => rw [hl] at hn; simp at hn
        | cons X Xs =>
          have hloop := minSizeLoop_filter o (c0 :: cs) 0 0 0
          rw [hl] at hloop
          simp only [setChildren, minSize, hloop]

/-- C34 at the layout `threeLeaves`. -/
theorem C34_container_minSize_is_aggregated_witness :
    (1 ≤ Example.threeLeaves.visibleChildren.length) ∧
    (Example.threeLeaves.minLength Example.threeLeaves.m_orientation
      = (Example.threeLeaves.visibleChildren.map
          fun (X : Item) => X.minLength Example.threeLeaves.m_orientation).sum
        + ((Example.threeLeaves.visibleChildren.length : Int) - 1) * 5 ∧
    Example.threeLeaves.minLength (oppositeOrientation Example.threeLeaves.m_orientation)
      = (Example.threeLeaves.visibleChildren.map
          fun (X : Item) =>
            X.minLength (oppositeOrientation Example.threeLeaves.m_orientation)).foldl qMax 0 ∧
    (∀ X ∈ Example.threeLeaves.visibleChildren,
      X.minLength (oppositeOrientation Example.threeLeaves.m_orientation)
        ≤ Example.threeLeaves.minLength (oppositeOrientation Example.threeLeaves.m_orientation)) ∧
    ((∀ X ∈ Example.threeLeaves.visibleChildren,
        0 ≤ X.minLength (oppositeOrientation Example.threeLeaves.m_orientation)) →
      ∃ X ∈ Example.threeLeaves.visibleChildren,
        X.minLength (oppositeOrientation Example.threeLeaves.m_orientation)
          = Example.threeLeaves.minLength
              (oppositeOrientation Example.threeLeaves.m_orientation)) ∧
    (Example.threeLeaves.setChildren Example.threeLeaves.visibleChildren).minSize
      = Example.threeLeaves.minSize) :=
  ⟨by decide, C34_container_minSize_is_aggregated Example.threeLeaves (by decide)⟩

/-- C35: `ItemContainer::maxSize` starts `maxW` and `maxH` at 0 and narrows
them with `qMin`, so the result across the orientation is never above 0. For
`twoLeaves`, whose children both have the maximum height 16777215, `maxSize()`
is `(33554435, 0)`. Along the orientation the result is the sum of the visible
children's maximum lengths plus `(n - 1) * 5`. -/
theorem C35_maxSize_across_the_orientation_is_at_most_zero :
    Example.twoLeaves.maxSize = ⟨33554435, 0⟩ ∧
    (Example.twoLeaves.visibleChildren.map fun (X : Item) => X.maxSize.height)
      = [16777215, 16777215] ∧
    (∀ (n : Nat) (s : SizingInfo) (o : Orientation) (c : Item) (cs : List Item)
        (rs b k : Bool),
      Layouting.length (Item.container n s o (c :: cs) rs b k).maxSize (oppositeOrientation o)
        ≤ 0 ∧
      Layouting.length (Item.container n s o (c :: cs) rs b k).maxSize o
        = ((Item.container n s o (c :: cs) rs b k).visibleChildren.map
            fun (X : Item) => Layouting.length X.maxSize o).sum
          + (((Item.container n s o (c :: cs) rs b k).visibleChildren.length : Int) - 1) * 5) := by
  refine ⟨by decide, by decide, ?_⟩
  intro n s o c cs rs b k
  have h := maxSize_container_eq n s o c cs rs b k
  refine ⟨?_, ?_⟩
  · rw [h.2]
    exact foldl_qMin_le _ 0
  · rw [h.1]
    simp only [visibleChildren, m_children_container, separatorThickness]

/-- C36 (counterexample): `visibleChildren()` filters on `isVisible()` only. In
`secondBeingInserted` the child at index 1 is visible and has `isBeingInserted`
set, and `indexOfVisibleChild` returns 1 for it, not -1. -/
theorem C36_item_being_inserted_has_a_visible_index :
    (Example.secondBeingInserted.m_children.get? 1).map
        (fun i => (i.isVisible, i.isBeingInserted)) = some (true, true) ∧
    indexOfVisibleChild Example.secondBeingInserted 1 = 1 ∧
    Example.secondBeingInserted.visibleChildren.length = 2 := by
  decide

/-- C36 (amended): `indexOfVisibleChild` ignores placeholders only. For
every container and child, `indexOfVisibleChild(item)` is the position of the
item in the list of the children that are visible, whether or not
`isBeingInserted` is set, and it is -1 for a hidden child. -/
theorem C36_indexOfVisibleChild_ignores_placeholders_only (c : Item) (idx : Nat) (child : Item)
    (h : c.m_children.get? idx = some child) :
    (child.isVisible = true →
      indexOfVisibleChild c idx = (((c.m_children.take idx).filter isVisible).length : Int) ∧
      c.visibleChildren.get? ((c.m_children.take idx).filter isVisible).length = some child ∧
      c.visibleChildren = c.m_children.filter isVisible) ∧
    (child.isVisible = false → indexOfVisibleChild c idx = -1) := by
  refine ⟨fun hv => ⟨?_, ?_, rfl⟩, fun hv => ?_⟩
  · simp only [indexOfVisibleChild, visibleIndexOf, h, hv, if_true]
  · exact filter_take_get? c.m_children idx child h hv
  · simp only [indexOfVisibleChild, visibleIndexOf, h, hv, Bool.false_eq_true, if_false]

/-- C36 (amended) at the layout `secondBeingInserted`, for its second child. -/
theorem C36_indexOfVisibleChild_ignores_placeholders_only_witness :
    (Example.secondBeingInserted.m_children.get? 1
      = some (.leaf 2 ⟨⟨502, 0, 498, 600⟩, ⟨100, 100⟩, Example.maxSize, ⟨498, 995⟩, true⟩ true
          (some 2) 1)) ∧
    (((Item.leaf 2 ⟨⟨502, 0, 498, 600⟩, ⟨100, 100⟩, Example.maxSize, ⟨498, 995⟩, true⟩ true
          (some 2) 1).isVisible = true →
      indexOfVisibleChild Example.secondBeingInserted 1
        = (((Example.secondBeingInserted.m_children.take 1).filter isVisible).length : Int) ∧
      Example.secondBeingInserted.visibleChildren.get?
          ((Example.secondBeingInserted.m_children.take 1).filter isVisible).length
        = some (.leaf 2 ⟨⟨502, 0, 498, 600⟩, ⟨100, 100⟩, Example.maxSize, ⟨498, 995⟩, true⟩ true
            (some 2) 1) ∧
      Example.secondBeingInserted.visibleChildren
        = Example.secondBeingInserted.m_children.filter isVisible) ∧
    ((Item.leaf 2 ⟨⟨502, 0, 498, 600⟩, ⟨100, 100⟩, Example.maxSize, ⟨498, 995⟩, true⟩ true
          (some 2) 1).isVisible = false →
      indexOfVisibleChild Example.secondBeingInserted 1 = -1)) :=
  ⟨rfl, C36_indexOfVisibleChild_ignores_placeholders_only Example.secondBeingInserted 1 _ rfl⟩

/-- C37: `restorePlaceholder` bounds the chosen length by
`current length + availableLength()`, which does not keep it within the slack
of the siblings. The layout `stalePlaceholder` passes
`checkSanity`, has one other visible child with slack 500, and the minimum
length of the placeholder plus a separator (105) fits into it. After
`setIsVisible(true)` the container has `availableLength() = 395`, the chosen
length is `bounded(100, 600, 600 + 395) = 600` and `growItem` is asked for 605,
while `available1 + available2 = 0 + 500`. The restored layout overflows the
container and fails `checkSanity`. -/
theorem C37_restorePlaceholder_asks_for_more_than_the_slack :
    Example.stalePlaceholder.checkSanity true = true ∧
    Example.stalePlaceholder.numVisibleChildren = 1 ∧
    (Example.stalePlaceholder.sizes.map fun s => s.availableLength .Horizontal) = [500] ∧
    (setIsVisibleAt Example.stalePlaceholder [0] true).numVisibleChildren = 2 ∧
    (setIsVisibleAt Example.stalePlaceholder [0] true).availableLength = 395 ∧
    ((setIsVisibleAt Example.stalePlaceholder [0] true).m_children.get? 0).map
        (fun (item : Item) => (item.minLength .Horizontal, item.length .Horizontal))
      = some (100, 600) ∧
    qBound 100 600 (600 + 395) + separatorThickness = 605 ∧
    ((setIsVisibleAt Example.stalePlaceholder [0] true).setChildren
        ((setIsVisibleAt Example.stalePlaceholder [0] true).m_children.modify
          (fun i => i.setLength_recursive 600 .Horizontal) 0)).visibleIndexOf 0 = some 0 ∧
    (lengthOnSide
        ((setIsVisibleAt Example.stalePlaceholder [0] true).setChildren
          ((setIsVisibleAt Example.stalePlaceholder [0] true).m_children.modify
            (fun i => i.setLength_recursive 600 .Horizontal) 0)).sizes
        ((0 : Int) - 1) .Side1 .Horizontal).available
      + (lengthOnSide
        ((setIsVisibleAt Example.stalePlaceholder [0] true).setChildren
          ((setIsVisibleAt Example.stalePlaceholder [0] true).m_children.modify
            (fun i => i.setLength_recursive 600 .Horizontal) 0)).sizes
        ((0 : Int) + 1) .Side2 .Horizontal).available = 500 ∧
    ((restorePlaceholder Example.stalePlaceholder [] 0).m_children.map
        fun (i : Item) => (i.name, i.isVisible, i.m_sizingInfo.geometry))
      = [(1, true, ⟨0, 0, 600, 600⟩), (2, true, ⟨605, 0, 1000, 600⟩)] ∧
    (restorePlaceholder Example.stalePlaceholder [] 0).checkSanity true = false := by
  decide

/-- C38: the distribution loop of `growItem(index, sizes, amount,
BothSidesEqually)` terminates and conserves the amount. For slacks
`available1, available2 >= 0` and `amount > 0` (the bound
`amount <= available1 + available2` is not even needed), the loop as run by
`growItemInSizes` (at most `amount + 1` iterations) ends with
`side1Growth >= 0`, `side2Growth >= 0` and `side1Growth + side2Growth = amount`;
allowing any larger number of iterations gives the same pair, so the loop has
left through one of its exits; and after any number `k` of iterations the
growths handed out so far add up to at most `amount`, that is, the running
`missing` is never negative. -/
theorem C38_growItem_distribution_terminates_and_conserves (available1 available2 amount : Int)
    (h1 : 0 ≤ available1) (h2 : 0 ≤ available2) (hpos : 0 < amount) :
    0 ≤ (growDistribute (amount.toNat + 1) available1 available2 amount 0 0).1 ∧
    0 ≤ (growDistribute (amount.toNat + 1) available1 available2 amount 0 0).2 ∧
    (growDistribute (amount.toNat + 1) available1 available2 amount 0 0).1
      + (growDistribute (amount.toNat + 1) available1 available2 amount 0 0).2 = amount ∧
    (∀ extra : Nat,
      growDistribute (amount.toNat + 1 + extra) available1 available2 amount 0 0
        = growDistribute (amount.toNat + 1) available1 available2 amount 0 0) ∧
    (∀ k : Nat,
      0 ≤ amount - (growDistribute k available1 available2 amount 0 0).1
        - (growDistribute k available1 available2 amount 0 0).2) := by
  have hl := growDistribute_le (amount.toNat + 1) available1 available2 amount 0 0 h1 h2
    (by omega)
  have he := growDistribute_exact (amount.toNat + 1) available1 available2 amount 0 0 h1 h2
    (by omega) (by omega)
  refine ⟨hl.1, hl.2.1, by omega, fun extra => he.2 _ (by omega), fun k => ?_⟩
  have := growDistribute_le k available1 available2 amount 0 0 h1 h2 (by omega)
  omega

/-- C38 for the slacks 3 and 4 and the amount 5. -/
theorem C38_growItem_distribution_terminates_and_conserves_witness :
    ((0 : Int) ≤ 3 ∧ (0 : Int) ≤ 4 ∧ (0 : Int) < 5) ∧
    (0 ≤ (growDistribute ((5 : Int).toNat + 1) 3 4 5 0 0).1 ∧
    0 ≤ (growDistribute ((5 : Int).toNat + 1) 3 4 5 0 0).2 ∧
    (growDistribute ((5 : Int).toNat + 1) 3 4 5 0 0).1
      + (growDistribute ((5 : Int).toNat + 1) 3 4 5 0 0).2 = 5 ∧
    (∀ extra : Nat,
      growDistribute ((5 : Int).toNat + 1 + extra) 3 4 5 0 0
        = growDistribute ((5 : Int).toNat + 1) 3 4 5 0 0) ∧
    (∀ k : Nat,
      0 ≤ 5 - (growDistribute k 3 4 5 0 0).1 - (growDistribute k 3 4 5 0 0).2)) :=
  ⟨⟨by decide, by decide, by decide⟩,
    C38_growItem_distribution_terminates_and_conserves 3 4 5 (by decide) (by decide)
      (by decide)⟩

/-- C39: for a non-empty container without visible children
`ItemContainer::minSize` adds the separator waste `(0 - 1) * 5`, so the minimum
length along the orientation is -5. The layout
`allHidden` passes `checkSanity` and has the minimum size `(-5, 0)`; the same
holds for every container whose children are all hidden. -/
theorem C39_minSize_is_negative_without_visible_children :
    Example.allHidden.m_children.length = 2 ∧
    Example.allHidden.visibleChildren.length = 0 ∧
    Example.allHidden.checkSanity true = true ∧
    Example.allHidden.minSize = ⟨-5, 0⟩ ∧
    (∀ (n : Nat) (s : SizingInfo) (o : Orientation) (c : Item) (cs : List Item)
        (rs b k : Bool),
      (Item.container n s o (c :: cs) rs b k).visibleChildren.length = 0 →
      Layouting.length (Item.container n s o (c :: cs) rs b k).minSize o = -5 ∧
      Layouting.length (Item.container n s o (c :: cs) rs b k).minSize (oppositeOrientation o)
        = 0) := by
  refine ⟨by decide, by decide, by decide, by decide, ?_⟩
  intro n s o c cs rs b k hz
  have h := minSize_container_eq n s o c cs rs b k
  simp only [visibleChildren, m_children_container] at hz
  have hnil : (c :: cs).filter isVisible = [] := List.length_eq_zero.1 hz
  rw [hnil] at h
  simp only [List.map_nil, List.sum_nil, List.foldl_nil, List.length_nil, separatorThickness]
    at h
  exact ⟨by rw [h.1]; rfl, h.2⟩

/-- C40: `insertItem(item, loc)` calls `item->setIsVisible(false)` before it
tests `contains(item)`. Inserting leaf 2
of `twoLeaves`, which is already the child at index 1, leaves the list of
children as it is but hides leaf 2 and gives it the geometry of the whole
container; the layout, sane before, fails `checkSanity` afterwards. -/
theorem C40_reinserting_a_child_hides_it :
    Example.twoLeaves.m_children.get? 1
      = some (Example.leaf 2 ⟨502, 0, 498, 600⟩ ⟨100, 100⟩ true ⟨498, 995⟩) ∧
    Example.twoLeaves.checkSanity true = true ∧
    (Example.twoLeaves.m_children.map
        fun (i : Item) => (i.name, i.isVisible, i.m_sizingInfo.geometry))
      = [(1, true, ⟨0, 0, 497, 600⟩), (2, true, ⟨502, 0, 498, 600⟩)] ∧
    ((containerInsertItem Example.twoLeaves []
          (Example.leaf 2 ⟨502, 0, 498, 600⟩ ⟨100, 100⟩ true ⟨498, 995⟩) .OnRight (some [])
          3).m_children.map
        fun (i : Item) => (i.name, i.isVisible, i.m_sizingInfo.geometry))
      = [(1, true, ⟨0, 0, 497, 600⟩), (2, false, ⟨0, 0, 1000, 600⟩)] ∧
    (containerInsertItem Example.twoLeaves []
        (Example.leaf 2 ⟨502, 0, 498, 600⟩ ⟨100, 100⟩ true ⟨498, 995⟩) .OnRight (some [])
        3).checkSanity true = false := by
  refine ⟨rfl, by decide, by decide, by decide, by decide⟩

end Layouting
